import Mathlib

/-!
# fbblock: a shallow embedding of the block conjugate-gradient solver

Sources embedded here: `fbblock.cpp` (class `FBBlock`) and `fbblocksolver.cpp`
(class `FBBlockSolver`).

Conventions of the embedding.

* `float` and `double` values are rationals (`ℚ`): every statement is about exact
  arithmetic.  Division is the division of `ℚ` (so `a / 0 = 0`).
* `int` and `long` values are integers (`Int`); sizes stay far below the machine
  range, so no wrap-around is modelled.
* A dense or sparse array is a total function of its indices.  An array that has just
  been allocated is the constant-zero function, and a read of the global BVF map outside
  its `N1 x N2 x N3` box yields `0` (`solve()` relies on this when it copies the padding
  ring of a slab).
* A counted `for` loop is a left fold over the list of its index values, in loop order.
-/

namespace FB

/-- Index values `0, 1, ..., n-1` of a counted loop `for (i = 0; i < n; i++)`. -/
def idxRange (n : Int) : List Int :=
  (List.range n.toNat).map fun (k : Nat) => (k : Int)

/-- A one-dimensional array (`FBArray1D<float>`), indexed by a `long`. -/
abbrev Vec := Int → ℚ

/-- An interface slice `FBArray3D<float>` of shape `(3, Nx, Ny)`, read as `value(dd, x, y)`. -/
abbrev Slice := Int → Int → Int → ℚ

/-- A freshly constructed or freshly allocated slice: every read gives `0`. -/
def Slice.zero : Slice := fun _ _ _ => 0

/-- The record `BlockInfo` of `fbblocksolver.cpp`. -/
structure BlockInfo where
  xmin : Int := 0
  xmax : Int := 0
  ymin : Int := 0
  ymax : Int := 0
  zmin : Int := 0
  zmax : Int := 0
  p_on_top_inner_interface : Slice := Slice.zero
  p_on_bottom_inner_interface : Slice := Slice.zero

instance : Inhabited BlockInfo := ⟨{}⟩

/-- The `while (!done)` loop of `solve()` that extends a slab one slice at a time.
`zmax` is the current last slice, `cnt` is `block_vertex_count`, `target` is
`num_vertices_per_thread`.  The first argument bounds the number of passes; a call with at
least `N3 - zmax` passes never exhausts it, because every pass that continues
increments `zmax` and the loop exits once `zmax >= N3`. -/
def extend_zmax (slice_vertex_count : List Int) (N3 : Int) (target : ℚ) :
    Nat → Int → Int → Int
  | 0, zmax, _ => zmax
  | fuel + 1, zmax, cnt =>
    if zmax ≥ N3 then zmax
    else
      let diff0 : ℚ := abs ((cnt : ℚ) - target)
      let zmax1 := zmax + 1
      let cnt1 := if zmax1 ≤ N3 then cnt + slice_vertex_count.getD zmax1.toNat 0 else cnt
      let diff1 : ℚ := abs ((cnt1 : ℚ) - target)
      if diff1 ≥ diff0 then zmax
      else extend_zmax slice_vertex_count N3 target fuel zmax1 cnt1

/-- One pass of the loop `for (ithread = 0; ithread < num_threads; ithread++)` of `solve()`.
The state is `(z0, m_block_infos)`. -/
def block_info_step (N1 N2 N3 : Int) (slice_vertex_count : List Int) (num_threads : Int)
    (target : ℚ) (st : Int × List BlockInfo) (ithread : Int) : Int × List BlockInfo :=
  let z0 := st.1
  let zmin := z0 + 1
  if ithread = num_threads - 1 then
    let block_info0 : BlockInfo :=
      { xmin := -1, xmax := N1 + 1, ymin := -1, ymax := N2 + 1, zmin := zmin, zmax := N3 }
    (z0, if zmin ≤ N3 then st.2 ++ [block_info0] else st.2)
  else
    let zmax0 := z0 + 1
    let zmax :=
      if zmax0 < N3 + 1 then
        extend_zmax slice_vertex_count N3 target (N3 - zmax0).toNat zmax0
          (slice_vertex_count.getD zmax0.toNat 0)
      else zmax0
    let block_info0 : BlockInfo :=
      { xmin := -1, xmax := N1 + 1, ymin := -1, ymax := N2 + 1, zmin := zmin, zmax := zmax }
    (zmax, if zmin ≤ N3 then st.2 ++ [block_info0] else st.2)

/-- The slab decomposition of `solve()`: the list `m_block_infos` built from the
per-slice vertex counts (`slice_vertex_count`, one entry per node layer `z = 0..N3`).
`total_vertex_count` is their sum and `num_vertices_per_thread` the quotient by
`num_threads`. -/
def solve_block_infos (N1 N2 N3 : Int) (slice_vertex_count : List Int) (num_threads : Int) :
    List BlockInfo :=
  let total_vertex_count : Int := slice_vertex_count.sum
  let num_vertices_per_thread : ℚ := (total_vertex_count : ℚ) * 1 / (num_threads : ℚ)
  ((idxRange num_threads).foldl
    (block_info_step N1 N2 N3 slice_vertex_count num_threads num_vertices_per_thread)
    (-1, [])).2

/-! ## Loop nests and array writes -/

/-- Index triples `(xx, yy, zz)` of the nest `for zz < C; for yy < B; for xx < A`, in the
order in which the innermost body runs. -/
def scan3 (A B C : Int) : List (Int × Int × Int) :=
  (idxRange C).flatMap fun zz => (idxRange B).flatMap fun yy =>
    (idxRange A).map fun xx => (xx, yy, zz)

/-- The write `A.setValue(v, x, y, z)` on a three-dimensional array. -/
def set3 {α : Type} (A : Int → Int → Int → α) (x y z : Int) (v : α) : Int → Int → Int → α :=
  fun a b c => if a = x ∧ b = y ∧ c = z then v else A a b c

/-! ## The block (`fbblock.cpp`) -/

/-- The record `FBBlockElement`: `ref_indices[0..3]`, `bvf`, `strain`. -/
structure FBBlockElement where
  ref_indices : Nat → Int
  bvf : Nat
  strain : ℚ

/-- The record `FBVertexLocation`. -/
structure FBVertexLocation where
  x : Int
  y : Int
  z : Int
  ref_index : Int

/-- The private data of an `FBBlock` (`FBBlockPrivate`).  `m_nonlinear_adjuster` is either
null (`none`) or an object whose `computeAdjustment` is the given function. -/
@[ext]
structure FBBlock where
  stiffness_matrix : Nat → Nat → ℚ
  youngs_modulus : ℚ
  voxel_volume : ℚ
  Nx : Int
  Ny : Int
  Nz : Int
  num_variables : Int
  x : Vec
  r : Vec
  p : Vec
  Ap : Vec
  free : Int → Nat
  vertex_type : Int → Nat
  preconditioner : Vec
  use_preconditioner : Bool
  elements : List FBBlockElement
  outer_vertex_locations : List FBVertexLocation
  inner_vertex_locations : List FBVertexLocation
  variable_indices : Int → Int → Int → Int
  bvf_map : Int → Int → Int → Nat
  resolution : Nat → ℚ
  block_x_position : Int
  block_y_position : Int
  block_z_position : Int
  nonlinear_adjuster : Option (ℚ → ℚ)

/-- The inputs of `FBBlock::setup` (`FBBlockSetupParameters`): the BVF slab, the fixed
mask and the initial displacements in local coordinates, and the scalars. -/
structure FBBlockSetupParameters where
  BVF : Int → Int → Int → Nat
  fixed : Int → Int → Int → Int → Nat
  X0 : Int → Int → Int → Int → ℚ
  stiffness_matrix : Nat → Nat → ℚ
  youngs_modulus : ℚ
  voxel_volume : ℚ
  Nx : Int
  Ny : Int
  Nz : Int
  use_preconditioner : Bool
  resolution : Nat → ℚ
  block_x_position : Int
  block_y_position : Int
  block_z_position : Int

namespace FBBlock

/-- The 24-slot index vector of an element: `varinds[kk*6+jj] = ref_indices[kk] + jj`
for `kk < 4`, `jj < 6`. -/
def varinds (E0 : FBBlockElement) (k : Nat) : Int :=
  E0.ref_indices (k / 6) + ((k % 6 : Nat) : Int)

/-- The four `ref_indices` of the element at `(xx, yy, zz)`, as read from
`m_variable_indices` by `setup` and by `computeEnergyMap`. -/
def element_refs (vi : Int → Int → Int → Int) (xx yy zz : Int) : Nat → Int :=
  fun k =>
    match k with
    | 0 => vi xx yy zz
    | 1 => vi xx (yy + 1) zz
    | 2 => vi xx yy (zz + 1)
    | _ => vi xx (yy + 1) (zz + 1)

/-- The element product `Y0[rr] = sum over cc < 24 of K[rr][cc] * X0[cc]`, accumulated in
the order of the inner loop. -/
def Y0_row (K : Nat → Nat → ℚ) (X0 : Nat → ℚ) (rr : Nat) : ℚ :=
  (List.range 24).foldl (fun acc cc => acc + K rr cc * X0 cc) 0

/-- The scaling `bvf_factor` of an element: `bvf * 1.0 / 100`, multiplied by
`computeAdjustment(strain)` when an adjuster is installed. -/
def bvf_factor (adjuster : Option (ℚ → ℚ)) (E0 : FBBlockElement) : ℚ :=
  let f : ℚ := (E0.bvf : ℚ) * 1 / 100
  match adjuster with
  | none => f
  | some phi => f * phi E0.strain

/-- The scatter loop of `multiply_by_A` for one element: `Y[varinds[kk]] += Y0[kk] *
bvf_factor` for every slot whose destination is not an outer-interface variable. -/
def scatter_element (vertex_type : Int → Nat) (E0 : FBBlockElement) (Y0 : Nat → ℚ)
    (factor : ℚ) (Y : Vec) : Vec :=
  (List.range 24).foldl
    (fun Y kk =>
      if vertex_type (varinds E0 kk) ≠ 3 then
        Function.update Y (varinds E0 kk) (Y (varinds E0 kk) + Y0 kk * factor)
      else Y)
    Y

/-- The operator `FBBlockPrivate::multiply_by_A`, `Y = A X`: `Y` is cleared, then every
element gathers `X0`, multiplies by the stiffness matrix and scatters the scaled result. -/
def multiply_by_A (B : FBBlock) (X : Vec) : Vec :=
  B.elements.foldl
    (fun Y E0 =>
      let X0 : Nat → ℚ := fun kk => X (varinds E0 kk)
      scatter_element B.vertex_type E0 (Y0_row B.stiffness_matrix X0)
        (bvf_factor B.nonlinear_adjuster E0) Y)
    (fun _ => 0)

/-- The two-vector `inner_product_on_owned_free_variables`. -/
def inner_product_on_owned_free_variables (B : FBBlock) (V1 V2 : Vec) : ℚ :=
  (idxRange B.num_variables).foldl
    (fun ret ii =>
      if B.vertex_type ii ≠ 3 ∧ B.free ii ≠ 0 then ret + V1 ii * V2 ii else ret)
    0

/-- The three-vector `inner_product_on_owned_free_variables`: each term is divided by
`V3[ii]` when that is nonzero. -/
def inner_product_on_owned_free_variables3 (B : FBBlock) (V1 V2 V3 : Vec) : ℚ :=
  (idxRange B.num_variables).foldl
    (fun ret ii =>
      if B.vertex_type ii ≠ 3 ∧ B.free ii ≠ 0 then
        if V3 ii ≠ 0 then ret + V1 ii * V2 ii / V3 ii else ret + V1 ii * V2 ii
      else ret)
    0

/-- The function `inner_product_on_owned_fixed_variables`. -/
def inner_product_on_owned_fixed_variables (B : FBBlock) (V1 V2 : Vec) : ℚ :=
  (idxRange B.num_variables).foldl
    (fun ret ii =>
      if B.vertex_type ii ≠ 3 ∧ ¬ (B.free ii ≠ 0) then ret + V1 ii * V2 ii else ret)
    0

/-- The loop `for (ii < m_num_variables) m_r.ptr[ii] *= -1`. -/
def negate (n : Int) (Y : Vec) : Vec :=
  (idxRange n).foldl (fun r ii => Function.update r ii (r ii * (-1))) Y

/-- The function `FBBlockPrivate::compute_preconditioner`, adding into `C` the diagonal
contributions of every element at its owned free slots.  (The scratch vectors `X0` and
`Y0` of the source are computed but never used.) -/
def compute_preconditioner (B : FBBlock) (C : Vec) : Vec :=
  B.elements.foldl
    (fun C E0 =>
      let factor := bvf_factor B.nonlinear_adjuster E0
      let C0 : Nat → ℚ := fun rr => B.stiffness_matrix rr rr * factor
      (List.range 24).foldl
        (fun C kk =>
          if B.vertex_type (varinds E0 kk) ≠ 3 ∧ B.free (varinds E0 kk) ≠ 0 then
            Function.update C (varinds E0 kk) (C (varinds E0 kk) + C0 kk)
          else C)
        C)
    C

/-- The state of a block after its constructor `FBBlock::FBBlock` (arrays unallocated). -/
def init : FBBlock :=
  { stiffness_matrix := fun _ _ => 0, youngs_modulus := 1, voxel_volume := 1,
    Nx := 0, Ny := 0, Nz := 0, num_variables := 0,
    x := fun _ => 0, r := fun _ => 0, p := fun _ => 0, Ap := fun _ => 0,
    free := fun _ => 0, vertex_type := fun _ => 0, preconditioner := fun _ => 0,
    use_preconditioner := false, elements := [], outer_vertex_locations := [],
    inner_vertex_locations := [], variable_indices := fun _ _ _ => 0,
    bvf_map := fun _ _ _ => 0, resolution := fun _ => 1,
    block_x_position := 0, block_y_position := 0, block_z_position := 0,
    nonlinear_adjuster := none }

/-- The method `FBBlock::setNonlinearAdjuster`. -/
def setNonlinearAdjuster (B : FBBlock) (X : Option (ℚ → ℚ)) : FBBlock :=
  { B with nonlinear_adjuster := X }

/-- The innermost nest of the first loop of `setup`: mark the eight corners of the voxel at
`(xx, yy, zz)` as occupied. -/
def mark_corners (occ : Int → Int → Int → Nat) (xx yy zz : Int) : Int → Int → Int → Nat :=
  (scan3 2 2 2).foldl (fun o d => set3 o (xx + d.1) (yy + d.2.1) (zz + d.2.2) 1) occ

/-- The array `vertex_occupancy` of `setup`: "determine which vertices are needed". -/
def vertex_occupancy (P : FBBlockSetupParameters) : Int → Int → Int → Nat :=
  (scan3 (P.Nx + 1) (P.Ny + 1) (P.Nz + 1)).foldl
    (fun occ c => if P.BVF c.1 c.2.1 c.2.2 ≠ 0 then mark_corners occ c.1 c.2.1 c.2.2 else occ)
    (fun _ _ _ => 0)

/-- The body of the second loop of `setup`: an occupied vertex receives the next variable
index, and `m_num_variables` grows by `3`.  The state is `(m_num_variables,
m_variable_indices)`. -/
def assign_step (occ : Int → Int → Int → Nat) (st : Int × (Int → Int → Int → Int))
    (c : Int × Int × Int) : Int × (Int → Int → Int → Int) :=
  if occ c.1 c.2.1 c.2.2 ≠ 0 then (st.1 + 3, set3 st.2 c.1 c.2.1 c.2.2 st.1) else st

/-- The second loop of `setup`, "assign the variable indices": the pair
`(m_num_variables, m_variable_indices)`. -/
def assign_variable_indices (P : FBBlockSetupParameters) (occ : Int → Int → Int → Nat) :
    Int × (Int → Int → Int → Int) :=
  (scan3 (P.Nx + 2) (P.Ny + 2) (P.Nz + 2)).foldl (assign_step occ) (0, fun _ _ _ => -1)

/-- The arrays and lists filled by the third loop of `setup`. -/
structure SetupArrays where
  free : Int → Nat
  vertex_type : Int → Nat
  x : Vec
  inner_vertex_locations : List FBVertexLocation
  outer_vertex_locations : List FBVertexLocation

/-- The body of the `dd` loop inside the third loop of `setup`, for the variable
`varind = m_variable_indices(xx,yy,zz) + dd`. -/
def setup_variable (P : FBBlockSetupParameters) (vi : Int → Int → Int → Int)
    (xx yy zz : Int) (s : SetupArrays) (dd : Int) : SetupArrays :=
  let varind := vi xx yy zz + dd
  if varind ≥ 0 then
    let s1 : SetupArrays :=
      if P.fixed xx yy zz dd = 0 then { s with free := Function.update s.free varind 1 } else s
    let VL : FBVertexLocation := { x := xx, y := yy, z := zz, ref_index := varind }
    let s2 : SetupArrays :=
      if xx ≥ 2 ∧ xx ≤ P.Nx - 1 ∧ yy ≥ 2 ∧ yy ≤ P.Ny - 1 ∧ zz ≥ 2 ∧ zz ≤ P.Nz - 1 then
        { s1 with vertex_type := Function.update s1.vertex_type varind 1 }
      else if xx ≥ 1 ∧ xx ≤ P.Nx ∧ yy ≥ 1 ∧ yy ≤ P.Ny ∧ zz ≥ 1 ∧ zz ≤ P.Nz then
        { s1 with
          vertex_type := Function.update s1.vertex_type varind 2
          inner_vertex_locations :=
            if dd = 0 then s1.inner_vertex_locations ++ [VL] else s1.inner_vertex_locations }
      else
        { s1 with
          vertex_type := Function.update s1.vertex_type varind 3
          outer_vertex_locations :=
            if dd = 0 then s1.outer_vertex_locations ++ [VL] else s1.outer_vertex_locations }
    { s2 with x := Function.update s2.x varind (P.X0 xx yy zz dd) }
  else s

/-- The body of the third loop of `setup` for the vertex `c = (xx, yy, zz)`: the three
directions of an occupied vertex are set up in turn. -/
def setup_vertex (P : FBBlockSetupParameters) (occ : Int → Int → Int → Nat)
    (vi : Int → Int → Int → Int) (s : SetupArrays) (c : Int × Int × Int) : SetupArrays :=
  if occ c.1 c.2.1 c.2.2 ≠ 0 then (idxRange 3).foldl (setup_variable P vi c.1 c.2.1 c.2.2) s
  else s

/-- The third loop of `setup`: define `m_free`, `m_vertex_type`, initialise `m_x`, and
collect the inner and outer vertex locations. -/
def setup_arrays (P : FBBlockSetupParameters) (occ : Int → Int → Int → Nat)
    (vi : Int → Int → Int → Int) : SetupArrays :=
  (scan3 (P.Nx + 2) (P.Ny + 2) (P.Nz + 2)).foldl (setup_vertex P occ vi)
    { free := fun _ => 0, vertex_type := fun _ => 0, x := fun _ => 0,
      inner_vertex_locations := [], outer_vertex_locations := [] }

/-- The fourth loop of `setup`: "set up the FBBlockElement list". -/
def setup_elements (P : FBBlockSetupParameters) (vi : Int → Int → Int → Int) :
    List FBBlockElement :=
  (scan3 (P.Nx + 1) (P.Ny + 1) (P.Nz + 1)).filterMap fun c =>
    if P.BVF c.1 c.2.1 c.2.2 ≠ 0 then
      some
        { bvf := P.BVF c.1 c.2.1 c.2.2
          strain := 0
          ref_indices := element_refs vi c.1 c.2.1 c.2.2 }
    else none

/-- The loop "define p equal to r on the free variables only": `p[ii] = r[ii] /
preconditioner[ii]` when the preconditioner is in use and nonzero there, `p[ii] = r[ii]`
otherwise, for free `ii`. -/
def init_p (B : FBBlock) : Vec :=
  (idxRange B.num_variables).foldl
    (fun p ii =>
      if B.free ii ≠ 0 then
        if B.use_preconditioner = true ∧ B.preconditioner ii ≠ 0 then
          Function.update p ii (B.r ii / B.preconditioner ii)
        else Function.update p ii (B.r ii)
      else p)
    B.p

/-- The packaging loop shared by `setup` and `iterate_step_B`: the pair
`(p_on_top_inner_interface, p_on_bottom_inner_interface)`, both freshly allocated, filled
from the free variables of the inner vertex locations at `z == 1` and, otherwise, at
`z == m_Nz`. -/
def package_inner_interface (B : FBBlock) : Slice × Slice :=
  B.inner_vertex_locations.foldl
    (fun st VL =>
      (idxRange 3).foldl
        (fun st dd =>
          let varind := VL.ref_index + dd
          if B.free varind ≠ 0 then
            if VL.z = 1 then (set3 st.1 dd (VL.x - 1) (VL.y - 1) (B.p varind), st.2)
            else if VL.z = B.Nz then (st.1, set3 st.2 dd (VL.x - 1) (VL.y - 1) (B.p varind))
            else st
          else st)
        st)
    (Slice.zero, Slice.zero)

/-- The outputs of `setup` written back into its parameter record. -/
structure SetupOutput where
  rnorm2 : ℚ
  p_on_top_inner_interface : Slice
  p_on_bottom_inner_interface : Slice

/-- The method `FBBlock::setup`, called on a freshly constructed block.  When the slab has
no variable it returns right after the index assignment ("block is empty"), leaving the
output fields as constructed. -/
def setup (P : FBBlockSetupParameters) : FBBlock × SetupOutput :=
  let B0 : FBBlock :=
    { init with
      bvf_map := P.BVF, stiffness_matrix := P.stiffness_matrix,
      youngs_modulus := P.youngs_modulus, voxel_volume := P.voxel_volume,
      Nx := P.Nx, Ny := P.Ny, Nz := P.Nz, use_preconditioner := P.use_preconditioner,
      resolution := P.resolution, block_x_position := P.block_x_position,
      block_y_position := P.block_y_position, block_z_position := P.block_z_position }
  let occ := vertex_occupancy P
  let nv := assign_variable_indices P occ
  let B1 : FBBlock := { B0 with num_variables := nv.1, variable_indices := nv.2 }
  if nv.1 = 0 then
    (B1, { rnorm2 := 0, p_on_top_inner_interface := Slice.zero,
           p_on_bottom_inner_interface := Slice.zero })
  else
    let a := setup_arrays P occ nv.2
    let B2 : FBBlock :=
      { B1 with
        x := a.x, free := a.free, vertex_type := a.vertex_type,
        inner_vertex_locations := a.inner_vertex_locations,
        outer_vertex_locations := a.outer_vertex_locations,
        elements := setup_elements P nv.2 }
    let B3 : FBBlock := { B2 with r := negate B2.num_variables (multiply_by_A B2 B2.x) }
    let rnorm2 := inner_product_on_owned_free_variables B3 B3.r B3.r
    let B4 : FBBlock :=
      if B3.use_preconditioner = true then
        { B3 with preconditioner := compute_preconditioner B3 (fun _ => 0) }
      else B3
    let B5 : FBBlock := { B4 with p := init_p B4 }
    let sl := package_inner_interface B5
    (B5, { rnorm2 := rnorm2, p_on_top_inner_interface := sl.1,
           p_on_bottom_inner_interface := sl.2 })

end FBBlock

/-- The record `FBBlockIterateStepAParameters`: the two outer-interface slices (inputs) and
the four inner products (outputs). -/
structure FBBlockIterateStepAParameters where
  p_on_top_outer_interface : Slice := Slice.zero
  p_on_bottom_outer_interface : Slice := Slice.zero
  r_z : ℚ := 0
  r_Ap : ℚ := 0
  Ap_Ap : ℚ := 0
  p_Ap : ℚ := 0

/-- The record `FBBlockIterateStepBParameters`: `alpha`, `beta`, `WN` (inputs) and the
outputs of step B. -/
structure FBBlockIterateStepBParameters where
  alpha : ℚ := 0
  beta : ℚ := 0
  WN : Nat → Int := fun _ => 0
  r_r : ℚ := 0
  bb_bb : ℚ := 0
  stress : Nat → ℚ := fun _ => 0
  p_on_top_inner_interface : Slice := Slice.zero
  p_on_bottom_inner_interface : Slice := Slice.zero

namespace FBBlock

/-- The loop of `iterate_step_A` that writes the neighbour-supplied values of `p` at the
free variables of the outer vertex locations: from the top slice at `z == 0`, otherwise
from the bottom slice at `z == m_Nz + 1`. -/
def write_outer_interface (B : FBBlock) (P : FBBlockIterateStepAParameters) : Vec :=
  B.outer_vertex_locations.foldl
    (fun p VL =>
      (idxRange 3).foldl
        (fun p dd =>
          let varind := VL.ref_index + dd
          if B.free varind ≠ 0 then
            if VL.z = 0 then
              Function.update p varind (P.p_on_top_outer_interface dd (VL.x - 1) (VL.y - 1))
            else if VL.z = B.Nz + 1 then
              Function.update p varind (P.p_on_bottom_outer_interface dd (VL.x - 1) (VL.y - 1))
            else p
          else p)
        p)
    B.p

/-- The first half of `iterate_step_A`, up to "now Ap is defined on the owned vertices":
with an adjuster installed `r` is reinitialised to `-A x`; the neighbour slices are written
into `p`; then `Ap = A p`. -/
def step_A_vectors (B : FBBlock) (P : FBBlockIterateStepAParameters) : FBBlock :=
  let B1 : FBBlock :=
    match B.nonlinear_adjuster with
    | some _ => { B with r := negate B.num_variables (multiply_by_A B B.x) }
    | none => B
  let B2 : FBBlock := { B1 with p := write_outer_interface B1 P }
  { B2 with Ap := multiply_by_A B2 B2.p }

/-- The method `FBBlock::iterate_step_A`: the vector updates, then the four inner
products ("here's the output"). -/
def iterate_step_A (B : FBBlock) (P : FBBlockIterateStepAParameters) :
    FBBlock × FBBlockIterateStepAParameters :=
  let B3 : FBBlock := step_A_vectors B P
  let P1 : FBBlockIterateStepAParameters :=
    if B3.use_preconditioner = true then
      { P with
        r_z := inner_product_on_owned_free_variables3 B3 B3.r B3.r B3.preconditioner
        r_Ap := inner_product_on_owned_free_variables3 B3 B3.r B3.Ap B3.preconditioner
        Ap_Ap := inner_product_on_owned_free_variables3 B3 B3.Ap B3.Ap B3.preconditioner }
    else
      { P with
        r_z := inner_product_on_owned_free_variables B3 B3.r B3.r
        r_Ap := inner_product_on_owned_free_variables B3 B3.r B3.Ap
        Ap_Ap := inner_product_on_owned_free_variables B3 B3.Ap B3.Ap }
  (B3, { P1 with p_Ap := inner_product_on_owned_free_variables B3 B3.p B3.Ap })

/-- The body of the update loop of `iterate_step_B` for the variable `ii`. -/
def step_B_update (alpha beta : ℚ) (B : FBBlock) (ii : Int) : FBBlock :=
  let B1 : FBBlock := { B with r := Function.update B.r ii (B.r ii - B.Ap ii * alpha) }
  if B1.free ii ≠ 0 then
    let B2 : FBBlock := { B1 with x := Function.update B1.x ii (B1.x ii + B1.p ii * alpha) }
    if B2.use_preconditioner = true ∧ B2.preconditioner ii ≠ 0 then
      { B2 with p := Function.update B2.p ii (B2.p ii * beta + B2.r ii / B2.preconditioner ii) }
    else
      { B2 with p := Function.update B2.p ii (B2.p ii * beta + B2.r ii) }
  else B1

/-- The accessor `FBBlock::getDisplacement`. -/
def getDisplacement (B : FBBlock) (xx yy zz dd : Int) : ℚ :=
  let varind := B.variable_indices xx yy zz
  if varind ≥ 0 then B.x (varind + dd) else 0

/-- The accessor `FBBlock::getForce`. -/
def getForce (B : FBBlock) (xx yy zz dd : Int) : ℚ :=
  let varind := B.variable_indices xx yy zz
  if varind ≥ 0 then B.r (varind + dd) else 0

/-- The statement `ret[j] += v` on a `QList<double>`. -/
def add_at (ret : Nat → ℚ) (j : Nat) (v : ℚ) : Nat → ℚ :=
  Function.update ret j (ret j + v)

/-- The function `FBBlockPrivate::compute_stress`. -/
def compute_stress (B : FBBlock) : Nat → ℚ :=
  (scan3 B.Nx B.Ny B.Nz).foldl
    (fun ret c =>
      let i1 := c.1
      let i2 := c.2.1
      let i3 := c.2.2
      let fx := getForce B (i1 + 1) (i2 + 1) (i3 + 1) 0
      let fy := getForce B (i1 + 1) (i2 + 1) (i3 + 1) 1
      let fz := getForce B (i1 + 1) (i2 + 1) (i3 + 1) 2
      let X : ℚ := ((B.block_x_position + i1 : Int) : ℚ) * B.resolution 0
      let Y : ℚ := ((B.block_y_position + i2 : Int) : ℚ) * B.resolution 1
      let Z : ℚ := ((B.block_z_position + i3 : Int) : ℚ) * B.resolution 2
      if fx ≠ 0 ∨ fy ≠ 0 ∨ fz ≠ 0 then
        let ret0 := add_at ret 0 (fx * X)
        let ret1 := add_at ret0 1 (fy * Y)
        let ret2 := add_at ret1 2 (fz * Z)
        let ret3 := add_at ret2 3 ((fx * Y + fy * X) * (1 / 2))
        let ret4 := add_at ret3 4 ((fx * Z + fz * X) * (1 / 2))
        add_at ret4 5 ((fy * Z + fz * Y) * (1 / 2))
      else ret)
    (fun _ => 0)

/-- Modelled from the spec: `is_element` is declared in `fbglobal.h`, which is not among
the sources; "an element exists at (i,j,k) iff BVF(i,j,k) > 0". -/
def is_element (bvf : Int → Int → Int → Nat) (x y z : Int) : Bool :=
  decide (0 < bvf x y z)

/-- The value stored by `computeEnergyMap` for the element at `(xx, yy, zz)`:
`energy0 = sum K[rr][cc] * X0[cc] * X0[rr]`, then `energy0 *= bvf*1.0/100*(-1)*0.5`. -/
def element_energy (B : FBBlock) (xx yy zz : Int) : ℚ :=
  let bvf : ℚ := (B.bvf_map xx yy zz : ℚ)
  let E0 : FBBlockElement :=
    { ref_indices := element_refs B.variable_indices xx yy zz, bvf := B.bvf_map xx yy zz,
      strain := 0 }
  let X0 : Nat → ℚ := fun kk => B.x (varinds E0 kk)
  let energy0 : ℚ :=
    (List.range 24).foldl
      (fun e rr =>
        (List.range 24).foldl (fun e cc => e + B.stiffness_matrix rr cc * X0 cc * X0 rr) e)
      0
  energy0 * (bvf * 1 / 100 * (-1) * (1 / 2))

/-- The method `FBBlock::computeEnergyMap`: a sparse map with one entry per element of the
block (every other read gives `0`). -/
def computeEnergyMap (B : FBBlock) : Int → Int → Int → ℚ :=
  (scan3 (B.Nx + 1) (B.Ny + 1) (B.Nz + 1)).foldl
    (fun E c =>
      if is_element B.bvf_map c.1 c.2.1 c.2.2 = true then
        set3 E c.1 c.2.1 c.2.2 (element_energy B c.1 c.2.1 c.2.2)
      else E)
    (fun _ _ _ => 0)

/-- The write `l[n] = f(l[n])` on a list. -/
def modify_at {α : Type} (f : α → α) : List α → Nat → List α
  | [], _ => []
  | a :: l, 0 => f a :: l
  | a :: l, n + 1 => a :: modify_at f l n

/-- The strain loop at the end of `iterate_step_B` (run only when an adjuster is
installed): the `ct`-th voxel with nonzero BVF, in scan order, sets
`m_elements[ct].strain = sqrt(2*|energy0| / (voxel_volume * YM * bvf_factor))`.  The
square root of the C library is the parameter `sqrt`. -/
def update_strains (sqrt : ℚ → ℚ) (B : FBBlock) (E : Int → Int → Int → ℚ) :
    List FBBlockElement :=
  ((scan3 (B.Nx + 1) (B.Ny + 1) (B.Nz + 1)).foldl
    (fun st c =>
      if B.bvf_map c.1 c.2.1 c.2.2 ≠ 0 then
        let energy0 := E c.1 c.2.1 c.2.2
        (st.1 + 1,
          modify_at
            (fun el =>
              let bvf_factor : ℚ := (el.bvf : ℚ) * 1 / 100
              { el with
                strain :=
                  sqrt (2 * abs energy0 / (B.voxel_volume * B.youngs_modulus * bvf_factor)) })
            st.2 st.1)
      else st)
    (0, B.elements)).2

/-- The method `FBBlock::iterate_step_B`. -/
def iterate_step_B (sqrt : ℚ → ℚ) (B : FBBlock) (P : FBBlockIterateStepBParameters) :
    FBBlock × FBBlockIterateStepBParameters :=
  let B1 : FBBlock := (idxRange B.num_variables).foldl (step_B_update P.alpha P.beta) B
  let sl := package_inner_interface B1
  let P1 : FBBlockIterateStepBParameters :=
    { P with
      r_r := inner_product_on_owned_free_variables B1 B1.r B1.r
      bb_bb := inner_product_on_owned_fixed_variables B1 B1.r B1.r
      stress := compute_stress B1
      p_on_top_inner_interface := sl.1
      p_on_bottom_inner_interface := sl.2 }
  match B1.nonlinear_adjuster with
  | some _ => ({ B1 with elements := update_strains sqrt B1 (computeEnergyMap B1) }, P1)
  | none => (B1, P1)

end FBBlock

/-! ## The solver (`fbblocksolver.cpp`) -/

/-- The global BVF map `m_bvf_map`, an `FBArray3D<unsigned char>` of shape `N1 x N2 x N3`. -/
structure BVFMap where
  N1 : Int
  N2 : Int
  N3 : Int
  data : Int → Int → Int → Nat

/-- The read `m_bvf_map.value(x, y, z)`; `0` outside the box. -/
def BVFMap.value (m : BVFMap) (x y z : Int) : Nat :=
  if 0 ≤ x ∧ x < m.N1 ∧ 0 ≤ y ∧ y < m.N2 ∧ 0 ≤ z ∧ z < m.N3 then m.data x y z else 0

/-- Modelled from the spec: `is_vertex` is declared in `fbglobal.h`, which is not among the
sources; "a node (i,j,k) is active iff any of its (up to 8) adjacent voxels is an
element", the voxels adjacent to the node being `(i-dx, j-dy, k-dz)`, `dx,dy,dz` in
`{0,1}`. -/
def is_vertex (m : BVFMap) (x y z : Int) : Bool :=
  (scan3 2 2 2).any fun d => decide (0 < m.value (x - d.1) (y - d.2.1) (z - d.2.2))

/-- The write `A.setValue(v, i1, i2, i3, i4)` on a four-dimensional array. -/
def set4 {α : Type} (A : Int → Int → Int → Int → α) (i1 i2 i3 i4 : Int) (v : α) :
    Int → Int → Int → Int → α :=
  fun a b c d => if a = i1 ∧ b = i2 ∧ c = i3 ∧ d = i4 then v else A a b c d

/-- The private data of an `FBBlockSolver` (`FBBlockSolverPrivate`).  The sparse arrays
`m_initial_displacements` and `m_fixed_variables` are read as `value(dd, x, y, z)`.  The
state of `m_error_estimator` is the list of the stress vectors it has been fed
(`addStressData`), oldest first. -/
structure FBBlockSolver where
  stiffness_matrix : Nat → Nat → ℚ
  youngs_modulus : ℚ
  voxel_volume : ℚ
  bvf_map : BVFMap
  initial_displacements : Int → Int → Int → Int → ℚ
  fixed_variables : Int → Int → Int → Int → Nat
  blocks : List FBBlock
  num_iterations : Int
  error_estimator : List (Nat → ℚ)
  PPP_A : List FBBlockIterateStepAParameters
  PPP_B : List FBBlockIterateStepBParameters
  block_infos : List BlockInfo
  epsilon : ℚ
  max_iterations : Int
  num_threads : Int
  use_preconditioner : Bool
  resolution : Nat → ℚ
  nonlinear_adjuster : Option (ℚ → ℚ)

/-- The collaborators that are outside the sources: `FBErrorEstimator::
estimatedRelativeError`, as a function of the stress data fed so far, and the `sqrt` of
the C library. -/
structure External where
  estimatedRelativeError : List (Nat → ℚ) → ℚ
  sqrt : ℚ → ℚ

namespace FBBlockSolver

/-- The list `slice_vertex_count` of `solve()`: for every node layer `z = 0..N3`, the
number of `(x, y)` with `is_vertex`. -/
def slice_vertex_count (m : BVFMap) : List Int :=
  (idxRange (m.N3 + 1)).map fun z =>
    (scan3 (m.N1 + 1) (m.N2 + 1) 1).foldl
      (fun vertex_count c => if is_vertex m c.1 c.2.1 z = true then vertex_count + 1
        else vertex_count)
      0

/-- The parameter record that `solve()` builds for the slab `Info0`: extents, world
offset, and the copies of the BVF map (shape `(Nx+1, Ny+1, Nz+1)`), of the fixed mask and
of the initial displacements (shape `(Nx+2, Ny+2, Nz+2, 3)`) in local coordinates, local
`xx0 = xx - (xmin - 1)` and likewise for `y`, `z`. -/
def setup_parameters (S : FBBlockSolver) (Info0 : BlockInfo) : FBBlockSetupParameters :=
  let Nx := Info0.xmax - Info0.xmin + 1
  let Ny := Info0.ymax - Info0.ymin + 1
  let Nz := Info0.zmax - Info0.zmin + 1
  { use_preconditioner := S.use_preconditioner
    resolution := S.resolution
    Nx := Nx, Ny := Ny, Nz := Nz
    block_x_position := Info0.xmin
    block_y_position := Info0.ymin
    block_z_position := Info0.zmin
    BVF := fun xx0 yy0 zz0 =>
      if 0 ≤ xx0 ∧ xx0 < Nx + 1 ∧ 0 ≤ yy0 ∧ yy0 < Ny + 1 ∧ 0 ≤ zz0 ∧ zz0 < Nz + 1 then
        S.bvf_map.value (xx0 + (Info0.xmin - 1)) (yy0 + (Info0.ymin - 1))
          (zz0 + (Info0.zmin - 1))
      else 0
    fixed := fun xx0 yy0 zz0 dd =>
      if 0 ≤ xx0 ∧ xx0 < Nx + 2 ∧ 0 ≤ yy0 ∧ yy0 < Ny + 2 ∧ 0 ≤ zz0 ∧ zz0 < Nz + 2 ∧
          0 ≤ dd ∧ dd < 3 ∧
          S.fixed_variables dd (xx0 + (Info0.xmin - 1)) (yy0 + (Info0.ymin - 1))
            (zz0 + (Info0.zmin - 1)) ≠ 0 then 1
      else 0
    stiffness_matrix := S.stiffness_matrix
    youngs_modulus := S.youngs_modulus
    voxel_volume := S.voxel_volume
    X0 := fun xx0 yy0 zz0 dd =>
      if 0 ≤ xx0 ∧ xx0 < Nx + 2 ∧ 0 ≤ yy0 ∧ yy0 < Ny + 2 ∧ 0 ≤ zz0 ∧ zz0 < Nz + 2 ∧
          0 ≤ dd ∧ dd < 3 then
        S.initial_displacements dd (xx0 + (Info0.xmin - 1)) (yy0 + (Info0.ymin - 1))
          (zz0 + (Info0.zmin - 1))
      else 0 }

/-- The part of `solve()` before `do_iterations()`: decompose the grid, set up one block
per slab, store its inner-interface slices in the slab record, and create the step-A and
step-B parameter records. -/
def solve_setup (S : FBBlockSolver) : FBBlockSolver :=
  let infos :=
    solve_block_infos S.bvf_map.N1 S.bvf_map.N2 S.bvf_map.N3 (slice_vertex_count S.bvf_map)
      S.num_threads
  let built := infos.map fun Info0 => (Info0, FBBlock.setup (setup_parameters S Info0))
  { S with
    block_infos := built.map fun b =>
      { b.1 with
        p_on_top_inner_interface := b.2.2.p_on_top_inner_interface
        p_on_bottom_inner_interface := b.2.2.p_on_bottom_inner_interface }
    blocks := built.map fun b => b.2.1
    PPP_A := built.map fun _ => {}
    PPP_B := built.map fun _ => {} }

/-- The method `FBBlockSolver::getStress`: the sum of the per-block stress vectors of the
last step B, divided by the volume of the whole BVF map.  The quotient is that of `ℚ`; it
is the program's quotient of doubles when the volume is not `0`, and `getStress_checked`
keeps the case of a zero volume apart. -/
def getStress (S : FBBlockSolver) : Nat → ℚ :=
  let stress_denominator : ℚ :=
    ((S.bvf_map.N1 * S.bvf_map.N2 * S.bvf_map.N3 : Int) : ℚ) * S.resolution 0 *
      S.resolution 1 * S.resolution 2
  let ret : Nat → ℚ :=
    (List.range S.blocks.length).foldl
      (fun ret ii =>
        (List.range 6).foldl
          (fun ret jj => FBBlock.add_at ret jj ((S.PPP_B.getD ii {}).stress jj)) ret)
      (fun _ => 0)
  (List.range 6).foldl (fun ret jj => Function.update ret jj (ret jj / stress_denominator)) ret

/-- The quotient `a / b` of two `double`s when it is a number: `none` stands for the NaN or
the infinity that a divisor `0` gives. -/
def checked_div (a b : ℚ) : Option ℚ := if b = 0 then none else some (a / b)

/-- Component `jj` of `FBBlockSolver::getStress` with its division `ret[jj] /=
stress_denominator` kept as a quotient of doubles: the accumulated sum of the per-block
stresses divided by the volume of the map, `none` when that volume is `0`. -/
def getStress_checked (S : FBBlockSolver) (jj : Nat) : Option ℚ :=
  let stress_denominator : ℚ :=
    ((S.bvf_map.N1 * S.bvf_map.N2 * S.bvf_map.N3 : Int) : ℚ) * S.resolution 0 *
      S.resolution 1 * S.resolution 2
  let ret : Nat → ℚ :=
    (List.range S.blocks.length).foldl
      (fun ret ii =>
        (List.range 6).foldl
          (fun ret jj => FBBlock.add_at ret jj ((S.PPP_B.getD ii {}).stress jj)) ret)
      (fun _ => 0)
  checked_div (ret jj) stress_denominator

/-- The interface staging at the top of an iteration: block `iblock` receives the bottom
inner slice of block `iblock - 1` as its top outer slice and the top inner slice of block
`iblock + 1` as its bottom outer slice. -/
def stage_interfaces (S : FBBlockSolver) : List FBBlockIterateStepAParameters :=
  (List.range S.blocks.length).map fun iblock =>
    let a := S.PPP_A.getD iblock {}
    let a1 : FBBlockIterateStepAParameters :=
      if (iblock : Int) - 1 ≥ 0 then
        { a with
          p_on_top_outer_interface :=
            (S.block_infos.getD (iblock - 1) default).p_on_bottom_inner_interface }
      else a
    if iblock + 1 < S.blocks.length then
      { a1 with
        p_on_bottom_outer_interface :=
          (S.block_infos.getD (iblock + 1) default).p_on_top_inner_interface }
    else a1

/-- The four reduced scalars of an iteration, `(r_z, r_Ap, p_Ap, Ap_Ap)`: the loop "define
the numbers" that adds up the step-A outputs of all blocks. -/
def reduce_scalars (nb : Nat) (PPP_A : List FBBlockIterateStepAParameters) : ℚ × ℚ × ℚ × ℚ :=
  (List.range nb).foldl
    (fun acc i =>
      (acc.1 + (PPP_A.getD i {}).r_z, acc.2.1 + (PPP_A.getD i {}).r_Ap,
        acc.2.2.1 + (PPP_A.getD i {}).p_Ap, acc.2.2.2 + (PPP_A.getD i {}).Ap_Ap))
    (0, 0, 0, 0)

/-- The loop that fills the step-B inputs of every block: `alpha = r_z / p_Ap`, `beta =
(r_z - 2*alpha*r_Ap + alpha*alpha*Ap_Ap) / r_z` if `r_z != 0` and `0` otherwise, and `WN`. -/
def set_step_B_parameters (S : FBBlockSolver) (sc : ℚ × ℚ × ℚ × ℚ) :
    List FBBlockIterateStepBParameters :=
  let r_z := sc.1
  let r_Ap := sc.2.1
  let p_Ap := sc.2.2.1
  let Ap_Ap := sc.2.2.2
  (List.range S.blocks.length).map fun i =>
    let b := S.PPP_B.getD i {}
    let alpha := r_z / p_Ap
    { b with
      alpha := alpha
      beta := if r_z ≠ 0 then (r_z - 2 * alpha * r_Ap + alpha * alpha * Ap_Ap) / r_z else 0
      WN := fun j =>
        match j with
        | 0 => S.bvf_map.N1
        | 1 => S.bvf_map.N2
        | _ => S.bvf_map.N3 }

/-- The body of the `while` loop of `do_iterations()`, up to and including
`m_error_estimator.addStressData(stress0)`.  Block `i` is handled by thread `i %
num_threads`; every thread is started and joined in both phases and no two blocks share
state, so each phase amounts to running the step on every block. -/
def iteration (ext : External) (S : FBBlockSolver) : FBBlockSolver :=
  let nb := S.blocks.length
  let PPP_A1 := stage_interfaces S
  let resA := (List.range nb).map fun i =>
    FBBlock.iterate_step_A (S.blocks.getD i FBBlock.init) (PPP_A1.getD i {})
  let blocksA := resA.map Prod.fst
  let PPP_A2 := resA.map Prod.snd
  let sc := reduce_scalars nb PPP_A2
  let PPP_B1 := set_step_B_parameters S sc
  let resB := (List.range nb).map fun i =>
    FBBlock.iterate_step_B ext.sqrt (blocksA.getD i FBBlock.init) (PPP_B1.getD i {})
  let blocksB := resB.map Prod.fst
  let PPP_B2 := resB.map Prod.snd
  let infos := S.block_infos.mapIdx fun i info =>
    if i < nb then
      { info with
        p_on_top_inner_interface := (PPP_B2.getD i {}).p_on_top_inner_interface
        p_on_bottom_inner_interface := (PPP_B2.getD i {}).p_on_bottom_inner_interface }
    else info
  let S1 : FBBlockSolver :=
    { S with
      blocks := blocksB, PPP_A := PPP_A2, PPP_B := PPP_B2, block_infos := infos
      num_iterations := S.num_iterations + 1 }
  { S1 with error_estimator := S1.error_estimator ++ [getStress S1] }

/-- The first loop of `do_iterations()`: `setNonlinearAdjuster(m_nonlinear_adjuster)` on
every block. -/
def install_adjuster (S : FBBlockSolver) : FBBlockSolver :=
  { S with blocks := S.blocks.map fun B => { B with nonlinear_adjuster := S.nonlinear_adjuster } }

/-- The test of the `while` loop of `do_iterations()`. -/
def loop_condition (S : FBBlockSolver) (num_times_below_epsilon : Int) : Bool :=
  decide ((S.num_iterations < S.max_iterations ∨ S.max_iterations ≤ 0) ∧
    num_times_below_epsilon < 5)

/-- The update of `num_times_below_epsilon` at the end of the loop body. -/
def next_below_epsilon (ext : External) (S : FBBlockSolver) (num_times_below_epsilon : Int) :
    Int :=
  if ext.estimatedRelativeError S.error_estimator < S.epsilon then num_times_below_epsilon + 1
  else 0

/-- The `while` loop of `do_iterations()`, run for at most `fuel` passes: `some` of the
final state when the loop test fails within that many passes, `none` when it is still
true after them. -/
def iterations_loop (ext : External) : Nat → FBBlockSolver → Int → Option FBBlockSolver
  | 0, S, c => if loop_condition S c = true then none else some S
  | fuel + 1, S, c =>
    if loop_condition S c = true then
      iterations_loop ext fuel (iteration ext S) (next_below_epsilon ext (iteration ext S) c)
    else some S

/-- The method `FBBlockSolverPrivate::do_iterations`: install the adjuster in every block,
then loop with `num_times_below_epsilon = 0` initially. -/
def do_iterations (ext : External) (fuel : Nat) (S : FBBlockSolver) : Option FBBlockSolver :=
  iterations_loop ext fuel (install_adjuster S) 0

/-- The method `FBBlockSolver::solve`. -/
def solve (ext : External) (fuel : Nat) (S : FBBlockSolver) : Option FBBlockSolver :=
  do_iterations ext fuel (solve_setup S)

/-- The body of the loop nest of `getDisplacements` for the node at local
`(ii+1, jj+1, kk+1)` of block `B`: when the node is a vertex of the global map, its three
displacements are stored at its world position. -/
def write_node_displacements (m : BVFMap) (B : FBBlock)
    (displacements : Int → Int → Int → Int → ℚ) (c : Int × Int × Int) :
    Int → Int → Int → Int → ℚ :=
  let x0 := B.block_x_position
  let y0 := B.block_y_position
  let z0 := B.block_z_position
  let ii := c.1
  let jj := c.2.1
  let kk := c.2.2
  if is_vertex m (x0 + ii) (y0 + jj) (z0 + kk) = true then
    (idxRange 3).foldl
      (fun displacements dd =>
        set4 displacements dd (x0 + ii) (y0 + jj) (z0 + kk)
          (B.getDisplacement (ii + 1) (jj + 1) (kk + 1) dd))
      displacements
  else displacements

/-- The loop nest of `getDisplacements` for one block, over `kk < Nz`, `jj < Ny`,
`ii < Nx`. -/
def write_displacements (m : BVFMap) (displacements : Int → Int → Int → Int → ℚ)
    (B : FBBlock) : Int → Int → Int → Int → ℚ :=
  (scan3 B.Nx B.Ny B.Nz).foldl (write_node_displacements m B) displacements

/-- The method `FBBlockSolver::getDisplacements` (both overloads store the same values):
the blocks write their displacements in turn.  The result is read as
`value(dd, x, y, z)`. -/
def getDisplacements (S : FBBlockSolver) : Int → Int → Int → Int → ℚ :=
  S.blocks.foldl (write_displacements S.bvf_map) (fun _ _ _ _ => 0)

/-- The method `MyNonlinearAdjuster::computeAdjustment` of an adjuster whose field is
`eps_yield`: `if (eps<2*eps_yield) return 1-(eps/(2*eps_yield))*0.95; else return 0.05;`
with the decimal constants read exactly. -/
def MyNonlinearAdjuster.computeAdjustment (eps_yield eps : ℚ) : ℚ :=
  if eps < 2 * eps_yield then 1 - (eps / (2 * eps_yield)) * (95 / 100) else 5 / 100

/-- The assignments of the body of the step loop of `solveNonlinear` before its call of
`do_iterations()`, for step `ii`: `eps = step_size*ii`, `adjuster.eps_yield = 0.01/eps`,
then `m_max_iterations`, `m_nonlinear_adjuster`, `m_num_iterations` and `m_epsilon`. -/
def prepare_nonlinear_step (step_size : ℚ) (num_iterations_per_step : Int) (S : FBBlockSolver)
    (ii : Int) : FBBlockSolver :=
  let eps : ℚ := step_size * (ii : ℚ)
  { S with
    max_iterations := num_iterations_per_step
    nonlinear_adjuster := some (MyNonlinearAdjuster.computeAdjustment ((1 / 100) / eps))
    num_iterations := 0
    epsilon := 0 }

/-- The method `FBBlockSolver::solveNonlinear`: `solve()`, then for `ii = 1..num_steps` the
assignments of `prepare_nonlinear_step` followed by `do_iterations()`.  Every call of
`do_iterations()` is given `fuel` passes. -/
def solveNonlinear (ext : External) (fuel : Nat) (step_size : ℚ) (num_steps : Int)
    (num_iterations_per_step : Int) (S : FBBlockSolver) : Option FBBlockSolver :=
  (idxRange num_steps).foldl
    (fun st k =>
      st.bind fun S1 =>
        do_iterations ext fuel (prepare_nonlinear_step step_size num_iterations_per_step S1 (k + 1)))
    (solve ext fuel S)

end FBBlockSolver

/-! ## Sparse arrays and the boundary builders (`fbblocksolver.cpp`) -/

/-- Modelled from the spec: the class `FBSparseArray4D` is declared in a header that is not
among the sources; "a mapping (i1,i2,i3,i4) -> value with O(1) amortised write after setup,
iteration in insertion or canonical order, and defaulting to 0 on missing keys", built by
the "two-pass allocate then fill" idiom.  `keys` lists the stored entries in insertion
order and `data` holds their values. -/
structure FBSparseArray4D where
  keys : List (Int × Int × Int × Int)
  data : Int → Int → Int → Int → ℚ

namespace FBSparseArray4D

/-- The state after `allocate(...)`: no entry. -/
def allocate : FBSparseArray4D := { keys := [], data := fun _ _ _ _ => 0 }

/-- The read `value(i1, i2, i3, i4)`; `0` on a missing key. -/
def value (A : FBSparseArray4D) (i1 i2 i3 i4 : Int) : ℚ :=
  if (i1, i2, i3, i4) ∈ A.keys then A.data i1 i2 i3 i4 else 0

/-- The call `setupIndex(pass, i1, i2, i3, i4)`: the first pass only counts, the second
pass stores the key. -/
def setupIndex (A : FBSparseArray4D) (pass : Nat) (i1 i2 i3 i4 : Int) : FBSparseArray4D :=
  if pass = 2 then { A with keys := A.keys ++ [(i1, i2, i3, i4)] } else A

/-- The write `setValue(v, i1, i2, i3, i4)` on a stored key. -/
def setValue (A : FBSparseArray4D) (v : ℚ) (i1 i2 i3 i4 : Int) : FBSparseArray4D :=
  if (i1, i2, i3, i4) ∈ A.keys then { A with data := set4 A.data i1 i2 i3 i4 v } else A

end FBSparseArray4D

/-- The method `FBBlock::computeEnergyMap` with its argument kept as a sparse array: the
two `setupIndex` passes over the voxels with `is_element`, then the loop that stores
`energy0` of every such voxel at `(0, xx, yy, zz)`. -/
def FBBlock.computeEnergyMap_sparse (B : FBBlock) : FBSparseArray4D :=
  let E := [1, 2].foldl
    (fun E pass =>
      (scan3 (B.Nx + 1) (B.Ny + 1) (B.Nz + 1)).foldl
        (fun E c =>
          if FBBlock.is_element B.bvf_map c.1 c.2.1 c.2.2 = true then
            E.setupIndex pass 0 c.1 c.2.1 c.2.2
          else E)
        E)
    FBSparseArray4D.allocate
  (scan3 (B.Nx + 1) (B.Ny + 1) (B.Nz + 1)).foldl
    (fun E c =>
      if FBBlock.is_element B.bvf_map c.1 c.2.1 c.2.2 = true then
        E.setValue (FBBlock.element_energy B c.1 c.2.1 c.2.2) 0 c.1 c.2.1 c.2.2
      else E)
    E

namespace FBBlockSolver

/-- The flags `(fix1, fix2, fix3)` computed by `setFixedVariables(macroscopic_strain)` for
the node `(i1, i2, i3)`; `boundaryRestrictions` is the table of the strain descriptor. -/
def fixed_flags (N1 N2 N3 : Int) (boundaryRestrictions : Nat → Nat → Nat) (i1 i2 i3 : Int) :
    Bool × Bool × Bool :=
  let f0 : Bool × Bool × Bool := (false, false, false)
  let f1 : Bool × Bool × Bool :=
    if i1 = 0 ∨ i1 = N1 then
      (f0.1 || decide (boundaryRestrictions 0 0 ≠ 0),
        f0.2.1 || decide (boundaryRestrictions 0 1 ≠ 0),
        f0.2.2 || decide (boundaryRestrictions 0 2 ≠ 0))
    else f0
  let f2 : Bool × Bool × Bool :=
    if i2 = 0 ∨ i2 = N2 then
      (f1.1 || decide (boundaryRestrictions 1 0 ≠ 0),
        f1.2.1 || decide (boundaryRestrictions 1 1 ≠ 0),
        f1.2.2 || decide (boundaryRestrictions 1 2 ≠ 0))
    else f1
  if i3 = 0 ∨ i3 = N3 then
    (f2.1 || decide (boundaryRestrictions 2 0 ≠ 0),
      f2.2.1 || decide (boundaryRestrictions 2 1 ≠ 0),
      f2.2.2 || decide (boundaryRestrictions 2 2 ≠ 0))
  else f2

/-- The body of the loop nest of `setFixedVariables(macroscopic_strain)` for the node
`c = (i1, i2, i3)` in pass `pass`. -/
def setFixedVariables_node (m : BVFMap) (boundaryRestrictions : Nat → Nat → Nat) (pass : Nat)
    (A : FBSparseArray4D) (c : Int × Int × Int) : FBSparseArray4D :=
  if is_vertex m c.1 c.2.1 c.2.2 = true then
    let fix := fixed_flags m.N1 m.N2 m.N3 boundaryRestrictions c.1 c.2.1 c.2.2
    if pass ≤ 2 then
      let A1 := if fix.1 = true then A.setupIndex pass 0 c.1 c.2.1 c.2.2 else A
      let A2 := if fix.2.1 = true then A1.setupIndex pass 1 c.1 c.2.1 c.2.2 else A1
      if fix.2.2 = true then A2.setupIndex pass 2 c.1 c.2.1 c.2.2 else A2
    else if pass = 3 then
      let A1 := if fix.1 = true then A.setValue 1 0 c.1 c.2.1 c.2.2 else A
      let A2 := if fix.2.1 = true then A1.setValue 1 1 c.1 c.2.1 c.2.2 else A1
      if fix.2.2 = true then A2.setValue 1 2 c.1 c.2.1 c.2.2 else A2
    else A
  else A

/-- The method `FBBlockSolver::setFixedVariables(FBMacroscopicStrain &)`: the new
`m_fixed_variables`, and the returned count of elements over the node grid. -/
def setFixedVariables (m : BVFMap) (boundaryRestrictions : Nat → Nat → Nat) :
    FBSparseArray4D × Int :=
  let A := [1, 2, 3].foldl
    (fun A pass =>
      (scan3 (m.N1 + 1) (m.N2 + 1) (m.N3 + 1)).foldl
        (setFixedVariables_node m boundaryRestrictions pass) A)
    FBSparseArray4D.allocate
  let num_elements : Int :=
    (scan3 (m.N1 + 1) (m.N2 + 1) (m.N3 + 1)).foldl
      (fun n c => if FBBlock.is_element m.value c.1 c.2.1 c.2.2 = true then n + 1 else n) 0
  (A, num_elements)

/-- The body shared by the two overloads of `setInitialDisplacementsOnFreeVariables`: the
stored entries of `m_initial_displacements` are visited in turn, and an entry whose
variable is not fixed receives the supplied displacement.  `fixed_variables` is read as
`value(i1, i2, i3, i4)`, as in the solver record. -/
def setInitialDisplacementsOnFreeVariables (initial_displacements : FBSparseArray4D)
    (fixed_variables : Int → Int → Int → Int → Nat)
    (displacements : Int → Int → Int → Int → ℚ) : FBSparseArray4D :=
  initial_displacements.keys.foldl
    (fun A k =>
      if fixed_variables k.1 k.2.1 k.2.2.1 k.2.2.2 = 0 then
        A.setValue (displacements k.1 k.2.1 k.2.2.1 k.2.2.2) k.1 k.2.1 k.2.2.1 k.2.2.2
      else A)
    initial_displacements

/-- The overload of `setInitialDisplacementsOnFreeVariables` with a sparse argument. -/
def setInitialDisplacementsOnFreeVariables_sparse (initial_displacements : FBSparseArray4D)
    (fixed_variables : Int → Int → Int → Int → Nat) (displacements : FBSparseArray4D) :
    FBSparseArray4D :=
  setInitialDisplacementsOnFreeVariables initial_displacements fixed_variables
    displacements.value

/-- The overload of `setInitialDisplacementsOnFreeVariables` with a dense argument
(`FBArray4D<float>`, read as `value(i1, i2, i3, i4)`). -/
def setInitialDisplacementsOnFreeVariables_dense (initial_displacements : FBSparseArray4D)
    (fixed_variables : Int → Int → Int → Int → Nat)
    (displacements : Int → Int → Int → Int → ℚ) : FBSparseArray4D :=
  setInitialDisplacementsOnFreeVariables initial_displacements fixed_variables displacements

end FBBlockSolver

end FB

/-! ## Definitions used in the statements and proofs -/

namespace FB

/-- A list of slab records is a chain of contiguous non-empty slabs inside `0..N3` that
starts at `start`. -/
def SlabChain (N3 : Int) : Int → List BlockInfo → Prop
  | _, [] => True
  | start, b :: l => b.zmin = start ∧ b.zmin ≤ b.zmax ∧ b.zmax ≤ N3 ∧ SlabChain N3 (b.zmax + 1) l

/-- The last slice covered by a chain that starts at `start` (`start - 1` when empty). -/
def lastZ : Int → List BlockInfo → Int
  | start, [] => start - 1
  | _, b :: l => lastZ (b.zmax + 1) l

/-- The number of vertices in the slices `zmin..z`: the sum of `slice_vertex_count[i]` for
`zmin <= i <= z`. -/
def slab_count (svc : List Int) (zmin z : Int) : Int :=
  ((idxRange (z - zmin + 1)).map fun i => svc.getD (zmin + i).toNat 0).sum

/-- The distance `|count - target|` of the slab `zmin..z` from the target. -/
def slab_distance (svc : List Int) (target : ℚ) (zmin z : Int) : ℚ :=
  abs ((slab_count svc zmin z : ℚ) - target)

/-- The slab `b` is the result of the greedy extension: every slice added after the first
brought the vertex count strictly closer to the target, and the extension ended at slice
`N3` or because one more slice would not bring the count strictly closer. -/
def Greedy (svc : List Int) (N3 : Int) (target : ℚ) (b : BlockInfo) : Prop :=
  (0 ≤ b.zmin ∧ b.zmin ≤ b.zmax ∧ b.zmax ≤ N3) ∧
    (∀ z : Int, b.zmin ≤ z → z < b.zmax →
      slab_distance svc target b.zmin (z + 1) < slab_distance svc target b.zmin z) ∧
    (b.zmax = N3 ∨
      slab_distance svc target b.zmin b.zmax ≤ slab_distance svc target b.zmin (b.zmax + 1))

/-- A `3 x 1 x 2` map with one full voxel in layer 0 and three in layer 1: the slices have
4, 8 and 8 vertices. -/
def stepped_map : BVFMap :=
  { N1 := 3, N2 := 1, N3 := 2, data := fun x _ z => if z = 0 ∧ x ≠ 0 then 0 else 100 }

/-- The invariant of the thread loop of `solve()`. -/
def DecompInv (N3 : Int) (k : Nat) (st : Int × List BlockInfo) : Prop :=
  SlabChain N3 0 st.2 ∧ st.2.length ≤ k ∧
    ((st.1 = lastZ 0 st.2 ∧ st.1 ≤ N3) ∨ (N3 ≤ st.1 ∧ lastZ 0 st.2 = N3))

namespace FBBlock

/-- The factor `phi(strain)` of the specification: `1` when no adjuster is installed,
`computeAdjustment(strain)` otherwise. -/
def phi (B : FBBlock) (E0 : FBBlockElement) : ℚ :=
  match B.nonlinear_adjuster with
  | none => 1
  | some f => f E0.strain

/-- The matvec as the specification defines it: at an index `i` that is not an
outer-interface variable, the sum over all elements `e` and all slots `k < 24` with
`varinds_e[k] = i` of `(bvf_e/100) * phi(strain_e) * sum over c < 24 of K[k][c] *
v[varinds_e[c]]`; `0` at an outer-interface index. -/
def matvec_spec (B : FBBlock) (v : Vec) (i : Int) : ℚ :=
  if B.vertex_type i ≠ 3 then
    (B.elements.map fun e =>
      ((List.range 24).map fun k =>
        if varinds e k = i then
          (e.bvf : ℚ) / 100 * phi B e *
            ((List.range 24).map fun c => B.stiffness_matrix k c * v (varinds e c)).sum
        else 0).sum).sum
  else 0

/-- The classification of a node by its local coordinates, as the specification states
it: `1` (internal) iff `2 <= xx <= Nx-1`, `2 <= yy <= Ny-1`, `2 <= zz <= Nz-1`; `2`
(inner-interface) iff not internal but `1 <= xx <= Nx`, `1 <= yy <= Ny`, `1 <= zz <= Nz`;
`3` (outer-interface) otherwise. -/
def vertex_class (Nx Ny Nz xx yy zz : Int) : Nat :=
  if xx ≥ 2 ∧ xx ≤ Nx - 1 ∧ yy ≥ 2 ∧ yy ≤ Ny - 1 ∧ zz ≥ 2 ∧ zz ≤ Nz - 1 then 1
  else if xx ≥ 1 ∧ xx ≤ Nx ∧ yy ≥ 1 ∧ yy ≤ Ny ∧ zz ≥ 1 ∧ zz ≤ Nz then 2
  else 3

/-- A node of the global grid, given by its world coordinates, is active in the block with
`vertex_type != 3` (the block owns it): its local position, `world - (block position -
1)`, has a variable index, and none of its three variables is an outer-interface
variable. -/
def owns (B : FBBlock) (x y z : Int) : Prop :=
  0 ≤ B.variable_indices (x - (B.block_x_position - 1)) (y - (B.block_y_position - 1))
      (z - (B.block_z_position - 1)) ∧
    ∀ dd : Int, 0 ≤ dd → dd < 3 →
      B.vertex_type
        (B.variable_indices (x - (B.block_x_position - 1)) (y - (B.block_y_position - 1))
          (z - (B.block_z_position - 1)) + dd) ≠ 3

/-- The block `B2` has the geometry, the index map and the `free` mask of `B1`, and the same
`x` at every variable that is not free. -/
def SameFixed (B1 B2 : FBBlock) : Prop :=
  B2.variable_indices = B1.variable_indices ∧ B2.free = B1.free ∧
    B2.Nx = B1.Nx ∧ B2.Ny = B1.Ny ∧ B2.Nz = B1.Nz ∧
    B2.block_x_position = B1.block_x_position ∧ B2.block_y_position = B1.block_y_position ∧
    B2.block_z_position = B1.block_z_position ∧
    ∀ i : Int, B1.free i = 0 → B2.x i = B1.x i

/-- The block's loop in `getDisplacements` visits the node with world coordinates
`(x, y, z)`: the node is at local `(1..Nx, 1..Ny, 1..Nz)`. -/
def covers (B : FBBlock) (x y z : Int) : Prop :=
  (B.block_x_position ≤ x ∧ x < B.block_x_position + B.Nx) ∧
    (B.block_y_position ≤ y ∧ y < B.block_y_position + B.Ny) ∧
    (B.block_z_position ≤ z ∧ z < B.block_z_position + B.Nz)

instance (B : FBBlock) (x y z : Int) : Decidable (covers B x y z) := by
  unfold covers
  infer_instance

/-- The force at the node at local `(xx, yy, zz)` in direction `dd`, as the specification
words it: the block's `r` at the variable of the node, `0` for a node without variables. -/
def node_force (B : FBBlock) (xx yy zz dd : Int) : ℚ :=
  if 0 ≤ B.variable_indices xx yy zz then B.r (B.variable_indices xx yy zz + dd) else 0

/-- The contribution of the node at local `(xx, yy, zz)` to the six stress sums (Voigt
order 11, 22, 33, 12, 13, 23), as the specification words it; `(X, Y, Z)` are the world
grid coordinates of the node multiplied by the resolution. -/
def node_stress (B : FBBlock) (xx yy zz : Int) (j : Nat) : ℚ :=
  let fx := node_force B xx yy zz 0
  let fy := node_force B xx yy zz 1
  let fz := node_force B xx yy zz 2
  let X : ℚ := ((B.block_x_position + (xx - 1) : Int) : ℚ) * B.resolution 0
  let Y : ℚ := ((B.block_y_position + (yy - 1) : Int) : ℚ) * B.resolution 1
  let Z : ℚ := ((B.block_z_position + (zz - 1) : Int) : ℚ) * B.resolution 2
  match j with
  | 0 => fx * X
  | 1 => fy * Y
  | 2 => fz * Z
  | 3 => (1 / 2) * (fx * Y + fy * X)
  | 4 => (1 / 2) * (fx * Z + fz * X)
  | 5 => (1 / 2) * (fy * Z + fz * Y)
  | _ => 0

/-- The sum of `node_stress` over the nodes of the block at local `(1..Nx, 1..Ny, 1..Nz)`. -/
def block_stress_spec (B : FBBlock) (j : Nat) : ℚ :=
  ((scan3 B.Nx B.Ny B.Nz).map fun c =>
    node_stress B (c.1 + 1) (c.2.1 + 1) (c.2.2 + 1) j).sum

/-- The energy of the element at local `(xx, yy, zz)` as the specification states it:
`-0.5 * (bvf/100) * sum over r, c < 24 of K[r][c] * X[r] * X[c]`, with `X[6k+j] =
x[ref_k + j]` gathered from the current displacement. -/
def energy_spec (B : FBBlock) (xx yy zz : Int) : ℚ :=
  -(1 / 2) * ((B.bvf_map xx yy zz : ℚ) / 100) *
    ((List.range 24).map fun r =>
      ((List.range 24).map fun c =>
        B.stiffness_matrix r c *
          B.x (element_refs B.variable_indices xx yy zz (r / 6) + ((r % 6 : Nat) : Int)) *
          B.x (element_refs B.variable_indices xx yy zz (c / 6) + ((c % 6 : Nat) : Int))).sum).sum

/-- The sum of `f i` over exactly the variables `i` of the block with `vertex_type[i] != 3`
and `free[i] = 1`. -/
def owned_free_sum (B : FBBlock) (f : Int → ℚ) : ℚ :=
  ((idxRange B.num_variables).map fun i =>
    if B.vertex_type i ≠ 3 ∧ B.free i = 1 then f i else 0).sum

/-- One term of a step-A inner product: `V1[i] * V2[i]`, divided by `preconditioner[i]`
when the preconditioner is in use and nonzero at `i`. -/
def preconditioned_term (B : FBBlock) (V1 V2 : Vec) (i : Int) : ℚ :=
  if B.use_preconditioner = true ∧ B.preconditioner i ≠ 0 then
    V1 i * V2 i / B.preconditioner i
  else V1 i * V2 i

/-- The quadratic form `X^T K X` of the element at local `(xx, yy, zz)`: the sum over
`r, c < 24` of `K[r][c] * X[r] * X[c]`, with `X[6k+j] = x[ref_k + j]` gathered from the
current displacement. -/
def quadratic_form (B : FBBlock) (xx yy zz : Int) : ℚ :=
  ((List.range 24).map fun r =>
    ((List.range 24).map fun c =>
      B.stiffness_matrix r c *
        B.x (element_refs B.variable_indices xx yy zz (r / 6) + ((r % 6 : Nat) : Int)) *
        B.x (element_refs B.variable_indices xx yy zz (c / 6) + ((c % 6 : Nat) : Int))).sum).sum

/-- The element list of a block in the order of `setup`: one record per voxel of the block
with nonzero BVF, in the scan order `zz`, then `yy`, then `xx`, holding the four
`ref_indices` of the voxel, its BVF and the strain `s xx yy zz`. -/
def strained_elements (B : FBBlock) (s : Int → Int → Int → ℚ) : List FBBlockElement :=
  (scan3 (B.Nx + 1) (B.Ny + 1) (B.Nz + 1)).filterMap fun c =>
    if B.bvf_map c.1 c.2.1 c.2.2 ≠ 0 then
      some
        { ref_indices := element_refs B.variable_indices c.1 c.2.1 c.2.2
          bvf := B.bvf_map c.1 c.2.1 c.2.2
          strain := s c.1 c.2.1 c.2.2 }
    else none

/-- The argument of the square root in the strain loop of `iterate_step_B` for the voxel
`(xx, yy, zz)`: `2*|e| / (voxel_volume * YM * (bvf/100))`, with `e` the entry of the energy
map of the block. -/
def strain_argument (B : FBBlock) (xx yy zz : Int) : ℚ :=
  2 * abs (computeEnergyMap B xx yy zz) /
    (B.voxel_volume * B.youngs_modulus * ((B.bvf_map xx yy zz : ℚ) * 1 / 100))

/-- The block `B2` differs from `B1` at most in the vectors `x`, `r`, `p`, `Ap` and in the
element list: every other field (sizes, masks, vertex types, locations, index map, BVF map,
stiffness matrix, constants, preconditioner, adjuster) is the same. -/
def SameStatics (B1 B2 : FBBlock) : Prop :=
  { B2 with x := B1.x, r := B1.r, p := B1.p, Ap := B1.Ap, elements := B1.elements } = B1

/-- A sequence of iterations as one block sees it: for every pair of the list in turn,
`iterate_step_A` with the neighbour slices of the pair, then `iterate_step_B` with its
`alpha` and `beta`. -/
def run_steps (sqrt : ℚ → ℚ)
    (l : List (FBBlockIterateStepAParameters × FBBlockIterateStepBParameters))
    (B : FBBlock) : FBBlock :=
  l.foldl (fun B pr => (iterate_step_B sqrt (iterate_step_A B pr.1).1 pr.2).1) B

end FBBlock

namespace FBBlockSolver

/-- Two block lists of the same length whose blocks correspond index by index under
`SameFixed`. -/
def BlocksRelated (L1 L2 : List FBBlock) : Prop :=
  L1.length = L2.length ∧
    ∀ (i : Nat) (B1 B2 : FBBlock), L1[i]? = some B1 → L2[i]? = some B2 → FBBlock.SameFixed B1 B2

/-- The reduced scalar `r_z` of the specification: the sum of the step-A outputs `r_z[i]`
over all blocks. -/
def total_r_z (A : List FBBlockIterateStepAParameters) : ℚ := (A.map fun a => a.r_z).sum

/-- The reduced scalar `r_Ap`: the sum of the `r_Ap[i]`. -/
def total_r_Ap (A : List FBBlockIterateStepAParameters) : ℚ := (A.map fun a => a.r_Ap).sum

/-- The reduced scalar `p_Ap`: the sum of the `p_Ap[i]`. -/
def total_p_Ap (A : List FBBlockIterateStepAParameters) : ℚ := (A.map fun a => a.p_Ap).sum

/-- The reduced scalar `Ap_Ap`: the sum of the `Ap_Ap[i]`. -/
def total_Ap_Ap (A : List FBBlockIterateStepAParameters) : ℚ := (A.map fun a => a.Ap_Ap).sum

/-- A configured solver for a single voxel of full density (`N1 = N2 = N3 = 1`), with the
all-ones stiffness matrix, no fixed variable, the initial displacement `1` at direction `0`
of node `(0,0,0)` and `0` elsewhere, and `num_threads` threads; nothing solved yet. -/
def one_voxel_solver (num_threads : Int) : FBBlockSolver :=
  { stiffness_matrix := fun _ _ => 1, youngs_modulus := 1, voxel_volume := 1,
    bvf_map := { N1 := 1, N2 := 1, N3 := 1, data := fun _ _ _ => 100 },
    initial_displacements := fun dd x y z => if dd = 0 ∧ x = 0 ∧ y = 0 ∧ z = 0 then 1 else 0,
    fixed_variables := fun _ _ _ _ => 0,
    blocks := [], num_iterations := 0, error_estimator := [], PPP_A := [], PPP_B := [],
    block_infos := [], epsilon := 1 / 1000, max_iterations := 0, num_threads := num_threads,
    use_preconditioner := false, resolution := fun _ => 1, nonlinear_adjuster := none }

/-- A freshly configured solver for a `1 x 1 x 1` map whose voxel has BVF 50, with the
preconditioner in use: stiffness matrix with every entry `1`, initial displacement `1` at
direction 0 of node `(0,0,0)`, no fixed variable. -/
def half_voxel_solver (num_threads : Int) : FBBlockSolver :=
  { one_voxel_solver num_threads with
    bvf_map := { N1 := 1, N2 := 1, N3 := 1, data := fun _ _ _ => 50 }
    use_preconditioner := true }

/-- The single-voxel solver with two threads in which every variable is fixed. -/
def clamped_voxel_solver : FBBlockSolver :=
  { one_voxel_solver 2 with fixed_variables := fun _ _ _ _ => 1 }

/-- A stand-in for the collaborators outside the sources: an estimator that always reports
`0` and the identity in place of `sqrt`. -/
def example_external : External := ⟨fun _ => 0, fun q => q⟩

/-- The block `m_blocks[i]` of a solver. -/
def block_at (S : FBBlockSolver) (i : Nat) : FBBlock := S.blocks.getD i FBBlock.init

/-- The macroscopic stress as the specification words it: the sum of `block_stress_spec`
over all blocks, divided by `N1*N2*N3*hx*hy*hz`. -/
def stress_spec (S : FBBlockSolver) (j : Nat) : ℚ :=
  (S.blocks.map fun B => FBBlock.block_stress_spec B j).sum /
    (((S.bvf_map.N1 : Int) : ℚ) * ((S.bvf_map.N2 : Int) : ℚ) * ((S.bvf_map.N3 : Int) : ℚ) *
      S.resolution 0 * S.resolution 1 * S.resolution 2)

/-- A freshly configured solver for a `1 x 1 x 1` map whose only voxel is empty, with one
thread and `max_iterations = 10`. -/
def empty_voxel_solver : FBBlockSolver :=
  { one_voxel_solver 1 with
    bvf_map := { N1 := 1, N2 := 1, N3 := 1, data := fun _ _ _ => 0 }
    max_iterations := 10 }

/-- A freshly configured solver for the single full voxel with zero initial displacement
everywhere and no fixed variable (no load), one thread and `max_iterations = 10`. -/
def unloaded_voxel_solver : FBBlockSolver :=
  { one_voxel_solver 1 with
    initial_displacements := fun _ _ _ _ => 0
    max_iterations := 10 }

/-- A freshly configured solver for the single full voxel with `num_threads = 0` and
`max_iterations = 10`. -/
def threadless_solver : FBBlockSolver :=
  { one_voxel_solver 0 with max_iterations := 10 }

/-- A freshly configured solver for the single full voxel with a symmetric indefinite
stiffness matrix (`K[0][1] = K[1][0] = 1`, all other entries `0`), one thread and
`max_iterations = 10`; initial displacement `1` at direction 0 of node `(0,0,0)`. -/
def indefinite_voxel_solver : FBBlockSolver :=
  { one_voxel_solver 1 with
    stiffness_matrix := fun i j => if (i = 0 ∧ j = 1) ∨ (i = 1 ∧ j = 0) then 1 else 0
    max_iterations := 10 }

/-- The slab that `solve()` builds for the single-voxel map with one thread: node layers
`z = 0..1`, with the `x` and `y` extents `-1..2`. -/
def one_voxel_slab : BlockInfo :=
  { xmin := -1, xmax := 2, ymin := -1, ymax := 2, zmin := 0, zmax := 1 }

/-- The block of the single voxel with every variable fixed and the given Young's modulus,
after `setNonlinearAdjuster` of the constant adjuster `1` and one `iterate_step_A` and
`iterate_step_B` (default parameters), the identity standing for `sqrt`. -/
def strained_block (youngs_modulus : ℚ) : FBBlock :=
  (FBBlock.iterate_step_B (fun q => q)
    (FBBlock.iterate_step_A
      (FBBlock.setNonlinearAdjuster
        (FBBlock.setup (setup_parameters
          { one_voxel_solver 1 with
            fixed_variables := fun _ _ _ _ => 1
            youngs_modulus := youngs_modulus }
          one_voxel_slab)).1
        (some fun _ => 1))
      {}).1
    {}).1

/-- The block of `half_voxel_solver 1` (one thread, the slab of the whole voxel) after
`setup` and one `iterate_step_A` without neighbours: 24 free variables, preconditioner in
use. -/
def stepped_half_block : FBBlock :=
  (FBBlock.iterate_step_A
    (FBBlock.setup (setup_parameters (half_voxel_solver 1) one_voxel_slab)).1 {}).1

/-- The block of `half_voxel_solver 1` with every variable fixed, after `setup` and one
`iterate_step_A` without neighbours. -/
def stepped_clamped_block : FBBlock :=
  (FBBlock.iterate_step_A
    (FBBlock.setup (setup_parameters
      { half_voxel_solver 1 with fixed_variables := fun _ _ _ _ => 1 } one_voxel_slab)).1 {}).1

/-- The second of the two blocks that `solve()` builds for `half_voxel_solver 2`, as `setup`
leaves it: it owns the node layer `z = 1` of the voxel and has the layer `z = 0` as its
outer interface. -/
def upper_half_block : FBBlock :=
  (FBBlock.setup (setup_parameters (half_voxel_solver 2)
    ((solve_block_infos 1 1 1 (slice_vertex_count (half_voxel_solver 2).bvf_map) 2).getD 1
      default))).1

/-- The solver `empty_voxel_solver` after `setResolution` of `(0, 0, 0)`. -/
def zero_resolution_solver : FBBlockSolver :=
  { empty_voxel_solver with resolution := fun _ => 0 }

/-- The entry `k = (d, i1, i2, i3)` is one that `setFixedVariables(macroscopic_strain)`
marks: the node is a vertex and the flag of direction `d` is set for it. -/
def marks (m : BVFMap) (boundaryRestrictions : Nat → Nat → Nat) (k : Int × Int × Int × Int) :
    Prop :=
  is_vertex m k.2.1 k.2.2.1 k.2.2.2 = true ∧
    ((k.1 = 0 ∧ (fixed_flags m.N1 m.N2 m.N3 boundaryRestrictions k.2.1 k.2.2.1 k.2.2.2).1
        = true) ∨
      (k.1 = 1 ∧ (fixed_flags m.N1 m.N2 m.N3 boundaryRestrictions k.2.1 k.2.2.1 k.2.2.2).2.1
        = true) ∨
      (k.1 = 2 ∧ (fixed_flags m.N1 m.N2 m.N3 boundaryRestrictions k.2.1 k.2.2.1 k.2.2.2).2.2
        = true))

instance (m : BVFMap) (boundaryRestrictions : Nat → Nat → Nat) (k : Int × Int × Int × Int) :
    Decidable (marks m boundaryRestrictions k) := by
  unfold marks
  infer_instance

/-- A strain descriptor that restricts direction 2 on the faces of axis 2 only. -/
def example_restrictions : Nat → Nat → Nat := fun f d => if f = 2 ∧ d = 2 then 1 else 0

/-- A freshly configured solver for the `1 x 1 x 4` map whose only element is the voxel of
layer 0, with three threads. -/
def column_solver : FBBlockSolver :=
  { one_voxel_solver 3 with
    bvf_map := { N1 := 1, N2 := 1, N3 := 4, data := fun _ _ z => if z = 0 then 100 else 0 } }

/-- The solver state after `k` passes of the loop body of `do_iterations()`. -/
def after_iterations (ext : External) (S : FBBlockSolver) (k : Nat) : FBBlockSolver :=
  (iteration ext)^[k] S

/-- Whether the `j`-th pass of the loop (`j = 1, 2, ...`) ended with an
`estimatedRelativeError` below `epsilon`. -/
def estimate_below (ext : External) (S : FBBlockSolver) (j : Nat) : Bool :=
  decide (ext.estimatedRelativeError (after_iterations ext S j).error_estimator < S.epsilon)

/-- The number of immediately preceding consecutive passes, counted back from pass `k`,
whose estimate was below `epsilon`. -/
def trailing_below (ext : External) (S : FBBlockSolver) (k : Nat) : Nat :=
  ((List.range k).reverse.takeWhile fun j => estimate_below ext S (j + 1)).length

/-- The stopping rule as the specification words it: after `k` passes another pass is
made iff the iteration count is below `max_iterations` (or `max_iterations <= 0`) and the
trailing run of below-epsilon estimates is shorter than 5. -/
def continues (ext : External) (S : FBBlockSolver) (k : Nat) : Prop :=
  (S.num_iterations + (k : Int) < S.max_iterations ∨ S.max_iterations ≤ 0) ∧
    trailing_below ext S k < 5

/-- The value of `num_times_below_epsilon` after `k` passes that start in state `S` with
the counter at `c`. -/
def counter_after (ext : External) : FBBlockSolver → Int → Nat → Int
  | _, c, 0 => c
  | S, c, k + 1 => counter_after ext (iteration ext S) (next_below_epsilon ext (iteration ext S) c) k

end FBBlockSolver

end FB

/-! ## Lemmas on loops -/

namespace FB

theorem mem_idxRange {n i : Int} : i ∈ idxRange n ↔ 0 ≤ i ∧ i < n := by
  unfold idxRange
  simp only [List.mem_map, List.mem_range]
  constructor
  · rintro ⟨a, ha, rfl⟩
    omega
  · rintro ⟨h0, h1⟩
    exact ⟨i.toNat, by omega, by omega⟩

theorem nodup_idxRange (n : Int) : (idxRange n).Nodup := by
  unfold idxRange
  exact (List.nodup_range _).map (fun a b h => by simpa using h)

theorem idxRange_succ {n : Int} (h : 0 ≤ n) : idxRange (n + 1) = idxRange n ++ [n] := by
  unfold idxRange
  have : (n + 1).toNat = n.toNat + 1 := by omega
  rw [this, List.range_succ, List.map_append]
  simp [Int.toNat_of_nonneg h]

theorem idxRange_of_nonpos {n : Int} (h : n ≤ 0) : idxRange n = [] := by
  unfold idxRange
  have : n.toNat = 0 := by omega
  rw [this]; rfl

/-! ## The slab decomposition -/

theorem extend_zmax_bounds (svc : List Int) (N3 : Int) (target : ℚ) :
    ∀ (fuel : Nat) (zmax cnt : Int), zmax ≤ N3 →
      zmax ≤ extend_zmax svc N3 target fuel zmax cnt ∧
        extend_zmax svc N3 target fuel zmax cnt ≤ N3 := by
  intro fuel
  induction fuel with
  | zero => intro zmax cnt h; simp [extend_zmax, h]
  | succ fuel ih =>
    intro zmax cnt h
    simp only [extend_zmax]
    split_ifs with h1
    all_goals first
      | exact ⟨le_refl _, h⟩
      | exact ⟨le_trans (by omega) (ih (zmax + 1) _ (by omega)).1,
          (ih (zmax + 1) _ (by omega)).2⟩

theorem slabChain_append (N3 : Int) (b : BlockInfo) :
    ∀ (l : List BlockInfo) (start : Int), SlabChain N3 start l → b.zmin = lastZ start l + 1 →
      b.zmin ≤ b.zmax → b.zmax ≤ N3 → SlabChain N3 start (l ++ [b]) := by
  intro l
  induction l with
  | nil =>
    intro start _ h1 h2 h3
    simp only [lastZ] at h1
    exact ⟨by omega, h2, h3, trivial⟩
  | cons a l ih =>
    intro start h h1 h2 h3
    obtain ⟨ha1, ha2, ha3, ha4⟩ := h
    exact ⟨ha1, ha2, ha3, ih _ ha4 h1 h2 h3⟩

theorem lastZ_append (b : BlockInfo) :
    ∀ (l : List BlockInfo) (start : Int), lastZ start (l ++ [b]) = b.zmax := by
  intro l
  induction l with
  | nil => intro start; simp [lastZ]
  | cons a l ih => intro start; simpa [lastZ] using ih _

theorem decompInv_step (N1 N2 N3 : Int) (svc : List Int) (T : Int) (target : ℚ) (k : Nat)
    (st : Int × List BlockInfo) (hk : (k : Int) ≠ T - 1) (h : DecompInv N3 k st) :
    DecompInv N3 (k + 1) (block_info_step N1 N2 N3 svc T target st k) := by
  obtain ⟨z0, L⟩ := st
  obtain ⟨hc, hl, hz⟩ := h
  simp only at hc hl hz
  unfold DecompInv block_info_step
  simp only [hk, if_false]
  rcases hz with ⟨hz1, hz2⟩ | ⟨hz1, hz2⟩
  · by_cases hlt : z0 + 1 < N3 + 1
    · have hb := extend_zmax_bounds svc N3 target (N3 - (z0 + 1)).toNat (z0 + 1)
        (svc.getD (z0 + 1).toNat 0) (by omega)
      have hle : z0 + 1 ≤ N3 := by omega
      simp only [hlt, hle, if_true]
      refine ⟨?_, ?_, ?_⟩
      · exact slabChain_append N3 _ L 0 hc (by simp [hz1]) hb.1 hb.2
      · simp; omega
      · left
        exact ⟨by rw [lastZ_append], hb.2⟩
    · have hle : ¬ (z0 + 1 ≤ N3) := by omega
      simp only [hlt, hle, if_false]
      exact ⟨hc, by omega, Or.inr ⟨by omega, by omega⟩⟩
  · have hlt : ¬ (z0 + 1 < N3 + 1) := by omega
    have hle : ¬ (z0 + 1 ≤ N3) := by omega
    simp only [hlt, hle, if_false]
    exact ⟨hc, by omega, Or.inr ⟨by omega, hz2⟩⟩

theorem decompInv_initial (N1 N2 N3 : Int) (svc : List Int) (T : Int) (target : ℚ)
    (hN : 0 ≤ N3) :
    ∀ k : Nat, (k : Int) ≤ T - 1 →
      DecompInv N3 k
        ((idxRange k).foldl (block_info_step N1 N2 N3 svc T target) (-1, [])) := by
  intro k
  induction k with
  | zero =>
    intro _
    simp only [Nat.cast_zero, idxRange_of_nonpos (le_refl (0 : Int)), List.foldl_nil]
    exact ⟨trivial, by simp, Or.inl ⟨by simp [lastZ], by omega⟩⟩
  | succ k ih =>
    intro hk
    have h1 : ((k + 1 : Nat) : Int) = (k : Int) + 1 := by push_cast; rfl
    rw [h1, idxRange_succ (Int.ofNat_nonneg k), List.foldl_append]
    simp only [List.foldl_cons, List.foldl_nil]
    exact decompInv_step N1 N2 N3 svc T target k _ (by omega) (ih (by omega))

theorem decompInv_last (N1 N2 N3 : Int) (svc : List Int) (T : Int) (target : ℚ) (k : Nat)
    (st : Int × List BlockInfo) (hk : (k : Int) = T - 1) (h : DecompInv N3 k st) :
    SlabChain N3 0 (block_info_step N1 N2 N3 svc T target st k).2 ∧
      (block_info_step N1 N2 N3 svc T target st k).2.length ≤ k + 1 ∧
      lastZ 0 (block_info_step N1 N2 N3 svc T target st k).2 = N3 := by
  obtain ⟨z0, L⟩ := st
  obtain ⟨hc, hl, hz⟩ := h
  simp only at hc hl hz
  unfold block_info_step
  simp only [hk, if_true]
  rcases hz with ⟨hz1, hz2⟩ | ⟨hz1, hz2⟩
  · by_cases hle : z0 + 1 ≤ N3
    · simp only [hle, if_true]
      refine ⟨slabChain_append N3 _ L 0 hc (by simp [hz1]) hle (le_refl _), by simp; omega, ?_⟩
      rw [lastZ_append]
    · simp only [hle, if_false]
      exact ⟨hc, by omega, by omega⟩
  · have hle : ¬ (z0 + 1 ≤ N3) := by omega
    simp only [hle, if_false]
    exact ⟨hc, by omega, hz2⟩

theorem solve_block_infos_chain (N1 N2 N3 : Int) (svc : List Int) (T : Int) (hT : 1 ≤ T)
    (hN : 0 ≤ N3) :
    SlabChain N3 0 (solve_block_infos N1 N2 N3 svc T) ∧
      ((solve_block_infos N1 N2 N3 svc T).length : Int) ≤ T ∧
      lastZ 0 (solve_block_infos N1 N2 N3 svc T) = N3 := by
  obtain ⟨k, hk⟩ : ∃ k : Nat, (k : Int) = T - 1 := ⟨(T - 1).toNat, by omega⟩
  have hT1 : T = (k : Int) + 1 := by omega
  unfold solve_block_infos
  simp only
  rw [hT1, idxRange_succ (Int.ofNat_nonneg k), List.foldl_append]
  simp only [List.foldl_cons, List.foldl_nil]
  have h := decompInv_last N1 N2 N3 svc ((k : Int) + 1)
    ((svc.sum : ℚ) * 1 / (((k : Int) + 1 : Int) : ℚ)) k _ (by omega)
    (decompInv_initial N1 N2 N3 svc ((k : Int) + 1)
      ((svc.sum : ℚ) * 1 / (((k : Int) + 1 : Int) : ℚ)) hN k (by omega))
  exact ⟨h.1, by have := h.2.1; omega, h.2.2⟩

end FB

namespace FB

theorem slabChain_le (N3 : Int) :
    ∀ (l : List BlockInfo) (start : Int), SlabChain N3 start l →
      ∀ b ∈ l, b.zmin ≤ b.zmax ∧ start ≤ b.zmin ∧ b.zmax ≤ N3 := by
  intro l
  induction l with
  | nil => intro start _ b hb; simp at hb
  | cons a l ih =>
    intro start h b hb
    obtain ⟨h1, h2, h3, h4⟩ := h
    rcases List.mem_cons.mp hb with rfl | hb
    · exact ⟨h2, by omega, h3⟩
    · have := ih _ h4 b hb
      exact ⟨this.1, by omega, this.2.2⟩

theorem slabChain_consecutive (N3 : Int) :
    ∀ (l : List BlockInfo) (start : Int), SlabChain N3 start l →
      ∀ (i : Nat) (b c : BlockInfo), l[i]? = some b → l[i + 1]? = some c →
        c.zmin = b.zmax + 1 := by
  intro l
  induction l with
  | nil => intro start _ i b c hb; simp at hb
  | cons a l ih =>
    intro start h i b c hb hc
    obtain ⟨_, _, _, h4⟩ := h
    cases i with
    | zero =>
      simp only [List.getElem?_cons_zero, Option.some.injEq] at hb
      subst hb
      cases l with
      | nil => simp at hc
      | cons a2 l2 =>
        simp only [zero_add, List.getElem?_cons_succ, List.getElem?_cons_zero,
          Option.some.injEq] at hc
        subst hc
        exact h4.1
    | succ i =>
      simp only [List.getElem?_cons_succ] at hb hc
      exact ih _ h4 i b c hb hc

theorem lastZ_getLast :
    ∀ (l : List BlockInfo) (start : Int) (b : BlockInfo), l.getLast? = some b →
      lastZ start l = b.zmax := by
  intro l
  induction l with
  | nil => intro start b hb; simp at hb
  | cons a l ih =>
    intro start b hb
    cases l with
    | nil =>
      simp only [List.getLast?_singleton, Option.some.injEq] at hb
      subst hb
      simp [lastZ]
    | cons a2 l2 =>
      rw [List.getLast?_cons_cons] at hb
      simp only [lastZ]
      have := ih (a.zmax + 1) b hb
      simpa [lastZ] using this

/-- C6. The z-decomposition of `solve()` is a partition of the node layers `0..N3` into
contiguous slabs: for every `num_threads >= 1`, every `N3 >= 0` and every list of
per-slice vertex counts, the list of slabs is non-empty, has at most `num_threads`
entries, every slab has `zmin <= zmax`, the first slab starts at `0`, each next slab starts
right after the previous one, and the last slab ends at `N3`. -/
theorem solve_block_infos_partition (N1 N2 N3 : Int) (slice_vertex_count : List Int)
    (num_threads : Int) (hT : 1 ≤ num_threads) (hN : 0 ≤ N3) :
    solve_block_infos N1 N2 N3 slice_vertex_count num_threads ≠ [] ∧
    ((solve_block_infos N1 N2 N3 slice_vertex_count num_threads).length : Int) ≤ num_threads ∧
    (∀ b ∈ solve_block_infos N1 N2 N3 slice_vertex_count num_threads, b.zmin ≤ b.zmax) ∧
    (∀ b, (solve_block_infos N1 N2 N3 slice_vertex_count num_threads).head? = some b →
      b.zmin = 0) ∧
    (∀ (i : Nat) (b c : BlockInfo),
      (solve_block_infos N1 N2 N3 slice_vertex_count num_threads)[i]? = some b →
      (solve_block_infos N1 N2 N3 slice_vertex_count num_threads)[i + 1]? = some c →
      c.zmin = b.zmax + 1) ∧
    (∀ b, (solve_block_infos N1 N2 N3 slice_vertex_count num_threads).getLast? = some b →
      b.zmax = N3) := by
  obtain ⟨hc, hl, hz⟩ := solve_block_infos_chain N1 N2 N3 slice_vertex_count num_threads hT hN
  generalize solve_block_infos N1 N2 N3 slice_vertex_count num_threads = L at hc hl hz
  refine ⟨?_, hl, fun b hb => (slabChain_le N3 L 0 hc b hb).1, ?_,
    slabChain_consecutive N3 L 0 hc, ?_⟩
  · rintro rfl
    simp only [lastZ] at hz
    omega
  · intro b hb
    cases L with
    | nil => simp at hb
    | cons a l =>
      simp only [List.head?_cons, Option.some.injEq] at hb
      subst hb
      exact hc.1
  · intro b hb
    rw [← hz]
    exact (lastZ_getLast L 0 b hb).symm

/-- Witness for C6: one voxel layer (`N3 = 1`, two node layers of four vertices each)
split between two threads. -/
theorem solve_block_infos_partition_witness :
    (1 : Int) ≤ 2 ∧ (0 : Int) ≤ 1 ∧
    (solve_block_infos 1 1 1 [4, 4] 2 ≠ [] ∧
    ((solve_block_infos 1 1 1 [4, 4] 2).length : Int) ≤ 2 ∧
    (∀ b ∈ solve_block_infos 1 1 1 [4, 4] 2, b.zmin ≤ b.zmax) ∧
    (∀ b, (solve_block_infos 1 1 1 [4, 4] 2).head? = some b → b.zmin = 0) ∧
    (∀ (i : Nat) (b c : BlockInfo),
      (solve_block_infos 1 1 1 [4, 4] 2)[i]? = some b →
      (solve_block_infos 1 1 1 [4, 4] 2)[i + 1]? = some c → c.zmin = b.zmax + 1) ∧
    (∀ b, (solve_block_infos 1 1 1 [4, 4] 2).getLast? = some b → b.zmax = 1)) :=
  ⟨by decide, by decide, solve_block_infos_partition 1 1 1 [4, 4] 2 (by decide) (by decide)⟩

end FB

/-! ## The stopping rule of the iteration loop -/

namespace FB

namespace FBBlockSolver

theorem iteration_num_iterations (ext : External) (S : FBBlockSolver) :
    (iteration ext S).num_iterations = S.num_iterations + 1 := rfl

theorem iteration_max_iterations (ext : External) (S : FBBlockSolver) :
    (iteration ext S).max_iterations = S.max_iterations := rfl

theorem iteration_epsilon (ext : External) (S : FBBlockSolver) :
    (iteration ext S).epsilon = S.epsilon := rfl

theorem after_iterations_succ (ext : External) (S : FBBlockSolver) (k : Nat) :
    after_iterations ext S (k + 1) = after_iterations ext (iteration ext S) k := by
  unfold after_iterations
  rw [Function.iterate_succ_apply]

theorem after_iterations_succ_last (ext : External) (S : FBBlockSolver) (k : Nat) :
    after_iterations ext S (k + 1) = iteration ext (after_iterations ext S k) := by
  unfold after_iterations
  rw [Function.iterate_succ_apply']

theorem after_iterations_fields (ext : External) (S : FBBlockSolver) (k : Nat) :
    (after_iterations ext S k).num_iterations = S.num_iterations + (k : Int) ∧
      (after_iterations ext S k).max_iterations = S.max_iterations ∧
      (after_iterations ext S k).epsilon = S.epsilon := by
  induction k with
  | zero => simp [after_iterations]
  | succ k ih =>
    rw [after_iterations_succ_last, iteration_num_iterations, iteration_max_iterations,
      iteration_epsilon]
    refine ⟨?_, ih.2.1, ih.2.2⟩
    rw [ih.1]; push_cast; ring

theorem counter_after_succ_last (ext : External) :
    ∀ (k : Nat) (S : FBBlockSolver) (c : Int),
      counter_after ext S c (k + 1) =
        next_below_epsilon ext (after_iterations ext S (k + 1)) (counter_after ext S c k) := by
  intro k
  induction k with
  | zero => intro S c; simp [counter_after, after_iterations]
  | succ k ih =>
    intro S c
    rw [counter_after, ih (iteration ext S), after_iterations_succ ext S (k + 1)]
    rfl

theorem counter_after_eq_trailing (ext : External) (S : FBBlockSolver) :
    ∀ k : Nat, counter_after ext S 0 k = (trailing_below ext S k : Int) := by
  intro k
  induction k with
  | zero => simp [counter_after, trailing_below]
  | succ k ih =>
    rw [counter_after_succ_last, ih]
    unfold next_below_epsilon trailing_below
    rw [List.range_succ, List.reverse_append, List.reverse_singleton, List.singleton_append,
      List.takeWhile_cons]
    have he := (after_iterations_fields ext S (k + 1)).2.2
    by_cases hb : ext.estimatedRelativeError (after_iterations ext S (k + 1)).error_estimator
        < S.epsilon
    · simp [estimate_below, hb, he]
    · simp [estimate_below, hb, he]

theorem loop_condition_iff (ext : External) (S : FBBlockSolver) (k : Nat) :
    loop_condition (after_iterations ext S k) (counter_after ext S 0 k) = true ↔
      continues ext S k := by
  obtain ⟨h1, h2, _⟩ := after_iterations_fields ext S k
  unfold loop_condition continues
  rw [counter_after_eq_trailing, h1, h2]
  simp only [decide_eq_true_eq]
  constructor
  · rintro ⟨ha, hb⟩; exact ⟨ha, by exact_mod_cast hb⟩
  · rintro ⟨ha, hb⟩; exact ⟨ha, by exact_mod_cast hb⟩

theorem iterations_loop_some (ext : External) :
    ∀ (fuel : Nat) (S : FBBlockSolver) (c : Int) (S1 : FBBlockSolver),
      iterations_loop ext fuel S c = some S1 ↔
        ∃ n : Nat, n ≤ fuel ∧
          (∀ k : Nat, k < n →
            loop_condition (after_iterations ext S k) (counter_after ext S c k) = true) ∧
          loop_condition (after_iterations ext S n) (counter_after ext S c n) = false ∧
          S1 = after_iterations ext S n := by
  intro fuel
  induction fuel with
  | zero =>
    intro S c S1
    unfold iterations_loop
    by_cases h : loop_condition S c = true
    · simp only [h, if_true]
      constructor
      · intro hh; cases hh
      · rintro ⟨n, hn, _, h2, _⟩
        have : n = 0 := by omega
        subst this
        simp [after_iterations, counter_after, h] at h2
    · have h' : loop_condition S c = false := by simpa using h
      simp only [h', Bool.false_eq_true, if_false, Option.some.injEq]
      constructor
      · intro hh
        exact ⟨0, le_refl _, fun k hk => absurd hk (Nat.not_lt_zero k),
          by simpa [after_iterations, counter_after] using h, by simp [after_iterations, hh]⟩
      · rintro ⟨n, hn, _, _, h3⟩
        have : n = 0 := by omega
        subst this
        simp [after_iterations, h3]
  | succ fuel ih =>
    intro S c S1
    unfold iterations_loop
    by_cases h : loop_condition S c = true
    · simp only [h, if_true]
      rw [ih]
      constructor
      · rintro ⟨n, hn, h1, h2, h3⟩
        refine ⟨n + 1, by omega, ?_, ?_, ?_⟩
        · intro k hk
          cases k with
          | zero => simpa [after_iterations, counter_after] using h
          | succ k =>
            rw [after_iterations_succ]
            exact h1 k (by omega)
        · rw [after_iterations_succ]; exact h2
        · rw [after_iterations_succ]; exact h3
      · rintro ⟨n, hn, h1, h2, h3⟩
        cases n with
        | zero => simp [after_iterations, counter_after, h] at h2
        | succ n =>
          refine ⟨n, by omega, ?_, ?_, ?_⟩
          · intro k hk
            have := h1 (k + 1) (by omega)
            rw [after_iterations_succ] at this
            exact this
          · rw [after_iterations_succ] at h2; exact h2
          · rw [after_iterations_succ] at h3; exact h3
    · have h' : loop_condition S c = false := by simpa using h
      simp only [h', Bool.false_eq_true, if_false, Option.some.injEq]
      constructor
      · intro hh
        exact ⟨0, Nat.zero_le _, fun k hk => absurd hk (Nat.not_lt_zero k),
          by simpa [after_iterations, counter_after] using h, by simp [after_iterations, hh]⟩
      · rintro ⟨n, hn, h1, _, h3⟩
        cases n with
        | zero => simp [after_iterations, h3]
        | succ n =>
          have := h1 0 (by omega)
          simp [after_iterations, counter_after] at this
          exact absurd this h

theorem trailing_below_succ (ext : External) (S : FBBlockSolver) (k : Nat) :
    trailing_below ext S (k + 1) =
      if estimate_below ext S (k + 1) = true then trailing_below ext S k + 1 else 0 := by
  unfold trailing_below
  rw [List.range_succ, List.reverse_append, List.reverse_singleton, List.singleton_append,
    List.takeWhile_cons]
  split <;> simp_all

theorem trailing_below_run (ext : External) (S : FBBlockSolver) :
    ∀ (k t : Nat), t ≤ trailing_below ext S k →
      t ≤ k ∧ ∀ j : Nat, k - t < j → j ≤ k → estimate_below ext S j = true := by
  intro k
  induction k with
  | zero =>
    intro t ht
    simp only [trailing_below, List.range_zero, List.reverse_nil, List.takeWhile_nil,
      List.length_nil, Nat.le_zero_eq] at ht
    subst ht
    exact ⟨le_refl _, fun j h1 h2 => by omega⟩
  | succ k ih =>
    intro t ht
    rw [trailing_below_succ] at ht
    cases t with
    | zero => exact ⟨Nat.zero_le _, fun j h1 h2 => by omega⟩
    | succ t =>
      by_cases hb : estimate_below ext S (k + 1) = true
      · simp only [hb, if_true] at ht
        obtain ⟨h1, h2⟩ := ih t (by omega)
        refine ⟨by omega, fun j hj1 hj2 => ?_⟩
        by_cases hj : j = k + 1
        · rw [hj]; exact hb
        · exact h2 j (by omega) (by omega)
      · have hb' : estimate_below ext S (k + 1) = false := by simpa using hb
        simp [hb'] at ht

/-- C5. Stopping rule of `do_iterations()`.  The call ends in state `S1` within `fuel`
passes iff `S1` is the state after some `n <= fuel` passes such that the rule "iteration
count below `max_iterations` (or `max_iterations <= 0`) and fewer than 5 immediately
preceding consecutive below-epsilon estimates" held before each of the `n` passes and
fails after the `n`-th.  When it fails after `n` passes that all were allowed, either the
count has reached a positive `max_iterations` or pass `n` completed a run of exactly 5
consecutive below-epsilon estimates. -/
theorem do_iterations_stopping_rule (ext : External) (S S1 : FBBlockSolver) (fuel : Nat) :
    (do_iterations ext fuel S = some S1 ↔
      ∃ n : Nat, n ≤ fuel ∧
        (∀ k : Nat, k < n → continues ext (install_adjuster S) k) ∧
        ¬ continues ext (install_adjuster S) n ∧
        S1 = after_iterations ext (install_adjuster S) n) ∧
    (∀ n : Nat, (∀ k : Nat, k < n → continues ext (install_adjuster S) k) →
      ¬ continues ext (install_adjuster S) n →
      (0 < S.max_iterations ∧ S.max_iterations ≤ S.num_iterations + (n : Int)) ∨
      (5 ≤ n ∧ trailing_below ext (install_adjuster S) n = 5 ∧
        ∀ j : Nat, n - 5 < j → j ≤ n → estimate_below ext (install_adjuster S) j = true)) := by
  constructor
  · unfold do_iterations
    rw [iterations_loop_some]
    constructor
    · rintro ⟨n, hn, h1, h2, h3⟩
      refine ⟨n, hn, fun k hk => (loop_condition_iff ext _ k).mp (h1 k hk), ?_, h3⟩
      intro hc
      rw [(loop_condition_iff ext _ n).mpr hc] at h2
      cases h2
    · rintro ⟨n, hn, h1, h2, h3⟩
      refine ⟨n, hn, fun k hk => (loop_condition_iff ext _ k).mpr (h1 k hk), ?_, h3⟩
      cases hc : loop_condition (after_iterations ext (install_adjuster S) n)
          (counter_after ext (install_adjuster S) 0 n) with
      | false => rfl
      | true => exact absurd ((loop_condition_iff ext _ n).mp hc) h2
  · intro n h1 h2
    have hmax : (install_adjuster S).max_iterations = S.max_iterations := rfl
    have hnum : (install_adjuster S).num_iterations = S.num_iterations := rfl
    by_cases hm : S.num_iterations + (n : Int) < S.max_iterations ∨ S.max_iterations ≤ 0
    · right
      have h5 : ¬ trailing_below ext (install_adjuster S) n < 5 := by
        intro h; exact h2 ⟨by rw [hmax, hnum]; exact hm, h⟩
      have hn0 : n ≠ 0 := by
        rintro rfl
        simp [trailing_below] at h5
      obtain ⟨m, rfl⟩ := Nat.exists_eq_succ_of_ne_zero hn0
      have hprev := (h1 m (Nat.lt_succ_self m)).2
      have hsucc := trailing_below_succ ext (install_adjuster S) m
      have heq : trailing_below ext (install_adjuster S) (m + 1) = 5 := by
        simp only [Nat.succ_eq_add_one] at h5
        split at hsucc <;> omega
      obtain ⟨hr1, hr2⟩ := trailing_below_run ext (install_adjuster S) (m + 1) 5 (by omega)
      exact ⟨hr1, heq, hr2⟩
    · left
      push_neg at hm
      exact ⟨hm.2, hm.1⟩

end FBBlockSolver

end FB

/-! ## Generic facts about accumulation loops -/

namespace FB

theorem foldl_add_eq_sum {α : Type} (f : α → ℚ) :
    ∀ (l : List α) (a : ℚ), l.foldl (fun acc c => acc + f c) a = a + (l.map f).sum := by
  intro l
  induction l with
  | nil => intro a; simp
  | cons b l ih => intro a; simp only [List.foldl_cons, ih, List.map_cons, List.sum_cons]; ring

theorem foldl_cond_add_eq_sum {α : Type} (c : α → Prop) [DecidablePred c] (f : α → ℚ) :
    ∀ (l : List α) (a : ℚ),
      l.foldl (fun acc i => if c i then acc + f i else acc) a =
        a + (l.map fun i => if c i then f i else 0).sum := by
  intro l
  induction l with
  | nil => intro a; simp
  | cons b l ih =>
    intro a
    simp only [List.foldl_cons, ih, List.map_cons, List.sum_cons]
    split <;> ring

/-- A scatter-add loop: every step adds `v k` at the index `idx k`, when `c k` holds. -/
theorem foldl_scatter_apply {α : Type} (c : α → Prop) [DecidablePred c] (idx : α → Int)
    (v : α → ℚ) (i : Int) :
    ∀ (l : List α) (Y : Vec),
      l.foldl (fun Y k => if c k then Function.update Y (idx k) (Y (idx k) + v k) else Y) Y i =
        Y i + (l.map fun k => if c k ∧ idx k = i then v k else 0).sum := by
  intro l
  induction l with
  | nil => intro Y; simp
  | cons b l ih =>
    intro Y
    simp only [List.foldl_cons, ih, List.map_cons, List.sum_cons]
    by_cases hc : c b
    · by_cases hi : idx b = i
      · simp only [hc, hi, if_true, and_self, Function.update_same]; ring
      · have hi' : i ≠ idx b := fun h => hi h.symm
        simp only [hc, hi, if_true, and_false, if_false, Function.update_noteq hi']; ring
    · simp only [hc, if_false, false_and]; ring

/-- An accumulation loop over a list whose step adds a contribution `d e i` at every index
`i`. -/
theorem foldl_pointwise_add {α : Type} (g : Vec → α → Vec) (d : α → Int → ℚ) (i : Int)
    (hg : ∀ (Y : Vec) (e : α), g Y e i = Y i + d e i) :
    ∀ (l : List α) (Y : Vec), l.foldl g Y i = Y i + (l.map fun e => d e i).sum := by
  intro l
  induction l with
  | nil => intro Y; simp
  | cons b l ih =>
    intro Y
    simp only [List.foldl_cons, ih, List.map_cons, List.sum_cons, hg]; ring

end FB

/-! ## The block operator -/

namespace FB

namespace FBBlock

theorem Y0_row_eq_sum (K : Nat → Nat → ℚ) (X0 : Nat → ℚ) (rr : Nat) :
    Y0_row K X0 rr = ((List.range 24).map fun cc => K rr cc * X0 cc).sum := by
  unfold Y0_row
  rw [foldl_add_eq_sum]; ring

theorem bvf_factor_eq (B : FBBlock) (E0 : FBBlockElement) :
    bvf_factor B.nonlinear_adjuster E0 = (E0.bvf : ℚ) / 100 * phi B E0 := by
  unfold bvf_factor phi
  cases B.nonlinear_adjuster <;> simp

theorem scatter_element_apply (vt : Int → Nat) (E0 : FBBlockElement) (Y0 : Nat → ℚ)
    (factor : ℚ) (Y : Vec) (i : Int) :
    scatter_element vt E0 Y0 factor Y i =
      Y i + ((List.range 24).map fun kk =>
        if vt (varinds E0 kk) ≠ 3 ∧ varinds E0 kk = i then Y0 kk * factor else 0).sum := by
  unfold scatter_element
  exact foldl_scatter_apply (fun kk => vt (varinds E0 kk) ≠ 3) (varinds E0)
    (fun kk => Y0 kk * factor) i (List.range 24) Y

theorem multiply_by_A_apply (B : FBBlock) (X : Vec) (i : Int) :
    multiply_by_A B X i =
      (B.elements.map fun E0 =>
        ((List.range 24).map fun kk =>
          if B.vertex_type (varinds E0 kk) ≠ 3 ∧ varinds E0 kk = i then
            Y0_row B.stiffness_matrix (fun kk => X (varinds E0 kk)) kk *
              bvf_factor B.nonlinear_adjuster E0
          else 0).sum).sum := by
  unfold multiply_by_A
  rw [foldl_pointwise_add _
    (fun E0 i => ((List.range 24).map fun kk =>
      if B.vertex_type (varinds E0 kk) ≠ 3 ∧ varinds E0 kk = i then
        Y0_row B.stiffness_matrix (fun kk => X (varinds E0 kk)) kk *
          bvf_factor B.nonlinear_adjuster E0
      else 0).sum) i
    (fun Y E0 => scatter_element_apply B.vertex_type E0 _ _ Y i)]
  simp

/-- C9. Matvec definition: for every block state and every input vector `v`, the loop
nest of `multiply_by_A` computes, at every index `i`, the sum over all elements and all
slots `k` with `varinds[k] = i` of `(bvf/100) * phi(strain) * sum_c K[k][c] *
v[varinds[c]]` when `vertex_type[i] != 3`, and `0` when `vertex_type[i] = 3`; the slots are
`varinds[6k+j] = ref_indices[k] + j` and `phi` is `1` without an adjuster. -/
theorem multiply_by_A_eq_matvec_spec (B : FBBlock) (v : Vec) (i : Int) :
    multiply_by_A B v i = matvec_spec B v i ∧
      (∀ (e : FBBlockElement) (k j : Nat), k < 4 → j < 6 →
        varinds e (6 * k + j) = e.ref_indices k + (j : Int)) ∧
      (B.nonlinear_adjuster = none → ∀ e, phi B e = 1) := by
  refine ⟨?_, ?_, ?_⟩
  · rw [multiply_by_A_apply]
    unfold matvec_spec
    by_cases hv : B.vertex_type i ≠ 3
    · rw [if_pos hv]
      congr 1
      apply List.map_congr_left
      intro e _
      congr 1
      apply List.map_congr_left
      intro k _
      by_cases hk : varinds e k = i
      · have hv' : B.vertex_type (varinds e k) ≠ 3 := by rw [hk]; exact hv
        simp only [hk, hv, and_self, if_true, ne_eq, not_false_eq_true]
        rw [Y0_row_eq_sum, bvf_factor_eq]
        ring
      · simp only [hk, and_false, if_false]
    · rw [if_neg hv]
      have hz : ∀ e ∈ B.elements, ((List.range 24).map fun kk =>
          if B.vertex_type (varinds e kk) ≠ 3 ∧ varinds e kk = i then
            Y0_row B.stiffness_matrix (fun kk => v (varinds e kk)) kk *
              bvf_factor B.nonlinear_adjuster e
          else 0).sum = 0 := by
        intro e _
        apply List.sum_eq_zero
        intro q hq
        obtain ⟨kk, _, rfl⟩ := List.mem_map.mp hq
        by_cases hk : varinds e kk = i
        · have : ¬ (B.vertex_type (varinds e kk) ≠ 3 ∧ varinds e kk = i) := by
            rw [hk]; exact fun h => hv h.1
          simp only [this, if_false]
        · simp only [hk, and_false, if_false]
      apply List.sum_eq_zero
      intro q hq
      obtain ⟨e, he, rfl⟩ := List.mem_map.mp hq
      exact hz e he
  · intro e k j hk hj
    unfold varinds
    have h1 : (6 * k + j) / 6 = k := by omega
    have h2 : (6 * k + j) % 6 = j := by omega
    rw [h1, h2]
  · intro h e
    unfold phi
    rw [h]

end FBBlock

end FB

/-! ## Step B -/

namespace FB

namespace FBBlock

theorem step_B_update_eq (alpha beta : ℚ) (B : FBBlock) (a : Int) :
    step_B_update alpha beta B a =
      { B with
        r := Function.update B.r a (B.r a - B.Ap a * alpha)
        x := if B.free a ≠ 0 then Function.update B.x a (B.x a + B.p a * alpha) else B.x
        p :=
          if B.free a ≠ 0 then
            Function.update B.p a
              (if B.use_preconditioner = true ∧ B.preconditioner a ≠ 0 then
                B.p a * beta + (B.r a - B.Ap a * alpha) / B.preconditioner a
              else B.p a * beta + (B.r a - B.Ap a * alpha))
          else B.p } := by
  unfold step_B_update
  by_cases hf : B.free a ≠ 0
  · by_cases hp : B.use_preconditioner = true ∧ B.preconditioner a ≠ 0
    · simp only [hf, hp, if_true, Function.update_same, ne_eq, not_false_eq_true, and_self]
    · simp only [hf, hp, if_true, if_false, Function.update_same, ne_eq, not_false_eq_true]
  · simp only [hf, if_false]

theorem foldl_step_B_update (alpha beta : ℚ) :
    ∀ (l : List Int), l.Nodup → ∀ B : FBBlock,
      l.foldl (step_B_update alpha beta) B =
        { B with
          r := fun j => if j ∈ l then B.r j - B.Ap j * alpha else B.r j
          x := fun j => if j ∈ l ∧ B.free j ≠ 0 then B.x j + B.p j * alpha else B.x j
          p := fun j =>
            if j ∈ l ∧ B.free j ≠ 0 then
              (if B.use_preconditioner = true ∧ B.preconditioner j ≠ 0 then
                B.p j * beta + (B.r j - B.Ap j * alpha) / B.preconditioner j
              else B.p j * beta + (B.r j - B.Ap j * alpha))
            else B.p j } := by
  intro l
  induction l with
  | nil => intro _ B; simp
  | cons a l ih =>
    intro hnd B
    obtain ⟨ha, hl⟩ := List.nodup_cons.mp hnd
    rw [List.foldl_cons, ih hl, step_B_update_eq]
    apply FBBlock.ext <;> try rfl
    · -- x
      funext j
      by_cases hja : j = a
      · subst hja
        by_cases hf : B.free j ≠ 0 <;> simp [ha, hf]
      · by_cases hjl : j ∈ l <;> by_cases hf : B.free j ≠ 0 <;>
          by_cases hfa : B.free a ≠ 0 <;> simp [hja, hjl, hf, hfa, Function.update_noteq]
    · -- r
      funext j
      by_cases hja : j = a
      · subst hja; simp [ha]
      · by_cases hjl : j ∈ l <;> simp [hja, hjl, Function.update_noteq]
    · -- p
      funext j
      by_cases hja : j = a
      · subst hja
        by_cases hf : B.free j ≠ 0 <;> simp [ha, hf]
      · by_cases hjl : j ∈ l <;> by_cases hf : B.free j ≠ 0 <;>
          by_cases hfa : B.free a ≠ 0 <;> simp [hja, hjl, hf, hfa, Function.update_noteq]

theorem iterate_step_B_vectors (sqrt : ℚ → ℚ) (B : FBBlock)
    (P : FBBlockIterateStepBParameters) :
    (iterate_step_B sqrt B P).1.r =
        ((idxRange B.num_variables).foldl (step_B_update P.alpha P.beta) B).r ∧
      (iterate_step_B sqrt B P).1.x =
        ((idxRange B.num_variables).foldl (step_B_update P.alpha P.beta) B).x ∧
      (iterate_step_B sqrt B P).1.p =
        ((idxRange B.num_variables).foldl (step_B_update P.alpha P.beta) B).p := by
  unfold iterate_step_B
  simp only
  split <;> exact ⟨rfl, rfl, rfl⟩

/-- C8. Step-B recurrence: for every block state, every `alpha`, `beta` and every local
variable `i` (free or fixed, owned or outer-interface), `iterate_step_B` sets `r[i]` to
`r[i] - alpha*Ap[i]`; at a free variable it sets `x[i]` to `x[i] + alpha*p[i]` and `p[i]` to
`beta*p[i] + r_new[i]/diag[i]` when the preconditioner is in use and `diag[i] != 0`, and to
`beta*p[i] + r_new[i]` otherwise, with `r_new` the residual just updated; at a fixed
variable `x[i]` and `p[i]` are unchanged. -/
theorem iterate_step_B_recurrence (sqrt : ℚ → ℚ) (B : FBBlock)
    (P : FBBlockIterateStepBParameters) (i : Int) (hi : 0 ≤ i ∧ i < B.num_variables) :
    (iterate_step_B sqrt B P).1.r i = B.r i - P.alpha * B.Ap i ∧
    (B.free i ≠ 0 →
      (iterate_step_B sqrt B P).1.x i = B.x i + P.alpha * B.p i ∧
      (iterate_step_B sqrt B P).1.p i =
        if B.use_preconditioner = true ∧ B.preconditioner i ≠ 0 then
          P.beta * B.p i + (iterate_step_B sqrt B P).1.r i / B.preconditioner i
        else P.beta * B.p i + (iterate_step_B sqrt B P).1.r i) ∧
    (B.free i = 0 →
      (iterate_step_B sqrt B P).1.x i = B.x i ∧ (iterate_step_B sqrt B P).1.p i = B.p i) := by
  obtain ⟨hr, hx, hp⟩ := iterate_step_B_vectors sqrt B P
  have hmem : i ∈ idxRange B.num_variables := mem_idxRange.mpr hi
  rw [hr, hx, hp, foldl_step_B_update P.alpha P.beta _ (nodup_idxRange _) B]
  simp only [hmem, true_and, if_true]
  refine ⟨by ring, ?_, ?_⟩
  · intro hf
    simp only [hf, if_true, ne_eq, not_false_eq_true]
    refine ⟨by ring, ?_⟩
    split <;> ring
  · intro hf
    simp [hf]

/-- Witness for C8: variable `0` of the half-voxel block after its first step A, a free
variable with `x = 1`, `r = -1/2`, `p = -1`, `Ap = -12` and preconditioner entry `1/2`,
stepped with `alpha = 1/12` and `beta = 1/2`: the recurrence gives `r = 1/2`, `x = 11/12`
and `p = 1/2 * (-1) + (1/2) / (1/2) = 1/2`.  On the block with every variable fixed, `x`
and `p` are unchanged at variable `0`. -/
theorem iterate_step_B_recurrence_witness :
    ((0 ≤ (0 : Int) ∧ (0 : Int) < FBBlockSolver.stepped_half_block.num_variables) ∧
      FBBlockSolver.stepped_half_block.free 0 ≠ 0 ∧
      FBBlockSolver.stepped_half_block.use_preconditioner = true ∧
      FBBlockSolver.stepped_half_block.preconditioner 0 = 1 / 2 ∧
      FBBlockSolver.stepped_half_block.x 0 = 1 ∧
      FBBlockSolver.stepped_half_block.r 0 = -1 / 2 ∧
      FBBlockSolver.stepped_half_block.p 0 = -1 ∧
      FBBlockSolver.stepped_half_block.Ap 0 = -12) ∧
    ((iterate_step_B (fun q => q) FBBlockSolver.stepped_half_block
          { alpha := 1 / 12, beta := 1 / 2 }).1.r 0 =
        FBBlockSolver.stepped_half_block.r 0 -
          (1 / 12 : ℚ) * FBBlockSolver.stepped_half_block.Ap 0 ∧
      (iterate_step_B (fun q => q) FBBlockSolver.stepped_half_block
          { alpha := 1 / 12, beta := 1 / 2 }).1.x 0 =
        FBBlockSolver.stepped_half_block.x 0 +
          (1 / 12 : ℚ) * FBBlockSolver.stepped_half_block.p 0 ∧
      (iterate_step_B (fun q => q) FBBlockSolver.stepped_half_block
          { alpha := 1 / 12, beta := 1 / 2 }).1.p 0 =
        (1 / 2 : ℚ) * FBBlockSolver.stepped_half_block.p 0 +
          (iterate_step_B (fun q => q) FBBlockSolver.stepped_half_block
            { alpha := 1 / 12, beta := 1 / 2 }).1.r 0 /
            FBBlockSolver.stepped_half_block.preconditioner 0) ∧
    ((iterate_step_B (fun q => q) FBBlockSolver.stepped_half_block
          { alpha := 1 / 12, beta := 1 / 2 }).1.r 0 = 1 / 2 ∧
      (iterate_step_B (fun q => q) FBBlockSolver.stepped_half_block
          { alpha := 1 / 12, beta := 1 / 2 }).1.x 0 = 11 / 12 ∧
      (iterate_step_B (fun q => q) FBBlockSolver.stepped_half_block
          { alpha := 1 / 12, beta := 1 / 2 }).1.p 0 = 1 / 2) ∧
    ((0 ≤ (0 : Int) ∧ (0 : Int) < FBBlockSolver.stepped_clamped_block.num_variables) ∧
      FBBlockSolver.stepped_clamped_block.free 0 = 0 ∧
      (iterate_step_B (fun q => q) FBBlockSolver.stepped_clamped_block
          { alpha := 1 / 12, beta := 1 / 2 }).1.x 0 = FBBlockSolver.stepped_clamped_block.x 0 ∧
      (iterate_step_B (fun q => q) FBBlockSolver.stepped_clamped_block
          { alpha := 1 / 12, beta := 1 / 2 }).1.p 0 =
        FBBlockSolver.stepped_clamped_block.p 0) := by
  have hf : FBBlockSolver.stepped_half_block.free 0 ≠ 0 := by decide!
  have hc : FBBlockSolver.stepped_clamped_block.free 0 = 0 := by decide!
  have h := iterate_step_B_recurrence (fun q => q) FBBlockSolver.stepped_half_block
    { alpha := 1 / 12, beta := 1 / 2 } 0 (by decide!)
  have h2 := iterate_step_B_recurrence (fun q => q) FBBlockSolver.stepped_clamped_block
    { alpha := 1 / 12, beta := 1 / 2 } 0 (by decide!)
  exact ⟨by decide!,
    ⟨h.1, (h.2.1 hf).1, (h.2.1 hf).2.trans (if_pos ⟨by decide!, by decide!⟩)⟩,
    by decide!,
    ⟨by decide!, hc, h2.2.2 hc⟩⟩

end FBBlock

end FB

/-! ## Step A -/

namespace FB

theorem foldl_preserves {α β : Type} (g : β → α → β) (Q : β → Prop)
    (hg : ∀ b a, Q b → Q (g b a)) : ∀ (l : List α) (b : β), Q b → Q (l.foldl g b) := by
  intro l
  induction l with
  | nil => intro b hb; exact hb
  | cons a l ih => intro b hb; exact ih _ (hg b a hb)

namespace FBBlock

theorem inner_product_on_owned_free_variables_eq (B : FBBlock) (V1 V2 : Vec) :
    inner_product_on_owned_free_variables B V1 V2 =
      ((idxRange B.num_variables).map fun i =>
        if B.vertex_type i ≠ 3 ∧ B.free i ≠ 0 then V1 i * V2 i else 0).sum := by
  unfold inner_product_on_owned_free_variables
  rw [foldl_cond_add_eq_sum (fun i => B.vertex_type i ≠ 3 ∧ B.free i ≠ 0)
    (fun i => V1 i * V2 i)]
  ring

theorem inner_product_on_owned_free_variables3_eq (B : FBBlock) (V1 V2 V3 : Vec) :
    inner_product_on_owned_free_variables3 B V1 V2 V3 =
      ((idxRange B.num_variables).map fun i =>
        if B.vertex_type i ≠ 3 ∧ B.free i ≠ 0 then
          (if V3 i ≠ 0 then V1 i * V2 i / V3 i else V1 i * V2 i)
        else 0).sum := by
  unfold inner_product_on_owned_free_variables3
  have hfun : (fun (ret : ℚ) (ii : Int) =>
      if B.vertex_type ii ≠ 3 ∧ B.free ii ≠ 0 then
        if V3 ii ≠ 0 then ret + V1 ii * V2 ii / V3 ii else ret + V1 ii * V2 ii
      else ret) =
      (fun (ret : ℚ) (ii : Int) =>
        if B.vertex_type ii ≠ 3 ∧ B.free ii ≠ 0 then
          ret + (if V3 ii ≠ 0 then V1 ii * V2 ii / V3 ii else V1 ii * V2 ii)
        else ret) := by
    funext ret ii
    split_ifs <;> rfl
  rw [hfun, foldl_cond_add_eq_sum (fun i => B.vertex_type i ≠ 3 ∧ B.free i ≠ 0)
    (fun i => if V3 i ≠ 0 then V1 i * V2 i / V3 i else V1 i * V2 i)]
  ring

theorem free_ne_zero_iff (B : FBBlock) (h01 : ∀ i, B.free i ≤ 1) (i : Int) :
    B.free i ≠ 0 ↔ B.free i = 1 := by
  have := h01 i
  omega

theorem write_outer_interface_with_r (B : FBBlock) (R : Vec)
    (P : FBBlockIterateStepAParameters) :
    write_outer_interface { B with r := R } P = write_outer_interface B P := rfl

theorem multiply_by_A_with_r (B : FBBlock) (R : Vec) (X : Vec) :
    multiply_by_A { B with r := R } X = multiply_by_A B X := rfl

theorem multiply_by_A_with_p (B : FBBlock) (Pv : Vec) (X : Vec) :
    multiply_by_A { B with p := Pv } X = multiply_by_A B X := rfl

theorem step_A_vectors_p (B : FBBlock) (P : FBBlockIterateStepAParameters) :
    (step_A_vectors B P).p = write_outer_interface B P := by
  unfold step_A_vectors
  dsimp only
  split <;> rfl

theorem step_A_vectors_Ap (B : FBBlock) (P : FBBlockIterateStepAParameters) :
    (step_A_vectors B P).Ap = multiply_by_A B (write_outer_interface B P) := by
  unfold step_A_vectors
  dsimp only
  split
  · rw [multiply_by_A_with_p, multiply_by_A_with_r, write_outer_interface_with_r]
  · rw [multiply_by_A_with_p]

theorem step_A_vectors_r (B : FBBlock) (P : FBBlockIterateStepAParameters) :
    (step_A_vectors B P).r =
      match B.nonlinear_adjuster with
      | some _ => negate B.num_variables (multiply_by_A B B.x)
      | none => B.r := by
  unfold step_A_vectors
  dsimp only
  split <;> rfl

theorem step_A_vectors_frame (B : FBBlock) (P : FBBlockIterateStepAParameters) :
    (step_A_vectors B P).x = B.x ∧
    (step_A_vectors B P).free = B.free ∧
    (step_A_vectors B P).vertex_type = B.vertex_type ∧
    (step_A_vectors B P).num_variables = B.num_variables ∧
    (step_A_vectors B P).preconditioner = B.preconditioner ∧
    (step_A_vectors B P).use_preconditioner = B.use_preconditioner ∧
    (step_A_vectors B P).variable_indices = B.variable_indices ∧
    (step_A_vectors B P).nonlinear_adjuster = B.nonlinear_adjuster := by
  unfold step_A_vectors
  dsimp only
  split <;> exact ⟨rfl, rfl, rfl, rfl, rfl, rfl, rfl, rfl⟩

theorem iterate_step_A_fst (B : FBBlock) (P : FBBlockIterateStepAParameters) :
    (iterate_step_A B P).1 = step_A_vectors B P := rfl

theorem setup_variable_free_le_one (P : FBBlockSetupParameters) (vi : Int → Int → Int → Int)
    (xx yy zz : Int) (s : SetupArrays) (dd : Int) (h : ∀ i, s.free i ≤ 1) :
    ∀ i, (setup_variable P vi xx yy zz s dd).free i ≤ 1 := by
  intro i
  unfold setup_variable
  dsimp only
  split_ifs <;> first
    | exact h i
    | (simp only [Function.update_apply]; split_ifs <;> first | exact le_refl _ | exact h i)

theorem setup_arrays_free_le_one (P : FBBlockSetupParameters) (occ : Int → Int → Int → Nat)
    (vi : Int → Int → Int → Int) : ∀ i, (setup_arrays P occ vi).free i ≤ 1 := by
  unfold setup_arrays
  refine foldl_preserves (setup_vertex P occ vi) (fun s => ∀ i, s.free i ≤ 1) ?_ _ _
    (fun _ => Nat.zero_le _)
  intro s c hs
  unfold setup_vertex
  split
  · exact foldl_preserves (setup_variable P vi c.1 c.2.1 c.2.2) (fun s => ∀ i, s.free i ≤ 1)
      (fun s dd hs => setup_variable_free_le_one P vi c.1 c.2.1 c.2.2 s dd hs) _ _ hs
  · exact hs

/-- After `setup` every entry of `free` is `0` or `1`. -/
theorem setup_free_le_one (P : FBBlockSetupParameters) : ∀ i, (setup P).1.free i ≤ 1 := by
  intro i
  by_cases h : (assign_variable_indices P (vertex_occupancy P)).1 = 0
  · have hf : (setup P).1.free = fun _ => 0 := by
      unfold setup
      dsimp only
      rw [if_pos h]
      rfl
    rw [hf]
    exact Nat.zero_le _
  · have hf : (setup P).1.free =
        (setup_arrays P (vertex_occupancy P)
          (assign_variable_indices P (vertex_occupancy P)).2).free := by
      unfold setup
      dsimp only
      rw [if_neg h]
      split_ifs <;> rfl
    rw [hf]
    exact setup_arrays_free_le_one P _ _ i

/-- C10. Step-A outputs: `iterate_step_A` first writes the neighbour slices into `p` and
sets `Ap = A p` for that `p`; it leaves `r` as it is when no adjuster is installed; and it
returns `r_z`, `r_Ap`, `Ap_Ap` and `p_Ap` as the sums of `r[i]*r[i]`, `r[i]*Ap[i]`,
`Ap[i]*Ap[i]` and `p[i]*Ap[i]` over exactly the variables with `vertex_type[i] != 3` and
`free[i] = 1`, each term of the first three divided by `preconditioner[i]` when the
preconditioner is in use and nonzero there, and `p_Ap` never divided. -/
theorem iterate_step_A_outputs (B : FBBlock) (P : FBBlockIterateStepAParameters)
    (h01 : ∀ i, B.free i ≤ 1) :
    (iterate_step_A B P).1.p = write_outer_interface B P ∧
    (iterate_step_A B P).1.Ap = multiply_by_A B (iterate_step_A B P).1.p ∧
    (B.nonlinear_adjuster = none → (iterate_step_A B P).1.r = B.r) ∧
    (iterate_step_A B P).2.r_z =
      owned_free_sum B (preconditioned_term B (iterate_step_A B P).1.r
        (iterate_step_A B P).1.r) ∧
    (iterate_step_A B P).2.r_Ap =
      owned_free_sum B (preconditioned_term B (iterate_step_A B P).1.r
        (iterate_step_A B P).1.Ap) ∧
    (iterate_step_A B P).2.Ap_Ap =
      owned_free_sum B (preconditioned_term B (iterate_step_A B P).1.Ap
        (iterate_step_A B P).1.Ap) ∧
    (iterate_step_A B P).2.p_Ap =
      owned_free_sum B fun i => (iterate_step_A B P).1.p i * (iterate_step_A B P).1.Ap i := by
  have hsum : ∀ f : Int → ℚ, owned_free_sum B f =
      ((idxRange B.num_variables).map fun i =>
        if B.vertex_type i ≠ 3 ∧ B.free i ≠ 0 then f i else 0).sum := by
    intro f
    unfold owned_free_sum
    congr 1
    apply List.map_congr_left
    intro i _
    simp only [free_ne_zero_iff B h01 i]
  obtain ⟨_, hfree, hvt, hnum, hprec, huse, _, _⟩ := step_A_vectors_frame B P
  have hip : ∀ V1 V2 : Vec,
      inner_product_on_owned_free_variables (step_A_vectors B P) V1 V2 =
        ((idxRange B.num_variables).map fun i =>
          if B.vertex_type i ≠ 3 ∧ B.free i ≠ 0 then V1 i * V2 i else 0).sum := by
    intro V1 V2
    rw [inner_product_on_owned_free_variables_eq, hfree, hvt, hnum]
  have hip3 : ∀ V1 V2 : Vec,
      inner_product_on_owned_free_variables3 (step_A_vectors B P) V1 V2 B.preconditioner =
        ((idxRange B.num_variables).map fun i =>
          if B.vertex_type i ≠ 3 ∧ B.free i ≠ 0 then
            (if B.preconditioner i ≠ 0 then V1 i * V2 i / B.preconditioner i else V1 i * V2 i)
          else 0).sum := by
    intro V1 V2
    rw [inner_product_on_owned_free_variables3_eq, hfree, hvt, hnum]
  simp only [iterate_step_A_fst]
  refine ⟨step_A_vectors_p B P, ?_, ?_, ?_, ?_, ?_, ?_⟩
  · rw [step_A_vectors_Ap, step_A_vectors_p]
  · intro h
    rw [step_A_vectors_r, h]
  iterate 3
    rw [hsum]
    unfold iterate_step_A
    dsimp only
    rw [huse, hprec]
    by_cases hu : B.use_preconditioner = true
    · simp only [hu, if_true, hip, hip3, preconditioned_term, true_and]
    · have hu' : B.use_preconditioner = false := by simpa using hu
      simp only [hu', Bool.false_eq_true, if_false, hip, hip3, preconditioned_term, false_and]
  rw [hsum]
  unfold iterate_step_A
  dsimp only
  exact hip _ _

/-- Witness for C10: the second block of the two-thread half-voxel solver as `setup` leaves
it, with the preconditioner in use (diagonal `1/2`), twelve outer-interface variables
(`0..11`) and twelve owned free variables (`12..23`, `r = -1/2`, `p = -1`), stepped with
the value `7` on the neighbour's slice: `p` becomes `7` on the outer interface, `Ap = 36`
on the owned variables, and the outputs are `r_z = 12 * (1/4) / (1/2) = 6`,
`r_Ap = 12 * (-18) / (1/2) = -432`, `Ap_Ap = 12 * 1296 / (1/2) = 31104` and
`p_Ap = 12 * (-36) = -432`. -/
theorem iterate_step_A_outputs_witness :
    (∀ i, FBBlockSolver.upper_half_block.free i ≤ 1) ∧
    (FBBlockSolver.upper_half_block.num_variables = 24 ∧
      FBBlockSolver.upper_half_block.use_preconditioner = true ∧
      FBBlockSolver.upper_half_block.vertex_type 0 = 3 ∧
      FBBlockSolver.upper_half_block.vertex_type 12 ≠ 3 ∧
      FBBlockSolver.upper_half_block.free 12 = 1 ∧
      FBBlockSolver.upper_half_block.preconditioner 12 = 1 / 2 ∧
      FBBlockSolver.upper_half_block.r 12 = -1 / 2) ∧
    ((iterate_step_A FBBlockSolver.upper_half_block
        { p_on_top_outer_interface := fun _ _ _ => 7 }).1.p 0 = 7 ∧
      (iterate_step_A FBBlockSolver.upper_half_block
        { p_on_top_outer_interface := fun _ _ _ => 7 }).1.r 12 = -1 / 2 ∧
      (iterate_step_A FBBlockSolver.upper_half_block
        { p_on_top_outer_interface := fun _ _ _ => 7 }).1.Ap 12 = 36 ∧
      (iterate_step_A FBBlockSolver.upper_half_block
        { p_on_top_outer_interface := fun _ _ _ => 7 }).2.r_z = 6 ∧
      (iterate_step_A FBBlockSolver.upper_half_block
        { p_on_top_outer_interface := fun _ _ _ => 7 }).2.r_Ap = -432 ∧
      (iterate_step_A FBBlockSolver.upper_half_block
        { p_on_top_outer_interface := fun _ _ _ => 7 }).2.Ap_Ap = 31104 ∧
      (iterate_step_A FBBlockSolver.upper_half_block
        { p_on_top_outer_interface := fun _ _ _ => 7 }).2.p_Ap = -432) ∧
    ((iterate_step_A FBBlockSolver.upper_half_block
        { p_on_top_outer_interface := fun _ _ _ => 7 }).1.p =
      write_outer_interface FBBlockSolver.upper_half_block
        { p_on_top_outer_interface := fun _ _ _ => 7 } ∧
    (iterate_step_A FBBlockSolver.upper_half_block
        { p_on_top_outer_interface := fun _ _ _ => 7 }).1.Ap =
      multiply_by_A FBBlockSolver.upper_half_block
        (iterate_step_A FBBlockSolver.upper_half_block
          { p_on_top_outer_interface := fun _ _ _ => 7 }).1.p ∧
    (FBBlockSolver.upper_half_block.nonlinear_adjuster = none →
      (iterate_step_A FBBlockSolver.upper_half_block
        { p_on_top_outer_interface := fun _ _ _ => 7 }).1.r =
        FBBlockSolver.upper_half_block.r) ∧
    (iterate_step_A FBBlockSolver.upper_half_block
        { p_on_top_outer_interface := fun _ _ _ => 7 }).2.r_z =
      owned_free_sum FBBlockSolver.upper_half_block
        (preconditioned_term FBBlockSolver.upper_half_block
          (iterate_step_A FBBlockSolver.upper_half_block
            { p_on_top_outer_interface := fun _ _ _ => 7 }).1.r
          (iterate_step_A FBBlockSolver.upper_half_block
            { p_on_top_outer_interface := fun _ _ _ => 7 }).1.r) ∧
    (iterate_step_A FBBlockSolver.upper_half_block
        { p_on_top_outer_interface := fun _ _ _ => 7 }).2.r_Ap =
      owned_free_sum FBBlockSolver.upper_half_block
        (preconditioned_term FBBlockSolver.upper_half_block
          (iterate_step_A FBBlockSolver.upper_half_block
            { p_on_top_outer_interface := fun _ _ _ => 7 }).1.r
          (iterate_step_A FBBlockSolver.upper_half_block
            { p_on_top_outer_interface := fun _ _ _ => 7 }).1.Ap) ∧
    (iterate_step_A FBBlockSolver.upper_half_block
        { p_on_top_outer_interface := fun _ _ _ => 7 }).2.Ap_Ap =
      owned_free_sum FBBlockSolver.upper_half_block
        (preconditioned_term FBBlockSolver.upper_half_block
          (iterate_step_A FBBlockSolver.upper_half_block
            { p_on_top_outer_interface := fun _ _ _ => 7 }).1.Ap
          (iterate_step_A FBBlockSolver.upper_half_block
            { p_on_top_outer_interface := fun _ _ _ => 7 }).1.Ap) ∧
    (iterate_step_A FBBlockSolver.upper_half_block
        { p_on_top_outer_interface := fun _ _ _ => 7 }).2.p_Ap =
      owned_free_sum FBBlockSolver.upper_half_block fun i =>
        (iterate_step_A FBBlockSolver.upper_half_block
          { p_on_top_outer_interface := fun _ _ _ => 7 }).1.p i *
        (iterate_step_A FBBlockSolver.upper_half_block
          { p_on_top_outer_interface := fun _ _ _ => 7 }).1.Ap i) :=
  ⟨setup_free_le_one _, by decide!, by decide!,
    iterate_step_A_outputs FBBlockSolver.upper_half_block
      { p_on_top_outer_interface := fun _ _ _ => 7 } (setup_free_le_one _)⟩

end FBBlock

end FB

/-! ## The reduced scalars of an iteration -/

namespace FB

theorem map_getD_range {α : Type} (l : List α) (d : α) :
    (List.range l.length).map (fun i => l.getD i d) = l := by
  apply List.ext_getElem
  · simp
  · intro n h1 h2
    rw [List.getElem_map, List.getElem_range, List.getD_eq_getElem l d h2]

theorem getD_map_range {α : Type} (f : Nat → α) (n i : Nat) (d : α) (hi : i < n) :
    ((List.range n).map f).getD i d = f i := by
  rw [List.getD_eq_getElem _ _ (by simpa using hi)]
  simp

namespace FBBlockSolver

theorem foldl_scalars (l : List FBBlockIterateStepAParameters) :
    ∀ acc : ℚ × ℚ × ℚ × ℚ,
      l.foldl (fun acc a => (acc.1 + a.r_z, acc.2.1 + a.r_Ap, acc.2.2.1 + a.p_Ap,
          acc.2.2.2 + a.Ap_Ap)) acc =
        (acc.1 + total_r_z l, acc.2.1 + total_r_Ap l, acc.2.2.1 + total_p_Ap l,
          acc.2.2.2 + total_Ap_Ap l) := by
  induction l with
  | nil => intro acc; simp [total_r_z, total_r_Ap, total_p_Ap, total_Ap_Ap]
  | cons a l ih =>
    intro acc
    rw [List.foldl_cons, ih]
    simp only [total_r_z, total_r_Ap, total_p_Ap, total_Ap_Ap, List.map_cons, List.sum_cons]
    refine Prod.ext ?_ (Prod.ext ?_ (Prod.ext ?_ ?_)) <;> simp only <;> ring

theorem reduce_scalars_eq (A : List FBBlockIterateStepAParameters) :
    reduce_scalars A.length A = (total_r_z A, total_r_Ap A, total_p_Ap A, total_Ap_Ap A) := by
  unfold reduce_scalars
  have h := foldl_scalars ((List.range A.length).map fun i => A.getD i {}) (0, 0, 0, 0)
  rw [List.foldl_map] at h
  rw [map_getD_range] at h
  rw [h]
  simp

theorem iterate_step_B_inputs (sqrt : ℚ → ℚ) (B : FBBlock) (P : FBBlockIterateStepBParameters) :
    (FBBlock.iterate_step_B sqrt B P).2.alpha = P.alpha ∧
      (FBBlock.iterate_step_B sqrt B P).2.beta = P.beta := by
  unfold FBBlock.iterate_step_B
  dsimp only
  split <;> exact ⟨rfl, rfl⟩

theorem iteration_PPP_A (ext : External) (S : FBBlockSolver) :
    (iteration ext S).PPP_A =
      (List.range S.blocks.length).map fun i =>
        (FBBlock.iterate_step_A (S.blocks.getD i FBBlock.init)
          ((stage_interfaces S).getD i {})).2 := by
  unfold iteration
  simp [List.map_map, Function.comp_def]

theorem iteration_blocks_length (ext : External) (S : FBBlockSolver) :
    (iteration ext S).blocks.length = S.blocks.length := by
  unfold iteration
  simp

theorem iteration_PPP_B (ext : External) (S : FBBlockSolver) :
    (iteration ext S).PPP_B =
      (List.range S.blocks.length).map fun i =>
        (FBBlock.iterate_step_B ext.sqrt
          (FBBlock.iterate_step_A (S.blocks.getD i FBBlock.init)
            ((stage_interfaces S).getD i {})).1
          ((set_step_B_parameters S
            (reduce_scalars S.blocks.length (iteration ext S).PPP_A)).getD i {})).2 := by
  rw [iteration_PPP_A]
  unfold iteration
  simp only [List.map_map, Function.comp_def]
  apply List.map_congr_left
  intro i hi
  have hi' : i < S.blocks.length := List.mem_range.mp hi
  rw [getD_map_range _ _ _ _ hi']

/-- C7. Scalar derivation: in every iteration the step-A record of every block holds the
outputs of that block's `iterate_step_A` on the staged slices, and every block receives
the same `alpha = r_z / p_Ap` and `beta = (r_z - 2*alpha*r_Ap + alpha^2*Ap_Ap) / r_z` when
`r_z != 0`, `beta = 0` when `r_z = 0`, where `r_z`, `r_Ap`, `p_Ap`, `Ap_Ap` are the sums over
all blocks of the step-A outputs. -/
theorem iteration_scalars (ext : External) (S : FBBlockSolver) (i : Nat)
    (hi : i < S.blocks.length) :
    (iteration ext S).PPP_A.getD i {} =
      (FBBlock.iterate_step_A (S.blocks.getD i FBBlock.init)
        ((stage_interfaces S).getD i {})).2 ∧
    ((iteration ext S).PPP_B.getD i {}).alpha =
      total_r_z (iteration ext S).PPP_A / total_p_Ap (iteration ext S).PPP_A ∧
    ((iteration ext S).PPP_B.getD i {}).beta =
      if total_r_z (iteration ext S).PPP_A ≠ 0 then
        (total_r_z (iteration ext S).PPP_A -
          2 * (total_r_z (iteration ext S).PPP_A / total_p_Ap (iteration ext S).PPP_A) *
            total_r_Ap (iteration ext S).PPP_A +
          (total_r_z (iteration ext S).PPP_A / total_p_Ap (iteration ext S).PPP_A) ^ 2 *
            total_Ap_Ap (iteration ext S).PPP_A) / total_r_z (iteration ext S).PPP_A
      else 0 := by
  have hlen : (iteration ext S).PPP_A.length = S.blocks.length := by
    rw [iteration_PPP_A]; simp
  have hred := reduce_scalars_eq (iteration ext S).PPP_A
  rw [hlen] at hred
  refine ⟨?_, ?_, ?_⟩
  · rw [iteration_PPP_A, getD_map_range _ _ _ _ hi]
  · rw [iteration_PPP_B, getD_map_range _ _ _ _ hi, (iterate_step_B_inputs _ _ _).1, hred]
    unfold set_step_B_parameters
    rw [getD_map_range _ _ _ _ hi]
  · rw [iteration_PPP_B, getD_map_range _ _ _ _ hi, (iterate_step_B_inputs _ _ _).2, hred]
    unfold set_step_B_parameters
    rw [getD_map_range _ _ _ _ hi]
    dsimp only
    split
    · ring
    · rfl

/-- Witness for C7: the first iteration of the single-voxel solver with two threads, at its
second block.  Each of the two blocks contributes `r_z = 12`, and the sums over both are
`r_z = 24`, `r_Ap = 432`, `p_Ap = 432`, `Ap_Ap = 8640`, so that both blocks receive
`alpha = 24/432 = 1/18` and `beta = (24 - 2*(1/18)*432 + (1/18)^2*8640) / 24 = 1/9`. -/
theorem iteration_scalars_witness :
    1 < (solve_setup (one_voxel_solver 2)).blocks.length ∧
    (((iteration example_external (solve_setup (one_voxel_solver 2))).PPP_A.getD 0 {}).r_z = 12 ∧
      ((iteration example_external (solve_setup (one_voxel_solver 2))).PPP_A.getD 1 {}).r_z = 12 ∧
      total_r_z (iteration example_external (solve_setup (one_voxel_solver 2))).PPP_A = 24 ∧
      total_r_Ap (iteration example_external (solve_setup (one_voxel_solver 2))).PPP_A = 432 ∧
      total_p_Ap (iteration example_external (solve_setup (one_voxel_solver 2))).PPP_A = 432 ∧
      total_Ap_Ap (iteration example_external (solve_setup (one_voxel_solver 2))).PPP_A =
        8640) ∧
    (((iteration example_external (solve_setup (one_voxel_solver 2))).PPP_B.getD 0 {}).alpha =
        1 / 18 ∧
      ((iteration example_external (solve_setup (one_voxel_solver 2))).PPP_B.getD 1 {}).alpha =
        1 / 18 ∧
      ((iteration example_external (solve_setup (one_voxel_solver 2))).PPP_B.getD 0 {}).beta =
        1 / 9 ∧
      ((iteration example_external (solve_setup (one_voxel_solver 2))).PPP_B.getD 1 {}).beta =
        1 / 9) ∧
    ((iteration example_external (solve_setup (one_voxel_solver 2))).PPP_A.getD 1 {} =
      (FBBlock.iterate_step_A ((solve_setup (one_voxel_solver 2)).blocks.getD 1 FBBlock.init)
        ((stage_interfaces (solve_setup (one_voxel_solver 2))).getD 1 {})).2 ∧
    ((iteration example_external (solve_setup (one_voxel_solver 2))).PPP_B.getD 1 {}).alpha =
      total_r_z (iteration example_external (solve_setup (one_voxel_solver 2))).PPP_A /
        total_p_Ap (iteration example_external (solve_setup (one_voxel_solver 2))).PPP_A ∧
    ((iteration example_external (solve_setup (one_voxel_solver 2))).PPP_B.getD 1 {}).beta =
      if total_r_z (iteration example_external (solve_setup (one_voxel_solver 2))).PPP_A ≠ 0
      then
        (total_r_z (iteration example_external (solve_setup (one_voxel_solver 2))).PPP_A -
          2 * (total_r_z (iteration example_external (solve_setup (one_voxel_solver 2))).PPP_A /
            total_p_Ap (iteration example_external (solve_setup (one_voxel_solver 2))).PPP_A) *
            total_r_Ap (iteration example_external (solve_setup (one_voxel_solver 2))).PPP_A +
          (total_r_z (iteration example_external (solve_setup (one_voxel_solver 2))).PPP_A /
            total_p_Ap (iteration example_external (solve_setup (one_voxel_solver 2))).PPP_A) ^ 2 *
            total_Ap_Ap (iteration example_external (solve_setup (one_voxel_solver 2))).PPP_A) /
          total_r_z (iteration example_external (solve_setup (one_voxel_solver 2))).PPP_A
      else 0) :=
  ⟨by decide!, by decide!, by decide!,
    iteration_scalars example_external (solve_setup (one_voxel_solver 2)) 1 (by decide!)⟩

end FBBlockSolver

end FB

/-! ## The index structures built by `setup` -/

namespace FB

theorem mem_scan3 {A B C : Int} {c : Int × Int × Int} :
    c ∈ scan3 A B C ↔
      (0 ≤ c.1 ∧ c.1 < A) ∧ (0 ≤ c.2.1 ∧ c.2.1 < B) ∧ (0 ≤ c.2.2 ∧ c.2.2 < C) := by
  obtain ⟨x, y, z⟩ := c
  unfold scan3
  simp only [List.mem_flatMap, List.mem_map, mem_idxRange, Prod.mk.injEq]
  constructor
  · rintro ⟨zz, hz, yy, hy, xx, hx, rfl, rfl, rfl⟩
    exact ⟨hx, hy, hz⟩
  · rintro ⟨hx, hy, hz⟩
    exact ⟨z, hz, y, hy, x, hx, rfl, rfl, rfl⟩

theorem nodup_scan3 (A B C : Int) : (scan3 A B C).Nodup := by
  unfold scan3
  rw [List.nodup_flatMap]
  refine ⟨fun zz _ => ?_, ?_⟩
  · rw [List.nodup_flatMap]
    refine ⟨fun yy _ => ?_, ?_⟩
    · exact (nodup_idxRange A).map (fun a b h => by simpa using h)
    · refine List.Pairwise.imp ?_ (nodup_idxRange B)
      intro a b hab
      simp only [Function.onFun, List.disjoint_left, List.mem_map]
      rintro c ⟨x1, _, rfl⟩ ⟨x2, _, h2⟩
      simp only [Prod.mk.injEq] at h2
      exact hab h2.2.1.symm
  · refine List.Pairwise.imp ?_ (nodup_idxRange C)
    intro a b hab
    simp only [Function.onFun, List.disjoint_left, List.mem_flatMap, List.mem_map]
    rintro c ⟨y1, _, x1, _, rfl⟩ ⟨y2, _, x2, _, h2⟩
    simp only [Prod.mk.injEq] at h2
    exact hab h2.2.2.symm

theorem scan3_two : scan3 2 2 2 =
    [(0, 0, 0), (1, 0, 0), (0, 1, 0), (1, 1, 0), (0, 0, 1), (1, 0, 1), (0, 1, 1), (1, 1, 1)] := by
  decide

namespace FBBlock

theorem mark_corners_apply (occ : Int → Int → Int → Nat) (xx yy zz a b c : Int) :
    mark_corners occ xx yy zz a b c =
      if (a = xx ∨ a = xx + 1) ∧ (b = yy ∨ b = yy + 1) ∧ (c = zz ∨ c = zz + 1) then 1
      else occ a b c := by
  unfold mark_corners
  rw [scan3_two]
  simp only [List.foldl_cons, List.foldl_nil, set3, add_zero]
  split_ifs <;> first | rfl | omega

/-- The corner relation: the node `(a, b, c)` is one of the eight corners of the voxel `v`. -/
theorem vertex_occupancy_fold (BVF : Int → Int → Int → Nat) (a b c : Int) :
    ∀ (l : List (Int × Int × Int)) (occ : Int → Int → Int → Nat),
      (l.foldl (fun occ v => if BVF v.1 v.2.1 v.2.2 ≠ 0 then mark_corners occ v.1 v.2.1 v.2.2
          else occ) occ) a b c ≠ 0 ↔
        occ a b c ≠ 0 ∨ ∃ v ∈ l, BVF v.1 v.2.1 v.2.2 ≠ 0 ∧
          (a = v.1 ∨ a = v.1 + 1) ∧ (b = v.2.1 ∨ b = v.2.1 + 1) ∧ (c = v.2.2 ∨ c = v.2.2 + 1) := by
  intro l
  induction l with
  | nil => intro occ; simp
  | cons v l ih =>
    intro occ
    rw [List.foldl_cons, ih]
    by_cases hb : BVF v.1 v.2.1 v.2.2 ≠ 0
    · simp only [hb, if_true, mark_corners_apply, List.mem_cons, exists_eq_or_imp, ne_eq,
        not_false_eq_true, true_and]
      by_cases hc : (a = v.1 ∨ a = v.1 + 1) ∧ (b = v.2.1 ∨ b = v.2.1 + 1) ∧
          (c = v.2.2 ∨ c = v.2.2 + 1)
      · simp [hc]
      · simp only [hc, if_false, false_or]
    · simp only [hb, if_false, List.mem_cons, exists_eq_or_imp, false_and, false_or]

theorem vertex_occupancy_ne_zero (P : FBBlockSetupParameters) (a b c : Int) :
    vertex_occupancy P a b c ≠ 0 ↔
      ∃ v ∈ scan3 (P.Nx + 1) (P.Ny + 1) (P.Nz + 1), P.BVF v.1 v.2.1 v.2.2 ≠ 0 ∧
        (a = v.1 ∨ a = v.1 + 1) ∧ (b = v.2.1 ∨ b = v.2.1 + 1) ∧ (c = v.2.2 ∨ c = v.2.2 + 1) := by
  unfold vertex_occupancy
  rw [vertex_occupancy_fold]
  simp

theorem vertex_occupancy_in_box (P : FBBlockSetupParameters) (a b c : Int)
    (h : vertex_occupancy P a b c ≠ 0) : (a, b, c) ∈ scan3 (P.Nx + 2) (P.Ny + 2) (P.Nz + 2) := by
  obtain ⟨v, hv, _, h1, h2, h3⟩ := (vertex_occupancy_ne_zero P a b c).mp h
  rw [mem_scan3] at hv ⊢
  simp only
  omega

end FBBlock

end FB

namespace FB

namespace FBBlock

theorem assign_fold (occ : Int → Int → Int → Nat) :
    ∀ (l : List (Int × Int × Int)) (st : Int × (Int → Int → Int → Int)), l.Nodup →
      st.1 ≤ (l.foldl (assign_step occ) st).1 ∧
      ((∃ c ∈ l, occ c.1 c.2.1 c.2.2 ≠ 0) → st.1 < (l.foldl (assign_step occ) st).1) ∧
      (∀ c : Int × Int × Int, c ∈ l → occ c.1 c.2.1 c.2.2 ≠ 0 →
        st.1 ≤ (l.foldl (assign_step occ) st).2
            c.1 c.2.1 c.2.2 ∧
        (l.foldl (assign_step occ) st).2
            c.1 c.2.1 c.2.2 + 3 ≤
          (l.foldl (assign_step occ) st).1) ∧
      (∀ c : Int × Int × Int, ¬ (c ∈ l ∧ occ c.1 c.2.1 c.2.2 ≠ 0) →
        (l.foldl (assign_step occ) st).2
            c.1 c.2.1 c.2.2 = st.2 c.1 c.2.1 c.2.2) ∧
      (∀ c1 c2 : Int × Int × Int, c1 ∈ l → c2 ∈ l → occ c1.1 c1.2.1 c1.2.2 ≠ 0 →
        occ c2.1 c2.2.1 c2.2.2 ≠ 0 → c1 ≠ c2 →
        (l.foldl (assign_step occ) st).2
            c1.1 c1.2.1 c1.2.2 + 3 ≤
          (l.foldl (assign_step occ) st).2
            c2.1 c2.2.1 c2.2.2 ∨
        (l.foldl (assign_step occ) st).2
            c2.1 c2.2.1 c2.2.2 + 3 ≤
          (l.foldl (assign_step occ) st).2
            c1.1 c1.2.1 c1.2.2) := by
  intro l
  induction l with
  | nil =>
    intro st _
    simp
  | cons a l ih =>
    intro st hnd
    obtain ⟨ha, hl⟩ := List.nodup_cons.mp hnd
    simp only [List.foldl_cons]
    by_cases hoa : occ a.1 a.2.1 a.2.2 ≠ 0
    · rw [show assign_step occ st a = (st.1 + 3, set3 st.2 a.1 a.2.1 a.2.2 st.1) from
        if_pos hoa]
      obtain ⟨h1, h2, h3, h4, h5⟩ := ih (st.1 + 3, set3 st.2 a.1 a.2.1 a.2.2 st.1) hl
      simp only at h1 h2 h3 h4 h5
      have hva := h4 a (fun h => ha h.1)
      have hset : set3 st.2 a.1 a.2.1 a.2.2 st.1 a.1 a.2.1 a.2.2 = st.1 := by simp [set3]
      rw [hset] at hva
      refine ⟨by omega, fun _ => by omega, ?_, ?_, ?_⟩
      · intro c hc hoc
        rcases List.mem_cons.mp hc with rfl | hc
        · rw [hva]; omega
        · have := h3 c hc hoc
          omega
      · intro c hc
        have hca : c ≠ a := by
          rintro rfl
          exact hc ⟨List.mem_cons_self _ _, hoa⟩
        have hcl : ¬ (c ∈ l ∧ occ c.1 c.2.1 c.2.2 ≠ 0) := fun h => hc ⟨List.mem_cons_of_mem _ h.1, h.2⟩
        rw [h4 c hcl]
        have : ¬ (c.1 = a.1 ∧ c.2.1 = a.2.1 ∧ c.2.2 = a.2.2) := by
          rintro ⟨e1, e2, e3⟩
          exact hca (Prod.ext e1 (Prod.ext e2 e3))
        simp [set3, this]
      · intro c1 c2 hc1 hc2 ho1 ho2 hne
        rcases List.mem_cons.mp hc1 with e1 | m1
        · rcases List.mem_cons.mp hc2 with e2 | m2
          · exact absurd (e1.trans e2.symm) hne
          · have := h3 c2 m2 ho2
            rw [e1, hva]; left; omega
        · rcases List.mem_cons.mp hc2 with e2 | m2
          · have := h3 c1 m1 ho1
            rw [e2, hva]; right; omega
          · exact h5 c1 c2 m1 m2 ho1 ho2 hne
    · rw [show assign_step occ st a = st from if_neg hoa]
      obtain ⟨h1, h2, h3, h4, h5⟩ := ih st hl
      refine ⟨h1, ?_, ?_, ?_, ?_⟩
      · rintro ⟨c, hc, hoc⟩
        rcases List.mem_cons.mp hc with rfl | hc
        · exact absurd hoc hoa
        · exact h2 ⟨c, hc, hoc⟩
      · intro c hc hoc
        rcases List.mem_cons.mp hc with rfl | hc
        · exact absurd hoc hoa
        · exact h3 c hc hoc
      · intro c hc
        apply h4
        rintro ⟨h, ho⟩
        exact hc ⟨List.mem_cons_of_mem _ h, ho⟩
      · intro c1 c2 hc1 hc2 ho1 ho2 hne
        rcases List.mem_cons.mp hc1 with e1 | m1
        · exact absurd (e1 ▸ ho1) hoa
        · rcases List.mem_cons.mp hc2 with e2 | m2
          · exact absurd (e2 ▸ ho2) hoa
          · exact h5 c1 c2 m1 m2 ho1 ho2 hne

theorem assign_fold_none (occ : Int → Int → Int → Nat) :
    ∀ (l : List (Int × Int × Int)) (st : Int × (Int → Int → Int → Int)),
      (∀ c ∈ l, occ c.1 c.2.1 c.2.2 = 0) → l.foldl (assign_step occ) st = st := by
  intro l
  induction l with
  | nil => intro st _; rfl
  | cons a l ih =>
    intro st h
    have ha : ¬ occ a.1 a.2.1 a.2.2 ≠ 0 := by
      simpa using h a (List.mem_cons_self _ _)
    rw [List.foldl_cons, show assign_step occ st a = st from if_neg ha]
    exact ih st fun c hc => h c (List.mem_cons_of_mem _ hc)

/-- The facts about `m_variable_indices` and `m_num_variables` after the second loop of
`setup`: an occupied node of the padded box has a non-negative index with room for its
three variables, every other position holds `-1`, and the indices of two different
occupied nodes are at least `3` apart. -/
theorem assign_variable_indices_spec (P : FBBlockSetupParameters) :
    (∀ a b c : Int, vertex_occupancy P a b c ≠ 0 →
      0 ≤ (assign_variable_indices P (vertex_occupancy P)).2 a b c ∧
      (assign_variable_indices P (vertex_occupancy P)).2 a b c + 3 ≤
        (assign_variable_indices P (vertex_occupancy P)).1) ∧
    (∀ a b c : Int, vertex_occupancy P a b c = 0 →
      (assign_variable_indices P (vertex_occupancy P)).2 a b c = -1) ∧
    (∀ a b c a2 b2 c2 : Int, vertex_occupancy P a b c ≠ 0 → vertex_occupancy P a2 b2 c2 ≠ 0 →
      (a, b, c) ≠ (a2, b2, c2) →
      (assign_variable_indices P (vertex_occupancy P)).2 a b c + 3 ≤
          (assign_variable_indices P (vertex_occupancy P)).2 a2 b2 c2 ∨
        (assign_variable_indices P (vertex_occupancy P)).2 a2 b2 c2 + 3 ≤
          (assign_variable_indices P (vertex_occupancy P)).2 a b c) ∧
    ((assign_variable_indices P (vertex_occupancy P)).1 = 0 ↔
      ∀ a b c : Int, vertex_occupancy P a b c = 0) := by
  obtain ⟨h1, h2, h3, h4, h5⟩ := assign_fold (vertex_occupancy P)
    (scan3 (P.Nx + 2) (P.Ny + 2) (P.Nz + 2)) (0, fun _ _ _ => -1) (nodup_scan3 _ _ _)
  simp only at h1 h2 h3 h4 h5
  unfold assign_variable_indices
  refine ⟨?_, ?_, ?_, ?_⟩
  · intro a b c ho
    exact h3 (a, b, c) (vertex_occupancy_in_box P a b c ho) ho
  · intro a b c ho
    exact h4 (a, b, c) (fun h => h.2 ho)
  · intro a b c a2 b2 c2 ho ho2 hne
    exact h5 (a, b, c) (a2, b2, c2) (vertex_occupancy_in_box P a b c ho)
      (vertex_occupancy_in_box P a2 b2 c2 ho2) ho ho2 hne
  · constructor
    · intro h0 a b c
      by_contra ho
      have := h2 ⟨(a, b, c), vertex_occupancy_in_box P a b c ho, ho⟩
      omega
    · intro hall
      rw [assign_fold_none _ _ _ (fun c _ => hall c.1 c.2.1 c.2.2)]

end FBBlock

end FB

namespace FB

namespace FBBlock

theorem idxRange_three : idxRange 3 = [0, 1, 2] := by decide

theorem setup_variable_eq (P : FBBlockSetupParameters) (vi : Int → Int → Int → Int)
    (xx yy zz : Int) (s : SetupArrays) (dd : Int) (hv : vi xx yy zz + dd ≥ 0) :
    setup_variable P vi xx yy zz s dd =
      { free :=
          if P.fixed xx yy zz dd = 0 then Function.update s.free (vi xx yy zz + dd) 1
          else s.free
        vertex_type :=
          Function.update s.vertex_type (vi xx yy zz + dd) (vertex_class P.Nx P.Ny P.Nz xx yy zz)
        x := Function.update s.x (vi xx yy zz + dd) (P.X0 xx yy zz dd)
        inner_vertex_locations :=
          if vertex_class P.Nx P.Ny P.Nz xx yy zz = 2 ∧ dd = 0 then
            s.inner_vertex_locations ++
              [{ x := xx, y := yy, z := zz, ref_index := vi xx yy zz + dd }]
          else s.inner_vertex_locations
        outer_vertex_locations :=
          if vertex_class P.Nx P.Ny P.Nz xx yy zz = 3 ∧ dd = 0 then
            s.outer_vertex_locations ++
              [{ x := xx, y := yy, z := zz, ref_index := vi xx yy zz + dd }]
          else s.outer_vertex_locations } := by
  unfold setup_variable vertex_class
  simp only [hv, if_true]
  by_cases h1 : xx ≥ 2 ∧ xx ≤ P.Nx - 1 ∧ yy ≥ 2 ∧ yy ≤ P.Ny - 1 ∧ zz ≥ 2 ∧ zz ≤ P.Nz - 1
  · simp only [h1, and_self, if_true]
    by_cases hf : P.fixed xx yy zz dd = 0 <;> simp [hf]
  · by_cases h2 : xx ≥ 1 ∧ xx ≤ P.Nx ∧ yy ≥ 1 ∧ yy ≤ P.Ny ∧ zz ≥ 1 ∧ zz ≤ P.Nz
    · simp only [h1, h2, and_self, if_true, if_false]
      by_cases hd : dd = 0
      · subst hd
        by_cases hf : P.fixed xx yy zz 0 = 0 <;> simp [hf]
      · by_cases hf : P.fixed xx yy zz dd = 0 <;> simp [hf, hd]
    · simp only [h1, h2, if_false]
      by_cases hd : dd = 0
      · subst hd
        by_cases hf : P.fixed xx yy zz 0 = 0 <;> simp [hf]
      · by_cases hf : P.fixed xx yy zz dd = 0 <;> simp [hf, hd]

/-- The effect of the third loop's body on the three arrays, for one occupied vertex with a
non-negative index. -/
theorem setup_vertex_apply (P : FBBlockSetupParameters) (occ : Int → Int → Int → Nat)
    (vi : Int → Int → Int → Int) (s : SetupArrays) (c : Int × Int × Int)
    (ho : occ c.1 c.2.1 c.2.2 ≠ 0) (hv : 0 ≤ vi c.1 c.2.1 c.2.2) (i : Int) :
    ((setup_vertex P occ vi s c).x i =
      if i = vi c.1 c.2.1 c.2.2 then P.X0 c.1 c.2.1 c.2.2 0
      else if i = vi c.1 c.2.1 c.2.2 + 1 then P.X0 c.1 c.2.1 c.2.2 1
      else if i = vi c.1 c.2.1 c.2.2 + 2 then P.X0 c.1 c.2.1 c.2.2 2
      else s.x i) ∧
    ((setup_vertex P occ vi s c).vertex_type i =
      if i = vi c.1 c.2.1 c.2.2 ∨ i = vi c.1 c.2.1 c.2.2 + 1 ∨ i = vi c.1 c.2.1 c.2.2 + 2 then
        vertex_class P.Nx P.Ny P.Nz c.1 c.2.1 c.2.2
      else s.vertex_type i) ∧
    ((setup_vertex P occ vi s c).free i =
      if i = vi c.1 c.2.1 c.2.2 ∧ P.fixed c.1 c.2.1 c.2.2 0 = 0 then 1
      else if i = vi c.1 c.2.1 c.2.2 + 1 ∧ P.fixed c.1 c.2.1 c.2.2 1 = 0 then 1
      else if i = vi c.1 c.2.1 c.2.2 + 2 ∧ P.fixed c.1 c.2.1 c.2.2 2 = 0 then 1
      else s.free i) := by
  unfold setup_vertex
  rw [if_pos ho, idxRange_three]
  simp only [List.foldl_cons, List.foldl_nil]
  rw [setup_variable_eq P vi c.1 c.2.1 c.2.2 s 0 (by omega)]
  rw [setup_variable_eq P vi c.1 c.2.1 c.2.2 _ 1 (by omega)]
  rw [setup_variable_eq P vi c.1 c.2.1 c.2.2 _ 2 (by omega)]
  simp only [add_zero]
  refine ⟨?_, ?_, ?_⟩
  · simp only [Function.update_apply]
    split_ifs <;> first | rfl | omega
  · simp only [Function.update_apply]
    split_ifs <;> first | rfl | omega
  · by_cases h0 : P.fixed c.1 c.2.1 c.2.2 0 = 0 <;>
      by_cases h1 : P.fixed c.1 c.2.1 c.2.2 1 = 0 <;>
      by_cases h2 : P.fixed c.1 c.2.1 c.2.2 2 = 0 <;>
      simp only [h0, h1, h2, if_true, if_false, and_true, and_false, Function.update_apply] <;>
      split_ifs <;> rfl

theorem setup_vertex_at (P : FBBlockSetupParameters) (occ : Int → Int → Int → Nat)
    (vi : Int → Int → Int → Int) (s : SetupArrays) (c : Int × Int × Int)
    (ho : occ c.1 c.2.1 c.2.2 ≠ 0) (hv : 0 ≤ vi c.1 c.2.1 c.2.2) (dd : Int) (h0 : 0 ≤ dd)
    (h3 : dd < 3) :
    (setup_vertex P occ vi s c).x (vi c.1 c.2.1 c.2.2 + dd) = P.X0 c.1 c.2.1 c.2.2 dd ∧
    (setup_vertex P occ vi s c).vertex_type (vi c.1 c.2.1 c.2.2 + dd) =
      vertex_class P.Nx P.Ny P.Nz c.1 c.2.1 c.2.2 ∧
    (setup_vertex P occ vi s c).free (vi c.1 c.2.1 c.2.2 + dd) =
      if P.fixed c.1 c.2.1 c.2.2 dd = 0 then 1 else s.free (vi c.1 c.2.1 c.2.2 + dd) := by
  obtain ⟨hx, hvt, hf⟩ := setup_vertex_apply P occ vi s c ho hv (vi c.1 c.2.1 c.2.2 + dd)
  rw [hx, hvt, hf]
  have hdd : dd = 0 ∨ dd = 1 ∨ dd = 2 := by omega
  rcases hdd with rfl | rfl | rfl
  · simp
  · simp
  · simp

theorem setup_vertex_other (P : FBBlockSetupParameters) (occ : Int → Int → Int → Nat)
    (vi : Int → Int → Int → Int) (s : SetupArrays) (c : Int × Int × Int)
    (hv : occ c.1 c.2.1 c.2.2 ≠ 0 → 0 ≤ vi c.1 c.2.1 c.2.2) (i : Int)
    (hi : occ c.1 c.2.1 c.2.2 ≠ 0 → ∀ dd : Int, 0 ≤ dd → dd < 3 → i ≠ vi c.1 c.2.1 c.2.2 + dd) :
    (setup_vertex P occ vi s c).x i = s.x i ∧
    (setup_vertex P occ vi s c).vertex_type i = s.vertex_type i ∧
    (setup_vertex P occ vi s c).free i = s.free i := by
  by_cases ho : occ c.1 c.2.1 c.2.2 ≠ 0
  · obtain ⟨hx, hvt, hf⟩ := setup_vertex_apply P occ vi s c ho (hv ho) i
    have e0 := hi ho 0 (by omega) (by omega)
    have e1 := hi ho 1 (by omega) (by omega)
    have e2 := hi ho 2 (by omega) (by omega)
    rw [add_zero] at e0
    rw [hx, hvt, hf]
    simp [e0, e1, e2]
  · unfold setup_vertex
    rw [if_neg ho]
    exact ⟨rfl, rfl, rfl⟩

theorem setup_fold (P : FBBlockSetupParameters) (occ : Int → Int → Int → Nat)
    (vi : Int → Int → Int → Int) :
    ∀ (l : List (Int × Int × Int)) (s0 : SetupArrays), l.Nodup →
      (∀ c ∈ l, occ c.1 c.2.1 c.2.2 ≠ 0 → 0 ≤ vi c.1 c.2.1 c.2.2) →
      (∀ c1 ∈ l, ∀ c2 ∈ l, occ c1.1 c1.2.1 c1.2.2 ≠ 0 → occ c2.1 c2.2.1 c2.2.2 ≠ 0 → c1 ≠ c2 →
        vi c1.1 c1.2.1 c1.2.2 + 3 ≤ vi c2.1 c2.2.1 c2.2.2 ∨
          vi c2.1 c2.2.1 c2.2.2 + 3 ≤ vi c1.1 c1.2.1 c1.2.2) →
      (∀ c ∈ l, occ c.1 c.2.1 c.2.2 ≠ 0 → ∀ dd : Int, 0 ≤ dd → dd < 3 →
        (l.foldl (setup_vertex P occ vi) s0).x (vi c.1 c.2.1 c.2.2 + dd) =
            P.X0 c.1 c.2.1 c.2.2 dd ∧
        (l.foldl (setup_vertex P occ vi) s0).vertex_type (vi c.1 c.2.1 c.2.2 + dd) =
            vertex_class P.Nx P.Ny P.Nz c.1 c.2.1 c.2.2 ∧
        (l.foldl (setup_vertex P occ vi) s0).free (vi c.1 c.2.1 c.2.2 + dd) =
            if P.fixed c.1 c.2.1 c.2.2 dd = 0 then 1 else s0.free (vi c.1 c.2.1 c.2.2 + dd)) ∧
      (∀ i : Int,
        (∀ c ∈ l, occ c.1 c.2.1 c.2.2 ≠ 0 → ∀ dd : Int, 0 ≤ dd → dd < 3 →
          i ≠ vi c.1 c.2.1 c.2.2 + dd) →
        (l.foldl (setup_vertex P occ vi) s0).x i = s0.x i ∧
        (l.foldl (setup_vertex P occ vi) s0).vertex_type i = s0.vertex_type i ∧
        (l.foldl (setup_vertex P occ vi) s0).free i = s0.free i) := by
  intro l
  induction l with
  | nil =>
    intro s0 _ _ _
    exact ⟨fun c hc => absurd hc (List.not_mem_nil c), fun i _ => ⟨rfl, rfl, rfl⟩⟩
  | cons a l ih =>
    intro s0 hnd hnn hsep
    obtain ⟨ha, hl⟩ := List.nodup_cons.mp hnd
    rw [List.foldl_cons]
    obtain ⟨ihA, ihB⟩ := ih (setup_vertex P occ vi s0 a) hl
      (fun c hc => hnn c (List.mem_cons_of_mem _ hc))
      (fun c1 h1 c2 h2 => hsep c1 (List.mem_cons_of_mem _ h1) c2 (List.mem_cons_of_mem _ h2))
    have hva : occ a.1 a.2.1 a.2.2 ≠ 0 → 0 ≤ vi a.1 a.2.1 a.2.2 :=
      hnn a (List.mem_cons_self _ _)
    constructor
    · intro c hc hoc dd h0 h3
      rcases List.mem_cons.mp hc with e | m
      · -- the vertex handled first: nothing later touches its variables
        subst e
        have hB := ihB (vi c.1 c.2.1 c.2.2 + dd) (by
          intro c2 hc2 ho2 d2 h02 h32
          have hne : c ≠ c2 := fun h => ha (h ▸ hc2)
          have := hsep c (List.mem_cons_self _ _) c2 (List.mem_cons_of_mem _ hc2) hoc ho2 hne
          omega)
        obtain ⟨hx, hvt, hf⟩ := setup_vertex_at P occ vi s0 c hoc (hva hoc) dd h0 h3
        rw [hB.1, hB.2.1, hB.2.2, hx, hvt, hf]
        exact ⟨rfl, rfl, rfl⟩
      · obtain ⟨hx, hvt, hf⟩ := ihA c m hoc dd h0 h3
        refine ⟨hx, hvt, ?_⟩
        rw [hf]
        have hne : c ≠ a := fun h => ha (h ▸ m)
        have hoth := setup_vertex_other P occ vi s0 a hva (vi c.1 c.2.1 c.2.2 + dd) (by
          intro hoa d2 h02 h32
          have := hsep c hc a (List.mem_cons_self _ _) hoc hoa hne
          omega)
        rw [hoth.2.2]
    · intro i hi
      have hB := ihB i (fun c hc => hi c (List.mem_cons_of_mem _ hc))
      have hoth := setup_vertex_other P occ vi s0 a hva i
        (fun hoa => hi a (List.mem_cons_self _ _) hoa)
      rw [hB.1, hB.2.1, hB.2.2]
      exact hoth

theorem setup_geometry (P : FBBlockSetupParameters) :
    (setup P).1.variable_indices = (assign_variable_indices P (vertex_occupancy P)).2 ∧
    (setup P).1.num_variables = (assign_variable_indices P (vertex_occupancy P)).1 ∧
    (setup P).1.Nx = P.Nx ∧ (setup P).1.Ny = P.Ny ∧ (setup P).1.Nz = P.Nz ∧
    (setup P).1.block_x_position = P.block_x_position ∧
    (setup P).1.block_y_position = P.block_y_position ∧
    (setup P).1.block_z_position = P.block_z_position := by
  unfold setup
  dsimp only
  split_ifs <;> exact ⟨rfl, rfl, rfl, rfl, rfl, rfl, rfl, rfl⟩

theorem setup_arrays_fields (P : FBBlockSetupParameters)
    (h : (assign_variable_indices P (vertex_occupancy P)).1 ≠ 0) :
    (setup P).1.x =
      (setup_arrays P (vertex_occupancy P)
        (assign_variable_indices P (vertex_occupancy P)).2).x ∧
    (setup P).1.free =
      (setup_arrays P (vertex_occupancy P)
        (assign_variable_indices P (vertex_occupancy P)).2).free ∧
    (setup P).1.vertex_type =
      (setup_arrays P (vertex_occupancy P)
        (assign_variable_indices P (vertex_occupancy P)).2).vertex_type := by
  unfold setup
  dsimp only
  rw [if_neg h]
  split_ifs <;> exact ⟨rfl, rfl, rfl⟩

/-- The arrays of a block after `setup`: at the three variables of every occupied node of
the padded box, `x` holds the initial displacement, `vertex_type` the class of the node,
and `free` is `1` exactly when the variable is not fixed. -/
theorem setup_variables (P : FBBlockSetupParameters) (a b c : Int)
    (ho : vertex_occupancy P a b c ≠ 0) (dd : Int) (h0 : 0 ≤ dd) (h3 : dd < 3) :
    (setup P).1.x ((setup P).1.variable_indices a b c + dd) = P.X0 a b c dd ∧
    (setup P).1.vertex_type ((setup P).1.variable_indices a b c + dd) =
      vertex_class P.Nx P.Ny P.Nz a b c ∧
    (setup P).1.free ((setup P).1.variable_indices a b c + dd) =
      if P.fixed a b c dd = 0 then 1 else 0 := by
  obtain ⟨hnn, _, hsep, hzero⟩ := assign_variable_indices_spec P
  have hn : (assign_variable_indices P (vertex_occupancy P)).1 ≠ 0 := by
    intro h
    exact ho ((hzero.mp h) a b c)
  obtain ⟨hx, hf, hvt⟩ := setup_arrays_fields P hn
  rw [hx, hf, hvt, (setup_geometry P).1]
  unfold setup_arrays
  have hfold := setup_fold P (vertex_occupancy P)
    (assign_variable_indices P (vertex_occupancy P)).2
    (scan3 (P.Nx + 2) (P.Ny + 2) (P.Nz + 2))
    { free := fun _ => 0, vertex_type := fun _ => 0, x := fun _ => 0,
      inner_vertex_locations := [], outer_vertex_locations := [] }
    (nodup_scan3 _ _ _)
    (fun c _ hoc => (hnn c.1 c.2.1 c.2.2 hoc).1)
    (fun c1 _ c2 _ ho1 ho2 hne => hsep c1.1 c1.2.1 c1.2.2 c2.1 c2.2.1 c2.2.2 ho1 ho2 hne)
  exact hfold.1 (a, b, c) (vertex_occupancy_in_box P a b c ho) ho dd h0 h3

end FBBlock

end FB

/-! ## Ownership of the nodes of the global grid -/

namespace FB

theorem is_vertex_iff (m : BVFMap) (x y z : Int) :
    is_vertex m x y z = true ↔
      ∃ d : Int × Int × Int, ((0 ≤ d.1 ∧ d.1 < 2) ∧ (0 ≤ d.2.1 ∧ d.2.1 < 2) ∧
        (0 ≤ d.2.2 ∧ d.2.2 < 2)) ∧ 0 < m.value (x - d.1) (y - d.2.1) (z - d.2.2) := by
  unfold is_vertex
  rw [List.any_eq_true]
  constructor
  · rintro ⟨d, hd, h⟩
    exact ⟨d, mem_scan3.mp hd, by simpa using h⟩
  · rintro ⟨d, hd, h⟩
    exact ⟨d, mem_scan3.mpr hd, by simpa using h⟩

theorem BVFMap.value_pos_range (m : BVFMap) (x y z : Int) (h : 0 < m.value x y z) :
    (0 ≤ x ∧ x < m.N1) ∧ (0 ≤ y ∧ y < m.N2) ∧ (0 ≤ z ∧ z < m.N3) := by
  unfold BVFMap.value at h
  split at h
  · rename_i hc
    exact ⟨⟨hc.1, hc.2.1⟩, ⟨hc.2.2.1, hc.2.2.2.1⟩, ⟨hc.2.2.2.2.1, hc.2.2.2.2.2⟩⟩
  · exact absurd h (Nat.lt_irrefl 0)

namespace FBBlockSolver

/-- A block set up by `solve()` for the slab `Info0` owns a node of the global grid iff the
node is a vertex of the BVF map and lies in the slab's `x`, `y` and `z` ranges. -/
theorem setup_owns_iff (S : FBBlockSolver) (Info0 : BlockInfo) (x y z : Int) :
    FBBlock.owns (FBBlock.setup (setup_parameters S Info0)).1 x y z ↔
      is_vertex S.bvf_map x y z = true ∧ (Info0.xmin ≤ x ∧ x ≤ Info0.xmax) ∧
        (Info0.ymin ≤ y ∧ y ≤ Info0.ymax) ∧ (Info0.zmin ≤ z ∧ z ≤ Info0.zmax) := by
  obtain ⟨hvi, _, hNx, hNy, hNz, hbx, hby, hbz⟩ :=
    FBBlock.setup_geometry (setup_parameters S Info0)
  obtain ⟨hnn, hneg, _, _⟩ := FBBlock.assign_variable_indices_spec (setup_parameters S Info0)
  have hpx : (setup_parameters S Info0).block_x_position = Info0.xmin := rfl
  have hpy : (setup_parameters S Info0).block_y_position = Info0.ymin := rfl
  have hpz : (setup_parameters S Info0).block_z_position = Info0.zmin := rfl
  have hPx : (setup_parameters S Info0).Nx = Info0.xmax - Info0.xmin + 1 := rfl
  have hPy : (setup_parameters S Info0).Ny = Info0.ymax - Info0.ymin + 1 := rfl
  have hPz : (setup_parameters S Info0).Nz = Info0.zmax - Info0.zmin + 1 := rfl
  -- occupancy of the local position in terms of the global map
  have hocc : ∀ a b c : Int,
      FBBlock.vertex_occupancy (setup_parameters S Info0) a b c ≠ 0 ↔
        ∃ d : Int × Int × Int, ((0 ≤ d.1 ∧ d.1 < 2) ∧ (0 ≤ d.2.1 ∧ d.2.1 < 2) ∧
          (0 ≤ d.2.2 ∧ d.2.2 < 2)) ∧
          ((0 ≤ a - d.1 ∧ a - d.1 < Info0.xmax - Info0.xmin + 2) ∧
            (0 ≤ b - d.2.1 ∧ b - d.2.1 < Info0.ymax - Info0.ymin + 2) ∧
            (0 ≤ c - d.2.2 ∧ c - d.2.2 < Info0.zmax - Info0.zmin + 2)) ∧
          0 < S.bvf_map.value (a - d.1 + (Info0.xmin - 1)) (b - d.2.1 + (Info0.ymin - 1))
            (c - d.2.2 + (Info0.zmin - 1)) := by
    intro a b c
    rw [FBBlock.vertex_occupancy_ne_zero]
    constructor
    · rintro ⟨v, hv, hb, h1, h2, h3⟩
      rw [mem_scan3, hPx, hPy, hPz] at hv
      have hb' : (setup_parameters S Info0).BVF v.1 v.2.1 v.2.2 =
          S.bvf_map.value (v.1 + (Info0.xmin - 1)) (v.2.1 + (Info0.ymin - 1))
            (v.2.2 + (Info0.zmin - 1)) := by
        show (if _ then _ else _) = _
        rw [if_pos]
        exact ⟨hv.1.1, by omega, hv.2.1.1, by omega, hv.2.2.1, by omega⟩
      rw [hb'] at hb
      refine ⟨(a - v.1, b - v.2.1, c - v.2.2), ?_, ?_, ?_⟩
      · simp only; omega
      · simp only; omega
      · simp only
        have e1 : a - (a - v.1) = v.1 := by ring
        have e2 : b - (b - v.2.1) = v.2.1 := by ring
        have e3 : c - (c - v.2.2) = v.2.2 := by ring
        rw [e1, e2, e3]
        exact Nat.pos_of_ne_zero hb
    · rintro ⟨d, hd, hr, hpos⟩
      refine ⟨(a - d.1, b - d.2.1, c - d.2.2), ?_, ?_, ?_⟩
      · rw [mem_scan3, hPx, hPy, hPz]
        simp only; omega
      · show (if _ then _ else _) ≠ 0
        rw [if_pos]
        · exact Nat.pos_iff_ne_zero.mp hpos
        · simp only; omega
      · simp only; omega
  unfold FBBlock.owns
  rw [hvi, hbx, hby, hbz, hpx, hpy, hpz]
  constructor
  · rintro ⟨h0, hty⟩
    have ho : FBBlock.vertex_occupancy (setup_parameters S Info0) (x - (Info0.xmin - 1))
        (y - (Info0.ymin - 1)) (z - (Info0.zmin - 1)) ≠ 0 := by
      intro h
      have := hneg _ _ _ h
      omega
    have hcls := (FBBlock.setup_variables (setup_parameters S Info0) _ _ _ ho 0
      (le_refl _) (by omega)).2.1
    rw [hvi] at hcls
    have h3 := hty 0 (le_refl _) (by omega)
    rw [← hvi, hvi, hcls, hPx, hPy, hPz] at h3
    obtain ⟨d, hd, hr, hpos⟩ := (hocc _ _ _).mp ho
    refine ⟨(is_vertex_iff _ _ _ _).mpr ⟨d, hd, ?_⟩, ?_⟩
    · have e1 : x - (Info0.xmin - 1) - d.1 + (Info0.xmin - 1) = x - d.1 := by ring
      have e2 : y - (Info0.ymin - 1) - d.2.1 + (Info0.ymin - 1) = y - d.2.1 := by ring
      have e3 : z - (Info0.zmin - 1) - d.2.2 + (Info0.zmin - 1) = z - d.2.2 := by ring
      rw [e1, e2, e3] at hpos
      exact hpos
    · unfold FBBlock.vertex_class at h3
      split_ifs at h3 with c1 c2
      · omega
      · omega
      · exact absurd rfl h3
  · rintro ⟨hv, hx, hy, hz⟩
    obtain ⟨d, hd, hpos⟩ := (is_vertex_iff _ _ _ _).mp hv
    have ho : FBBlock.vertex_occupancy (setup_parameters S Info0) (x - (Info0.xmin - 1))
        (y - (Info0.ymin - 1)) (z - (Info0.zmin - 1)) ≠ 0 := by
      rw [hocc]
      refine ⟨d, hd, by omega, ?_⟩
      have e1 : x - (Info0.xmin - 1) - d.1 + (Info0.xmin - 1) = x - d.1 := by ring
      have e2 : y - (Info0.ymin - 1) - d.2.1 + (Info0.ymin - 1) = y - d.2.1 := by ring
      have e3 : z - (Info0.zmin - 1) - d.2.2 + (Info0.zmin - 1) = z - d.2.2 := by ring
      rw [e1, e2, e3]
      exact hpos
    refine ⟨(hnn _ _ _ ho).1, ?_⟩
    intro dd h0 h3
    have hcls := (FBBlock.setup_variables (setup_parameters S Info0) _ _ _ ho dd h0 h3).2.1
    rw [hvi] at hcls
    rw [hcls, hPx, hPy, hPz]
    unfold FBBlock.vertex_class
    split_ifs with c1 c2
    · decide
    · decide
    · exfalso
      apply c2
      omega

end FBBlockSolver

end FB

namespace FB

theorem slabChain_unique_slab (N3 : Int) :
    ∀ (l : List BlockInfo) (start z : Int), SlabChain N3 start l → start ≤ z →
      z ≤ lastZ start l →
      ∃ (i : Nat) (b : BlockInfo), l[i]? = some b ∧ b.zmin ≤ z ∧ z ≤ b.zmax ∧
        ∀ (j : Nat) (c : BlockInfo), l[j]? = some c → c.zmin ≤ z → z ≤ c.zmax → j = i := by
  intro l
  induction l with
  | nil =>
    intro start z _ h1 h2
    simp only [lastZ] at h2
    omega
  | cons b l ih =>
    intro start z hc h1 h2
    obtain ⟨hb1, hb2, hb3, hrest⟩ := hc
    simp only [lastZ] at h2
    by_cases hz : z ≤ b.zmax
    · refine ⟨0, b, by simp, by omega, hz, ?_⟩
      intro j c hj hc1 hc2
      cases j with
      | zero => rfl
      | succ j =>
        simp only [List.getElem?_cons_succ] at hj
        have hmem : c ∈ l := List.getElem?_mem hj
        have := (slabChain_le N3 l _ hrest c hmem).2.1
        omega
    · obtain ⟨i, b2, hi, hz1, hz2, huniq⟩ := ih (b.zmax + 1) z hrest (by omega) h2
      refine ⟨i + 1, b2, by simpa using hi, hz1, hz2, ?_⟩
      intro j c hj hc1 hc2
      cases j with
      | zero =>
        simp only [List.getElem?_cons_zero, Option.some.injEq] at hj
        subst hj
        omega
      | succ j =>
        simp only [List.getElem?_cons_succ] at hj
        rw [huniq j c hj hc1 hc2]

theorem block_info_step_extent (N1 N2 N3 : Int) (svc : List Int) (T : Int) (target : ℚ)
    (st : Int × List BlockInfo) (k : Int)
    (h : ∀ b ∈ st.2, b.xmin = -1 ∧ b.xmax = N1 + 1 ∧ b.ymin = -1 ∧ b.ymax = N2 + 1) :
    ∀ b ∈ (block_info_step N1 N2 N3 svc T target st k).2,
      b.xmin = -1 ∧ b.xmax = N1 + 1 ∧ b.ymin = -1 ∧ b.ymax = N2 + 1 := by
  unfold block_info_step
  dsimp only
  split_ifs <;> intro b hb
  all_goals first
    | exact h b hb
    | (rcases List.mem_append.mp hb with hb | hb
       · exact h b hb
       · rw [List.mem_singleton] at hb
         subst hb
         exact ⟨rfl, rfl, rfl, rfl⟩)

theorem solve_block_infos_extent (N1 N2 N3 : Int) (svc : List Int) (T : Int) :
    ∀ b ∈ solve_block_infos N1 N2 N3 svc T,
      b.xmin = -1 ∧ b.xmax = N1 + 1 ∧ b.ymin = -1 ∧ b.ymax = N2 + 1 := by
  unfold solve_block_infos
  dsimp only
  generalize idxRange T = l
  have : ∀ (l : List Int) (st : Int × List BlockInfo),
      (∀ b ∈ st.2, b.xmin = -1 ∧ b.xmax = N1 + 1 ∧ b.ymin = -1 ∧ b.ymax = N2 + 1) →
      ∀ b ∈ (l.foldl (block_info_step N1 N2 N3 svc T ((svc.sum : ℚ) * 1 / (T : ℚ))) st).2,
        b.xmin = -1 ∧ b.xmax = N1 + 1 ∧ b.ymin = -1 ∧ b.ymax = N2 + 1 := by
    intro l
    induction l with
    | nil => intro st h; exact h
    | cons a l ih =>
      intro st h
      rw [List.foldl_cons]
      exact ih _ (block_info_step_extent N1 N2 N3 svc T _ st a h)
  exact this l (-1, []) (fun b hb => absurd hb (List.not_mem_nil b))

namespace FBBlockSolver

theorem solve_setup_blocks (S : FBBlockSolver) :
    (solve_setup S).blocks =
      (solve_block_infos S.bvf_map.N1 S.bvf_map.N2 S.bvf_map.N3
        (slice_vertex_count S.bvf_map) S.num_threads).map
        fun Info0 => (FBBlock.setup (setup_parameters S Info0)).1 := by
  unfold solve_setup
  simp [List.map_map, Function.comp_def]

theorem is_vertex_range (m : BVFMap) (x y z : Int) (h : is_vertex m x y z = true) :
    (0 ≤ x ∧ x ≤ m.N1) ∧ (0 ≤ y ∧ y ≤ m.N2) ∧ (0 ≤ z ∧ z ≤ m.N3) := by
  obtain ⟨d, hd, hpos⟩ := (is_vertex_iff m x y z).mp h
  have := BVFMap.value_pos_range m _ _ _ hpos
  omega

/-- C2. Owned-DOF disjointness: for every BVF map and every `num_threads >= 1`, every
active node of the global grid (a node adjacent to at least one voxel with `BVF > 0`) is
active with `vertex_type != 3` in exactly one of the blocks built by `solve()`. -/
theorem owned_by_exactly_one_block (S : FBBlockSolver) (x y z : Int)
    (hT : 1 ≤ S.num_threads) (hv : is_vertex S.bvf_map x y z = true) :
    ∃! i : Nat, ∃ B : FBBlock, (solve_setup S).blocks[i]? = some B ∧ FBBlock.owns B x y z := by
  obtain ⟨hx, hy, hz⟩ := is_vertex_range _ _ _ _ hv
  obtain ⟨hchain, _, hlast⟩ := solve_block_infos_chain S.bvf_map.N1 S.bvf_map.N2 S.bvf_map.N3
    (slice_vertex_count S.bvf_map) S.num_threads hT (by omega)
  have hext := solve_block_infos_extent S.bvf_map.N1 S.bvf_map.N2 S.bvf_map.N3
    (slice_vertex_count S.bvf_map) S.num_threads
  obtain ⟨i, b, hi, hz1, hz2, huniq⟩ := slabChain_unique_slab _ _ 0 z hchain hz.1
    (by rw [hlast]; exact hz.2)
  rw [solve_setup_blocks]
  refine ⟨i, ⟨_, by rw [List.getElem?_map, hi]; rfl, ?_⟩, ?_⟩
  · rw [setup_owns_iff]
    obtain ⟨e1, e2, e3, e4⟩ := hext b (List.getElem?_mem hi)
    exact ⟨hv, by omega, by omega, hz1, hz2⟩
  · rintro j ⟨B, hj, hown⟩
    rw [List.getElem?_map] at hj
    cases hc : (solve_block_infos S.bvf_map.N1 S.bvf_map.N2 S.bvf_map.N3
        (slice_vertex_count S.bvf_map) S.num_threads)[j]? with
    | none => rw [hc] at hj; cases hj
    | some c =>
      rw [hc] at hj
      simp only [Option.map_some', Option.some.injEq] at hj
      subst hj
      rw [setup_owns_iff] at hown
      exact huniq j c hc hown.2.2.2.1 hown.2.2.2.2

/-- Witness for C2: node `(0,0,0)` of the one-voxel map, two threads. -/
theorem owned_by_exactly_one_block_witness :
    (1 ≤ (one_voxel_solver 2).num_threads ∧
      is_vertex (one_voxel_solver 2).bvf_map 0 0 0 = true) ∧
    ∃! i : Nat, ∃ B : FBBlock,
      (solve_setup (one_voxel_solver 2)).blocks[i]? = some B ∧ FBBlock.owns B 0 0 0 :=
  ⟨⟨by decide, by decide⟩,
    owned_by_exactly_one_block (one_voxel_solver 2) 0 0 0 (by decide) (by decide)⟩

end FBBlockSolver

end FB

/-! ## Dirichlet values -/

namespace FB

namespace FBBlock

theorem sameFixed_refl (B : FBBlock) : SameFixed B B :=
  ⟨rfl, rfl, rfl, rfl, rfl, rfl, rfl, rfl, fun _ _ => rfl⟩

theorem sameFixed_trans {B1 B2 B3 : FBBlock} (h12 : SameFixed B1 B2) (h23 : SameFixed B2 B3) :
    SameFixed B1 B3 := by
  obtain ⟨a1, a2, a3, a4, a5, a6, a7, a8, a9⟩ := h12
  obtain ⟨b1, b2, b3, b4, b5, b6, b7, b8, b9⟩ := h23
  refine ⟨b1.trans a1, b2.trans a2, b3.trans a3, b4.trans a4, b5.trans a5, b6.trans a6,
    b7.trans a7, b8.trans a8, ?_⟩
  intro i hi
  rw [b9 i (by rw [a2]; exact hi), a9 i hi]

theorem step_A_vectors_geometry (B : FBBlock) (P : FBBlockIterateStepAParameters) :
    (step_A_vectors B P).Nx = B.Nx ∧ (step_A_vectors B P).Ny = B.Ny ∧
    (step_A_vectors B P).Nz = B.Nz ∧
    (step_A_vectors B P).block_x_position = B.block_x_position ∧
    (step_A_vectors B P).block_y_position = B.block_y_position ∧
    (step_A_vectors B P).block_z_position = B.block_z_position := by
  unfold step_A_vectors
  dsimp only
  split <;> exact ⟨rfl, rfl, rfl, rfl, rfl, rfl⟩

theorem iterate_step_A_sameFixed (B : FBBlock) (P : FBBlockIterateStepAParameters) :
    SameFixed B (iterate_step_A B P).1 := by
  rw [iterate_step_A_fst]
  obtain ⟨hx, hf, _, _, _, _, hvi, _⟩ := step_A_vectors_frame B P
  obtain ⟨g1, g2, g3, g4, g5, g6⟩ := step_A_vectors_geometry B P
  exact ⟨hvi, hf, g1, g2, g3, g4, g5, g6, fun i _ => by rw [hx]⟩

theorem iterate_step_B_frame (sqrt : ℚ → ℚ) (B : FBBlock) (P : FBBlockIterateStepBParameters) :
    (iterate_step_B sqrt B P).1.variable_indices = B.variable_indices ∧
    (iterate_step_B sqrt B P).1.free = B.free ∧
    (iterate_step_B sqrt B P).1.Nx = B.Nx ∧ (iterate_step_B sqrt B P).1.Ny = B.Ny ∧
    (iterate_step_B sqrt B P).1.Nz = B.Nz ∧
    (iterate_step_B sqrt B P).1.block_x_position = B.block_x_position ∧
    (iterate_step_B sqrt B P).1.block_y_position = B.block_y_position ∧
    (iterate_step_B sqrt B P).1.block_z_position = B.block_z_position := by
  unfold iterate_step_B
  dsimp only
  rw [foldl_step_B_update P.alpha P.beta _ (nodup_idxRange _) B]
  split <;> exact ⟨rfl, rfl, rfl, rfl, rfl, rfl, rfl, rfl⟩

theorem iterate_step_B_x_fixed (sqrt : ℚ → ℚ) (B : FBBlock) (P : FBBlockIterateStepBParameters)
    (i : Int) (hi : B.free i = 0) : (iterate_step_B sqrt B P).1.x i = B.x i := by
  rw [(iterate_step_B_vectors sqrt B P).2.1,
    foldl_step_B_update P.alpha P.beta _ (nodup_idxRange _) B]
  simp [hi]

theorem iterate_step_B_sameFixed (sqrt : ℚ → ℚ) (B : FBBlock)
    (P : FBBlockIterateStepBParameters) : SameFixed B (iterate_step_B sqrt B P).1 := by
  obtain ⟨h1, h2, h3, h4, h5, h6, h7, h8⟩ := iterate_step_B_frame sqrt B P
  exact ⟨h1, h2, h3, h4, h5, h6, h7, h8, iterate_step_B_x_fixed sqrt B P⟩

end FBBlock

end FB

namespace FB

namespace FBBlockSolver

theorem blocksRelated_refl (L : List FBBlock) : BlocksRelated L L :=
  ⟨rfl, fun i B1 B2 h1 h2 => by
    rw [h1] at h2
    cases h2
    exact FBBlock.sameFixed_refl B1⟩

theorem blocksRelated_trans {L1 L2 L3 : List FBBlock} (h12 : BlocksRelated L1 L2)
    (h23 : BlocksRelated L2 L3) : BlocksRelated L1 L3 := by
  refine ⟨h12.1.trans h23.1, ?_⟩
  intro i B1 B3 h1 h3
  have hi : i < L1.length := (List.getElem?_eq_some.mp h1).1
  have hi2 : i < L2.length := by rw [← h12.1]; exact hi
  have h2 : L2[i]? = some L2[i] := List.getElem?_eq_getElem hi2
  exact FBBlock.sameFixed_trans (h12.2 i B1 _ h1 h2) (h23.2 i _ B3 h2 h3)

theorem iteration_blocks (ext : External) (S : FBBlockSolver) :
    (iteration ext S).blocks =
      (List.range S.blocks.length).map fun i =>
        (FBBlock.iterate_step_B ext.sqrt
          (FBBlock.iterate_step_A (S.blocks.getD i FBBlock.init)
            ((stage_interfaces S).getD i {})).1
          ((set_step_B_parameters S
            (reduce_scalars S.blocks.length (iteration ext S).PPP_A)).getD i {})).1 := by
  rw [iteration_PPP_A]
  unfold iteration
  simp only [List.map_map, Function.comp_def]
  apply List.map_congr_left
  intro i hi
  have hi' : i < S.blocks.length := List.mem_range.mp hi
  rw [getD_map_range _ _ _ _ hi']

theorem iteration_blocksRelated (ext : External) (S : FBBlockSolver) :
    BlocksRelated S.blocks (iteration ext S).blocks := by
  rw [iteration_blocks]
  refine ⟨by simp, ?_⟩
  intro i B1 B2 h1 h2
  have hi : i < S.blocks.length := (List.getElem?_eq_some.mp h1).1
  rw [List.getElem?_map, List.getElem?_range hi] at h2
  simp only [Option.map_some', Option.some.injEq] at h2
  have hB : S.blocks.getD i FBBlock.init = B1 := by
    rw [List.getD_eq_getElem?_getD, h1]; rfl
  rw [hB] at h2
  rw [← h2]
  exact FBBlock.sameFixed_trans (FBBlock.iterate_step_A_sameFixed B1 _)
    (FBBlock.iterate_step_B_sameFixed _ _ _)

theorem install_adjuster_blocksRelated (S : FBBlockSolver) :
    BlocksRelated S.blocks (install_adjuster S).blocks := by
  unfold install_adjuster
  refine ⟨by simp, ?_⟩
  intro i B1 B2 h1 h2
  simp only [List.getElem?_map, h1, Option.map_some', Option.some.injEq] at h2
  rw [← h2]
  exact ⟨rfl, rfl, rfl, rfl, rfl, rfl, rfl, rfl, fun _ _ => rfl⟩

theorem after_iterations_blocksRelated (ext : External) (S : FBBlockSolver) (k : Nat) :
    BlocksRelated S.blocks (after_iterations ext S k).blocks := by
  induction k with
  | zero => exact blocksRelated_refl _
  | succ k ih =>
    rw [after_iterations_succ_last]
    exact blocksRelated_trans ih (iteration_blocksRelated ext _)

theorem iteration_bvf_map (ext : External) (S : FBBlockSolver) :
    (iteration ext S).bvf_map = S.bvf_map := rfl

theorem after_iterations_bvf_map (ext : External) (S : FBBlockSolver) (k : Nat) :
    (after_iterations ext S k).bvf_map = S.bvf_map := by
  induction k with
  | zero => rfl
  | succ k ih => rw [after_iterations_succ_last, iteration_bvf_map, ih]

end FBBlockSolver

end FB

namespace FB

namespace FBBlockSolver

theorem write_node_displacements_apply (m : BVFMap) (B : FBBlock)
    (disp : Int → Int → Int → Int → ℚ) (c : Int × Int × Int) (dd x y z : Int) :
    write_node_displacements m B disp c dd x y z =
      if is_vertex m x y z = true ∧
          (x = B.block_x_position + c.1 ∧ y = B.block_y_position + c.2.1 ∧
            z = B.block_z_position + c.2.2) ∧ (0 ≤ dd ∧ dd < 3) then
        B.getDisplacement (c.1 + 1) (c.2.1 + 1) (c.2.2 + 1) dd
      else disp dd x y z := by
  unfold write_node_displacements
  by_cases hv : is_vertex m (B.block_x_position + c.1) (B.block_y_position + c.2.1)
      (B.block_z_position + c.2.2) = true
  · rw [if_pos hv, FBBlock.idxRange_three]
    simp only [List.foldl_cons, List.foldl_nil, set4]
    by_cases hpos : x = B.block_x_position + c.1 ∧ y = B.block_y_position + c.2.1 ∧
        z = B.block_z_position + c.2.2
    · obtain ⟨rfl, rfl, rfl⟩ := hpos
      simp only [hv, true_and, and_self, and_true]
      split_ifs <;> first | rfl | (exfalso; omega) | (subst_vars; rfl)
    · have h1 : ∀ d : Int, ¬ (dd = d ∧ x = B.block_x_position + c.1 ∧
          y = B.block_y_position + c.2.1 ∧ z = B.block_z_position + c.2.2) :=
        fun d h => hpos h.2
      simp only [h1, hpos, false_and, and_false, if_false]
  · rw [if_neg hv]
    rw [if_neg]
    rintro ⟨h1, ⟨rfl, rfl, rfl⟩, _⟩
    exact hv h1

theorem write_displacements_fold (m : BVFMap) (B : FBBlock) (dd x y z : Int) :
    ∀ (l : List (Int × Int × Int)) (disp : Int → Int → Int → Int → ℚ),
      l.foldl (write_node_displacements m B) disp dd x y z =
        if (∃ c ∈ l, x = B.block_x_position + c.1 ∧ y = B.block_y_position + c.2.1 ∧
              z = B.block_z_position + c.2.2) ∧
            is_vertex m x y z = true ∧ (0 ≤ dd ∧ dd < 3) then
          B.getDisplacement (x - B.block_x_position + 1) (y - B.block_y_position + 1)
            (z - B.block_z_position + 1) dd
        else disp dd x y z := by
  intro l
  induction l with
  | nil => intro disp; simp
  | cons a l ih =>
    intro disp
    rw [List.foldl_cons, ih]
    by_cases hl : (∃ c ∈ l, x = B.block_x_position + c.1 ∧ y = B.block_y_position + c.2.1 ∧
        z = B.block_z_position + c.2.2) ∧ is_vertex m x y z = true ∧ (0 ≤ dd ∧ dd < 3)
    · rw [if_pos hl, if_pos]
      obtain ⟨⟨c, hc, hpos⟩, hrest⟩ := hl
      exact ⟨⟨c, List.mem_cons_of_mem _ hc, hpos⟩, hrest⟩
    · rw [if_neg hl, write_node_displacements_apply]
      by_cases ha : is_vertex m x y z = true ∧
          (x = B.block_x_position + a.1 ∧ y = B.block_y_position + a.2.1 ∧
            z = B.block_z_position + a.2.2) ∧ (0 ≤ dd ∧ dd < 3)
      · rw [if_pos ha, if_pos ⟨⟨a, List.mem_cons_self _ _, ha.2.1⟩, ha.1, ha.2.2⟩]
        obtain ⟨_, ⟨e1, e2, e3⟩, _⟩ := ha
        have f1 : x - B.block_x_position + 1 = a.1 + 1 := by omega
        have f2 : y - B.block_y_position + 1 = a.2.1 + 1 := by omega
        have f3 : z - B.block_z_position + 1 = a.2.2 + 1 := by omega
        rw [f1, f2, f3]
      · rw [if_neg ha, if_neg]
        rintro ⟨⟨c, hc, hpos⟩, hv, hd⟩
        rcases List.mem_cons.mp hc with e | mc
        · subst e
          exact ha ⟨hv, hpos, hd⟩
        · exact hl ⟨⟨c, mc, hpos⟩, hv, hd⟩

theorem write_displacements_apply (m : BVFMap) (B : FBBlock)
    (disp : Int → Int → Int → Int → ℚ) (dd x y z : Int) :
    write_displacements m disp B dd x y z =
      if FBBlock.covers B x y z ∧ is_vertex m x y z = true ∧ (0 ≤ dd ∧ dd < 3) then
        B.getDisplacement (x - B.block_x_position + 1) (y - B.block_y_position + 1)
          (z - B.block_z_position + 1) dd
      else disp dd x y z := by
  unfold write_displacements
  rw [write_displacements_fold]
  have hiff : (∃ c ∈ scan3 B.Nx B.Ny B.Nz, x = B.block_x_position + c.1 ∧
      y = B.block_y_position + c.2.1 ∧ z = B.block_z_position + c.2.2) ↔
      FBBlock.covers B x y z := by
    unfold FBBlock.covers
    constructor
    · rintro ⟨c, hc, e1, e2, e3⟩
      rw [mem_scan3] at hc
      omega
    · intro h
      refine ⟨(x - B.block_x_position, y - B.block_y_position, z - B.block_z_position), ?_, ?_⟩
      · rw [mem_scan3]; simp only; omega
      · simp only; omega
  simp only [hiff]

/-- When exactly one block of the list visits a node, `getDisplacements` reports that
block's displacement there. -/
theorem foldl_write_displacements (m : BVFMap) (dd x y z : Int)
    (hv : is_vertex m x y z = true) (hd : 0 ≤ dd ∧ dd < 3) :
    ∀ (bs : List FBBlock) (disp : Int → Int → Int → Int → ℚ) (i : Nat) (B : FBBlock),
      bs[i]? = some B → FBBlock.covers B x y z →
      (∀ (j : Nat) (C : FBBlock), bs[j]? = some C → FBBlock.covers C x y z → j = i) →
      bs.foldl (write_displacements m) disp dd x y z =
        B.getDisplacement (x - B.block_x_position + 1) (y - B.block_y_position + 1)
          (z - B.block_z_position + 1) dd := by
  have hnone : ∀ (bs : List FBBlock) (disp : Int → Int → Int → Int → ℚ),
      (∀ C ∈ bs, ¬ FBBlock.covers C x y z) →
      bs.foldl (write_displacements m) disp dd x y z = disp dd x y z := by
    intro bs
    induction bs with
    | nil => intro disp _; rfl
    | cons b bs ih =>
      intro disp h
      rw [List.foldl_cons, ih _ (fun C hC => h C (List.mem_cons_of_mem _ hC)),
        write_displacements_apply, if_neg]
      exact fun hc => h b (List.mem_cons_self _ _) hc.1
  intro bs
  induction bs with
  | nil => intro disp i B hi; simp at hi
  | cons b bs ih =>
    intro disp i B hi hcov huniq
    rw [List.foldl_cons]
    cases i with
    | zero =>
      simp only [List.getElem?_cons_zero, Option.some.injEq] at hi
      subst hi
      rw [hnone, write_displacements_apply, if_pos ⟨hcov, hv, hd⟩]
      intro C hC hcC
      obtain ⟨j, hj⟩ := List.mem_iff_getElem?.mp hC
      have := huniq (j + 1) C (by simpa using hj) hcC
      omega
    | succ i =>
      simp only [List.getElem?_cons_succ] at hi
      apply ih _ i B hi hcov
      intro j C hj hcC
      have := huniq (j + 1) C (by simpa using hj) hcC
      omega

end FBBlockSolver

end FB

namespace FB

namespace FBBlock

theorem setup_index_nonneg_iff (P : FBBlockSetupParameters) (a b c : Int) :
    0 ≤ (setup P).1.variable_indices a b c ↔ vertex_occupancy P a b c ≠ 0 := by
  obtain ⟨hnn, hneg, _, _⟩ := assign_variable_indices_spec P
  rw [(setup_geometry P).1]
  constructor
  · intro h ho
    have := hneg a b c ho
    omega
  · intro ho
    exact (hnn a b c ho).1

end FBBlock

namespace FBBlockSolver

theorem solve_setup_bvf_map (S : FBBlockSolver) : (solve_setup S).bvf_map = S.bvf_map := rfl

/-- C4. Dirichlet values are never modified.  After `setup`, a fixed variable of an
occupied node is not free and its `x` is the prescribed initial displacement;
`iterate_step_A` changes neither `x` nor the `free` mask; `iterate_step_B` (with or without
an adjuster, for every `alpha` and `beta`) keeps the `free` mask and leaves `x[i]` unchanged
wherever `free[i] = 0`; consequently, after `solve()` has set up its blocks and run any
number of iterations, `getDisplacements` returns at every fixed variable of an active node
exactly the initial displacement that was set for it. -/
theorem dirichlet_values_never_modified :
    (∀ (P : FBBlockSetupParameters) (a b c dd : Int),
      FBBlock.vertex_occupancy P a b c ≠ 0 → 0 ≤ dd → dd < 3 → P.fixed a b c dd ≠ 0 →
      (FBBlock.setup P).1.free ((FBBlock.setup P).1.variable_indices a b c + dd) = 0 ∧
      (FBBlock.setup P).1.x ((FBBlock.setup P).1.variable_indices a b c + dd) =
        P.X0 a b c dd) ∧
    (∀ (B : FBBlock) (P : FBBlockIterateStepAParameters),
      (FBBlock.iterate_step_A B P).1.x = B.x ∧ (FBBlock.iterate_step_A B P).1.free = B.free) ∧
    (∀ (sqrt : ℚ → ℚ) (B : FBBlock) (P : FBBlockIterateStepBParameters),
      (FBBlock.iterate_step_B sqrt B P).1.free = B.free ∧
      ∀ i : Int, B.free i = 0 → (FBBlock.iterate_step_B sqrt B P).1.x i = B.x i) ∧
    (∀ (ext : External) (S : FBBlockSolver) (k : Nat) (x y z dd : Int),
      1 ≤ S.num_threads → is_vertex S.bvf_map x y z = true → 0 ≤ dd → dd < 3 →
      S.fixed_variables dd x y z ≠ 0 →
      getDisplacements (after_iterations ext (install_adjuster (solve_setup S)) k) dd x y z =
        S.initial_displacements dd x y z) := by
  refine ⟨?_, ?_, ?_, ?_⟩
  · intro P a b c dd ho h0 h3 hfix
    obtain ⟨hx, _, hf⟩ := FBBlock.setup_variables P a b c ho dd h0 h3
    exact ⟨by rw [hf, if_neg hfix], hx⟩
  · intro B P
    rw [FBBlock.iterate_step_A_fst]
    exact ⟨(FBBlock.step_A_vectors_frame B P).1, (FBBlock.step_A_vectors_frame B P).2.1⟩
  · intro sqrt B P
    exact ⟨(FBBlock.iterate_step_B_frame sqrt B P).2.1, FBBlock.iterate_step_B_x_fixed sqrt B P⟩
  · intro ext S k x y z dd hT hv h0 h3 hfix
    obtain ⟨hx, hy, hz⟩ := is_vertex_range _ _ _ _ hv
    obtain ⟨hchain, _, hlast⟩ := solve_block_infos_chain S.bvf_map.N1 S.bvf_map.N2
      S.bvf_map.N3 (slice_vertex_count S.bvf_map) S.num_threads hT (by omega)
    have hext := solve_block_infos_extent S.bvf_map.N1 S.bvf_map.N2 S.bvf_map.N3
      (slice_vertex_count S.bvf_map) S.num_threads
    obtain ⟨i, b, hi, hz1, hz2, huniq⟩ := slabChain_unique_slab _ _ 0 z hchain hz.1
      (by rw [hlast]; exact hz.2)
    obtain ⟨e1, e2, e3, e4⟩ := hext b (List.getElem?_mem hi)
    -- the blocks after the iterations correspond to the blocks of the setup
    have hrel : BlocksRelated (solve_setup S).blocks
        (after_iterations ext (install_adjuster (solve_setup S)) k).blocks :=
      blocksRelated_trans (install_adjuster_blocksRelated _)
        (after_iterations_blocksRelated ext _ k)
    have hbvf : (after_iterations ext (install_adjuster (solve_setup S)) k).bvf_map =
        S.bvf_map := by
      rw [after_iterations_bvf_map]; rfl
    have hB0 : (solve_setup S).blocks[i]? =
        some (FBBlock.setup (setup_parameters S b)).1 := by
      rw [solve_setup_blocks, List.getElem?_map, hi]; rfl
    have hilen : i < (after_iterations ext (install_adjuster (solve_setup S)) k).blocks.length := by
      rw [← hrel.1]; exact (List.getElem?_eq_some.mp hB0).1
    have hB1 := List.getElem?_eq_getElem hilen
    obtain ⟨s1, s2, s3, s4, s5, s6, s7, s8, s9⟩ := hrel.2 i _ _ hB0 hB1
    obtain ⟨g1, _, g3, g4, g5, g6, g7, g8⟩ := FBBlock.setup_geometry (setup_parameters S b)
    have hpx : (setup_parameters S b).block_x_position = b.xmin := rfl
    have hpy : (setup_parameters S b).block_y_position = b.ymin := rfl
    have hpz : (setup_parameters S b).block_z_position = b.zmin := rfl
    have hPx : (setup_parameters S b).Nx = b.xmax - b.xmin + 1 := rfl
    have hPy : (setup_parameters S b).Ny = b.ymax - b.ymin + 1 := rfl
    have hPz : (setup_parameters S b).Nz = b.zmax - b.zmin + 1 := rfl
    unfold getDisplacements
    rw [hbvf]
    rw [foldl_write_displacements S.bvf_map dd x y z hv ⟨h0, h3⟩ _ _ i _ hB1]
    · -- the value reported by the covering block
      rw [s6, s7, s8, g6, g7, g8, hpx, hpy, hpz]
      have hown : FBBlock.owns (FBBlock.setup (setup_parameters S b)).1 x y z := by
        rw [setup_owns_iff]
        exact ⟨hv, by omega, by omega, hz1, hz2⟩
      have hnn := hown.1
      rw [g6, g7, g8, hpx, hpy, hpz] at hnn
      have l1 : x - b.xmin + 1 = x - (b.xmin - 1) := by ring
      have l2 : y - b.ymin + 1 = y - (b.ymin - 1) := by ring
      have l3 : z - b.zmin + 1 = z - (b.zmin - 1) := by ring
      unfold FBBlock.getDisplacement
      dsimp only
      rw [s1, l1, l2, l3, if_pos hnn]
      have ho := (FBBlock.setup_index_nonneg_iff _ _ _ _).mp hnn
      have hfixed : (setup_parameters S b).fixed (x - (b.xmin - 1)) (y - (b.ymin - 1))
          (z - (b.zmin - 1)) dd ≠ 0 := by
        show (if _ then 1 else 0) ≠ 0
        rw [if_pos]
        · decide
        · refine ⟨by omega, by omega, by omega, by omega, by omega, by omega, h0, h3, ?_⟩
          have f1 : x - (b.xmin - 1) + (b.xmin - 1) = x := by ring
          have f2 : y - (b.ymin - 1) + (b.ymin - 1) = y := by ring
          have f3 : z - (b.zmin - 1) + (b.zmin - 1) = z := by ring
          rw [f1, f2, f3]
          exact hfix
      obtain ⟨hxv, _, hfv⟩ := FBBlock.setup_variables (setup_parameters S b) _ _ _ ho dd h0 h3
      rw [if_neg hfixed] at hfv
      rw [s9 _ hfv, hxv]
      show (if _ then _ else _) = _
      rw [if_pos]
      · have f1 : x - (b.xmin - 1) + (b.xmin - 1) = x := by ring
        have f2 : y - (b.ymin - 1) + (b.ymin - 1) = y := by ring
        have f3 : z - (b.zmin - 1) + (b.zmin - 1) = z := by ring
        rw [f1, f2, f3]
      · exact ⟨by omega, by omega, by omega, by omega, by omega, by omega, h0, h3⟩
    · -- the block of the slab visits the node
      unfold FBBlock.covers
      rw [s3, s4, s5, s6, s7, s8, g3, g4, g5, g6, g7, g8, hpx, hpy, hpz, hPx, hPy, hPz]
      omega
    · -- no other block does
      intro j C hj hcov
      have hjlen : j < (solve_setup S).blocks.length := by
        rw [hrel.1]; exact (List.getElem?_eq_some.mp hj).1
      cases hc : (solve_block_infos S.bvf_map.N1 S.bvf_map.N2 S.bvf_map.N3
          (slice_vertex_count S.bvf_map) S.num_threads)[j]? with
      | none =>
        have hnone : (solve_setup S).blocks[j]? = none := by
          rw [solve_setup_blocks, List.getElem?_map, hc]; rfl
        rw [List.getElem?_eq_getElem hjlen] at hnone
        cases hnone
      | some c =>
        have hC0 : (solve_setup S).blocks[j]? =
            some (FBBlock.setup (setup_parameters S c)).1 := by
          rw [solve_setup_blocks, List.getElem?_map, hc]; rfl
        obtain ⟨_, _, _, _, t5, _, _, t8, _⟩ := hrel.2 j _ _ hC0 hj
        obtain ⟨_, _, _, _, q5, _, _, q8⟩ := FBBlock.setup_geometry (setup_parameters S c)
        unfold FBBlock.covers at hcov
        rw [t5, t8, q5, q8] at hcov
        have hcz : (setup_parameters S c).block_z_position = c.zmin := rfl
        have hcN : (setup_parameters S c).Nz = c.zmax - c.zmin + 1 := rfl
        rw [hcz, hcN] at hcov
        exact huniq j c hc (by omega) (by omega)

theorem dirichlet_values_never_modified_witness :
    getDisplacements
        (after_iterations example_external (install_adjuster (solve_setup clamped_voxel_solver)) 3)
        0 0 0 0 = 1 :=
  dirichlet_values_never_modified.2.2.2 example_external clamped_voxel_solver 3 0 0 0 0
    (by decide) (by decide) (by decide) (by decide) (by decide)

end FBBlockSolver

end FB

namespace FB

namespace FBBlock

theorem package_inner_interface_bottom (B : FBBlock) (h : B.Nz = 1) :
    (package_inner_interface B).2 = Slice.zero := by
  unfold package_inner_interface
  have key : ∀ (l : List FBVertexLocation) (st : Slice × Slice), st.2 = Slice.zero →
      (l.foldl
        (fun st VL =>
          (idxRange 3).foldl
            (fun st dd =>
              let varind := VL.ref_index + dd
              if B.free varind ≠ 0 then
                if VL.z = 1 then (set3 st.1 dd (VL.x - 1) (VL.y - 1) (B.p varind), st.2)
                else if VL.z = B.Nz then
                  (st.1, set3 st.2 dd (VL.x - 1) (VL.y - 1) (B.p varind))
                else st
              else st)
            st)
        st).2 = Slice.zero := by
    intro l
    induction l with
    | nil => intro st hst; exact hst
    | cons VL l ih =>
      intro st hst
      rw [List.foldl_cons]
      apply ih
      have inner : ∀ (ds : List Int) (st : Slice × Slice), st.2 = Slice.zero →
          (ds.foldl
            (fun st dd =>
              let varind := VL.ref_index + dd
              if B.free varind ≠ 0 then
                if VL.z = 1 then (set3 st.1 dd (VL.x - 1) (VL.y - 1) (B.p varind), st.2)
                else if VL.z = B.Nz then
                  (st.1, set3 st.2 dd (VL.x - 1) (VL.y - 1) (B.p varind))
                else st
              else st)
            st).2 = Slice.zero := by
        intro ds
        induction ds with
        | nil => intro st hst; exact hst
        | cons dd ds ihd =>
          intro st hst
          rw [List.foldl_cons]
          apply ihd
          dsimp only
          rw [h]
          split_ifs <;> exact hst
      exact inner _ st hst
  exact key _ _ rfl

theorem setup_bottom_slice (P : FBBlockSetupParameters) (h : P.Nz = 1) :
    (setup P).2.p_on_bottom_inner_interface = Slice.zero := by
  unfold setup
  dsimp only
  split_ifs
  · rfl
  · exact package_inner_interface_bottom _ h
  · exact package_inner_interface_bottom _ h

theorem iterate_step_B_bottom_slice (sqrt : ℚ → ℚ) (B : FBBlock)
    (P : FBBlockIterateStepBParameters) (h : B.Nz = 1) :
    (iterate_step_B sqrt B P).2.p_on_bottom_inner_interface = Slice.zero := by
  unfold iterate_step_B
  dsimp only
  have hz : ((idxRange B.num_variables).foldl (step_B_update P.alpha P.beta) B).Nz = 1 := by
    rw [foldl_step_B_update P.alpha P.beta _ (nodup_idxRange _) B]
    exact h
  split <;> exact package_inner_interface_bottom _ hz

end FBBlock

namespace FBBlockSolver

/-- C3 (divergence of the code from the claim). The packaging loop shared by `setup` and
`iterate_step_B` tests `z == 1` before `z == m_Nz`, so a block of height `Nz = 1` never
fills its bottom inner slice: after `setup` and after every `iterate_step_B` that slice is
all zeros.  On the single voxel solved with two threads the slabs are `[0,0]` and `[1,1]`;
in the first iteration block 1 has a free outer-interface variable at its local `z = 0`
(world node `(0,0,0)`, direction 0) where block 0 owns the node with `p = -1`, while the
value of `p` that block 1 uses there when it computes `Ap` is `0`. -/
theorem bottom_slice_of_one_layer_block_is_zero :
    (∀ P : FBBlockSetupParameters, P.Nz = 1 →
      (FBBlock.setup P).2.p_on_bottom_inner_interface = Slice.zero) ∧
    (∀ (sqrt : ℚ → ℚ) (B : FBBlock) (P : FBBlockIterateStepBParameters), B.Nz = 1 →
      (FBBlock.iterate_step_B sqrt B P).2.p_on_bottom_inner_interface = Slice.zero) ∧
    ((install_adjuster (solve_setup (one_voxel_solver 2))).blocks.length = 2 ∧
    (block_at (install_adjuster (solve_setup (one_voxel_solver 2))) 0).Nz = 1 ∧
    (block_at (install_adjuster (solve_setup (one_voxel_solver 2))) 0).block_z_position = 0 ∧
    (block_at (install_adjuster (solve_setup (one_voxel_solver 2))) 1).block_z_position = 1 ∧
    (block_at (install_adjuster (solve_setup (one_voxel_solver 2))) 1).free
      ((block_at (install_adjuster (solve_setup (one_voxel_solver 2))) 1).variable_indices
        2 2 0) = 1 ∧
    (block_at (install_adjuster (solve_setup (one_voxel_solver 2))) 1).vertex_type
      ((block_at (install_adjuster (solve_setup (one_voxel_solver 2))) 1).variable_indices
        2 2 0) = 3 ∧
    (block_at (install_adjuster (solve_setup (one_voxel_solver 2))) 0).vertex_type
      ((block_at (install_adjuster (solve_setup (one_voxel_solver 2))) 0).variable_indices
        2 2 1) ≠ 3 ∧
    (block_at (install_adjuster (solve_setup (one_voxel_solver 2))) 0).p
      ((block_at (install_adjuster (solve_setup (one_voxel_solver 2))) 0).variable_indices
        2 2 1) = -1 ∧
    (FBBlock.step_A_vectors (block_at (install_adjuster (solve_setup (one_voxel_solver 2))) 1)
        ((stage_interfaces (install_adjuster (solve_setup (one_voxel_solver 2)))).getD 1 {})).p
      ((block_at (install_adjuster (solve_setup (one_voxel_solver 2))) 1).variable_indices
        2 2 0) = 0) :=
  ⟨FBBlock.setup_bottom_slice, FBBlock.iterate_step_B_bottom_slice, by decide!⟩

/-- C1 (divergence of the code from the claim). For the single voxel of full density with
the all-ones stiffness matrix, no fixed variable and initial displacement `1` at direction
0 of node `(0,0,0)`, the reduced scalars `(r_z, r_Ap, p_Ap, Ap_Ap)` of the first iteration
are `(24, 576, 576, 13824)` with one thread and `(24, 432, 432, 8640)` with two threads,
so `alpha` is `1/24` against `1/18`, and the normalised stress component 2 returned by
`getStress` after that iteration is `0` against `-4/3`. -/
theorem first_iteration_depends_on_num_threads :
    (total_r_z (iteration example_external
        (install_adjuster (solve_setup (one_voxel_solver 1)))).PPP_A = 24 ∧
    total_r_Ap (iteration example_external
        (install_adjuster (solve_setup (one_voxel_solver 1)))).PPP_A = 576 ∧
    total_p_Ap (iteration example_external
        (install_adjuster (solve_setup (one_voxel_solver 1)))).PPP_A = 576 ∧
    total_Ap_Ap (iteration example_external
        (install_adjuster (solve_setup (one_voxel_solver 1)))).PPP_A = 13824) ∧
    (total_r_z (iteration example_external
        (install_adjuster (solve_setup (one_voxel_solver 2)))).PPP_A = 24 ∧
    total_r_Ap (iteration example_external
        (install_adjuster (solve_setup (one_voxel_solver 2)))).PPP_A = 432 ∧
    total_p_Ap (iteration example_external
        (install_adjuster (solve_setup (one_voxel_solver 2)))).PPP_A = 432 ∧
    total_Ap_Ap (iteration example_external
        (install_adjuster (solve_setup (one_voxel_solver 2)))).PPP_A = 8640) ∧
    (((iteration example_external
        (install_adjuster (solve_setup (one_voxel_solver 1)))).PPP_B.getD 0 {}).alpha = 1 / 24 ∧
    ((iteration example_external
        (install_adjuster (solve_setup (one_voxel_solver 2)))).PPP_B.getD 0 {}).alpha = 1 / 18) ∧
    (getStress (iteration example_external
        (install_adjuster (solve_setup (one_voxel_solver 1)))) 2 = 0 ∧
    getStress (iteration example_external
        (install_adjuster (solve_setup (one_voxel_solver 2)))) 2 = -4 / 3) := by
  refine ⟨?_, ?_, ?_, ?_⟩ <;> decide!

end FBBlockSolver

end FB

namespace FB

namespace FBBlockSolver

/-- C18. Adjuster formula: the adjuster that `solveNonlinear` installs for step `ii` is
`computeAdjustment` with `eps_yield = 0.01 / (step_size * ii)`, and for every
`eps_yield > 0` and every strain `eps` the two-branch code returns
`max(0.05, 1 - 0.95 * (eps / (2 * eps_yield)))` in exact arithmetic. -/
theorem computeAdjustment_eq_max (eps_yield : ℚ) (h : 0 < eps_yield) :
    (∀ (step_size : ℚ) (n ii : Int) (S : FBBlockSolver),
      (prepare_nonlinear_step step_size n S ii).nonlinear_adjuster =
        some (MyNonlinearAdjuster.computeAdjustment ((1 / 100) / (step_size * (ii : ℚ))))) ∧
    ∀ eps : ℚ, MyNonlinearAdjuster.computeAdjustment eps_yield eps =
      max (5 / 100) (1 - (95 / 100) * (eps / (2 * eps_yield))) := by
  refine ⟨fun _ _ _ _ => rfl, fun eps => ?_⟩
  unfold MyNonlinearAdjuster.computeAdjustment
  have h2 : (0 : ℚ) < 2 * eps_yield := by linarith
  split_ifs with hc
  · have : eps / (2 * eps_yield) < 1 := by rw [div_lt_one h2]; exact hc
    rw [max_eq_right (by linarith)]; ring
  · have : 1 ≤ eps / (2 * eps_yield) := by rw [le_div_iff₀ h2]; linarith
    rw [max_eq_left (by linarith)]

theorem computeAdjustment_eq_max_witness :
    (∀ (step_size : ℚ) (n ii : Int) (S : FBBlockSolver),
      (prepare_nonlinear_step step_size n S ii).nonlinear_adjuster =
        some (MyNonlinearAdjuster.computeAdjustment ((1 / 100) / (step_size * (ii : ℚ))))) ∧
    ∀ eps : ℚ, MyNonlinearAdjuster.computeAdjustment (1 / 100) eps =
      max (5 / 100) (1 - (95 / 100) * (eps / (2 * (1 / 100)))) :=
  computeAdjustment_eq_max (1 / 100) (by norm_num)

/-- C19. Adjuster range: for every `eps_yield > 0` the factor returned for a strain
`eps >= 0` lies in `[0.05, 1]`, and the factor is non-increasing in `eps`. -/
theorem computeAdjustment_range (eps_yield : ℚ) (h : 0 < eps_yield) :
    (∀ eps : ℚ, 0 ≤ eps →
      5 / 100 ≤ MyNonlinearAdjuster.computeAdjustment eps_yield eps ∧
        MyNonlinearAdjuster.computeAdjustment eps_yield eps ≤ 1) ∧
    ∀ eps1 eps2 : ℚ, eps1 ≤ eps2 →
      MyNonlinearAdjuster.computeAdjustment eps_yield eps2 ≤
        MyNonlinearAdjuster.computeAdjustment eps_yield eps1 := by
  have h2 : (0 : ℚ) < 2 * eps_yield := by linarith
  have lt1 : ∀ e : ℚ, e < 2 * eps_yield → e / (2 * eps_yield) < 1 := fun e he => by
    rw [div_lt_one h2]; exact he
  constructor
  · intro eps he
    unfold MyNonlinearAdjuster.computeAdjustment
    have h0 : 0 ≤ eps / (2 * eps_yield) := div_nonneg he h2.le
    split_ifs with hc
    · have := lt1 eps hc
      constructor <;> linarith
    · constructor <;> norm_num
  · intro eps1 eps2 h12
    unfold MyNonlinearAdjuster.computeAdjustment
    split_ifs with hc2 hc1 hc1
    · have : eps1 / (2 * eps_yield) ≤ eps2 / (2 * eps_yield) :=
        div_le_div_of_nonneg_right h12 h2.le
      linarith
    · exact absurd (lt_of_le_of_lt h12 hc2) hc1
    · have := lt1 eps1 hc1
      linarith
    · exact le_refl _

theorem computeAdjustment_range_witness :
    (∀ eps : ℚ, 0 ≤ eps →
      5 / 100 ≤ MyNonlinearAdjuster.computeAdjustment (1 / 100) eps ∧
        MyNonlinearAdjuster.computeAdjustment (1 / 100) eps ≤ 1) ∧
    ∀ eps1 eps2 : ℚ, eps1 ≤ eps2 →
      MyNonlinearAdjuster.computeAdjustment (1 / 100) eps2 ≤
        MyNonlinearAdjuster.computeAdjustment (1 / 100) eps1 :=
  computeAdjustment_range (1 / 100) (by norm_num)

/-- C20, refuted as stated: at `eps_yield = 1` the strain `eps = 1` lies in
`[0, eps_yield]`, yet the factor returned is `21/40`, not `1`. -/
theorem computeAdjustment_at_yield_strain :
    (0 : ℚ) < 1 ∧ (0 : ℚ) ≤ 1 ∧ (1 : ℚ) ≤ 1 ∧
      MyNonlinearAdjuster.computeAdjustment 1 1 = 21 / 40 ∧
      MyNonlinearAdjuster.computeAdjustment 1 1 ≠ 1 := by
  unfold MyNonlinearAdjuster.computeAdjustment
  norm_num

/-- C20, amended. Softening starts at strain zero: for every `eps_yield > 0` and every
strain `eps >= 0` the factor is `1` exactly at `eps = 0`; for `0 < eps < 2 * eps_yield`
it is `1 - 0.475 * eps / eps_yield`, which is below `1` (and is `0.525` at
`eps = eps_yield`), and it is the floor `0.05` from `2 * eps_yield` on. -/
theorem computeAdjustment_softening (eps_yield : ℚ) (h : 0 < eps_yield) :
    (∀ eps : ℚ, 0 ≤ eps →
      (MyNonlinearAdjuster.computeAdjustment eps_yield eps = 1 ↔ eps = 0)) ∧
    (∀ eps : ℚ, 0 < eps → eps < 2 * eps_yield →
      MyNonlinearAdjuster.computeAdjustment eps_yield eps =
        1 - (475 / 1000) * eps / eps_yield ∧
      MyNonlinearAdjuster.computeAdjustment eps_yield eps < 1) ∧
    MyNonlinearAdjuster.computeAdjustment eps_yield eps_yield = 525 / 1000 ∧
    (∀ eps : ℚ, 2 * eps_yield ≤ eps →
      MyNonlinearAdjuster.computeAdjustment eps_yield eps = 5 / 100) := by
  have h2 : (0 : ℚ) < 2 * eps_yield := by linarith
  have hne : eps_yield ≠ 0 := ne_of_gt h
  have form : ∀ eps : ℚ, eps < 2 * eps_yield →
      MyNonlinearAdjuster.computeAdjustment eps_yield eps =
        1 - (475 / 1000) * eps / eps_yield := by
    intro eps hc
    unfold MyNonlinearAdjuster.computeAdjustment
    rw [if_pos hc]
    field_simp
    ring
  have floor : ∀ eps : ℚ, 2 * eps_yield ≤ eps →
      MyNonlinearAdjuster.computeAdjustment eps_yield eps = 5 / 100 := by
    intro eps hc
    unfold MyNonlinearAdjuster.computeAdjustment
    rw [if_neg (not_lt.mpr hc)]
  refine ⟨?_, ?_, ?_, floor⟩
  · intro eps he
    by_cases hc : eps < 2 * eps_yield
    · rw [form eps hc]
      constructor
      · intro heq
        have hz : (475 / 1000) * eps / eps_yield = 0 := by linarith
        rcases div_eq_zero_iff.mp hz with h1 | h1
        · have : eps = 0 := by linarith
          exact this
        · exact absurd h1 hne
      · intro hz
        rw [hz]; simp
    · rw [floor eps (not_lt.mp hc)]
      constructor
      · intro heq; norm_num at heq
      · intro hz; rw [hz] at hc; exact absurd h2 hc
  · intro eps hpos hc
    refine ⟨form eps hc, ?_⟩
    rw [form eps hc]
    have : 0 < (475 / 1000) * eps / eps_yield := by positivity
    linarith
  · rw [form eps_yield (by linarith)]
    field_simp
    ring

theorem computeAdjustment_softening_witness :
    (∀ eps : ℚ, 0 ≤ eps →
      (MyNonlinearAdjuster.computeAdjustment (1 / 100) eps = 1 ↔ eps = 0)) ∧
    (∀ eps : ℚ, 0 < eps → eps < 2 * (1 / 100) →
      MyNonlinearAdjuster.computeAdjustment (1 / 100) eps =
        1 - (475 / 1000) * eps / (1 / 100) ∧
      MyNonlinearAdjuster.computeAdjustment (1 / 100) eps < 1) ∧
    MyNonlinearAdjuster.computeAdjustment (1 / 100) (1 / 100) = 525 / 1000 ∧
    (∀ eps : ℚ, 2 * (1 / 100) ≤ eps →
      MyNonlinearAdjuster.computeAdjustment (1 / 100) eps = 5 / 100) :=
  computeAdjustment_softening (1 / 100) (by norm_num)

end FBBlockSolver

end FB

namespace FB

theorem foldl_pointwise_add_nat {α : Type} (g : (Nat → ℚ) → α → (Nat → ℚ)) (d : α → ℚ)
    (j : Nat) (hg : ∀ (Y : Nat → ℚ) (e : α), g Y e j = Y j + d e) :
    ∀ (l : List α) (Y : Nat → ℚ), l.foldl g Y j = Y j + (l.map d).sum := by
  intro l
  induction l with
  | nil => intro Y; simp
  | cons b l ih =>
    intro Y
    simp only [List.foldl_cons, ih, List.map_cons, List.sum_cons, hg]; ring

namespace FBBlock

theorem getForce_eq_node_force (B : FBBlock) (xx yy zz dd : Int) :
    getForce B xx yy zz dd = node_force B xx yy zz dd := rfl

theorem compute_stress_eq (B : FBBlock) (j : Nat) :
    compute_stress B j = block_stress_spec B j := by
  unfold compute_stress block_stress_spec
  rw [foldl_pointwise_add_nat _
    (fun c => node_stress B (c.1 + 1) (c.2.1 + 1) (c.2.2 + 1) j) j]
  · simp
  · intro Y c
    simp only [getForce_eq_node_force, node_stress, add_sub_cancel_right]
    by_cases hf : node_force B (c.1 + 1) (c.2.1 + 1) (c.2.2 + 1) 0 ≠ 0 ∨
        node_force B (c.1 + 1) (c.2.1 + 1) (c.2.2 + 1) 1 ≠ 0 ∨
        node_force B (c.1 + 1) (c.2.1 + 1) (c.2.2 + 1) 2 ≠ 0
    · rw [if_pos hf]
      rcases j with _ | _ | _ | _ | _ | _ | j <;>
        simp [add_at, Function.update] <;> ring
    · rw [if_neg hf]
      push_neg at hf
      obtain ⟨h0, h1, h2⟩ := hf
      rw [h0, h1, h2]
      rcases j with _ | _ | _ | _ | _ | _ | j <;> simp

end FBBlock

end FB

namespace FB

theorem foldl_update_div (d : ℚ) (j : Nat) :
    ∀ (l : List Nat), l.Nodup → ∀ ret : Nat → ℚ,
      l.foldl (fun r jj => Function.update r jj (r jj / d)) ret j =
        if j ∈ l then ret j / d else ret j := by
  intro l
  induction l with
  | nil => intro _ ret; simp
  | cons a l ih =>
    intro hn ret
    rw [List.nodup_cons] at hn
    rw [List.foldl_cons, ih hn.2]
    by_cases hja : j = a
    · subst hja
      simp [hn.1]
    · simp [hja, Function.update_noteq hja]

theorem foldl_add_at (s : Nat → ℚ) (j : Nat) :
    ∀ (l : List Nat), l.Nodup → ∀ ret : Nat → ℚ,
      l.foldl (fun r jj => FBBlock.add_at r jj (s jj)) ret j =
        if j ∈ l then ret j + s j else ret j := by
  intro l
  induction l with
  | nil => intro _ ret; simp
  | cons a l ih =>
    intro hn ret
    rw [List.nodup_cons] at hn
    rw [List.foldl_cons, ih hn.2]
    by_cases hja : j = a
    · subst hja
      simp [hn.1, FBBlock.add_at]
    · simp [hja, FBBlock.add_at, Function.update_noteq hja]

namespace FBBlockSolver

theorem getStress_eq_sum (S : FBBlockSolver) (j : Nat) :
    getStress S j =
      (if j < 6 then
        ((List.range S.blocks.length).map fun i => (S.PPP_B.getD i {}).stress j).sum
      else 0) /
      (((S.bvf_map.N1 : Int) : ℚ) * ((S.bvf_map.N2 : Int) : ℚ) * ((S.bvf_map.N3 : Int) : ℚ) *
        S.resolution 0 * S.resolution 1 * S.resolution 2) := by
  unfold getStress
  rw [foldl_update_div _ j _ (List.nodup_range 6)]
  have inner : ∀ (l : List Nat) (ret : Nat → ℚ),
      l.foldl (fun ret ii => (List.range 6).foldl
        (fun ret jj => FBBlock.add_at ret jj ((S.PPP_B.getD ii {}).stress jj)) ret) ret j =
      if j < 6 then ret j + (l.map fun i => (S.PPP_B.getD i {}).stress j).sum else ret j := by
    intro l
    induction l with
    | nil => intro ret; simp
    | cons a l ih =>
      intro ret
      rw [List.foldl_cons, ih, foldl_add_at _ j _ (List.nodup_range 6)]
      simp only [List.mem_range, List.map_cons, List.sum_cons]
      split_ifs <;> ring
  rw [inner]
  simp only [List.mem_range]
  push_cast
  split_ifs <;> simp

theorem iterate_step_B_stress (sqrt : ℚ → ℚ) (B : FBBlock) (P : FBBlockIterateStepBParameters) :
    (FBBlock.iterate_step_B sqrt B P).2.stress =
      FBBlock.compute_stress (FBBlock.iterate_step_B sqrt B P).1 := by
  unfold FBBlock.iterate_step_B
  dsimp only
  split <;> rfl

theorem iteration_stress (ext : External) (S : FBBlockSolver) (i : Nat)
    (hi : i < S.blocks.length) :
    ((iteration ext S).PPP_B.getD i {}).stress =
      FBBlock.compute_stress ((iteration ext S).blocks.getD i FBBlock.init) := by
  rw [iteration_PPP_B, iteration_blocks, getD_map_range _ _ _ _ hi,
    getD_map_range _ _ _ _ hi, iterate_step_B_stress]

/-- C11. Macroscopic stress: after an iteration, `getStress()` returns in every
component `j` (Voigt order 11, 22, 33, 12, 13, 23) the sum, over all blocks and over
every node of the block at local `(1..Nx, 1..Ny, 1..Nz)`, of `fx*X`, `fy*Y`, `fz*Z`,
`0.5*(fx*Y+fy*X)`, `0.5*(fx*Z+fz*X)`, `0.5*(fy*Z+fz*Y)`, divided by `N1*N2*N3*hx*hy*hz`,
where `(fx, fy, fz)` is the block's `r` at the node (0 for an inactive node) and
`(X, Y, Z)` are the node's world grid coordinates times the resolution. -/
theorem getStress_after_iteration (ext : External) (S : FBBlockSolver) (j : Nat) :
    getStress (iteration ext S) j = stress_spec (iteration ext S) j := by
  rw [getStress_eq_sum]
  unfold stress_spec
  congr 1
  have hsum : ((List.range (iteration ext S).blocks.length).map fun i =>
      ((iteration ext S).PPP_B.getD i {}).stress j).sum =
      ((iteration ext S).blocks.map fun B => FBBlock.block_stress_spec B j).sum := by
    conv_rhs => rw [← map_getD_range (iteration ext S).blocks FBBlock.init]
    rw [List.map_map]
    congr 1
    apply List.map_congr_left
    intro i hi
    have hi' : i < S.blocks.length := by
      rw [← iteration_blocks_length ext S]; exact List.mem_range.mp hi
    rw [iteration_stress ext S i hi', FBBlock.compute_stress_eq]
    rfl
  rw [hsum]
  split_ifs with hj
  · rfl
  · symm
    apply List.sum_eq_zero
    intro x hx
    obtain ⟨B, _, rfl⟩ := List.mem_map.mp hx
    unfold FBBlock.block_stress_spec
    apply List.sum_eq_zero
    intro y hy
    obtain ⟨c, _, rfl⟩ := List.mem_map.mp hy
    rcases j with _ | _ | _ | _ | _ | _ | j
    all_goals first | (exfalso; omega) | rfl

end FBBlockSolver

end FB

namespace FB

namespace FBBlock

theorem setup_empty (P : FBBlockSetupParameters) (h : ∀ a b c : Int, P.BVF a b c = 0) :
    (setup P).1.num_variables = 0 ∧ ∀ a b c : Int, (setup P).1.variable_indices a b c = -1 := by
  have hocc : ∀ a b c : Int, vertex_occupancy P a b c = 0 := by
    intro a b c
    by_contra hne
    obtain ⟨v, _, hv, _⟩ := (vertex_occupancy_ne_zero P a b c).mp hne
    exact hv (h _ _ _)
  obtain ⟨_, hneg, _, hcount⟩ := assign_variable_indices_spec P
  obtain ⟨g1, g2, _⟩ := setup_geometry P
  rw [g1, g2]
  exact ⟨hcount.mpr hocc, fun a b c => hneg a b c (hocc a b c)⟩

theorem block_stress_spec_zero (B : FBBlock)
    (h : ∀ a b c : Int, B.variable_indices a b c = -1) (j : Nat) :
    block_stress_spec B j = 0 := by
  unfold block_stress_spec
  apply List.sum_eq_zero
  intro y hy
  obtain ⟨c, _, rfl⟩ := List.mem_map.mp hy
  have hf : ∀ xx yy zz dd : Int, node_force B xx yy zz dd = 0 := by
    intro xx yy zz dd
    unfold node_force
    rw [h]
    rfl
  unfold node_stress
  simp only [hf]
  rcases j with _ | _ | _ | _ | _ | _ | j <;> simp

end FBBlock

namespace FBBlockSolver

theorem setup_parameters_BVF_empty (S : FBBlockSolver)
    (hE : ∀ x y z : Int, S.bvf_map.value x y z = 0) (b : BlockInfo) (a1 a2 a3 : Int) :
    (setup_parameters S b).BVF a1 a2 a3 = 0 := by
  show (if _ then _ else _) = 0
  split
  · exact hE _ _ _
  · rfl

theorem empty_blocks_after (ext : External) (S : FBBlockSolver)
    (hE : ∀ x y z : Int, S.bvf_map.value x y z = 0) (k : Nat) :
    ∀ B ∈ (after_iterations ext (install_adjuster (solve_setup S)) k).blocks,
      ∀ a b c : Int, B.variable_indices a b c = -1 := by
  intro B hB a b c
  have hrel : BlocksRelated (solve_setup S).blocks
      (after_iterations ext (install_adjuster (solve_setup S)) k).blocks :=
    blocksRelated_trans (install_adjuster_blocksRelated _)
      (after_iterations_blocksRelated ext _ k)
  obtain ⟨i, hi, hget⟩ := List.getElem_of_mem hB
  have hi0 : i < (solve_setup S).blocks.length := by rw [hrel.1]; exact hi
  have h0 := List.getElem?_eq_getElem hi0
  have h1 : (after_iterations ext (install_adjuster (solve_setup S)) k).blocks[i]? = some B := by
    rw [List.getElem?_eq_getElem hi, hget]
  obtain ⟨s1, _⟩ := hrel.2 i _ _ h0 h1
  rw [s1]
  have hall : ∀ B0 ∈ (solve_setup S).blocks, ∀ a b c : Int,
      B0.variable_indices a b c = -1 := by
    rw [solve_setup_blocks]
    intro B0 hB0 a b c
    obtain ⟨info, _, hinfo⟩ := List.mem_map.mp hB0
    rw [← hinfo]
    exact (FBBlock.setup_empty _ (setup_parameters_BVF_empty S hE info)).2 a b c
  exact hall _ (List.getElem_mem hi0) a b c

theorem stress_entry_zero (ext : External) (S : FBBlockSolver)
    (hE : ∀ x y z : Int, S.bvf_map.value x y z = 0) (k i j : Nat) :
    ((after_iterations ext (install_adjuster (solve_setup S)) (k + 1)).PPP_B.getD i {}).stress j
      = 0 := by
  rw [after_iterations_succ_last]
  by_cases hi : i < (after_iterations ext (install_adjuster (solve_setup S)) k).blocks.length
  · rw [iteration_stress ext _ i hi, FBBlock.compute_stress_eq]
    apply FBBlock.block_stress_spec_zero
    have hk := empty_blocks_after ext S hE (k + 1)
    rw [after_iterations_succ_last] at hk
    apply hk
    rw [List.getD_eq_getElem _ _ (by rw [iteration_blocks_length]; exact hi)]
    exact List.getElem_mem _
  · rw [iteration_PPP_B, List.getD_eq_default _ _ (by simpa using hi)]

theorem is_vertex_empty (m : BVFMap) (hE : ∀ x y z : Int, m.value x y z = 0) (x y z : Int) :
    is_vertex m x y z = false := by
  cases h : is_vertex m x y z with
  | false => rfl
  | true =>
    obtain ⟨d, _, hd⟩ := (is_vertex_iff m x y z).mp h
    rw [hE] at hd
    exact absurd hd (Nat.lt_irrefl 0)

theorem getDisplacements_empty (S : FBBlockSolver)
    (hE : ∀ x y z : Int, S.bvf_map.value x y z = 0) (dd x y z : Int) :
    getDisplacements S dd x y z = 0 := by
  unfold getDisplacements
  have key : ∀ (bs : List FBBlock) (disp : Int → Int → Int → Int → ℚ),
      bs.foldl (write_displacements S.bvf_map) disp dd x y z = disp dd x y z := by
    intro bs
    induction bs with
    | nil => intro disp; rfl
    | cons B bs ih =>
      intro disp
      rw [List.foldl_cons, ih, write_displacements_apply, is_vertex_empty _ hE]
      simp
  rw [key]

end FBBlockSolver

end FB

namespace FB

namespace FBBlockSolver

theorem do_iterations_some (ext : External) (fuel : Nat) (S S1 : FBBlockSolver) :
    do_iterations ext fuel S = some S1 ↔
      ∃ n : Nat, n ≤ fuel ∧
        (∀ k : Nat, k < n → continues ext (install_adjuster S) k) ∧
        ¬ continues ext (install_adjuster S) n ∧
        S1 = after_iterations ext (install_adjuster S) n := by
  unfold do_iterations
  rw [iterations_loop_some]
  constructor
  · rintro ⟨n, hn, h1, h2, h3⟩
    refine ⟨n, hn, fun k hk => (loop_condition_iff ext _ k).mp (h1 k hk), ?_, h3⟩
    intro hc
    rw [(loop_condition_iff ext _ n).mpr hc] at h2
    cases h2
  · rintro ⟨n, hn, h1, h2, h3⟩
    refine ⟨n, hn, fun k hk => (loop_condition_iff ext _ k).mpr (h1 k hk), ?_, h3⟩
    cases hc : loop_condition (after_iterations ext (install_adjuster S) n)
        (counter_after ext (install_adjuster S) 0 n) with
    | false => rfl
    | true => exact absurd ((loop_condition_iff ext _ n).mp hc) h2

theorem trailing_below_le (ext : External) (S : FBBlockSolver) (k : Nat) :
    trailing_below ext S k ≤ k :=
  (trailing_below_run ext S k _ (le_refl _)).1

/-- The number `n` of passes of a loop that starts with the iteration count at `0`. -/
theorem passes_bounds (ext : External) (S : FBBlockSolver) (n : Nat)
    (h0 : S.num_iterations = 0)
    (h1 : ∀ k : Nat, k < n → continues ext S k) (h2 : ¬ continues ext S n) :
    1 ≤ n ∧
      (0 < S.max_iterations →
        (n : Int) ≤ S.max_iterations ∧ (S.max_iterations ≤ (n : Int) ∨ 5 ≤ n)) ∧
      (S.max_iterations ≤ 0 → 5 ≤ n) := by
  have hn1 : 1 ≤ n := by
    rcases Nat.eq_zero_or_pos n with hz | hp
    · exfalso
      apply h2
      rw [hz]
      refine ⟨?_, ?_⟩
      · rw [h0]; simp only [Nat.cast_zero, add_zero]; omega
      · have := trailing_below_le ext S 0
        omega
    · exact hp
  have hstop : (0 < S.max_iterations ∧ S.max_iterations ≤ (n : Int)) ∨ 5 ≤ n := by
    by_cases hm : S.num_iterations + (n : Int) < S.max_iterations ∨ S.max_iterations ≤ 0
    · right
      have h5 : ¬ trailing_below ext S n < 5 := fun h => h2 ⟨hm, h⟩
      have := trailing_below_le ext S n
      omega
    · left
      rw [h0] at hm
      omega
  refine ⟨hn1, ?_, ?_⟩
  · intro hpos
    constructor
    · have hc := (h1 (n - 1) (by omega)).1
      rw [h0] at hc
      omega
    · rcases hstop with h | h
      · exact Or.inl h.2
      · exact Or.inr h
  · intro hle
    rcases hstop with h | h
    · omega
    · exact h

theorem iterations_loop_terminates (ext : External) :
    ∀ (fuel : Nat) (S : FBBlockSolver) (c : Int), 0 < S.max_iterations →
      S.max_iterations - S.num_iterations ≤ (fuel : Int) →
      ∃ S1 : FBBlockSolver, iterations_loop ext fuel S c = some S1 := by
  intro fuel
  induction fuel with
  | zero =>
    intro S c hpos hle
    unfold iterations_loop
    have hc : loop_condition S c = false := by
      unfold loop_condition
      simp only [decide_eq_false_iff_not]
      intro h
      simp only [Nat.cast_zero] at hle
      omega
    rw [hc]
    exact ⟨S, by simp⟩
  | succ fuel ih =>
    intro S c hpos hle
    unfold iterations_loop
    by_cases hc : loop_condition S c = true
    · rw [if_pos hc]
      apply ih
      · rw [iteration_max_iterations]; exact hpos
      · rw [iteration_max_iterations, iteration_num_iterations]
        push_cast at hle
        omega
    · rw [if_neg hc]
      exact ⟨S, rfl⟩

theorem do_iterations_terminates (ext : External) (fuel : Nat) (S : FBBlockSolver)
    (hpos : 0 < S.max_iterations) (hle : S.max_iterations - S.num_iterations ≤ (fuel : Int)) :
    ∃ S1 : FBBlockSolver, do_iterations ext fuel S = some S1 :=
  iterations_loop_terminates ext fuel (install_adjuster S) 0 hpos hle

end FBBlockSolver

end FB

namespace FB

namespace FBBlockSolver

theorem solve_eq (ext : External) (fuel : Nat) (S : FBBlockSolver) :
    solve ext fuel S = do_iterations ext fuel (solve_setup S) := rfl

theorem after_iterations_num_iterations (ext : External) (S : FBBlockSolver) (n : Nat) :
    (after_iterations ext (install_adjuster (solve_setup S)) n).num_iterations =
      S.num_iterations + (n : Int) :=
  (after_iterations_fields ext _ n).1

theorem solve_setup_blocks_ne_nil (S : FBBlockSolver) (hT : 1 ≤ S.num_threads)
    (hN : 0 ≤ S.bvf_map.N3) : (solve_setup S).blocks ≠ [] := by
  obtain ⟨_, _, hlast⟩ := solve_block_infos_chain S.bvf_map.N1 S.bvf_map.N2
    S.bvf_map.N3 (slice_vertex_count S.bvf_map) S.num_threads hT hN
  rw [solve_setup_blocks]
  intro h
  rw [List.map_eq_nil_iff] at h
  rw [h] at hlast
  simp only [lastZ] at hlast
  omega

theorem iteration_resolution (ext : External) (S : FBBlockSolver) :
    (iteration ext S).resolution = S.resolution := rfl

theorem after_iterations_resolution (ext : External) (S : FBBlockSolver) (k : Nat) :
    (after_iterations ext S k).resolution = S.resolution := by
  induction k with
  | zero => rfl
  | succ k ih => rw [after_iterations_succ_last, iteration_resolution, ih]

theorem getStress_checked_eq_sum (S : FBBlockSolver) (j : Nat) :
    getStress_checked S j =
      checked_div
        (if j < 6 then
          ((List.range S.blocks.length).map fun i => (S.PPP_B.getD i {}).stress j).sum
        else 0)
        (((S.bvf_map.N1 * S.bvf_map.N2 * S.bvf_map.N3 : Int) : ℚ) * S.resolution 0 *
          S.resolution 1 * S.resolution 2) := by
  unfold getStress_checked
  dsimp only
  have inner : ∀ (l : List Nat) (ret : Nat → ℚ),
      l.foldl (fun ret ii => (List.range 6).foldl
        (fun ret jj => FBBlock.add_at ret jj ((S.PPP_B.getD ii {}).stress jj)) ret) ret j =
      if j < 6 then ret j + (l.map fun i => (S.PPP_B.getD i {}).stress j).sum else ret j := by
    intro l
    induction l with
    | nil => intro ret; simp
    | cons a l ih =>
      intro ret
      rw [List.foldl_cons, ih, foldl_add_at _ j _ (List.nodup_range 6)]
      simp only [List.mem_range, List.map_cons, List.sum_cons]
      split_ifs <;> ring
  rw [inner]
  simp only [zero_add]

/-- Where the volume of the map is not `0`, `getStress_checked` is `getStress`. -/
theorem getStress_checked_eq (S : FBBlockSolver) (j : Nat)
    (hV : ((S.bvf_map.N1 * S.bvf_map.N2 * S.bvf_map.N3 : Int) : ℚ) * S.resolution 0 *
      S.resolution 1 * S.resolution 2 ≠ 0) :
    getStress_checked S j = some (getStress S j) := by
  rw [getStress_checked_eq_sum, getStress_eq_sum]
  unfold checked_div
  rw [if_neg hV]
  push_cast
  rfl

theorem empty_checked_stress (ext : External) (S : FBBlockSolver)
    (hN : 1 ≤ S.bvf_map.N1 ∧ 1 ≤ S.bvf_map.N2 ∧ 1 ≤ S.bvf_map.N3)
    (hE : ∀ x y z : Int, S.bvf_map.value x y z = 0) (k j : Nat) :
    getStress_checked (after_iterations ext (install_adjuster (solve_setup S)) (k + 1)) j =
      if S.resolution 0 = 0 ∨ S.resolution 1 = 0 ∨ S.resolution 2 = 0 then none
      else some 0 := by
  rw [getStress_checked_eq_sum]
  have hz : ((List.range
      (after_iterations ext (install_adjuster (solve_setup S)) (k + 1)).blocks.length).map
      fun i => ((after_iterations ext (install_adjuster (solve_setup S)) (k + 1)).PPP_B.getD
        i {}).stress j).sum = 0 := by
    apply List.sum_eq_zero
    intro y hy
    obtain ⟨i, _, rfl⟩ := List.mem_map.mp hy
    exact stress_entry_zero ext S hE k i j
  rw [hz, after_iterations_bvf_map, after_iterations_resolution]
  have hb : (install_adjuster (solve_setup S)).bvf_map = S.bvf_map := rfl
  have hr : (install_adjuster (solve_setup S)).resolution = S.resolution := rfl
  rw [hb, hr]
  obtain ⟨h1, h2, h3⟩ := hN
  have hpos : (0 : Int) < S.bvf_map.N1 * S.bvf_map.N2 * S.bvf_map.N3 := by positivity
  have hq : ((S.bvf_map.N1 * S.bvf_map.N2 * S.bvf_map.N3 : Int) : ℚ) ≠ 0 := by
    exact_mod_cast hpos.ne'
  unfold checked_div
  by_cases hres : S.resolution 0 = 0 ∨ S.resolution 1 = 0 ∨ S.resolution 2 = 0
  · rw [if_pos hres, if_pos]
    rcases hres with h | h | h <;> rw [h] <;> ring
  · rw [if_neg hres, if_neg]
    · simp
    · push_neg at hres
      exact mul_ne_zero (mul_ne_zero (mul_ne_zero hq hres.1) hres.2.1) hres.2.2

theorem empty_displacements_after (ext : External) (S : FBBlockSolver)
    (hE : ∀ x y z : Int, S.bvf_map.value x y z = 0) (k : Nat) (dd x y z : Int) :
    getDisplacements (after_iterations ext (install_adjuster (solve_setup S)) k) dd x y z
      = 0 := by
  apply getDisplacements_empty
  rw [after_iterations_bvf_map]
  exact hE

theorem empty_voxel_solver_value (x y z : Int) : empty_voxel_solver.bvf_map.value x y z = 0 := by
  unfold BVFMap.value
  split <;> rfl

/-- C12, amended. Empty domain gives zero results where the resolution is nonzero: when
every voxel of the map is `0` (with `N1, N2, N3 >= 1` and `num_threads >= 1`), `solve()`
builds at least one block and every block it builds has `num_variables = 0`; after every
pass of the loop the per-block stress of step B is the zero vector; every component of
`getStress()` is `0` when no component of the resolution is `0`, and is no number (the
quotient `0/0`) when one is; `getDisplacements` reports `0` everywhere; and so for the
state that `solve()` returns on a fresh solver. -/
theorem empty_domain_zero_results (ext : External) (S : FBBlockSolver)
    (hN : 1 ≤ S.bvf_map.N1 ∧ 1 ≤ S.bvf_map.N2 ∧ 1 ≤ S.bvf_map.N3) (hT : 1 ≤ S.num_threads)
    (hE : ∀ x y z : Int, S.bvf_map.value x y z = 0) :
    ((solve_setup S).blocks ≠ [] ∧ ∀ B ∈ (solve_setup S).blocks, B.num_variables = 0) ∧
    (∀ (k i j : Nat),
      ((after_iterations ext (install_adjuster (solve_setup S)) (k + 1)).PPP_B.getD i
        {}).stress j = 0) ∧
    (∀ (k : Nat) (j : Nat), j < 6 →
      getStress_checked (after_iterations ext (install_adjuster (solve_setup S)) (k + 1)) j =
        if S.resolution 0 = 0 ∨ S.resolution 1 = 0 ∨ S.resolution 2 = 0 then none
        else some 0) ∧
    (∀ (k : Nat) (dd x y z : Int),
      getDisplacements (after_iterations ext (install_adjuster (solve_setup S)) k) dd x y z
        = 0) ∧
    (∀ (fuel : Nat) (S1 : FBBlockSolver), S.num_iterations = 0 →
      solve ext fuel S = some S1 →
      (∀ j : Nat, j < 6 →
        getStress_checked S1 j =
          if S.resolution 0 = 0 ∨ S.resolution 1 = 0 ∨ S.resolution 2 = 0 then none
          else some 0) ∧
      ∀ dd x y z : Int, getDisplacements S1 dd x y z = 0) := by
  have hd := empty_displacements_after ext S hE
  refine ⟨⟨solve_setup_blocks_ne_nil S hT (by omega), ?_⟩, stress_entry_zero ext S hE,
    fun k j _ => empty_checked_stress ext S hN hE k j, hd, ?_⟩
  · rw [solve_setup_blocks]
    intro B hB
    obtain ⟨info, _, hinfo⟩ := List.mem_map.mp hB
    rw [← hinfo]
    exact (FBBlock.setup_empty _ (setup_parameters_BVF_empty S hE info)).1
  · intro fuel S1 h0 hsolve
    rw [solve_eq, do_iterations_some] at hsolve
    obtain ⟨n, _, h1, h2, rfl⟩ := hsolve
    obtain ⟨hn1, _⟩ := passes_bounds ext (install_adjuster (solve_setup S)) n h0 h1 h2
    obtain ⟨m, rfl⟩ : ∃ m, n = m + 1 := ⟨n - 1, by omega⟩
    exact ⟨fun j _ => empty_checked_stress ext S hN hE m j, hd (m + 1)⟩

theorem empty_domain_zero_results_witness :
    getStress_checked (after_iterations example_external
      (install_adjuster (solve_setup empty_voxel_solver)) (0 + 1)) 2 = some 0 ∧
    getDisplacements (after_iterations example_external
      (install_adjuster (solve_setup empty_voxel_solver)) 1) 0 0 0 0 = 0 :=
  ⟨((empty_domain_zero_results example_external empty_voxel_solver
      ⟨by decide, by decide, by decide⟩ (by decide) empty_voxel_solver_value).2.2.1 0 2
        (by decide)).trans (if_neg (by decide!)),
    (empty_domain_zero_results example_external empty_voxel_solver
      ⟨by decide, by decide, by decide⟩ (by decide) empty_voxel_solver_value).2.2.2.1 1 0 0 0 0⟩

/-- C12, refuted as stated: on the empty `1 x 1 x 1` map with one thread and the resolution
set to `(0, 0, 0)`, the volume that `getStress()` divides by is `0`: after the first pass
of the loop, and in the state that `solve()` returns (here with an estimator that always
reports `0`), component 0 of the stress is the quotient `0/0`, not `0`. -/
theorem empty_domain_stress_undefined :
    (zero_resolution_solver.bvf_map = { N1 := 1, N2 := 1, N3 := 1, data := fun _ _ _ => 0 } ∧
      zero_resolution_solver.num_threads = 1) ∧
    getStress_checked (after_iterations example_external
      (install_adjuster (solve_setup zero_resolution_solver)) 1) 0 = none ∧
    ((solve example_external 10 zero_resolution_solver).map fun S1 => getStress_checked S1 0) =
      some none ∧
    ((solve example_external 10 zero_resolution_solver).map fun S1 => getStress_checked S1 0) ≠
      some (some 0) :=
  ⟨⟨rfl, rfl⟩, by decide!, by decide!, by decide!⟩

/-- C13, refuted as stated: on the fresh solver of the empty `1 x 1 x 1` map, with
`max_iterations = 10` and an estimator that always reports `0`, `solve()` makes five
passes of the loop and `getNumIterations()` is `5` afterwards. -/
theorem empty_domain_solve_iterates :
    (∀ x y z : Int, empty_voxel_solver.bvf_map.value x y z = 0) ∧
    empty_voxel_solver.num_iterations = 0 ∧
    ((solve example_external 10 empty_voxel_solver).map fun S => S.num_iterations) = some 5 :=
  ⟨empty_voxel_solver_value, rfl, by decide!⟩

/-- C13, amended. On a fresh solver whose map has no element, `solve()` does not return
at once: whenever it returns, it has made `n >= 1` passes of the loop over its empty
blocks, `getNumIterations()` equals `n`, with `n <= max_iterations` and
`n >= min(5, max_iterations)` when `max_iterations > 0` and `n >= 5` otherwise, and the
blocks still have no variable; with `max_iterations > 0` it does return, within
`max_iterations` passes. -/
theorem empty_domain_passes (ext : External) (S : FBBlockSolver)
    (h0 : S.num_iterations = 0) (hE : ∀ x y z : Int, S.bvf_map.value x y z = 0) :
    (∀ (fuel : Nat) (S1 : FBBlockSolver), solve ext fuel S = some S1 →
      ∃ n : Nat, 1 ≤ n ∧
        S1 = after_iterations ext (install_adjuster (solve_setup S)) n ∧
        S1.num_iterations = (n : Int) ∧
        (0 < S.max_iterations →
          (n : Int) ≤ S.max_iterations ∧ (S.max_iterations ≤ (n : Int) ∨ 5 ≤ n)) ∧
        (S.max_iterations ≤ 0 → 5 ≤ n) ∧
        ∀ B ∈ S1.blocks, ∀ a b c : Int, B.variable_indices a b c = -1) ∧
    (0 < S.max_iterations →
      ∃ S1 : FBBlockSolver, solve ext S.max_iterations.toNat S = some S1) := by
  constructor
  · intro fuel S1 hsolve
    rw [solve_eq, do_iterations_some] at hsolve
    obtain ⟨n, _, h1, h2, rfl⟩ := hsolve
    obtain ⟨hn1, hpos, hnonpos⟩ := passes_bounds ext (install_adjuster (solve_setup S)) n h0 h1 h2
    refine ⟨n, hn1, rfl, ?_, hpos, hnonpos, empty_blocks_after ext S hE n⟩
    rw [after_iterations_num_iterations, h0, zero_add]
  · intro hpos
    apply do_iterations_terminates ext _ (solve_setup S) hpos
    show S.max_iterations - S.num_iterations ≤ _
    rw [h0, Int.toNat_of_nonneg hpos.le]
    omega

theorem empty_domain_passes_witness :
    ∃ S1 : FBBlockSolver,
      solve example_external empty_voxel_solver.max_iterations.toNat empty_voxel_solver
        = some S1 :=
  (empty_domain_passes example_external empty_voxel_solver rfl empty_voxel_solver_value).2
    (by decide)

end FBBlockSolver

end FB

namespace FB

namespace FBBlockSolver

/-- C15, refuted as stated: the fresh solver of the single full voxel with zero initial
displacement and no fixed variable has `rnorm2 = 0` in its only block, yet with
`max_iterations = 10` and an estimator that always reports `0` the call of `solve()`
ends with `getNumIterations() = 5`. -/
theorem exact_initial_solution_takes_five_passes :
    unloaded_voxel_solver.num_iterations = 0 ∧
    (solve_block_infos 1 1 1 (slice_vertex_count unloaded_voxel_solver.bvf_map) 1).length = 1 ∧
    (FBBlock.setup (setup_parameters unloaded_voxel_solver
      ((solve_block_infos 1 1 1 (slice_vertex_count unloaded_voxel_solver.bvf_map) 1).getD 0
        default))).2.rnorm2 = 0 ∧
    ((solve example_external 10 unloaded_voxel_solver).map fun S => S.num_iterations)
      = some 5 := by
  refine ⟨rfl, ?_, ?_, ?_⟩ <;> decide!

/-- C15, amended. On a fresh solver the number of passes of `solve()` is fixed by the
stopping rule alone, whatever `rnorm2` is (so also when the initial displacement is the
exact solution): whenever `solve()` returns, `getNumIterations()` is at least 1, it is
1 exactly when `max_iterations = 1`, it lies between `min(5, max_iterations)` and
`max_iterations` when `max_iterations > 0`, and it is at least 5 when
`max_iterations <= 0`; with `max_iterations > 0` the call does return within
`max_iterations` passes. -/
theorem fresh_solve_iteration_count (ext : External) (S : FBBlockSolver)
    (h0 : S.num_iterations = 0) :
    (∀ (fuel : Nat) (S1 : FBBlockSolver), solve ext fuel S = some S1 →
      1 ≤ S1.num_iterations ∧
      (S1.num_iterations = 1 ↔ S.max_iterations = 1) ∧
      (0 < S.max_iterations →
        S1.num_iterations ≤ S.max_iterations ∧
          (S.max_iterations ≤ S1.num_iterations ∨ 5 ≤ S1.num_iterations)) ∧
      (S.max_iterations ≤ 0 → 5 ≤ S1.num_iterations)) ∧
    (0 < S.max_iterations →
      ∃ S1 : FBBlockSolver, solve ext S.max_iterations.toNat S = some S1) := by
  constructor
  · intro fuel S1 hsolve
    rw [solve_eq, do_iterations_some] at hsolve
    obtain ⟨n, _, h1, h2, rfl⟩ := hsolve
    obtain ⟨hn1, hpos, hnonpos⟩ := passes_bounds ext (install_adjuster (solve_setup S)) n h0 h1 h2
    have hmax : (install_adjuster (solve_setup S)).max_iterations = S.max_iterations := rfl
    rw [hmax] at hpos hnonpos
    rw [after_iterations_num_iterations, h0, zero_add]
    refine ⟨by omega, ?_, ?_, ?_⟩
    · constructor
      · intro hn
        rcases le_or_lt S.max_iterations 0 with hle | hlt
        · have := hnonpos hle; omega
        · have := hpos hlt; omega
      · intro hm
        have := hpos (by omega)
        omega
    · intro hlt
      have := hpos hlt
      omega
    · intro hle
      have := hnonpos hle
      omega
  · intro hpos
    apply do_iterations_terminates ext _ (solve_setup S) hpos
    show S.max_iterations - S.num_iterations ≤ _
    rw [h0, Int.toNat_of_nonneg hpos.le]
    omega

theorem fresh_solve_iteration_count_witness :
    ∃ S1 : FBBlockSolver,
      solve example_external unloaded_voxel_solver.max_iterations.toNat unloaded_voxel_solver
        = some S1 :=
  (fresh_solve_iteration_count example_external unloaded_voxel_solver rfl).2 (by decide)

theorem solve_setup_blocks_nil (S : FBBlockSolver) (hT : S.num_threads < 1) :
    (solve_setup S).blocks = [] := by
  rw [solve_setup_blocks]
  unfold solve_block_infos
  rw [idxRange_of_nonpos (by omega)]
  rfl

theorem after_iterations_blocks_nil (ext : External) (S : FBBlockSolver) (h : S.blocks = [])
    (k : Nat) : (after_iterations ext S k).blocks = [] := by
  have hlen := (after_iterations_blocksRelated ext S k).1
  rw [h] at hlen
  exact List.eq_nil_of_length_eq_zero hlen.symm

/-- C17, refuted as stated: with `num_threads = 0` on the fresh solver of the single
full voxel (`max_iterations = 10`, an estimator that always reports `0`), `solve()` is
not rejected: it returns after five passes of the loop, with `getNumIterations() = 5`
and no block. -/
theorem nonpositive_num_threads_not_rejected :
    threadless_solver.num_threads < 1 ∧ threadless_solver.num_iterations = 0 ∧
    ((solve example_external 10 threadless_solver).map
      fun S => (S.num_iterations, S.blocks.length)) = some (5, 0) := by
  refine ⟨by decide, rfl, by decide!⟩

/-- C17, amended. For every `num_threads < 1`, `solve()` builds no block but is not
rejected: the loop runs over the empty block list, every pass adds one to the iteration
count, and whenever `solve()` returns on a fresh solver it has no block and
`getNumIterations()` is at least 1 (at most `max_iterations` when that is positive, in
which case `solve()` does return). -/
theorem num_threads_below_one (ext : External) (S : FBBlockSolver) (hT : S.num_threads < 1) :
    (solve_setup S).blocks = [] ∧
    (∀ k : Nat,
      (after_iterations ext (install_adjuster (solve_setup S)) k).blocks = [] ∧
      (after_iterations ext (install_adjuster (solve_setup S)) k).num_iterations =
        S.num_iterations + (k : Int)) ∧
    (∀ (fuel : Nat) (S1 : FBBlockSolver), S.num_iterations = 0 →
      solve ext fuel S = some S1 →
      S1.blocks = [] ∧ 1 ≤ S1.num_iterations ∧
        (0 < S.max_iterations → S1.num_iterations ≤ S.max_iterations)) ∧
    (S.num_iterations = 0 → 0 < S.max_iterations →
      ∃ S1 : FBBlockSolver, solve ext S.max_iterations.toNat S = some S1) := by
  have hnil := solve_setup_blocks_nil S hT
  have hinst : (install_adjuster (solve_setup S)).blocks = [] := by
    show List.map _ (solve_setup S).blocks = []
    rw [hnil]; rfl
  refine ⟨hnil, fun k => ⟨after_iterations_blocks_nil ext _ hinst k,
    after_iterations_num_iterations ext S k⟩, ?_, ?_⟩
  · intro fuel S1 h0 hsolve
    rw [solve_eq, do_iterations_some] at hsolve
    obtain ⟨n, _, h1, h2, rfl⟩ := hsolve
    obtain ⟨hn1, hpos, _⟩ := passes_bounds ext (install_adjuster (solve_setup S)) n h0 h1 h2
    have hmax : (install_adjuster (solve_setup S)).max_iterations = S.max_iterations := rfl
    rw [hmax] at hpos
    rw [after_iterations_num_iterations, h0, zero_add]
    refine ⟨after_iterations_blocks_nil ext _ hinst n, by omega, fun hlt => (hpos hlt).1⟩
  · intro h0 hpos
    apply do_iterations_terminates ext _ (solve_setup S) hpos
    show S.max_iterations - S.num_iterations ≤ _
    rw [h0, Int.toNat_of_nonneg hpos.le]
    omega

theorem num_threads_below_one_witness :
    (solve_setup threadless_solver).blocks = [] :=
  (num_threads_below_one example_external threadless_solver (by decide)).1

end FBBlockSolver

end FB

namespace FB

namespace FBBlock

theorem negate_apply (n : Int) (Y : Vec) (i : Int) :
    negate n Y i = if i ∈ idxRange n then -(Y i) else Y i := by
  unfold negate
  have key : ∀ (l : List Int), l.Nodup → ∀ r : Vec,
      l.foldl (fun r ii => Function.update r ii (r ii * (-1))) r i =
        if i ∈ l then -(r i) else r i := by
    intro l
    induction l with
    | nil => intro _ r; simp
    | cons a l ih =>
      intro hn r
      rw [List.nodup_cons] at hn
      rw [List.foldl_cons, ih hn.2]
      by_cases hia : i = a
      · subst hia
        simp [hn.1]
      · simp [hia, Function.update_noteq hia]
  exact key _ (nodup_idxRange n) Y

theorem foldl_cond_update (c : Int → Prop) [DecidablePred c] (val : Int → ℚ) (i : Int) :
    ∀ (l : List Int) (p : Vec),
      l.foldl (fun p ii => if c ii then Function.update p ii (val ii) else p) p i =
        if i ∈ l ∧ c i then val i else p i := by
  intro l
  induction l with
  | nil => intro p; simp
  | cons a l ih =>
    intro p
    rw [List.foldl_cons, ih]
    by_cases hil : i ∈ l ∧ c i
    · have h2 : i ∈ a :: l ∧ c i := ⟨List.mem_cons_of_mem _ hil.1, hil.2⟩
      simp only [hil, h2, and_self, if_true]
    · simp only [hil, if_false]
      by_cases hia : i = a
      · subst hia
        by_cases hf : c i
        · simp [hf]
        · simp [hf]
      · have hnot : ¬ (i ∈ a :: l ∧ c i) := by
          rintro ⟨hm, hf⟩
          rcases List.mem_cons.mp hm with e | m
          · exact hia e
          · exact hil ⟨m, hf⟩
        simp only [hnot, if_false]
        split
        · exact Function.update_noteq hia _ _
        · rfl

theorem init_p_apply (B : FBBlock) (i : Int) :
    init_p B i =
      if i ∈ idxRange B.num_variables ∧ B.free i ≠ 0 then
        (if B.use_preconditioner = true ∧ B.preconditioner i ≠ 0 then
          B.r i / B.preconditioner i
        else B.r i)
      else B.p i := by
  unfold init_p
  have hbody : (fun (p : Vec) (ii : Int) =>
      if B.free ii ≠ 0 then
        if B.use_preconditioner = true ∧ B.preconditioner ii ≠ 0 then
          Function.update p ii (B.r ii / B.preconditioner ii)
        else Function.update p ii (B.r ii)
      else p) =
      (fun (p : Vec) (ii : Int) =>
        if B.free ii ≠ 0 then
          Function.update p ii
            (if B.use_preconditioner = true ∧ B.preconditioner ii ≠ 0 then
              B.r ii / B.preconditioner ii
            else B.r ii)
        else p) := by
    funext p ii
    split_ifs <;> rfl
  rw [hbody]
  exact foldl_cond_update (fun ii => B.free ii ≠ 0) _ i _ B.p

theorem multiply_by_A_zero (B : FBBlock) (X : Vec) (hX : ∀ i, X i = 0) (i : Int) :
    multiply_by_A B X i = 0 := by
  rw [multiply_by_A_apply]
  apply List.sum_eq_zero
  intro y hy
  obtain ⟨E0, _, rfl⟩ := List.mem_map.mp hy
  apply List.sum_eq_zero
  intro z hz
  obtain ⟨kk, _, rfl⟩ := List.mem_map.mp hz
  split
  · rw [Y0_row_eq_sum]
    simp [hX]
  · rfl

theorem set3_zero (dd x y : Int) : set3 Slice.zero dd x y (0 : ℚ) = Slice.zero := by
  funext a b c
  unfold set3 Slice.zero
  split <;> rfl

theorem package_inner_interface_zero (B : FBBlock)
    (h : ∀ VL ∈ B.inner_vertex_locations, ∀ dd : Int, 0 ≤ dd → dd < 3 →
      B.free (VL.ref_index + dd) ≠ 0 → B.p (VL.ref_index + dd) = 0) :
    package_inner_interface B = (Slice.zero, Slice.zero) := by
  unfold package_inner_interface
  have inner : ∀ (VL : FBVertexLocation)
      (_ : ∀ dd : Int, 0 ≤ dd → dd < 3 →
        B.free (VL.ref_index + dd) ≠ 0 → B.p (VL.ref_index + dd) = 0)
      (ds : List Int), (∀ dd ∈ ds, 0 ≤ dd ∧ dd < 3) →
      ds.foldl
        (fun st dd =>
          let varind := VL.ref_index + dd
          if B.free varind ≠ 0 then
            if VL.z = 1 then (set3 st.1 dd (VL.x - 1) (VL.y - 1) (B.p varind), st.2)
            else if VL.z = B.Nz then
              (st.1, set3 st.2 dd (VL.x - 1) (VL.y - 1) (B.p varind))
            else st
          else st)
        (Slice.zero, Slice.zero) = (Slice.zero, Slice.zero) := by
    intro VL hVL ds
    induction ds with
    | nil => intro _; rfl
    | cons dd ds ihd =>
      intro hds
      rw [List.foldl_cons]
      have hdd := hds dd (List.mem_cons_self _ _)
      have hstep : (let varind := VL.ref_index + dd
          if B.free varind ≠ 0 then
            if VL.z = 1 then
              (set3 (Slice.zero, Slice.zero).1 dd (VL.x - 1) (VL.y - 1) (B.p varind),
                (Slice.zero, Slice.zero).2)
            else if VL.z = B.Nz then
              ((Slice.zero, Slice.zero).1,
                set3 (Slice.zero, Slice.zero).2 dd (VL.x - 1) (VL.y - 1) (B.p varind))
            else (Slice.zero, Slice.zero)
          else (Slice.zero, Slice.zero)) = (Slice.zero, Slice.zero) := by
        dsimp only
        by_cases hf : B.free (VL.ref_index + dd) ≠ 0
        · rw [if_pos hf, hVL dd hdd.1 hdd.2 hf, set3_zero]
          split_ifs <;> rfl
        · rw [if_neg hf]
      rw [hstep]
      exact ihd (fun d hd => hds d (List.mem_cons_of_mem _ hd))
  have outer : ∀ (l : List FBVertexLocation),
      (∀ VL ∈ l, ∀ dd : Int, 0 ≤ dd → dd < 3 →
        B.free (VL.ref_index + dd) ≠ 0 → B.p (VL.ref_index + dd) = 0) →
      l.foldl
        (fun st VL =>
          (idxRange 3).foldl
            (fun st dd =>
              let varind := VL.ref_index + dd
              if B.free varind ≠ 0 then
                if VL.z = 1 then (set3 st.1 dd (VL.x - 1) (VL.y - 1) (B.p varind), st.2)
                else if VL.z = B.Nz then
                  (st.1, set3 st.2 dd (VL.x - 1) (VL.y - 1) (B.p varind))
                else st
              else st)
            st)
        (Slice.zero, Slice.zero) = (Slice.zero, Slice.zero) := by
    intro l
    induction l with
    | nil => intro _; rfl
    | cons VL l ih =>
      intro hl
      rw [List.foldl_cons]
      rw [inner VL (hl VL (List.mem_cons_self _ _)) (idxRange 3)
        (fun dd hdd => by
          have := mem_idxRange.mp hdd
          omega)]
      exact ih (fun V hV => hl V (List.mem_cons_of_mem _ hV))
  exact outer _ h

end FBBlock

end FB

namespace FB

namespace FBBlock

theorem setup_vertex_inner (P : FBBlockSetupParameters) (occ : Int → Int → Int → Nat)
    (vi : Int → Int → Int → Int) (s : SetupArrays) (c : Int × Int × Int)
    (hv : occ c.1 c.2.1 c.2.2 ≠ 0 → 0 ≤ vi c.1 c.2.1 c.2.2) :
    ∀ VL ∈ (setup_vertex P occ vi s c).inner_vertex_locations,
      VL ∈ s.inner_vertex_locations ∨
        (occ c.1 c.2.1 c.2.2 ≠ 0 ∧ vertex_class P.Nx P.Ny P.Nz c.1 c.2.1 c.2.2 = 2 ∧
          VL.x = c.1 ∧ VL.y = c.2.1 ∧ VL.z = c.2.2 ∧ VL.ref_index = vi c.1 c.2.1 c.2.2) := by
  intro VL hVL
  unfold setup_vertex at hVL
  by_cases ho : occ c.1 c.2.1 c.2.2 ≠ 0
  · have hv0 := hv ho
    rw [if_pos ho, idxRange_three] at hVL
    simp only [List.foldl_cons, List.foldl_nil] at hVL
    rw [setup_variable_eq P vi c.1 c.2.1 c.2.2 s 0 (by omega)] at hVL
    rw [setup_variable_eq P vi c.1 c.2.1 c.2.2 _ 1 (by omega)] at hVL
    rw [setup_variable_eq P vi c.1 c.2.1 c.2.2 _ 2 (by omega)] at hVL
    simp only [add_zero, and_true, one_ne_zero, and_false, if_false, OfNat.ofNat_ne_zero] at hVL
    by_cases hc : vertex_class P.Nx P.Ny P.Nz c.1 c.2.1 c.2.2 = 2
    · rw [if_pos hc, List.mem_append, List.mem_singleton] at hVL
      rcases hVL with h | h
      · exact Or.inl h
      · right
        rw [h]
        exact ⟨ho, hc, rfl, rfl, rfl, rfl⟩
    · rw [if_neg hc] at hVL
      exact Or.inl hVL
  · rw [if_neg ho] at hVL
    exact Or.inl hVL

theorem setup_arrays_inner (P : FBBlockSetupParameters) (occ : Int → Int → Int → Nat)
    (vi : Int → Int → Int → Int) :
    ∀ (l : List (Int × Int × Int)) (s0 : SetupArrays),
      (∀ c ∈ l, occ c.1 c.2.1 c.2.2 ≠ 0 → 0 ≤ vi c.1 c.2.1 c.2.2) →
      ∀ VL ∈ (l.foldl (setup_vertex P occ vi) s0).inner_vertex_locations,
        VL ∈ s0.inner_vertex_locations ∨
          (occ VL.x VL.y VL.z ≠ 0 ∧ vertex_class P.Nx P.Ny P.Nz VL.x VL.y VL.z = 2 ∧
            VL.ref_index = vi VL.x VL.y VL.z) := by
  intro l
  induction l with
  | nil => intro s0 _ VL hVL; exact Or.inl hVL
  | cons a l ih =>
    intro s0 hnn VL hVL
    rw [List.foldl_cons] at hVL
    rcases ih _ (fun c hc => hnn c (List.mem_cons_of_mem _ hc)) VL hVL with h | h
    · rcases setup_vertex_inner P occ vi s0 a (hnn a (List.mem_cons_self _ _)) VL h with h1 | h1
      · exact Or.inl h1
      · obtain ⟨ho, hc, ex, ey, ez, er⟩ := h1
        right
        rw [ex, ey, ez]
        exact ⟨ho, hc, er⟩
    · exact Or.inr h

theorem setup_fields (P : FBBlockSetupParameters)
    (h : (assign_variable_indices P (vertex_occupancy P)).1 ≠ 0) :
    (setup P).1.inner_vertex_locations =
      (setup_arrays P (vertex_occupancy P)
        (assign_variable_indices P (vertex_occupancy P)).2).inner_vertex_locations ∧
    (setup P).1.r =
      negate (setup P).1.num_variables (multiply_by_A (setup P).1 (setup P).1.x) ∧
    (setup P).2.rnorm2 =
      inner_product_on_owned_free_variables (setup P).1 (setup P).1.r (setup P).1.r ∧
    (setup P).2.p_on_top_inner_interface = (package_inner_interface (setup P).1).1 ∧
    (setup P).2.p_on_bottom_inner_interface = (package_inner_interface (setup P).1).2 := by
  unfold setup
  dsimp only
  rw [if_neg h]
  split_ifs <;> exact ⟨rfl, rfl, rfl, rfl, rfl⟩

theorem setup_p (P : FBBlockSetupParameters)
    (h : (assign_variable_indices P (vertex_occupancy P)).1 ≠ 0) (i : Int) :
    (setup P).1.p i =
      if i ∈ idxRange (setup P).1.num_variables ∧ (setup P).1.free i ≠ 0 then
        (if (setup P).1.use_preconditioner = true ∧ (setup P).1.preconditioner i ≠ 0 then
          (setup P).1.r i / (setup P).1.preconditioner i
        else (setup P).1.r i)
      else 0 := by
  have hp : (setup P).1.p = init_p { (setup P).1 with p := fun _ => 0 } := by
    unfold setup
    dsimp only
    rw [if_neg h]
    by_cases hu : P.use_preconditioner = true
    · rw [if_pos hu]; rfl
    · rw [if_neg hu]; rfl
  rw [hp, init_p_apply]

theorem setup_p_empty (P : FBBlockSetupParameters)
    (h : (assign_variable_indices P (vertex_occupancy P)).1 = 0) :
    (setup P).1.p = (fun _ => 0) ∧ (setup P).2.rnorm2 = 0 ∧
      (setup P).2.p_on_top_inner_interface = Slice.zero ∧
      (setup P).2.p_on_bottom_inner_interface = Slice.zero := by
  unfold setup
  dsimp only
  rw [if_pos h]
  exact ⟨rfl, rfl, rfl, rfl⟩

end FBBlock

end FB

namespace FB

namespace FBBlock

theorem setup_x_zero (P : FBBlockSetupParameters)
    (hX : ∀ a b c dd : Int, P.X0 a b c dd = 0) (i : Int) : (setup P).1.x i = 0 := by
  obtain ⟨hnn, _, hsep, _⟩ := assign_variable_indices_spec P
  by_cases hn : (assign_variable_indices P (vertex_occupancy P)).1 = 0
  · unfold setup
    dsimp only
    rw [if_pos hn]
    rfl
  · rw [(setup_arrays_fields P hn).1]
    unfold setup_arrays
    have hfold := setup_fold P (vertex_occupancy P)
      (assign_variable_indices P (vertex_occupancy P)).2
      (scan3 (P.Nx + 2) (P.Ny + 2) (P.Nz + 2))
      { free := fun _ => 0, vertex_type := fun _ => 0, x := fun _ => 0,
        inner_vertex_locations := [], outer_vertex_locations := [] }
      (nodup_scan3 _ _ _)
      (fun c _ hoc => (hnn c.1 c.2.1 c.2.2 hoc).1)
      (fun c1 _ c2 _ ho1 ho2 hne => hsep c1.1 c1.2.1 c1.2.2 c2.1 c2.2.1 c2.2.2 ho1 ho2 hne)
    by_cases hex : ∃ c ∈ scan3 (P.Nx + 2) (P.Ny + 2) (P.Nz + 2),
        vertex_occupancy P c.1 c.2.1 c.2.2 ≠ 0 ∧ ∃ dd : Int, 0 ≤ dd ∧ dd < 3 ∧
          i = (assign_variable_indices P (vertex_occupancy P)).2 c.1 c.2.1 c.2.2 + dd
    · obtain ⟨c, hc, hoc, dd, h0, h3, rfl⟩ := hex
      rw [(hfold.1 c hc hoc dd h0 h3).1]
      exact hX _ _ _ _
    · rw [(hfold.2 i (fun c hc hoc dd h0 h3 hi => hex ⟨c, hc, hoc, dd, h0, h3, hi⟩)).1]

theorem setup_inner_locations (P : FBBlockSetupParameters) :
    ∀ VL ∈ (setup P).1.inner_vertex_locations, ∀ dd : Int, 0 ≤ dd → dd < 3 →
      (0 ≤ VL.ref_index + dd ∧ VL.ref_index + dd < (setup P).1.num_variables) ∧
      (setup P).1.vertex_type (VL.ref_index + dd) ≠ 3 := by
  obtain ⟨hnn, _, _, _⟩ := assign_variable_indices_spec P
  by_cases hn : (assign_variable_indices P (vertex_occupancy P)).1 = 0
  · intro VL hVL
    exfalso
    have hnil : (setup P).1.inner_vertex_locations = [] := by
      unfold setup
      dsimp only
      rw [if_pos hn]
      rfl
    rw [hnil] at hVL
    exact List.not_mem_nil _ hVL
  · intro VL hVL dd h0 h3
    rw [(setup_fields P hn).1] at hVL
    unfold setup_arrays at hVL
    rcases setup_arrays_inner P (vertex_occupancy P)
      (assign_variable_indices P (vertex_occupancy P)).2 _ _
      (fun c _ hoc => (hnn c.1 c.2.1 c.2.2 hoc).1) VL hVL with h | ⟨ho, hc, hr⟩
    · exact absurd h (List.not_mem_nil _)
    · have hb := hnn VL.x VL.y VL.z ho
      obtain ⟨_, hvt, _⟩ := setup_variables P VL.x VL.y VL.z ho dd h0 h3
      rw [(setup_geometry P).1] at hvt
      rw [hr, (setup_geometry P).2.1]
      refine ⟨by omega, ?_⟩
      rw [hvt, hc]
      decide

end FBBlock

end FB

namespace FB

namespace FBBlock

/-- C14. Exact initial solution gives zero residual norm: for every block set up from
parameters `P`, if `(A * x)[i] = 0` at every owned free variable `i`, `x` being the
initial displacement stored by `setup`, then `setup` returns `rnorm2 = 0`, the initial
search direction `p` is zero at every owned free variable, and the returned top and
bottom inner-interface slices of `p` are zero; the hypothesis holds in particular when
`X0` is zero everywhere. -/
theorem setup_exact_initial_solution (P : FBBlockSetupParameters) :
    ((∀ i : Int, 0 ≤ i → i < (setup P).1.num_variables → (setup P).1.vertex_type i ≠ 3 →
        (setup P).1.free i ≠ 0 → multiply_by_A (setup P).1 (setup P).1.x i = 0) →
      (setup P).2.rnorm2 = 0 ∧
      (∀ i : Int, 0 ≤ i → i < (setup P).1.num_variables → (setup P).1.vertex_type i ≠ 3 →
        (setup P).1.free i ≠ 0 → (setup P).1.p i = 0) ∧
      (setup P).2.p_on_top_inner_interface = Slice.zero ∧
      (setup P).2.p_on_bottom_inner_interface = Slice.zero) ∧
    ((∀ a b c dd : Int, P.X0 a b c dd = 0) →
      ∀ i : Int, multiply_by_A (setup P).1 (setup P).1.x i = 0) := by
  constructor
  · intro H
    by_cases hn : (assign_variable_indices P (vertex_occupancy P)).1 = 0
    · obtain ⟨hp, hr, ht, hb⟩ := setup_p_empty P hn
      refine ⟨hr, ?_, ht, hb⟩
      intro i _ _ _ _
      rw [hp]
    · obtain ⟨_, hr, hnorm, htop, hbot⟩ := setup_fields P hn
      -- the residual vanishes at the owned free variables
      have hres : ∀ i : Int, 0 ≤ i → i < (setup P).1.num_variables →
          (setup P).1.vertex_type i ≠ 3 → (setup P).1.free i ≠ 0 → (setup P).1.r i = 0 := by
        intro i h0 h1 hvt hf
        rw [hr, negate_apply, if_pos (mem_idxRange.mpr ⟨h0, h1⟩), H i h0 h1 hvt hf]
        simp
      have hpz : ∀ i : Int, 0 ≤ i → i < (setup P).1.num_variables →
          (setup P).1.vertex_type i ≠ 3 → (setup P).1.free i ≠ 0 → (setup P).1.p i = 0 := by
        intro i h0 h1 hvt hf
        rw [setup_p P hn i, if_pos ⟨mem_idxRange.mpr ⟨h0, h1⟩, hf⟩, hres i h0 h1 hvt hf]
        split <;> simp
      have hpack : package_inner_interface (setup P).1 = (Slice.zero, Slice.zero) := by
        apply package_inner_interface_zero
        intro VL hVL dd h0 h3 hf
        obtain ⟨hrange, hvt⟩ := setup_inner_locations P VL hVL dd h0 h3
        exact hpz _ hrange.1 hrange.2 hvt hf
      refine ⟨?_, hpz, ?_, ?_⟩
      · rw [hnorm, inner_product_on_owned_free_variables_eq]
        apply List.sum_eq_zero
        intro y hy
        obtain ⟨i, hi, rfl⟩ := List.mem_map.mp hy
        have hi' := mem_idxRange.mp hi
        split
        · rename_i hc
          rw [hres i hi'.1 hi'.2 hc.1 hc.2]
          simp
        · rfl
      · rw [htop, hpack]
      · rw [hbot, hpack]
  · intro hX i
    exact multiply_by_A_zero _ _ (setup_x_zero P hX) i

end FBBlock

namespace FBBlockSolver

theorem setup_exact_initial_solution_witness :
    (FBBlock.setup (setup_parameters unloaded_voxel_solver one_voxel_slab)).2.rnorm2 = 0 ∧
    (∀ i : Int, 0 ≤ i →
      i < (FBBlock.setup (setup_parameters unloaded_voxel_solver one_voxel_slab)).1.num_variables →
      (FBBlock.setup (setup_parameters unloaded_voxel_solver one_voxel_slab)).1.vertex_type i ≠ 3 →
      (FBBlock.setup (setup_parameters unloaded_voxel_solver one_voxel_slab)).1.free i ≠ 0 →
      (FBBlock.setup (setup_parameters unloaded_voxel_solver one_voxel_slab)).1.p i = 0) ∧
    (FBBlock.setup (setup_parameters unloaded_voxel_solver one_voxel_slab)).2.p_on_top_inner_interface
      = Slice.zero ∧
    (FBBlock.setup
      (setup_parameters unloaded_voxel_solver one_voxel_slab)).2.p_on_bottom_inner_interface
      = Slice.zero :=
  (FBBlock.setup_exact_initial_solution (setup_parameters unloaded_voxel_solver one_voxel_slab)).1
    (fun i _ _ _ _ =>
      (FBBlock.setup_exact_initial_solution (setup_parameters unloaded_voxel_solver one_voxel_slab)).2
        (fun a b c dd => by
          show (if _ then _ else _) = (0 : ℚ)
          split <;> rfl) i)

end FBBlockSolver

end FB

namespace FB

namespace FBBlockSolver

/-- C16, refuted as stated: on the single full voxel with the symmetric indefinite
stiffness matrix `K[0][1] = K[1][0] = 1`, the first pass of the loop has reduced
`p_Ap = 0` and `r_z = 1`, yet step B is run: `p` of the block at direction 1 of node
`(0,0,0)` is `-1` before the pass and differs from `-1` after it, the iteration count
becomes 1, and `solve()` goes on to make five passes. -/
theorem degenerate_scalars_do_not_halt :
    total_p_Ap (iteration example_external
      (install_adjuster (solve_setup indefinite_voxel_solver))).PPP_A = 0 ∧
    total_r_z (iteration example_external
      (install_adjuster (solve_setup indefinite_voxel_solver))).PPP_A = 1 ∧
    (block_at (install_adjuster (solve_setup indefinite_voxel_solver)) 0).p
      ((block_at (install_adjuster (solve_setup indefinite_voxel_solver)) 0).variable_indices
        2 2 1 + 1) = -1 ∧
    (block_at (iteration example_external
        (install_adjuster (solve_setup indefinite_voxel_solver))) 0).p
      ((block_at (install_adjuster (solve_setup indefinite_voxel_solver)) 0).variable_indices
        2 2 1 + 1) ≠ -1 ∧
    (iteration example_external
      (install_adjuster (solve_setup indefinite_voxel_solver))).num_iterations = 1 ∧
    ((solve example_external 10 indefinite_voxel_solver).map fun S => S.num_iterations)
      = some 5 := by
  refine ⟨?_, ?_, ?_, ?_, ?_, ?_⟩ <;> decide!

/-- C16, amended. When the reduced `p_Ap` of a pass is `0` while the reduced `r_z` is not,
the loop does not halt and nothing is reported: the pass runs `iterate_step_B` on every
block, after its `iterate_step_A`, with `alpha = r_z / p_Ap` (a quotient by zero, kept
as written) and `beta = (r_z - 2*alpha*r_Ap + alpha^2*Ap_Ap) / r_z`, the iteration count
is incremented, and whether another pass follows depends on the iteration count and on
the below-epsilon counter alone. -/
theorem degenerate_scalars_pass (ext : External) (S : FBBlockSolver)
    (hp : total_p_Ap (iteration ext S).PPP_A = 0)
    (hr : total_r_z (iteration ext S).PPP_A ≠ 0) :
    (iteration ext S).num_iterations = S.num_iterations + 1 ∧
    (∀ i : Nat, i < S.blocks.length →
      ∃ P : FBBlockIterateStepBParameters,
        P.alpha = total_r_z (iteration ext S).PPP_A / 0 ∧
        P.beta =
          (total_r_z (iteration ext S).PPP_A -
            2 * P.alpha * total_r_Ap (iteration ext S).PPP_A +
            P.alpha * P.alpha * total_Ap_Ap (iteration ext S).PPP_A) /
            total_r_z (iteration ext S).PPP_A ∧
        (iteration ext S).blocks.getD i FBBlock.init =
          (FBBlock.iterate_step_B ext.sqrt
            (FBBlock.iterate_step_A (S.blocks.getD i FBBlock.init)
              ((stage_interfaces S).getD i {})).1 P).1 ∧
        (iteration ext S).PPP_B.getD i {} =
          (FBBlock.iterate_step_B ext.sqrt
            (FBBlock.iterate_step_A (S.blocks.getD i FBBlock.init)
              ((stage_interfaces S).getD i {})).1 P).2) ∧
    (∀ c : Int, loop_condition (iteration ext S) c =
      decide ((S.num_iterations + 1 < S.max_iterations ∨ S.max_iterations ≤ 0) ∧ c < 5)) := by
  have hlen : (iteration ext S).PPP_A.length = S.blocks.length := by
    rw [iteration_PPP_A]; simp
  have hred := reduce_scalars_eq (iteration ext S).PPP_A
  rw [hlen] at hred
  refine ⟨rfl, ?_, fun c => rfl⟩
  intro i hi
  refine ⟨(set_step_B_parameters S
    (reduce_scalars S.blocks.length (iteration ext S).PPP_A)).getD i {}, ?_, ?_, ?_, ?_⟩
  · rw [hred]
    unfold set_step_B_parameters
    rw [getD_map_range _ _ _ _ hi]
    dsimp only
    rw [hp]
  · rw [hred]
    unfold set_step_B_parameters
    rw [getD_map_range _ _ _ _ hi]
    dsimp only
    rw [if_pos hr]
  · rw [iteration_blocks, getD_map_range _ _ _ _ hi]
  · rw [iteration_PPP_B, getD_map_range _ _ _ _ hi]

theorem degenerate_scalars_pass_witness :
    (iteration example_external
      (install_adjuster (solve_setup indefinite_voxel_solver))).num_iterations =
      (install_adjuster (solve_setup indefinite_voxel_solver)).num_iterations + 1 :=
  (degenerate_scalars_pass example_external
    (install_adjuster (solve_setup indefinite_voxel_solver)) (by decide!) (by decide!)).1

end FBBlockSolver

end FB

namespace FB

namespace FBBlock

/-- C27. Vertex classification: after `setup`, for every active node at local
`(xx, yy, zz)` (the node lies in the padded box `[0..Nx+1] x [0..Ny+1] x [0..Nz+1]`) and
each of its three variables `i = variable_indices(xx,yy,zz) + dd`, `vertex_type[i] = 1`
iff `2 <= xx <= Nx-1`, `2 <= yy <= Ny-1` and `2 <= zz <= Nz-1`; `vertex_type[i] = 2` iff
the node is not internal but `1 <= xx <= Nx`, `1 <= yy <= Ny`, `1 <= zz <= Nz`; and
`vertex_type[i] = 3` otherwise. -/
theorem vertex_classification (P : FBBlockSetupParameters) (xx yy zz dd : Int)
    (hact : 0 ≤ (setup P).1.variable_indices xx yy zz) (h0 : 0 ≤ dd) (h3 : dd < 3) :
    ((0 ≤ xx ∧ xx ≤ P.Nx + 1) ∧ (0 ≤ yy ∧ yy ≤ P.Ny + 1) ∧ (0 ≤ zz ∧ zz ≤ P.Nz + 1)) ∧
    ((setup P).1.vertex_type ((setup P).1.variable_indices xx yy zz + dd) = 1 ↔
      (2 ≤ xx ∧ xx ≤ P.Nx - 1) ∧ (2 ≤ yy ∧ yy ≤ P.Ny - 1) ∧ (2 ≤ zz ∧ zz ≤ P.Nz - 1)) ∧
    ((setup P).1.vertex_type ((setup P).1.variable_indices xx yy zz + dd) = 2 ↔
      ¬ ((2 ≤ xx ∧ xx ≤ P.Nx - 1) ∧ (2 ≤ yy ∧ yy ≤ P.Ny - 1) ∧ (2 ≤ zz ∧ zz ≤ P.Nz - 1)) ∧
        ((1 ≤ xx ∧ xx ≤ P.Nx) ∧ (1 ≤ yy ∧ yy ≤ P.Ny) ∧ (1 ≤ zz ∧ zz ≤ P.Nz))) ∧
    ((setup P).1.vertex_type ((setup P).1.variable_indices xx yy zz + dd) = 3 ↔
      ¬ ((1 ≤ xx ∧ xx ≤ P.Nx) ∧ (1 ≤ yy ∧ yy ≤ P.Ny) ∧ (1 ≤ zz ∧ zz ≤ P.Nz))) := by
  have ho := (setup_index_nonneg_iff P xx yy zz).mp hact
  have hbox := mem_scan3.mp (vertex_occupancy_in_box P xx yy zz ho)
  simp only at hbox
  obtain ⟨_, hvt, _⟩ := setup_variables P xx yy zz ho dd h0 h3
  rw [hvt]
  unfold vertex_class
  refine ⟨⟨by omega, by omega, by omega⟩, ?_, ?_, ?_⟩
  · split_ifs with h1 h2
    · simp only [true_iff]; omega
    · simp only [OfNat.ofNat_ne_one, false_iff]; omega
    · simp only [OfNat.ofNat_ne_one, false_iff]; omega
  · split_ifs with h1 h2
    · simp only [OfNat.one_ne_ofNat, false_iff]; omega
    · simp only [true_iff]; omega
    · have : (3 : Nat) ≠ 2 := by decide
      simp only [this, false_iff]; omega
  · split_ifs with h1 h2
    · simp only [OfNat.one_ne_ofNat, false_iff]; omega
    · have : (2 : Nat) ≠ 3 := by decide
      simp only [this, false_iff]; omega
    · simp only [true_iff]; omega

end FBBlock

namespace FBBlockSolver

theorem vertex_classification_witness :
    (FBBlock.setup (setup_parameters (one_voxel_solver 1) one_voxel_slab)).1.vertex_type
        ((FBBlock.setup (setup_parameters (one_voxel_solver 1)
          one_voxel_slab)).1.variable_indices 2 2 1 + 0) = 2 ↔
      ¬ ((2 ≤ (2 : Int) ∧ (2 : Int) ≤ (setup_parameters (one_voxel_solver 1) one_voxel_slab).Nx - 1) ∧
        (2 ≤ (2 : Int) ∧ (2 : Int) ≤ (setup_parameters (one_voxel_solver 1) one_voxel_slab).Ny - 1) ∧
        (2 ≤ (1 : Int) ∧ (1 : Int) ≤ (setup_parameters (one_voxel_solver 1) one_voxel_slab).Nz - 1)) ∧
        ((1 ≤ (2 : Int) ∧ (2 : Int) ≤ (setup_parameters (one_voxel_solver 1) one_voxel_slab).Nx) ∧
        (1 ≤ (2 : Int) ∧ (2 : Int) ≤ (setup_parameters (one_voxel_solver 1) one_voxel_slab).Ny) ∧
        (1 ≤ (1 : Int) ∧ (1 : Int) ≤ (setup_parameters (one_voxel_solver 1) one_voxel_slab).Nz)) :=
  (FBBlock.vertex_classification (setup_parameters (one_voxel_solver 1) one_voxel_slab)
    2 2 1 0 (by decide!) (by decide) (by decide)).2.2.1

end FBBlockSolver

end FB

namespace FB

namespace FBBlockSolver

theorem trailing_below_zero (ext : External) (S : FBBlockSolver)
    (h : ∀ j : Nat, estimate_below ext S j = false) (k : Nat) : trailing_below ext S k = 0 := by
  cases k with
  | zero => simp [trailing_below]
  | succ k =>
    rw [trailing_below_succ, h (k + 1)]
    simp

theorem estimate_below_nonlinear (ext : External)
    (hext : ∀ l : List (Nat → ℚ), 0 ≤ ext.estimatedRelativeError l) (step_size : ℚ) (n : Int)
    (S : FBBlockSolver) (s : Int) (j : Nat) :
    estimate_below ext (install_adjuster (prepare_nonlinear_step step_size n S s)) j = false := by
  unfold estimate_below
  have he : (install_adjuster (prepare_nonlinear_step step_size n S s)).epsilon = 0 := rfl
  rw [he, decide_eq_false_iff_not]
  exact not_lt.mpr (hext _)

theorem continues_nonlinear (ext : External)
    (hext : ∀ l : List (Nat → ℚ), 0 ≤ ext.estimatedRelativeError l) (step_size : ℚ) (n : Int)
    (S : FBBlockSolver) (s : Int) (k : Nat) :
    continues ext (install_adjuster (prepare_nonlinear_step step_size n S s)) k ↔
      ((k : Int) < n ∨ n ≤ 0) := by
  unfold continues
  rw [trailing_below_zero ext _ (estimate_below_nonlinear ext hext step_size n S s)]
  have h1 : (install_adjuster (prepare_nonlinear_step step_size n S s)).num_iterations = 0 := rfl
  have h2 : (install_adjuster (prepare_nonlinear_step step_size n S s)).max_iterations = n := rfl
  rw [h1, h2, zero_add]
  simp

/-- C21, amended. Nonlinear steps iterate to budget when the budget is positive: with an
error estimator that never reports a negative relative error, a step of `solveNonlinear`
(run with the adjuster of `eps_yield = 0.01 / (s * step_size)`, `epsilon = 0`, the
iteration count reset to 0 and `max_iterations = num_iterations_per_step`) performs exactly
`num_iterations_per_step` passes and then ends when `num_iterations_per_step >= 1`;
when `num_iterations_per_step <= 0` the loop has no budget and the step never ends. -/
theorem nonlinear_step_budget (ext : External)
    (hext : ∀ l : List (Nat → ℚ), 0 ≤ ext.estimatedRelativeError l) (step_size : ℚ)
    (n : Int) (S : FBBlockSolver) (s : Int) :
    ((prepare_nonlinear_step step_size n S s).nonlinear_adjuster =
        some (MyNonlinearAdjuster.computeAdjustment ((1 / 100) / (step_size * (s : ℚ)))) ∧
      (prepare_nonlinear_step step_size n S s).epsilon = 0 ∧
      (prepare_nonlinear_step step_size n S s).num_iterations = 0 ∧
      (prepare_nonlinear_step step_size n S s).max_iterations = n) ∧
    (1 ≤ n → ∀ fuel : Nat, n ≤ (fuel : Int) →
      do_iterations ext fuel (prepare_nonlinear_step step_size n S s) =
        some (after_iterations ext
          (install_adjuster (prepare_nonlinear_step step_size n S s)) n.toNat) ∧
      (after_iterations ext
        (install_adjuster (prepare_nonlinear_step step_size n S s)) n.toNat).num_iterations
        = n) ∧
    (n ≤ 0 → ∀ fuel : Nat,
      do_iterations ext fuel (prepare_nonlinear_step step_size n S s) = none) := by
  refine ⟨⟨rfl, rfl, rfl, rfl⟩, ?_, ?_⟩
  · intro hn fuel hf
    constructor
    · rw [do_iterations_some]
      refine ⟨n.toNat, by omega, ?_, ?_, rfl⟩
      · intro k hk
        rw [continues_nonlinear ext hext]
        left; omega
      · rw [continues_nonlinear ext hext]
        push_neg
        constructor
        · rw [Int.toNat_of_nonneg (by omega)]
        · omega
    · rw [(after_iterations_fields ext _ n.toNat).1]
      show (0 : Int) + _ = n
      rw [Int.toNat_of_nonneg (by omega)]
      omega
  · intro hn fuel
    cases hd : do_iterations ext fuel (prepare_nonlinear_step step_size n S s) with
    | none => rfl
    | some S1 =>
      exfalso
      obtain ⟨m, _, _, hstop, _⟩ := (do_iterations_some ext fuel _ S1).mp hd
      apply hstop
      rw [continues_nonlinear ext hext]
      exact Or.inr hn

theorem nonlinear_step_budget_witness :
    do_iterations example_external 3
        (prepare_nonlinear_step 1 3 (solve_setup (one_voxel_solver 1)) 1) =
      some (after_iterations example_external
        (install_adjuster (prepare_nonlinear_step 1 3 (solve_setup (one_voxel_solver 1)) 1))
        (3 : Int).toNat) ∧
    (after_iterations example_external
      (install_adjuster (prepare_nonlinear_step 1 3 (solve_setup (one_voxel_solver 1)) 1))
      (3 : Int).toNat).num_iterations = 3 :=
  (nonlinear_step_budget example_external (fun _ => le_refl _) 1 3
    (solve_setup (one_voxel_solver 1)) 1).2.1 (by decide) 3 (by decide)

/-- C21, refuted as stated: with `num_iterations_per_step = 0` (which is `>= 0`) and an
estimator that always reports `0`, the first step of `solveNonlinear` on the single-voxel
solver does not end, for any bound on the number of passes. -/
theorem nonlinear_step_zero_budget_never_ends :
    (0 : Int) ≤ 0 ∧
    (∀ l : List (Nat → ℚ), 0 ≤ example_external.estimatedRelativeError l) ∧
    ¬ ∃ (fuel : Nat) (S1 : FBBlockSolver),
      do_iterations example_external fuel
        (prepare_nonlinear_step 1 0 (solve_setup (one_voxel_solver 1)) 1) = some S1 := by
  refine ⟨le_refl _, fun _ => le_refl _, ?_⟩
  rintro ⟨fuel, S1, h⟩
  obtain ⟨m, _, _, hstop, _⟩ := (do_iterations_some example_external fuel _ S1).mp h
  apply hstop
  rw [continues_nonlinear example_external (fun _ => le_refl _)]
  exact Or.inr (le_refl _)

end FBBlockSolver

end FB

namespace FB

namespace FBSparseArray4D

theorem setValue_keys (A : FBSparseArray4D) (v : ℚ) (i1 i2 i3 i4 : Int) :
    (A.setValue v i1 i2 i3 i4).keys = A.keys := by
  unfold setValue
  split <;> rfl

theorem setValue_data (A : FBSparseArray4D) (v : ℚ) (i1 i2 i3 i4 : Int) (a b c d : Int) :
    (A.setValue v i1 i2 i3 i4).data a b c d =
      if (a, b, c, d) = (i1, i2, i3, i4) ∧ (i1, i2, i3, i4) ∈ A.keys then v
      else A.data a b c d := by
  unfold setValue
  by_cases hk : (i1, i2, i3, i4) ∈ A.keys
  · rw [if_pos hk]
    simp only [set4, hk, and_true, Prod.mk.injEq]
  · rw [if_neg hk]
    simp [hk]

end FBSparseArray4D

namespace FBBlockSolver

theorem setInitialDisplacements_fold (fixed_variables : Int → Int → Int → Int → Nat)
    (displacements : Int → Int → Int → Int → ℚ) :
    ∀ (l : List (Int × Int × Int × Int)) (A : FBSparseArray4D),
      (l.foldl
        (fun A k =>
          if fixed_variables k.1 k.2.1 k.2.2.1 k.2.2.2 = 0 then
            A.setValue (displacements k.1 k.2.1 k.2.2.1 k.2.2.2) k.1 k.2.1 k.2.2.1 k.2.2.2
          else A) A).keys = A.keys ∧
      ∀ a b c d : Int,
        (l.foldl
          (fun A k =>
            if fixed_variables k.1 k.2.1 k.2.2.1 k.2.2.2 = 0 then
              A.setValue (displacements k.1 k.2.1 k.2.2.1 k.2.2.2) k.1 k.2.1 k.2.2.1 k.2.2.2
            else A) A).data a b c d =
          if (a, b, c, d) ∈ l ∧ (a, b, c, d) ∈ A.keys ∧ fixed_variables a b c d = 0 then
            displacements a b c d
          else A.data a b c d := by
  intro l
  induction l with
  | nil => intro A; exact ⟨rfl, fun a b c d => by simp⟩
  | cons k l ih =>
    intro A
    rw [List.foldl_cons]
    obtain ⟨ihk, ihd⟩ := ih
      (if fixed_variables k.1 k.2.1 k.2.2.1 k.2.2.2 = 0 then
        A.setValue (displacements k.1 k.2.1 k.2.2.1 k.2.2.2) k.1 k.2.1 k.2.2.1 k.2.2.2
      else A)
    have hkeys : (if fixed_variables k.1 k.2.1 k.2.2.1 k.2.2.2 = 0 then
        A.setValue (displacements k.1 k.2.1 k.2.2.1 k.2.2.2) k.1 k.2.1 k.2.2.1 k.2.2.2
      else A).keys = A.keys := by
      split
      · exact FBSparseArray4D.setValue_keys _ _ _ _ _ _
      · rfl
    refine ⟨ihk.trans hkeys, ?_⟩
    intro a b c d
    rw [ihd, hkeys]
    by_cases hl : (a, b, c, d) ∈ l ∧ (a, b, c, d) ∈ A.keys ∧ fixed_variables a b c d = 0
    · rw [if_pos hl, if_pos ⟨List.mem_cons_of_mem _ hl.1, hl.2⟩]
    · rw [if_neg hl]
      by_cases hf : fixed_variables k.1 k.2.1 k.2.2.1 k.2.2.2 = 0
      · rw [if_pos hf, FBSparseArray4D.setValue_data]
        by_cases hk : (a, b, c, d) = k
        · subst hk
          by_cases hin : (a, b, c, d) ∈ A.keys
          · simp [hin, hf]
          · simp [hin]
        · have hk' : ¬ ((a, b, c, d) = (k.1, k.2.1, k.2.2.1, k.2.2.2) ∧
              (k.1, k.2.1, k.2.2.1, k.2.2.2) ∈ A.keys) := fun h => hk h.1
          rw [if_neg hk']
          have hnot : ¬ ((a, b, c, d) ∈ k :: l ∧ (a, b, c, d) ∈ A.keys ∧
              fixed_variables a b c d = 0) := by
            rintro ⟨hm, h2⟩
            rcases List.mem_cons.mp hm with e | m1
            · exact hk e
            · exact hl ⟨m1, h2⟩
          rw [if_neg hnot]
      · rw [if_neg hf]
        have hnot : ¬ ((a, b, c, d) ∈ k :: l ∧ (a, b, c, d) ∈ A.keys ∧
            fixed_variables a b c d = 0) := by
          rintro ⟨hm, h2⟩
          rcases List.mem_cons.mp hm with e | m1
          · subst e; exact hf h2.2
          · exact hl ⟨m1, h2⟩
        rw [if_neg hnot]

/-- C23. `setInitialDisplacementsOnFreeVariables` writes only free variables: the stored
entries of the initial-displacement array are the same after the call, and for every
stored entry `(d, x, y, z)` the value after the call is the supplied displacement at
`(d, x, y, z)` if that variable is not fixed, and the previously stored value if it is
fixed; entries that are not stored still read `0`.  This holds for the overload with a
sparse argument and for the overload with a dense argument. -/
theorem setInitialDisplacementsOnFreeVariables_spec (A : FBSparseArray4D)
    (fixed_variables : Int → Int → Int → Int → Nat) :
    (∀ (D : FBSparseArray4D),
      (setInitialDisplacementsOnFreeVariables_sparse A fixed_variables D).keys = A.keys ∧
      ∀ d x y z : Int,
        (setInitialDisplacementsOnFreeVariables_sparse A fixed_variables D).value d x y z =
          if (d, x, y, z) ∈ A.keys then
            (if fixed_variables d x y z = 0 then D.value d x y z else A.value d x y z)
          else 0) ∧
    (∀ (D : Int → Int → Int → Int → ℚ),
      (setInitialDisplacementsOnFreeVariables_dense A fixed_variables D).keys = A.keys ∧
      ∀ d x y z : Int,
        (setInitialDisplacementsOnFreeVariables_dense A fixed_variables D).value d x y z =
          if (d, x, y, z) ∈ A.keys then
            (if fixed_variables d x y z = 0 then D d x y z else A.value d x y z)
          else 0) := by
  have core : ∀ (D : Int → Int → Int → Int → ℚ),
      (setInitialDisplacementsOnFreeVariables A fixed_variables D).keys = A.keys ∧
      ∀ d x y z : Int,
        (setInitialDisplacementsOnFreeVariables A fixed_variables D).value d x y z =
          if (d, x, y, z) ∈ A.keys then
            (if fixed_variables d x y z = 0 then D d x y z else A.value d x y z)
          else 0 := by
    intro D
    obtain ⟨hk, hd⟩ := setInitialDisplacements_fold fixed_variables D A.keys A
    refine ⟨hk, ?_⟩
    intro d x y z
    unfold FBSparseArray4D.value setInitialDisplacementsOnFreeVariables
    rw [hk, hd]
    by_cases hin : (d, x, y, z) ∈ A.keys
    · simp only [hin, true_and, if_true]
    · simp only [hin, if_false]
  exact ⟨fun D => core D.value, fun D => core D⟩

end FBBlockSolver

end FB

namespace FB

namespace FBSparseArray4D

theorem cond_setupIndex_mem (A : FBSparseArray4D) (b : Bool) (d i1 i2 i3 : Int)
    (k : Int × Int × Int × Int) :
    k ∈ (if b = true then A.setupIndex 2 d i1 i2 i3 else A).keys ↔
      k ∈ A.keys ∨ (b = true ∧ k = (d, i1, i2, i3)) := by
  cases b
  · simp
  · simp [setupIndex]

theorem cond_setupIndex_data (A : FBSparseArray4D) (b : Bool) (pass : Nat) (d i1 i2 i3 : Int) :
    (if b = true then A.setupIndex pass d i1 i2 i3 else A).data = A.data := by
  unfold setupIndex
  split
  · split <;> rfl
  · rfl

theorem cond_setValue_keys (A : FBSparseArray4D) (b : Bool) (v : ℚ) (d i1 i2 i3 : Int) :
    (if b = true then A.setValue v d i1 i2 i3 else A).keys = A.keys := by
  split
  · exact setValue_keys _ _ _ _ _ _
  · rfl

theorem cond_setValue_data (A : FBSparseArray4D) (b : Bool) (v : ℚ) (d i1 i2 i3 : Int)
    (k : Int × Int × Int × Int) :
    (if b = true then A.setValue v d i1 i2 i3 else A).data k.1 k.2.1 k.2.2.1 k.2.2.2 =
      if b = true ∧ k = (d, i1, i2, i3) ∧ k ∈ A.keys then v
      else A.data k.1 k.2.1 k.2.2.1 k.2.2.2 := by
  cases b
  · simp
  · simp only [if_true, true_and]
    rw [setValue_data]
    by_cases hk : k = (d, i1, i2, i3)
    · subst hk
      simp
    · have h1 : ¬ ((k.1, k.2.1, k.2.2.1, k.2.2.2) = (d, i1, i2, i3) ∧ (d, i1, i2, i3) ∈ A.keys) :=
        fun h => hk h.1
      have h2 : ¬ (k = (d, i1, i2, i3) ∧ k ∈ A.keys) := fun h => hk h.1
      rw [if_neg h1, if_neg h2]

end FBSparseArray4D

namespace FBBlockSolver

theorem setFixedVariables_node_one (m : BVFMap) (bR : Nat → Nat → Nat) (A : FBSparseArray4D)
    (c : Int × Int × Int) : setFixedVariables_node m bR 1 A c = A := by
  unfold setFixedVariables_node
  simp [FBSparseArray4D.setupIndex]

theorem setFixedVariables_node_two (m : BVFMap) (bR : Nat → Nat → Nat) (A : FBSparseArray4D)
    (c : Int × Int × Int) :
    (setFixedVariables_node m bR 2 A c).data = A.data ∧
    ∀ k : Int × Int × Int × Int,
      k ∈ (setFixedVariables_node m bR 2 A c).keys ↔
        k ∈ A.keys ∨ (marks m bR k ∧ (k.2.1, k.2.2.1, k.2.2.2) = c) := by
  unfold setFixedVariables_node
  by_cases hv : is_vertex m c.1 c.2.1 c.2.2 = true
  · rw [if_pos hv]
    simp only [le_refl, if_true]
    refine ⟨?_, ?_⟩
    · rw [FBSparseArray4D.cond_setupIndex_data, FBSparseArray4D.cond_setupIndex_data,
        FBSparseArray4D.cond_setupIndex_data]
    · intro k
      rw [FBSparseArray4D.cond_setupIndex_mem, FBSparseArray4D.cond_setupIndex_mem,
        FBSparseArray4D.cond_setupIndex_mem]
      unfold marks
      obtain ⟨k1, k2, k3, k4⟩ := k
      obtain ⟨c1, c2, c3⟩ := c
      simp only [Prod.mk.injEq]
      constructor
      · rintro (((h | ⟨hb, rfl, rfl, rfl, rfl⟩) | ⟨hb, rfl, rfl, rfl, rfl⟩) |
          ⟨hb, rfl, rfl, rfl, rfl⟩)
        · exact Or.inl h
        · exact Or.inr ⟨⟨hv, Or.inl ⟨rfl, hb⟩⟩, rfl, rfl, rfl⟩
        · exact Or.inr ⟨⟨hv, Or.inr (Or.inl ⟨rfl, hb⟩)⟩, rfl, rfl, rfl⟩
        · exact Or.inr ⟨⟨hv, Or.inr (Or.inr ⟨rfl, hb⟩)⟩, rfl, rfl, rfl⟩
      · rintro (h | ⟨⟨_, hd⟩, rfl, rfl, rfl⟩)
        · exact Or.inl (Or.inl (Or.inl h))
        · rcases hd with ⟨rfl, hb⟩ | ⟨rfl, hb⟩ | ⟨rfl, hb⟩
          · exact Or.inl (Or.inl (Or.inr ⟨hb, rfl, rfl, rfl, rfl⟩))
          · exact Or.inl (Or.inr ⟨hb, rfl, rfl, rfl, rfl⟩)
          · exact Or.inr ⟨hb, rfl, rfl, rfl, rfl⟩
  · rw [if_neg hv]
    refine ⟨rfl, fun k => ?_⟩
    constructor
    · exact Or.inl
    · rintro (h | ⟨⟨hv', _⟩, hc⟩)
      · exact h
      · rw [← hc] at hv
        exact absurd hv' hv

theorem setFixedVariables_node_three (m : BVFMap) (bR : Nat → Nat → Nat) (A : FBSparseArray4D)
    (c : Int × Int × Int) :
    (setFixedVariables_node m bR 3 A c).keys = A.keys ∧
    ∀ k : Int × Int × Int × Int,
      (setFixedVariables_node m bR 3 A c).data k.1 k.2.1 k.2.2.1 k.2.2.2 =
        if marks m bR k ∧ (k.2.1, k.2.2.1, k.2.2.2) = c ∧ k ∈ A.keys then 1
        else A.data k.1 k.2.1 k.2.2.1 k.2.2.2 := by
  unfold setFixedVariables_node
  by_cases hv : is_vertex m c.1 c.2.1 c.2.2 = true
  · rw [if_pos hv]
    have h32 : ¬ (3 ≤ 2) := by decide
    simp only [h32, if_false, if_true]
    refine ⟨?_, ?_⟩
    · rw [FBSparseArray4D.cond_setValue_keys, FBSparseArray4D.cond_setValue_keys,
        FBSparseArray4D.cond_setValue_keys]
    · intro k
      rw [FBSparseArray4D.cond_setValue_data, FBSparseArray4D.cond_setValue_keys,
        FBSparseArray4D.cond_setValue_keys, FBSparseArray4D.cond_setValue_data,
        FBSparseArray4D.cond_setValue_keys, FBSparseArray4D.cond_setValue_data]
      unfold marks
      obtain ⟨k1, k2, k3, k4⟩ := k
      obtain ⟨c1, c2, c3⟩ := c
      simp only [Prod.mk.injEq]
      by_cases hin : (k1, k2, k3, k4) ∈ A.keys
      · by_cases hc : k2 = c1 ∧ k3 = c2 ∧ k4 = c3
        · obtain ⟨rfl, rfl, rfl⟩ := hc
          simp only [hin, hv, and_true, true_and, and_self]
          by_cases h0 : k1 = 0
          · subst h0
            cases (fixed_flags m.N1 m.N2 m.N3 bR k2 k3 k4).1 <;>
              cases (fixed_flags m.N1 m.N2 m.N3 bR k2 k3 k4).2.1 <;>
              cases (fixed_flags m.N1 m.N2 m.N3 bR k2 k3 k4).2.2 <;> simp
          · by_cases h1 : k1 = 1
            · subst h1
              cases (fixed_flags m.N1 m.N2 m.N3 bR k2 k3 k4).1 <;>
                cases (fixed_flags m.N1 m.N2 m.N3 bR k2 k3 k4).2.1 <;>
                cases (fixed_flags m.N1 m.N2 m.N3 bR k2 k3 k4).2.2 <;> simp
            · by_cases h2 : k1 = 2
              · subst h2
                cases (fixed_flags m.N1 m.N2 m.N3 bR k2 k3 k4).1 <;>
                  cases (fixed_flags m.N1 m.N2 m.N3 bR k2 k3 k4).2.1 <;>
                  cases (fixed_flags m.N1 m.N2 m.N3 bR k2 k3 k4).2.2 <;> simp
              · simp [h0, h1, h2]
        · have hc' : ¬ (k2 = c1 ∧ k3 = c2 ∧ k4 = c3) := hc
          simp only [hc', and_false, false_and, if_false]
      · simp only [hin, and_false, if_false]
  · rw [if_neg hv]
    refine ⟨rfl, fun k => ?_⟩
    have hnot : ¬ (marks m bR k ∧ (k.2.1, k.2.2.1, k.2.2.2) = c ∧ k ∈ A.keys) := by
      rintro ⟨⟨hv', _⟩, hc, _⟩
      rw [← hc] at hv
      exact hv hv'
    rw [if_neg hnot]

end FBBlockSolver

end FB

namespace FB

namespace FBBlockSolver

theorem setFixedVariables_fold_one (m : BVFMap) (bR : Nat → Nat → Nat) :
    ∀ (l : List (Int × Int × Int)) (A : FBSparseArray4D),
      l.foldl (setFixedVariables_node m bR 1) A = A := by
  intro l
  induction l with
  | nil => intro A; rfl
  | cons c l ih => intro A; rw [List.foldl_cons, setFixedVariables_node_one, ih]

theorem setFixedVariables_fold_two (m : BVFMap) (bR : Nat → Nat → Nat) :
    ∀ (l : List (Int × Int × Int)) (A : FBSparseArray4D),
      (l.foldl (setFixedVariables_node m bR 2) A).data = A.data ∧
      ∀ k : Int × Int × Int × Int,
        k ∈ (l.foldl (setFixedVariables_node m bR 2) A).keys ↔
          k ∈ A.keys ∨ (marks m bR k ∧ (k.2.1, k.2.2.1, k.2.2.2) ∈ l) := by
  intro l
  induction l with
  | nil => intro A; exact ⟨rfl, fun k => by simp⟩
  | cons c l ih =>
    intro A
    rw [List.foldl_cons]
    obtain ⟨ihd, ihk⟩ := ih (setFixedVariables_node m bR 2 A c)
    obtain ⟨nd, nk⟩ := setFixedVariables_node_two m bR A c
    refine ⟨ihd.trans nd, fun k => ?_⟩
    rw [ihk, nk, List.mem_cons]
    constructor
    · rintro ((h | ⟨hm, hc⟩) | ⟨hm, hl⟩)
      · exact Or.inl h
      · exact Or.inr ⟨hm, Or.inl hc⟩
      · exact Or.inr ⟨hm, Or.inr hl⟩
    · rintro (h | ⟨hm, hc | hl⟩)
      · exact Or.inl (Or.inl h)
      · exact Or.inl (Or.inr ⟨hm, hc⟩)
      · exact Or.inr ⟨hm, hl⟩

theorem setFixedVariables_fold_three (m : BVFMap) (bR : Nat → Nat → Nat) :
    ∀ (l : List (Int × Int × Int)) (A : FBSparseArray4D),
      (l.foldl (setFixedVariables_node m bR 3) A).keys = A.keys ∧
      ∀ k : Int × Int × Int × Int,
        (l.foldl (setFixedVariables_node m bR 3) A).data k.1 k.2.1 k.2.2.1 k.2.2.2 =
          if marks m bR k ∧ (k.2.1, k.2.2.1, k.2.2.2) ∈ l ∧ k ∈ A.keys then 1
          else A.data k.1 k.2.1 k.2.2.1 k.2.2.2 := by
  intro l
  induction l with
  | nil => intro A; exact ⟨rfl, fun k => by simp⟩
  | cons c l ih =>
    intro A
    rw [List.foldl_cons]
    obtain ⟨ihk, ihd⟩ := ih (setFixedVariables_node m bR 3 A c)
    obtain ⟨nk, nd⟩ := setFixedVariables_node_three m bR A c
    refine ⟨ihk.trans nk, fun k => ?_⟩
    rw [ihd, nk, nd]
    by_cases h1 : marks m bR k ∧ (k.2.1, k.2.2.1, k.2.2.2) ∈ l ∧ k ∈ A.keys
    · rw [if_pos h1, if_pos ⟨h1.1, List.mem_cons_of_mem _ h1.2.1, h1.2.2⟩]
    · rw [if_neg h1]
      by_cases h2 : marks m bR k ∧ (k.2.1, k.2.2.1, k.2.2.2) = c ∧ k ∈ A.keys
      · rw [if_pos h2, if_pos ⟨h2.1, h2.2.1 ▸ List.mem_cons_self _ _, h2.2.2⟩]
      · rw [if_neg h2]
        have h3 : ¬ (marks m bR k ∧ (k.2.1, k.2.2.1, k.2.2.2) ∈ c :: l ∧ k ∈ A.keys) := by
          rintro ⟨hm, hl, hk⟩
          rcases List.mem_cons.mp hl with e | m1
          · exact h2 ⟨hm, e, hk⟩
          · exact h1 ⟨hm, m1, hk⟩
        rw [if_neg h3]

theorem setFixedVariables_value (m : BVFMap) (bR : Nat → Nat → Nat)
    (k : Int × Int × Int × Int) :
    (setFixedVariables m bR).1.value k.1 k.2.1 k.2.2.1 k.2.2.2 =
      if marks m bR k ∧
          (k.2.1, k.2.2.1, k.2.2.2) ∈ scan3 (m.N1 + 1) (m.N2 + 1) (m.N3 + 1) then 1
      else 0 := by
  unfold setFixedVariables FBSparseArray4D.value
  simp only [List.foldl_cons, List.foldl_nil]
  rw [setFixedVariables_fold_one]
  obtain ⟨k3, d3⟩ := setFixedVariables_fold_three m bR
    (scan3 (m.N1 + 1) (m.N2 + 1) (m.N3 + 1))
    ((scan3 (m.N1 + 1) (m.N2 + 1) (m.N3 + 1)).foldl (setFixedVariables_node m bR 2)
      FBSparseArray4D.allocate)
  obtain ⟨d2, k2⟩ := setFixedVariables_fold_two m bR
    (scan3 (m.N1 + 1) (m.N2 + 1) (m.N3 + 1)) FBSparseArray4D.allocate
  have hk : (k.1, k.2.1, k.2.2.1, k.2.2.2) = k := rfl
  rw [hk, k3, d3 k, d2]
  have hmem := k2 k
  have hnil : k ∉ FBSparseArray4D.allocate.keys := List.not_mem_nil _
  by_cases hc : marks m bR k ∧
      (k.2.1, k.2.2.1, k.2.2.2) ∈ scan3 (m.N1 + 1) (m.N2 + 1) (m.N3 + 1)
  · have hin := hmem.mpr (Or.inr hc)
    rw [if_pos hin, if_pos ⟨hc.1, hc.2, hin⟩, if_pos hc]
  · have hin : k ∉ ((scan3 (m.N1 + 1) (m.N2 + 1) (m.N3 + 1)).foldl
        (setFixedVariables_node m bR 2) FBSparseArray4D.allocate).keys := by
      intro h
      rcases hmem.mp h with h1 | h1
      · exact hnil h1
      · exact hc h1
    rw [if_neg hin, if_neg hc]

theorem fixed_flags_iff (N1 N2 N3 : Int) (bR : Nat → Nat → Nat) (i1 i2 i3 : Int) :
    ((fixed_flags N1 N2 N3 bR i1 i2 i3).1 = true ↔
      ((i1 = 0 ∨ i1 = N1) ∧ bR 0 0 ≠ 0) ∨ ((i2 = 0 ∨ i2 = N2) ∧ bR 1 0 ≠ 0) ∨
        ((i3 = 0 ∨ i3 = N3) ∧ bR 2 0 ≠ 0)) ∧
    ((fixed_flags N1 N2 N3 bR i1 i2 i3).2.1 = true ↔
      ((i1 = 0 ∨ i1 = N1) ∧ bR 0 1 ≠ 0) ∨ ((i2 = 0 ∨ i2 = N2) ∧ bR 1 1 ≠ 0) ∨
        ((i3 = 0 ∨ i3 = N3) ∧ bR 2 1 ≠ 0)) ∧
    ((fixed_flags N1 N2 N3 bR i1 i2 i3).2.2 = true ↔
      ((i1 = 0 ∨ i1 = N1) ∧ bR 0 2 ≠ 0) ∨ ((i2 = 0 ∨ i2 = N2) ∧ bR 1 2 ≠ 0) ∨
        ((i3 = 0 ∨ i3 = N3) ∧ bR 2 2 ≠ 0)) := by
  unfold fixed_flags
  by_cases h1 : i1 = 0 ∨ i1 = N1 <;> by_cases h2 : i2 = 0 ∨ i2 = N2 <;>
    by_cases h3 : i3 = 0 ∨ i3 = N3 <;>
    simp only [h1, h2, h3, if_true, if_false, Bool.false_or, Bool.or_eq_true,
      decide_eq_true_eq, true_and, false_and, or_false, false_or, Bool.false_eq_true,
      and_self] <;>
    tauto

/-- C22. Boundary mask: after `setFixedVariables(macroscopic_strain)`, for every node
`(i1, i2, i3)` of the `(N1+1) x (N2+1) x (N3+1)` grid and every direction `d < 3`, the
entry `(d, i1, i2, i3)` of the fixed mask reads `1` if and only if the node is an active
vertex and for some face axis `f` the node's `f`-th coordinate is `0` or `N_f` and
`boundaryRestrictions[f][d]` is nonzero; otherwise it reads `0`. -/
theorem setFixedVariables_mask (m : BVFMap) (bR : Nat → Nat → Nat) (i1 i2 i3 : Int) (d : Nat)
    (hg : (0 ≤ i1 ∧ i1 ≤ m.N1) ∧ (0 ≤ i2 ∧ i2 ≤ m.N2) ∧ (0 ≤ i3 ∧ i3 ≤ m.N3)) (hd : d < 3) :
    ((setFixedVariables m bR).1.value (d : Int) i1 i2 i3 = 1 ↔
      is_vertex m i1 i2 i3 = true ∧
        (((i1 = 0 ∨ i1 = m.N1) ∧ bR 0 d ≠ 0) ∨ ((i2 = 0 ∨ i2 = m.N2) ∧ bR 1 d ≠ 0) ∨
          ((i3 = 0 ∨ i3 = m.N3) ∧ bR 2 d ≠ 0))) ∧
    ((setFixedVariables m bR).1.value (d : Int) i1 i2 i3 = 1 ∨
      (setFixedVariables m bR).1.value (d : Int) i1 i2 i3 = 0) := by
  have hval := setFixedVariables_value m bR ((d : Int), i1, i2, i3)
  simp only at hval
  have hscan : (i1, i2, i3) ∈ scan3 (m.N1 + 1) (m.N2 + 1) (m.N3 + 1) := by
    rw [mem_scan3]; simp only; omega
  obtain ⟨f0, f1, f2⟩ := fixed_flags_iff m.N1 m.N2 m.N3 bR i1 i2 i3
  have hmarks : marks m bR ((d : Int), i1, i2, i3) ↔
      is_vertex m i1 i2 i3 = true ∧
        (((i1 = 0 ∨ i1 = m.N1) ∧ bR 0 d ≠ 0) ∨ ((i2 = 0 ∨ i2 = m.N2) ∧ bR 1 d ≠ 0) ∨
          ((i3 = 0 ∨ i3 = m.N3) ∧ bR 2 d ≠ 0)) := by
    unfold marks
    simp only
    rw [f0, f1, f2]
    have hd3 : d = 0 ∨ d = 1 ∨ d = 2 := by omega
    rcases hd3 with rfl | rfl | rfl <;> simp
  rw [hval]
  constructor
  · rw [← hmarks]
    by_cases hm : marks m bR ((d : Int), i1, i2, i3)
    · simp [hm, hscan]
    · simp [hm]
  · by_cases hm : marks m bR ((d : Int), i1, i2, i3)
    · left; simp [hm, hscan]
    · right; simp [hm]

theorem setFixedVariables_mask_witness :
    (setFixedVariables (one_voxel_solver 1).bvf_map example_restrictions).1.value
        ((2 : Nat) : Int) 0 0 0 = 1 ↔
      is_vertex (one_voxel_solver 1).bvf_map 0 0 0 = true ∧
        ((((0 : Int) = 0 ∨ (0 : Int) = (one_voxel_solver 1).bvf_map.N1) ∧
            example_restrictions 0 2 ≠ 0) ∨
          (((0 : Int) = 0 ∨ (0 : Int) = (one_voxel_solver 1).bvf_map.N2) ∧
            example_restrictions 1 2 ≠ 0) ∨
          (((0 : Int) = 0 ∨ (0 : Int) = (one_voxel_solver 1).bvf_map.N3) ∧
            example_restrictions 2 2 ≠ 0)) :=
  (setFixedVariables_mask (one_voxel_solver 1).bvf_map example_restrictions 0 0 0 2
    (by decide) (by decide)).1

end FBBlockSolver

end FB

namespace FB

theorem slab_count_self (svc : List Int) (zmin : Int) :
    slab_count svc zmin zmin = svc.getD zmin.toNat 0 := by
  unfold slab_count
  have h1 : zmin - zmin + 1 = 0 + 1 := by ring
  rw [h1, idxRange_succ (le_refl 0), idxRange_of_nonpos (le_refl 0)]
  simp

theorem slab_count_succ (svc : List Int) (zmin z : Int) (h : zmin ≤ z + 1) :
    slab_count svc zmin (z + 1) = slab_count svc zmin z + svc.getD (z + 1).toNat 0 := by
  unfold slab_count
  have h1 : z + 1 - zmin + 1 = (z - zmin + 1) + 1 := by ring
  rw [h1, idxRange_succ (by omega), List.map_append, List.sum_append]
  have h2 : zmin + (z - zmin + 1) = z + 1 := by ring
  simp [h2]

theorem extend_zmax_greedy (svc : List Int) (N3 : Int) (target : ℚ) (zmin : Int) :
    ∀ (fuel : Nat) (zmax : Int), zmin ≤ zmax → zmax ≤ N3 → (N3 - zmax).toNat ≤ fuel →
      (∀ z : Int, zmax ≤ z →
        z < extend_zmax svc N3 target fuel zmax (slab_count svc zmin zmax) →
        slab_distance svc target zmin (z + 1) < slab_distance svc target zmin z) ∧
      (extend_zmax svc N3 target fuel zmax (slab_count svc zmin zmax) = N3 ∨
        slab_distance svc target zmin
            (extend_zmax svc N3 target fuel zmax (slab_count svc zmin zmax)) ≤
          slab_distance svc target zmin
            (extend_zmax svc N3 target fuel zmax (slab_count svc zmin zmax) + 1)) := by
  intro fuel
  induction fuel with
  | zero =>
    intro zmax _ h2 h3
    have hz : zmax = N3 := by omega
    simp only [extend_zmax]
    exact ⟨fun z h4 h5 => by omega, Or.inl hz⟩
  | succ fuel ih =>
    intro zmax h1 h2 h3
    simp only [extend_zmax]
    by_cases hge : zmax ≥ N3
    · rw [if_pos hge]
      exact ⟨fun z h4 h5 => by omega, Or.inl (by omega)⟩
    · rw [if_neg hge]
      have hle : zmax + 1 ≤ N3 := by omega
      rw [if_pos hle, ← slab_count_succ svc zmin zmax (by omega)]
      by_cases hd : abs ((slab_count svc zmin (zmax + 1) : ℚ) - target) ≥
          abs ((slab_count svc zmin zmax : ℚ) - target)
      · rw [if_pos hd]
        exact ⟨fun z h4 h5 => by omega, Or.inr hd⟩
      · rw [if_neg hd]
        obtain ⟨ih1, ih2⟩ := ih (zmax + 1) (by omega) hle (by omega)
        refine ⟨?_, ih2⟩
        intro z h4 h5
        rcases eq_or_lt_of_le h4 with e | l
        · subst e
          exact not_le.mp hd
        · exact ih1 z (by omega) h5

theorem block_info_step_greedy (N1 N2 N3 : Int) (svc : List Int) (T : Int) (target : ℚ)
    (st : Int × List BlockInfo) (k : Int) (hk : k ≠ T - 1)
    (h : -1 ≤ st.1 ∧ ∀ b ∈ st.2, Greedy svc N3 target b) :
    -1 ≤ (block_info_step N1 N2 N3 svc T target st k).1 ∧
      ∀ b ∈ (block_info_step N1 N2 N3 svc T target st k).2, Greedy svc N3 target b := by
  obtain ⟨z0, L⟩ := st
  obtain ⟨hz, hL⟩ := h
  simp only at hz hL
  unfold block_info_step
  simp only [hk, if_false]
  by_cases hlt : z0 + 1 < N3 + 1
  · have hle : z0 + 1 ≤ N3 := by omega
    have hb := extend_zmax_bounds svc N3 target (N3 - (z0 + 1)).toNat (z0 + 1)
      (svc.getD (z0 + 1).toNat 0) hle
    have hg := extend_zmax_greedy svc N3 target (z0 + 1) (N3 - (z0 + 1)).toNat (z0 + 1)
      (le_refl _) hle (le_refl _)
    rw [slab_count_self svc (z0 + 1)] at hg
    simp only [hlt, hle, if_true]
    refine ⟨by omega, ?_⟩
    intro b hbm
    rcases List.mem_append.mp hbm with hbm | hbm
    · exact hL b hbm
    · rw [List.mem_singleton] at hbm
      subst hbm
      exact ⟨⟨by simp only; omega, hb.1, hb.2⟩, hg.1, hg.2⟩
  · have hle : ¬ (z0 + 1 ≤ N3) := by omega
    simp only [hlt, hle, if_false]
    exact ⟨by omega, hL⟩

theorem foldl_block_info_step_greedy (N1 N2 N3 : Int) (svc : List Int) (T : Int)
    (target : ℚ) :
    ∀ (l : List Int) (st : Int × List BlockInfo), (∀ k ∈ l, k ≠ T - 1) →
      (-1 ≤ st.1 ∧ ∀ b ∈ st.2, Greedy svc N3 target b) →
      -1 ≤ (l.foldl (block_info_step N1 N2 N3 svc T target) st).1 ∧
        ∀ b ∈ (l.foldl (block_info_step N1 N2 N3 svc T target) st).2,
          Greedy svc N3 target b := by
  intro l
  induction l with
  | nil => intro st _ h; exact h
  | cons a l ih =>
    intro st hl h
    rw [List.foldl_cons]
    exact ih _ (fun k hk => hl k (List.mem_cons_of_mem _ hk))
      (block_info_step_greedy N1 N2 N3 svc T target st a (hl a (List.mem_cons_self _ _)) h)

/-- C24, amended. Greedy slab extension: with `target = total_vertex_count / num_threads`,
the list of slabs is a contiguous chain from slice 0, and every slab other than the one
built for the last thread starts with one slice and is extended one slice at a time, each
added slice bringing the vertex count strictly closer to the target, the extension
stopping exactly when slice `N3` has been reached or when one more slice would not bring
the count strictly closer to the target. -/
theorem greedy_slab_extension (N1 N2 N3 : Int) (svc : List Int) (T : Int) (hT : 1 ≤ T)
    (hN : 0 ≤ N3) :
    ∃ (L rest : List BlockInfo),
      solve_block_infos N1 N2 N3 svc T = L ++ rest ∧
      (L.length : Int) ≤ T - 1 ∧
      (∀ b ∈ L, Greedy svc N3 ((svc.sum : ℚ) * 1 / (T : ℚ)) b) ∧
      (rest = [] ∨ ∃ b : BlockInfo, rest = [b] ∧ b.zmax = N3) ∧
      SlabChain N3 0 (solve_block_infos N1 N2 N3 svc T) := by
  obtain ⟨k, hk⟩ : ∃ k : Nat, (k : Int) = T - 1 := ⟨(T - 1).toNat, by omega⟩
  have hT1 : T = (k : Int) + 1 := by omega
  have hchain := (solve_block_infos_chain N1 N2 N3 svc T hT hN).1
  have hinv := decompInv_initial N1 N2 N3 svc T ((svc.sum : ℚ) * 1 / (T : ℚ)) hN k (by omega)
  have hgr := foldl_block_info_step_greedy N1 N2 N3 svc T ((svc.sum : ℚ) * 1 / (T : ℚ))
    (idxRange k) (-1, [])
    (fun j hj => by have := mem_idxRange.mp hj; omega)
    ⟨le_refl _, fun b hb => absurd hb (List.not_mem_nil b)⟩
  have hunfold : solve_block_infos N1 N2 N3 svc T =
      (block_info_step N1 N2 N3 svc T ((svc.sum : ℚ) * 1 / (T : ℚ))
        ((idxRange k).foldl (block_info_step N1 N2 N3 svc T ((svc.sum : ℚ) * 1 / (T : ℚ)))
          (-1, [])) k).2 := by
    unfold solve_block_infos
    simp only
    rw [show idxRange T = idxRange ((k : Int) + 1) from by rw [hT1],
      idxRange_succ (Int.ofNat_nonneg k), List.foldl_append]
    rfl
  generalize (idxRange k).foldl
    (block_info_step N1 N2 N3 svc T ((svc.sum : ℚ) * 1 / (T : ℚ))) (-1, []) = st
    at hinv hgr hunfold
  obtain ⟨z0, L⟩ := st
  have hlen : (L.length : Int) ≤ T - 1 := by
    have := hinv.2.1
    simp only at this
    omega
  refine ⟨L, ?_⟩
  by_cases hle : z0 + 1 ≤ N3
  · let b0 : BlockInfo :=
      { xmin := -1, xmax := N1 + 1, ymin := -1, ymax := N2 + 1, zmin := z0 + 1, zmax := N3 }
    refine ⟨[b0], ?_, hlen, hgr.2, Or.inr ⟨b0, rfl, rfl⟩, hchain⟩
    rw [hunfold]
    unfold block_info_step
    simp only [hk, if_true, hle]
  · refine ⟨[], ?_, hlen, hgr.2, Or.inl rfl, hchain⟩
    rw [hunfold]
    unfold block_info_step
    simp only [hk, if_true, hle, if_false, List.append_nil]

theorem greedy_slab_extension_witness :
    ∃ (L rest : List BlockInfo),
      solve_block_infos 3 1 2 (FBBlockSolver.slice_vertex_count stepped_map) 2 = L ++ rest ∧
      (L.length : Int) ≤ 2 - 1 ∧
      (∀ b ∈ L, Greedy (FBBlockSolver.slice_vertex_count stepped_map) 2
        (((FBBlockSolver.slice_vertex_count stepped_map).sum : ℚ) * 1 / ((2 : Int) : ℚ)) b) ∧
      (rest = [] ∨ ∃ b : BlockInfo, rest = [b] ∧ b.zmax = 2) ∧
      SlabChain 2 0
        (solve_block_infos 3 1 2 (FBBlockSolver.slice_vertex_count stepped_map) 2) :=
  greedy_slab_extension 3 1 2 (FBBlockSolver.slice_vertex_count stepped_map) 2
    (by decide) (by decide)

/-- C24, refuted as stated: on the `3 x 1 x 2` map whose slices have 4, 8 and 8 vertices,
with two threads the target is `20 / 2 = 10`; the block of thread 0 (not the last
thread) is extended from slice 0 to slice 1 although that overshoots the target, so it
contains two slices and has `12 > 10` vertices. -/
theorem greedy_extension_overshoots :
    FBBlockSolver.slice_vertex_count stepped_map = [4, 8, 8] ∧
    ((FBBlockSolver.slice_vertex_count stepped_map).sum : ℚ) * 1 / ((2 : Int) : ℚ) = 10 ∧
    (solve_block_infos 3 1 2 (FBBlockSolver.slice_vertex_count stepped_map) 2).map
      (fun b => (b.zmin, b.zmax)) = [(0, 1), (2, 2)] ∧
    slab_count (FBBlockSolver.slice_vertex_count stepped_map) 0 1 = 12 := by
  refine ⟨?_, ?_, ?_, ?_⟩ <;> decide!

end FB

namespace FB

namespace FBBlock

theorem num_variables_nonneg (P : FBBlockSetupParameters) : 0 ≤ (setup P).1.num_variables := by
  rw [(setup_geometry P).2.1]
  unfold assign_variable_indices
  exact (assign_fold (vertex_occupancy P) _ (0, fun _ _ _ => -1) (nodup_scan3 _ _ _)).1

theorem num_variables_eq_zero_iff (P : FBBlockSetupParameters) :
    (setup P).1.num_variables = 0 ↔
      ∀ v ∈ scan3 (P.Nx + 1) (P.Ny + 1) (P.Nz + 1), P.BVF v.1 v.2.1 v.2.2 = 0 := by
  rw [(setup_geometry P).2.1, (assign_variable_indices_spec P).2.2.2]
  constructor
  · intro h v hv
    by_contra hne
    have : vertex_occupancy P v.1 v.2.1 v.2.2 ≠ 0 :=
      (vertex_occupancy_ne_zero P v.1 v.2.1 v.2.2).mpr
        ⟨v, hv, hne, Or.inl rfl, Or.inl rfl, Or.inl rfl⟩
    exact this (h _ _ _)
  · intro h a b c
    by_contra hne
    obtain ⟨v, hv, hb, _⟩ := (vertex_occupancy_ne_zero P a b c).mp hne
    exact hb (h v hv)

end FBBlock

namespace FBBlockSolver

theorem setup_block_empty_iff (S : FBBlockSolver) (b : BlockInfo)
    (hx : b.xmin = -1 ∧ b.xmax = S.bvf_map.N1 + 1 ∧ b.ymin = -1 ∧ b.ymax = S.bvf_map.N2 + 1) :
    (FBBlock.setup (setup_parameters S b)).1.num_variables = 0 ↔
      ∀ x y z : Int, b.zmin - 1 ≤ z → z ≤ b.zmax → S.bvf_map.value x y z = 0 := by
  obtain ⟨e1, e2, e3, e4⟩ := hx
  rw [FBBlock.num_variables_eq_zero_iff]
  have hPx : (setup_parameters S b).Nx = b.xmax - b.xmin + 1 := rfl
  have hPy : (setup_parameters S b).Ny = b.ymax - b.ymin + 1 := rfl
  have hPz : (setup_parameters S b).Nz = b.zmax - b.zmin + 1 := rfl
  have hBVF : ∀ v : Int × Int × Int,
      v ∈ scan3 ((setup_parameters S b).Nx + 1) ((setup_parameters S b).Ny + 1)
        ((setup_parameters S b).Nz + 1) →
      (setup_parameters S b).BVF v.1 v.2.1 v.2.2 =
        S.bvf_map.value (v.1 + (b.xmin - 1)) (v.2.1 + (b.ymin - 1)) (v.2.2 + (b.zmin - 1)) := by
    intro v hv
    rw [mem_scan3] at hv
    show (if _ then _ else _) = _
    rw [if_pos]
    rw [hPx, hPy, hPz] at hv
    omega
  constructor
  · intro h x y z hz1 hz2
    by_contra hne
    have hpos : 0 < S.bvf_map.value x y z := Nat.pos_of_ne_zero hne
    obtain ⟨hxr, hyr, _⟩ := BVFMap.value_pos_range _ _ _ _ hpos
    have hmem : (x - (b.xmin - 1), y - (b.ymin - 1), z - (b.zmin - 1)) ∈
        scan3 ((setup_parameters S b).Nx + 1) ((setup_parameters S b).Ny + 1)
          ((setup_parameters S b).Nz + 1) := by
      rw [mem_scan3, hPx, hPy, hPz]
      simp only
      omega
    have := h _ hmem
    rw [hBVF _ hmem] at this
    simp only [sub_add_cancel] at this
    exact hne this
  · intro h v hv
    rw [hBVF v hv]
    have hv' := mem_scan3.mp hv
    rw [hPz] at hv'
    exact h _ _ _ (by omega) (by omega)

/-- C25, amended. Blocks are omitted only when their slab would start beyond slice `N3`:
for `num_threads >= 1`, `solve()` sets up one block for every slab of its decomposition,
every slab satisfies `0 <= zmin <= zmax <= N3`, and a block without active nodes is kept
in the list: its `variableCount()` is `0`, which is the case exactly when the map has no
element in the voxel layers `zmin - 1 .. zmax`, and is positive otherwise. -/
theorem blocks_per_slab (S : FBBlockSolver) (hT : 1 ≤ S.num_threads)
    (hN : 0 ≤ S.bvf_map.N3) :
    (solve_setup S).blocks =
      (solve_block_infos S.bvf_map.N1 S.bvf_map.N2 S.bvf_map.N3
        (slice_vertex_count S.bvf_map) S.num_threads).map
        (fun b => (FBBlock.setup (setup_parameters S b)).1) ∧
    ∀ b ∈ solve_block_infos S.bvf_map.N1 S.bvf_map.N2 S.bvf_map.N3
        (slice_vertex_count S.bvf_map) S.num_threads,
      (0 ≤ b.zmin ∧ b.zmin ≤ b.zmax ∧ b.zmax ≤ S.bvf_map.N3) ∧
      0 ≤ (FBBlock.setup (setup_parameters S b)).1.num_variables ∧
      ((FBBlock.setup (setup_parameters S b)).1.num_variables = 0 ↔
        ∀ x y z : Int, b.zmin - 1 ≤ z → z ≤ b.zmax → S.bvf_map.value x y z = 0) := by
  obtain ⟨hchain, _, _⟩ := solve_block_infos_chain S.bvf_map.N1 S.bvf_map.N2
    S.bvf_map.N3 (slice_vertex_count S.bvf_map) S.num_threads hT hN
  refine ⟨solve_setup_blocks S, ?_⟩
  intro b hb
  obtain ⟨h1, h2, h3⟩ := slabChain_le _ _ _ hchain b hb
  exact ⟨⟨h2, h1, h3⟩, FBBlock.num_variables_nonneg _,
    setup_block_empty_iff S b (solve_block_infos_extent _ _ _ _ _ b hb)⟩

theorem blocks_per_slab_witness :
    (solve_setup column_solver).blocks =
      (solve_block_infos column_solver.bvf_map.N1 column_solver.bvf_map.N2
        column_solver.bvf_map.N3 (slice_vertex_count column_solver.bvf_map)
        column_solver.num_threads).map
        (fun b => (FBBlock.setup (setup_parameters column_solver b)).1) :=
  (blocks_per_slab column_solver (by decide) (by decide)).1

/-- C25, refuted as stated: on the `1 x 1 x 4` map whose only element is the voxel of
layer 0, with three threads, `solve()` puts three blocks in its list, for the slabs
`[0,0]`, `[1,1]` and `[2,4]`, and the third block has no active node:
`variableCount()` is `0`. -/
theorem empty_block_is_kept :
    (1 : Int) ≤ column_solver.num_threads ∧
    (solve_block_infos column_solver.bvf_map.N1 column_solver.bvf_map.N2
      column_solver.bvf_map.N3 (slice_vertex_count column_solver.bvf_map)
      column_solver.num_threads).map (fun b => (b.zmin, b.zmax)) = [(0, 0), (1, 1), (2, 4)] ∧
    (solve_setup column_solver).blocks.map (fun B => B.num_variables) = [24, 24, 0] := by
  refine ⟨by decide, ?_, ?_⟩ <;> decide!

end FBBlockSolver

end FB

namespace FB

namespace FBBlock

theorem element_energy_eq (B : FBBlock) (xx yy zz : Int) :
    element_energy B xx yy zz = energy_spec B xx yy zz := by
  unfold element_energy energy_spec
  dsimp only
  have inner : ∀ (rr : Nat) (e : ℚ) (X0 : Nat → ℚ),
      (List.range 24).foldl (fun e cc => e + B.stiffness_matrix rr cc * X0 cc * X0 rr) e =
        e + ((List.range 24).map fun cc => B.stiffness_matrix rr cc * X0 cc * X0 rr).sum :=
    fun rr e X0 => foldl_add_eq_sum _ _ e
  simp only [inner]
  rw [foldl_add_eq_sum]
  simp only [varinds, zero_add]
  have hsum : ((List.range 24).map fun rr => ((List.range 24).map fun cc =>
      B.stiffness_matrix rr cc *
        B.x (element_refs B.variable_indices xx yy zz (cc / 6) + ((cc % 6 : Nat) : Int)) *
        B.x (element_refs B.variable_indices xx yy zz (rr / 6) + ((rr % 6 : Nat) : Int))).sum).sum =
      ((List.range 24).map fun r => ((List.range 24).map fun c =>
        B.stiffness_matrix r c *
          B.x (element_refs B.variable_indices xx yy zz (r / 6) + ((r % 6 : Nat) : Int)) *
          B.x (element_refs B.variable_indices xx yy zz (c / 6) + ((c % 6 : Nat) : Int))).sum).sum := by
    congr 1
    apply List.map_congr_left
    intro r _
    congr 1
    apply List.map_congr_left
    intro c _
    ring
  rw [hsum]
  ring

theorem energy_setup_fold_one (bvf : Int → Int → Int → Nat) :
    ∀ (l : List (Int × Int × Int)) (E : FBSparseArray4D),
      l.foldl (fun E c =>
        if is_element bvf c.1 c.2.1 c.2.2 = true then E.setupIndex 1 0 c.1 c.2.1 c.2.2
        else E) E = E := by
  intro l
  induction l with
  | nil => intro E; rfl
  | cons c l ih =>
    intro E
    rw [List.foldl_cons]
    have : (if is_element bvf c.1 c.2.1 c.2.2 = true then E.setupIndex 1 0 c.1 c.2.1 c.2.2
        else E) = E := by
      split
      · simp [FBSparseArray4D.setupIndex]
      · rfl
    rw [this, ih]

theorem energy_setup_fold_two (bvf : Int → Int → Int → Nat) :
    ∀ (l : List (Int × Int × Int)) (E : FBSparseArray4D),
      (l.foldl (fun E c =>
        if is_element bvf c.1 c.2.1 c.2.2 = true then E.setupIndex 2 0 c.1 c.2.1 c.2.2
        else E) E).data = E.data ∧
      ∀ k : Int × Int × Int × Int,
        k ∈ (l.foldl (fun E c =>
          if is_element bvf c.1 c.2.1 c.2.2 = true then E.setupIndex 2 0 c.1 c.2.1 c.2.2
          else E) E).keys ↔
          k ∈ E.keys ∨ (k.1 = 0 ∧ (k.2.1, k.2.2.1, k.2.2.2) ∈ l ∧
            is_element bvf k.2.1 k.2.2.1 k.2.2.2 = true) := by
  intro l
  induction l with
  | nil => intro E; exact ⟨rfl, fun k => by simp⟩
  | cons c l ih =>
    intro E
    rw [List.foldl_cons]
    obtain ⟨ihd, ihk⟩ := ih
      (if is_element bvf c.1 c.2.1 c.2.2 = true then E.setupIndex 2 0 c.1 c.2.1 c.2.2 else E)
    refine ⟨ihd.trans (FBSparseArray4D.cond_setupIndex_data E _ 2 0 c.1 c.2.1 c.2.2), ?_⟩
    intro k
    rw [ihk, FBSparseArray4D.cond_setupIndex_mem, List.mem_cons]
    obtain ⟨k1, k2, k3, k4⟩ := k
    obtain ⟨c1, c2, c3⟩ := c
    simp only [Prod.mk.injEq]
    constructor
    · rintro ((h | ⟨hb, rfl, rfl, rfl, rfl⟩) | ⟨h0, hl, he⟩)
      · exact Or.inl h
      · exact Or.inr ⟨rfl, Or.inl ⟨rfl, rfl, rfl⟩, hb⟩
      · exact Or.inr ⟨h0, Or.inr hl, he⟩
    · rintro (h | ⟨h0, ⟨rfl, rfl, rfl⟩ | hl, he⟩)
      · exact Or.inl (Or.inl h)
      · exact Or.inl (Or.inr ⟨he, h0, rfl, rfl, rfl⟩)
      · exact Or.inr ⟨h0, hl, he⟩

theorem energy_value_fold (bvf : Int → Int → Int → Nat) (en : Int → Int → Int → ℚ) :
    ∀ (l : List (Int × Int × Int)) (E : FBSparseArray4D),
      (l.foldl (fun E c =>
        if is_element bvf c.1 c.2.1 c.2.2 = true then
          E.setValue (en c.1 c.2.1 c.2.2) 0 c.1 c.2.1 c.2.2
        else E) E).keys = E.keys ∧
      ∀ k : Int × Int × Int × Int,
        (l.foldl (fun E c =>
          if is_element bvf c.1 c.2.1 c.2.2 = true then
            E.setValue (en c.1 c.2.1 c.2.2) 0 c.1 c.2.1 c.2.2
          else E) E).data k.1 k.2.1 k.2.2.1 k.2.2.2 =
          if (k.1 = 0 ∧ (k.2.1, k.2.2.1, k.2.2.2) ∈ l ∧
              is_element bvf k.2.1 k.2.2.1 k.2.2.2 = true) ∧ k ∈ E.keys then
            en k.2.1 k.2.2.1 k.2.2.2
          else E.data k.1 k.2.1 k.2.2.1 k.2.2.2 := by
  intro l
  induction l with
  | nil => intro E; exact ⟨rfl, fun k => by simp⟩
  | cons c l ih =>
    intro E
    rw [List.foldl_cons]
    obtain ⟨ihk, ihd⟩ := ih
      (if is_element bvf c.1 c.2.1 c.2.2 = true then
        E.setValue (en c.1 c.2.1 c.2.2) 0 c.1 c.2.1 c.2.2 else E)
    have hkeys := FBSparseArray4D.cond_setValue_keys E (is_element bvf c.1 c.2.1 c.2.2)
      (en c.1 c.2.1 c.2.2) 0 c.1 c.2.1 c.2.2
    refine ⟨ihk.trans hkeys, ?_⟩
    intro k
    rw [ihd, hkeys, FBSparseArray4D.cond_setValue_data]
    obtain ⟨k1, k2, k3, k4⟩ := k
    obtain ⟨c1, c2, c3⟩ := c
    simp only [Prod.mk.injEq, List.mem_cons]
    by_cases h1 : (k1 = 0 ∧ (k2, k3, k4) ∈ l ∧ is_element bvf k2 k3 k4 = true) ∧
        (k1, k2, k3, k4) ∈ E.keys
    · rw [if_pos h1, if_pos ⟨⟨h1.1.1, Or.inr h1.1.2.1, h1.1.2.2⟩, h1.2⟩]
    · rw [if_neg h1]
      by_cases h2 : is_element bvf c1 c2 c3 = true ∧
          (k1 = 0 ∧ k2 = c1 ∧ k3 = c2 ∧ k4 = c3) ∧ (k1, k2, k3, k4) ∈ E.keys
      · obtain ⟨he, ⟨rfl, rfl, rfl, rfl⟩, hin⟩ := h2
        rw [if_pos ⟨he, ⟨rfl, rfl, rfl, rfl⟩, hin⟩,
          if_pos ⟨⟨rfl, Or.inl ⟨rfl, rfl, rfl⟩, he⟩, hin⟩]
      · rw [if_neg h2]
        have h3 : ¬ ((k1 = 0 ∧ ((k2 = c1 ∧ k3 = c2 ∧ k4 = c3) ∨ (k2, k3, k4) ∈ l) ∧
            is_element bvf k2 k3 k4 = true) ∧ (k1, k2, k3, k4) ∈ E.keys) := by
          rintro ⟨⟨h0, hc | hl, he⟩, hin⟩
          · obtain ⟨rfl, rfl, rfl⟩ := hc
            exact h2 ⟨he, ⟨h0, rfl, rfl, rfl⟩, hin⟩
          · exact h1 ⟨⟨h0, hl, he⟩, hin⟩
        rw [if_neg h3]

theorem computeEnergyMap_apply (B : FBBlock) (xx yy zz : Int) :
    computeEnergyMap B xx yy zz =
      if (xx, yy, zz) ∈ scan3 (B.Nx + 1) (B.Ny + 1) (B.Nz + 1) ∧
          is_element B.bvf_map xx yy zz = true then element_energy B xx yy zz
      else 0 := by
  unfold computeEnergyMap
  have key : ∀ (l : List (Int × Int × Int)) (E : Int → Int → Int → ℚ),
      l.foldl (fun E c =>
        if is_element B.bvf_map c.1 c.2.1 c.2.2 = true then
          set3 E c.1 c.2.1 c.2.2 (element_energy B c.1 c.2.1 c.2.2)
        else E) E xx yy zz =
        if (xx, yy, zz) ∈ l ∧ is_element B.bvf_map xx yy zz = true then
          element_energy B xx yy zz
        else E xx yy zz := by
    intro l
    induction l with
    | nil => intro E; simp
    | cons c l ih =>
      intro E
      rw [List.foldl_cons, ih]
      obtain ⟨c1, c2, c3⟩ := c
      simp only [List.mem_cons, Prod.mk.injEq]
      by_cases h1 : (xx, yy, zz) ∈ l ∧ is_element B.bvf_map xx yy zz = true
      · rw [if_pos h1, if_pos ⟨Or.inr h1.1, h1.2⟩]
      · rw [if_neg h1]
        by_cases hc : xx = c1 ∧ yy = c2 ∧ zz = c3
        · obtain ⟨rfl, rfl, rfl⟩ := hc
          by_cases he : is_element B.bvf_map xx yy zz = true
          · simp [he, set3]
          · simp [he]
        · have h3 : ¬ (((xx = c1 ∧ yy = c2 ∧ zz = c3) ∨ (xx, yy, zz) ∈ l) ∧
              is_element B.bvf_map xx yy zz = true) := by
            rintro ⟨h | h, he⟩
            · exact hc h
            · exact h1 ⟨h, he⟩
          rw [if_neg h3]
          split
          · simp only [set3]
            rw [if_neg hc]
          · rfl
  exact key _ _

end FBBlock

end FB

namespace FB

namespace FBBlock

theorem computeEnergyMap_sparse_spec (B : FBBlock) :
    (∀ k : Int × Int × Int × Int,
      k ∈ (computeEnergyMap_sparse B).keys ↔
        k.1 = 0 ∧ (k.2.1, k.2.2.1, k.2.2.2) ∈ scan3 (B.Nx + 1) (B.Ny + 1) (B.Nz + 1) ∧
          is_element B.bvf_map k.2.1 k.2.2.1 k.2.2.2 = true) ∧
    ∀ k : Int × Int × Int × Int, k ∈ (computeEnergyMap_sparse B).keys →
      (computeEnergyMap_sparse B).data k.1 k.2.1 k.2.2.1 k.2.2.2 =
        element_energy B k.2.1 k.2.2.1 k.2.2.2 := by
  unfold computeEnergyMap_sparse
  simp only [List.foldl_cons, List.foldl_nil]
  rw [energy_setup_fold_one]
  obtain ⟨_, k2⟩ := energy_setup_fold_two B.bvf_map
    (scan3 (B.Nx + 1) (B.Ny + 1) (B.Nz + 1)) FBSparseArray4D.allocate
  obtain ⟨k3, d3⟩ := energy_value_fold B.bvf_map (element_energy B)
    (scan3 (B.Nx + 1) (B.Ny + 1) (B.Nz + 1))
    ((scan3 (B.Nx + 1) (B.Ny + 1) (B.Nz + 1)).foldl
      (fun E c =>
        if is_element B.bvf_map c.1 c.2.1 c.2.2 = true then E.setupIndex 2 0 c.1 c.2.1 c.2.2
        else E) FBSparseArray4D.allocate)
  have hnil : ∀ k : Int × Int × Int × Int, k ∉ FBSparseArray4D.allocate.keys :=
    fun k => List.not_mem_nil _
  have hkeys : ∀ k : Int × Int × Int × Int,
      k ∈ ((scan3 (B.Nx + 1) (B.Ny + 1) (B.Nz + 1)).foldl
        (fun E c =>
          if is_element B.bvf_map c.1 c.2.1 c.2.2 = true then
            E.setupIndex 2 0 c.1 c.2.1 c.2.2
          else E) FBSparseArray4D.allocate).keys ↔
        k.1 = 0 ∧ (k.2.1, k.2.2.1, k.2.2.2) ∈ scan3 (B.Nx + 1) (B.Ny + 1) (B.Nz + 1) ∧
          is_element B.bvf_map k.2.1 k.2.2.1 k.2.2.2 = true := by
    intro k
    rw [k2 k]
    constructor
    · rintro (h | h)
      · exact absurd h (hnil k)
      · exact h
    · exact Or.inr
  constructor
  · intro k
    rw [k3]
    exact hkeys k
  · intro k hk
    rw [k3] at hk
    rw [d3 k, if_pos ⟨(hkeys k).mp hk, hk⟩]

/-- C29. Energy map: `computeEnergyMap` produces a sparse map whose entries are exactly
the keys `(0, xx, yy, zz)` of the voxels of the block (`0 <= xx <= Nx`, `0 <= yy <= Ny`,
`0 <= zz <= Nz`) with BVF `> 0`, and the entry of such a voxel equals
`-0.5 * (bvf/100) * sum over r, c < 24 of K[r][c] * X[r] * X[c]`, where
`X[6k+j] = x[ref_k + j]` is gathered from the current displacement through the four
`ref_indices` of the voxel, as in the matvec; every other read of the map gives `0`. -/
theorem energy_map_spec (B : FBBlock) (xx yy zz : Int) :
    ((0, xx, yy, zz) ∈ (computeEnergyMap_sparse B).keys ↔
      ((0 ≤ xx ∧ xx ≤ B.Nx) ∧ (0 ≤ yy ∧ yy ≤ B.Ny) ∧ (0 ≤ zz ∧ zz ≤ B.Nz)) ∧
        0 < B.bvf_map xx yy zz) ∧
    (∀ k ∈ (computeEnergyMap_sparse B).keys, k.1 = 0) ∧
    ((0, xx, yy, zz) ∈ (computeEnergyMap_sparse B).keys →
      (computeEnergyMap_sparse B).value 0 xx yy zz = energy_spec B xx yy zz) ∧
    ((0, xx, yy, zz) ∉ (computeEnergyMap_sparse B).keys →
      (computeEnergyMap_sparse B).value 0 xx yy zz = 0) ∧
    computeEnergyMap B xx yy zz = (computeEnergyMap_sparse B).value 0 xx yy zz := by
  obtain ⟨hk, hd⟩ := computeEnergyMap_sparse_spec B
  have hiff : (0, xx, yy, zz) ∈ (computeEnergyMap_sparse B).keys ↔
      ((0 ≤ xx ∧ xx ≤ B.Nx) ∧ (0 ≤ yy ∧ yy ≤ B.Ny) ∧ (0 ≤ zz ∧ zz ≤ B.Nz)) ∧
        0 < B.bvf_map xx yy zz := by
    rw [hk, mem_scan3]
    simp only [is_element, decide_eq_true_eq, true_and]
    constructor
    · rintro ⟨h1, h2⟩
      exact ⟨by omega, h2⟩
    · rintro ⟨h1, h2⟩
      exact ⟨by omega, h2⟩
  refine ⟨hiff, fun k hkm => ((hk k).mp hkm).1, ?_, ?_, ?_⟩
  · intro hin
    unfold FBSparseArray4D.value
    rw [if_pos hin]
    have := hd _ hin
    simp only at this
    rw [this, element_energy_eq]
  · intro hin
    unfold FBSparseArray4D.value
    rw [if_neg hin]
  · rw [computeEnergyMap_apply]
    unfold FBSparseArray4D.value
    by_cases hin : (0, xx, yy, zz) ∈ (computeEnergyMap_sparse B).keys
    · have h := (hk _).mp hin
      simp only at h
      rw [if_pos hin, if_pos ⟨h.2.1, h.2.2⟩]
      have := hd _ hin
      simp only at this
      rw [this]
    · rw [if_neg hin, if_neg]
      intro h
      exact hin ((hk _).mpr ⟨rfl, h.1, h.2⟩)

end FBBlock

end FB

namespace FB

theorem idxRange_adjacent :
    ∀ (n : Nat) (x : Int), 0 ≤ x → x + 1 < (n : Int) →
      ∃ pre post : List Int, idxRange (n : Int) = pre ++ x :: (x + 1) :: post := by
  intro n
  induction n with
  | zero => intro x h0 h1; simp only [Nat.cast_zero] at h1; omega
  | succ m ih =>
    intro x h0 h1
    have hm : ((m + 1 : Nat) : Int) = (m : Int) + 1 := by push_cast; rfl
    rw [hm, idxRange_succ (Int.ofNat_nonneg m)]
    by_cases hlt : x + 1 < (m : Int)
    · obtain ⟨pre, post, h⟩ := ih x h0 hlt
      exact ⟨pre, post ++ [(m : Int)], by rw [h]; simp⟩
    · have hx : (m : Int) = x + 1 := by rw [hm] at h1; omega
      have hx0 : idxRange (x + 1) = idxRange x ++ [x] := idxRange_succ h0
      rw [hx, hx0]
      exact ⟨idxRange x, [], by simp⟩

theorem scan3_adjacent (A B C x y z : Int) (hx : 0 ≤ x ∧ x + 1 < A) (hy : 0 ≤ y ∧ y < B)
    (hz : 0 ≤ z ∧ z < C) :
    ∃ pre post : List (Int × Int × Int),
      scan3 A B C = pre ++ (x, y, z) :: (x + 1, y, z) :: post := by
  obtain ⟨n, hn⟩ : ∃ n : Nat, (n : Int) = A := ⟨A.toNat, by omega⟩
  obtain ⟨p1, q1, h1⟩ := idxRange_adjacent n x hx.1 (by omega)
  rw [hn] at h1
  obtain ⟨p2, q2, h2⟩ := List.append_of_mem (mem_idxRange.mpr hy)
  obtain ⟨p3, q3, h3⟩ := List.append_of_mem (mem_idxRange.mpr hz)
  unfold scan3
  rw [h3, List.flatMap_append, List.flatMap_cons, h2, List.flatMap_append, List.flatMap_cons,
    h1, List.map_append, List.map_cons, List.map_cons]
  refine ⟨p3.flatMap (fun zz => (p2 ++ y :: q2).flatMap fun yy =>
      (p1 ++ x :: (x + 1) :: q1).map fun xx => (xx, yy, zz)) ++
    (p2.flatMap (fun yy => (p1 ++ x :: (x + 1) :: q1).map fun xx => (xx, yy, z)) ++
      p1.map (fun xx => (xx, y, z))),
    (q1.map (fun xx => (xx, y, z)) ++
      q2.flatMap (fun yy => (p1 ++ x :: (x + 1) :: q1).map fun xx => (xx, yy, z))) ++
    q3.flatMap (fun zz => (p2 ++ y :: q2).flatMap fun yy =>
      (p1 ++ x :: (x + 1) :: q1).map fun xx => (xx, yy, zz)), ?_⟩
  simp only [List.append_assoc, List.cons_append]

namespace FBBlock

theorem assign_fold_adjacent (occ : Int → Int → Int → Nat)
    (pre post : List (Int × Int × Int)) (c1 c2 : Int × Int × Int)
    (st : Int × (Int → Int → Int → Int))
    (hnd : (pre ++ c1 :: c2 :: post).Nodup)
    (h1 : occ c1.1 c1.2.1 c1.2.2 ≠ 0) (h2 : occ c2.1 c2.2.1 c2.2.2 ≠ 0) :
    ((pre ++ c1 :: c2 :: post).foldl (assign_step occ) st).2 c2.1 c2.2.1 c2.2.2 =
      ((pre ++ c1 :: c2 :: post).foldl (assign_step occ) st).2 c1.1 c1.2.1 c1.2.2 + 3 := by
  rw [List.foldl_append, List.foldl_cons, List.foldl_cons]
  have hnd2 : (c1 :: c2 :: post).Nodup := (List.nodup_append.mp hnd).2.1
  obtain ⟨hc1, hnd3⟩ := List.nodup_cons.mp hnd2
  obtain ⟨hc2, hnd4⟩ := List.nodup_cons.mp hnd3
  have hne : c1 ≠ c2 := fun h => hc1 (h ▸ List.mem_cons_self _ _)
  have hc1p : c1 ∉ post := fun h => hc1 (List.mem_cons_of_mem _ h)
  generalize pre.foldl (assign_step occ) st = s1
  have e1 : assign_step occ s1 c1 = (s1.1 + 3, set3 s1.2 c1.1 c1.2.1 c1.2.2 s1.1) := if_pos h1
  rw [e1]
  have e2 : assign_step occ (s1.1 + 3, set3 s1.2 c1.1 c1.2.1 c1.2.2 s1.1) c2 =
      (s1.1 + 3 + 3, set3 (set3 s1.2 c1.1 c1.2.1 c1.2.2 s1.1) c2.1 c2.2.1 c2.2.2 (s1.1 + 3)) :=
    if_pos h2
  rw [e2]
  obtain ⟨_, _, _, hkeep, _⟩ := assign_fold occ post
    (s1.1 + 3 + 3, set3 (set3 s1.2 c1.1 c1.2.1 c1.2.2 s1.1) c2.1 c2.2.1 c2.2.2 (s1.1 + 3)) hnd4
  rw [hkeep c2 (fun h => hc2 h.1), hkeep c1 (fun h => hc1p h.1)]
  simp only [set3]
  have hne' : ¬ (c1.1 = c2.1 ∧ c1.2.1 = c2.2.1 ∧ c1.2.2 = c2.2.2) := by
    rintro ⟨a, b, c⟩
    exact hne (Prod.ext a (Prod.ext b c))
  simp [hne']

theorem variable_indices_adjacent (P : FBBlockSetupParameters) (a b c : Int)
    (h1 : vertex_occupancy P a b c ≠ 0) (h2 : vertex_occupancy P (a + 1) b c ≠ 0) :
    (setup P).1.variable_indices (a + 1) b c = (setup P).1.variable_indices a b c + 3 := by
  have hb1 := mem_scan3.mp (vertex_occupancy_in_box P a b c h1)
  have hb2 := mem_scan3.mp (vertex_occupancy_in_box P (a + 1) b c h2)
  simp only at hb1 hb2
  obtain ⟨pre, post, hsplit⟩ := scan3_adjacent (P.Nx + 2) (P.Ny + 2) (P.Nz + 2) a b c
    ⟨hb1.1.1, hb2.1.2⟩ hb1.2.1 hb1.2.2
  rw [(setup_geometry P).1]
  unfold assign_variable_indices
  have hnd := nodup_scan3 (P.Nx + 2) (P.Ny + 2) (P.Nz + 2)
  rw [hsplit] at hnd ⊢
  exact assign_fold_adjacent (vertex_occupancy P) pre post (a, b, c) (a + 1, b, c) _ hnd h1 h2

theorem corner_occupied (P : FBBlockSetupParameters) (xx yy zz : Int)
    (hv : (xx, yy, zz) ∈ scan3 (P.Nx + 1) (P.Ny + 1) (P.Nz + 1))
    (hb : P.BVF xx yy zz ≠ 0) (dx dy dz : Int) (hx : dx = 0 ∨ dx = 1) (hy : dy = 0 ∨ dy = 1)
    (hz : dz = 0 ∨ dz = 1) : vertex_occupancy P (xx + dx) (yy + dy) (zz + dz) ≠ 0 := by
  rw [vertex_occupancy_ne_zero]
  refine ⟨(xx, yy, zz), hv, hb, ?_, ?_, ?_⟩
  · rcases hx with rfl | rfl
    · left; simp
    · right; rfl
  · rcases hy with rfl | rfl
    · left; simp
    · right; rfl
  · rcases hz with rfl | rfl
    · left; simp
    · right; rfl

theorem setup_elements_field (P : FBBlockSetupParameters)
    (h : (assign_variable_indices P (vertex_occupancy P)).1 ≠ 0) :
    (setup P).1.elements = setup_elements P (setup P).1.variable_indices := by
  rw [(setup_geometry P).1]
  unfold setup
  dsimp only
  rw [if_neg h]
  split_ifs <;> rfl

end FBBlock

end FB

namespace FB

namespace FBBlock

theorem varinds_slot (E0 : FBBlockElement) (dir dx dy dz : Nat) (hdir : dir ≤ 2)
    (hdx : dx ≤ 1) :
    varinds E0 (dir + 3 * dx + 6 * dy + 12 * dz) =
      E0.ref_indices (dy + 2 * dz) + ((dir + 3 * dx : Nat) : Int) := by
  unfold varinds
  have h1 : (dir + 3 * dx + 6 * dy + 12 * dz) / 6 = dy + 2 * dz := by omega
  have h2 : (dir + 3 * dx + 6 * dy + 12 * dz) % 6 = dir + 3 * dx := by omega
  rw [h1, h2]

theorem element_refs_slot (vi : Int → Int → Int → Int) (xx yy zz : Int) (dy dz : Nat)
    (hdy : dy ≤ 1) (hdz : dz ≤ 1) :
    element_refs vi xx yy zz (dy + 2 * dz) = vi xx (yy + (dy : Int)) (zz + (dz : Int)) := by
  have h1 : dy = 0 ∨ dy = 1 := by omega
  have h2 : dz = 0 ∨ dz = 1 := by omega
  rcases h1 with rfl | rfl <;> rcases h2 with rfl | rfl <;> simp [element_refs]

theorem setup_num_variables_ne_zero (P : FBBlockSetupParameters) (xx yy zz : Int)
    (hv : (xx, yy, zz) ∈ scan3 (P.Nx + 1) (P.Ny + 1) (P.Nz + 1)) (hb : P.BVF xx yy zz ≠ 0) :
    (assign_variable_indices P (vertex_occupancy P)).1 ≠ 0 := by
  intro h0
  have hocc := corner_occupied P xx yy zz hv hb 0 0 0 (Or.inl rfl) (Or.inl rfl) (Or.inl rfl)
  exact hocc (((assign_variable_indices_spec P).2.2.2.1 h0) _ _ _)

theorem mem_setup_elements (P : FBBlockSetupParameters) (vi : Int → Int → Int → Int)
    (E0 : FBBlockElement) :
    E0 ∈ setup_elements P vi ↔
      ∃ c ∈ scan3 (P.Nx + 1) (P.Ny + 1) (P.Nz + 1), P.BVF c.1 c.2.1 c.2.2 ≠ 0 ∧
        E0 = { ref_indices := element_refs vi c.1 c.2.1 c.2.2, bvf := P.BVF c.1 c.2.1 c.2.2,
               strain := 0 } := by
  unfold setup_elements
  rw [List.mem_filterMap]
  constructor
  · rintro ⟨c, hc, h⟩
    by_cases hb : P.BVF c.1 c.2.1 c.2.2 ≠ 0
    · rw [if_pos hb] at h
      exact ⟨c, hc, hb, (Option.some.inj h).symm⟩
    · rw [if_neg hb] at h
      exact absurd h (by simp)
  · rintro ⟨c, hc, hb, rfl⟩
    exact ⟨c, hc, by rw [if_pos hb]⟩

theorem setup_elements_mem (P : FBBlockSetupParameters) (E0 : FBBlockElement)
    (h : E0 ∈ (setup P).1.elements) :
    ∃ c ∈ scan3 (P.Nx + 1) (P.Ny + 1) (P.Nz + 1), P.BVF c.1 c.2.1 c.2.2 ≠ 0 ∧
      E0 = { ref_indices := element_refs (setup P).1.variable_indices c.1 c.2.1 c.2.2,
             bvf := P.BVF c.1 c.2.1 c.2.2, strain := 0 } := by
  by_cases h0 : (assign_variable_indices P (vertex_occupancy P)).1 = 0
  · exfalso
    have he : (setup P).1.elements = [] := by
      unfold setup
      dsimp only
      rw [if_pos h0]
      rfl
    rw [he] at h
    exact List.not_mem_nil _ h
  · rw [setup_elements_field P h0] at h
    exact (mem_setup_elements P _ E0).mp h

theorem element_slot_index (P : FBBlockSetupParameters) (xx yy zz : Int)
    (hv : (xx, yy, zz) ∈ scan3 (P.Nx + 1) (P.Ny + 1) (P.Nz + 1)) (hb : P.BVF xx yy zz ≠ 0)
    (E0 : FBBlockElement)
    (hE : E0.ref_indices = element_refs (setup P).1.variable_indices xx yy zz)
    (dir dx dy dz : Nat) (hdir : dir ≤ 2) (hdx : dx ≤ 1) (hdy : dy ≤ 1) (hdz : dz ≤ 1) :
    varinds E0 (dir + 3 * dx + 6 * dy + 12 * dz) =
      (setup P).1.variable_indices (xx + (dx : Int)) (yy + (dy : Int)) (zz + (dz : Int)) +
        (dir : Int) := by
  rw [varinds_slot E0 dir dx dy dz hdir hdx, hE, element_refs_slot _ _ _ _ dy dz hdy hdz]
  have hy : ((dy : Nat) : Int) = 0 ∨ ((dy : Nat) : Int) = 1 := by omega
  have hz : ((dz : Nat) : Int) = 0 ∨ ((dz : Nat) : Int) = 1 := by omega
  have h1 : dx = 0 ∨ dx = 1 := by omega
  rcases h1 with rfl | rfl
  · simp
  · have hadj := variable_indices_adjacent P xx (yy + (dy : Int)) (zz + (dz : Int))
      (by
        have := corner_occupied P xx yy zz hv hb 0 dy dz (Or.inl rfl) hy hz
        simpa using this)
      (corner_occupied P xx yy zz hv hb 1 dy dz (Or.inr rfl) hy hz)
    push_cast
    rw [hadj]
    ring

/-- C30. Element DOF packing covers the eight corner nodes.  After `setup`, the
elements of a block are exactly the records built at the voxels `(xx, yy, zz)` of the padded
block with non-zero bone volume fraction.  For such an element all eight corners
`(xx+dx, yy+dy, zz+dz)` are active nodes, the x-neighbour of a corner is numbered exactly 3
after it, and slot `dir + 3*dx + 6*dy + 12*dz` of the 24-slot index vector
`varinds[6k+j] = ref_indices[k] + j` equals `variable_indices(xx+dx, yy+dy, zz+dz) + dir`. -/
theorem element_dof_packing (P : FBBlockSetupParameters) :
    (∀ E0 ∈ (setup P).1.elements,
      ∃ c ∈ scan3 (P.Nx + 1) (P.Ny + 1) (P.Nz + 1), P.BVF c.1 c.2.1 c.2.2 ≠ 0 ∧
        E0 = { ref_indices := element_refs (setup P).1.variable_indices c.1 c.2.1 c.2.2,
               bvf := P.BVF c.1 c.2.1 c.2.2, strain := 0 }) ∧
    (∀ xx yy zz : Int, (xx, yy, zz) ∈ scan3 (P.Nx + 1) (P.Ny + 1) (P.Nz + 1) →
      P.BVF xx yy zz ≠ 0 →
      ∃ E0 ∈ (setup P).1.elements,
        E0.ref_indices = element_refs (setup P).1.variable_indices xx yy zz ∧
        E0.bvf = P.BVF xx yy zz ∧
        ∀ dir dx dy dz : Nat, dir ≤ 2 → dx ≤ 1 → dy ≤ 1 → dz ≤ 1 →
          vertex_occupancy P (xx + (dx : Int)) (yy + (dy : Int)) (zz + (dz : Int)) ≠ 0 ∧
          (setup P).1.variable_indices (xx + 1) (yy + (dy : Int)) (zz + (dz : Int)) =
            (setup P).1.variable_indices xx (yy + (dy : Int)) (zz + (dz : Int)) + 3 ∧
          varinds E0 (6 * (dy + 2 * dz) + (dir + 3 * dx)) =
            E0.ref_indices (dy + 2 * dz) + ((dir + 3 * dx : Nat) : Int) ∧
          varinds E0 (dir + 3 * dx + 6 * dy + 12 * dz) =
            (setup P).1.variable_indices (xx + (dx : Int)) (yy + (dy : Int)) (zz + (dz : Int)) +
              (dir : Int)) := by
  refine ⟨fun E0 h => setup_elements_mem P E0 h, ?_⟩
  intro xx yy zz hv hb
  have h0 := setup_num_variables_ne_zero P xx yy zz hv hb
  refine ⟨{ ref_indices := element_refs (setup P).1.variable_indices xx yy zz,
            bvf := P.BVF xx yy zz, strain := 0 }, ?_, rfl, rfl, ?_⟩
  · rw [setup_elements_field P h0]
    exact (mem_setup_elements P _ _).mpr ⟨(xx, yy, zz), hv, hb, rfl⟩
  · intro dir dx dy dz hdir hdx hdy hdz
    have hx : ((dx : Nat) : Int) = 0 ∨ ((dx : Nat) : Int) = 1 := by omega
    have hy : ((dy : Nat) : Int) = 0 ∨ ((dy : Nat) : Int) = 1 := by omega
    have hz : ((dz : Nat) : Int) = 0 ∨ ((dz : Nat) : Int) = 1 := by omega
    refine ⟨corner_occupied P xx yy zz hv hb dx dy dz hx hy hz, ?_, ?_, ?_⟩
    · apply variable_indices_adjacent
      · have := corner_occupied P xx yy zz hv hb 0 dy dz (Or.inl rfl) hy hz
        simpa using this
      · exact corner_occupied P xx yy zz hv hb 1 dy dz (Or.inr rfl) hy hz
    · have e : 6 * (dy + 2 * dz) + (dir + 3 * dx) = dir + 3 * dx + 6 * dy + 12 * dz := by ring
      rw [e]
      exact varinds_slot _ dir dx dy dz hdir hdx
    · exact element_slot_index P xx yy zz hv hb _ rfl dir dx dy dz hdir hdx hdy hdz

end FBBlock

namespace FBBlockSolver

theorem element_dof_packing_witness :
    ∃ E0 ∈ (FBBlock.setup (setup_parameters (one_voxel_solver 1) one_voxel_slab)).1.elements,
      FBBlock.varinds E0 23 =
        (FBBlock.setup (setup_parameters (one_voxel_solver 1) one_voxel_slab)).1.variable_indices
          3 3 2 + 2 := by
  obtain ⟨E0, hm, _, _, h⟩ :=
    (FBBlock.element_dof_packing (setup_parameters (one_voxel_solver 1) one_voxel_slab)).2
      2 2 1 (by decide!) (by decide!)
  exact ⟨E0, hm, (h 2 1 1 1 (by decide) (by decide) (by decide) (by decide)).2.2.2⟩

end FBBlockSolver

end FB

namespace FB

theorem sum_map_ite_eq_single {α : Type} [DecidableEq α] (g : α → ℚ) (a : α) :
    ∀ l : List α, l.Nodup → a ∈ l → (l.map fun c => if c = a then g c else 0).sum = g a := by
  intro l
  induction l with
  | nil => intro _ h; exact absurd h (List.not_mem_nil _)
  | cons b l ih =>
    intro hnd hm
    obtain ⟨hb, hnd2⟩ := List.nodup_cons.mp hnd
    rw [List.map_cons, List.sum_cons]
    by_cases hba : b = a
    · subst hba
      have hz : (l.map fun c => if c = b then g c else 0).sum = 0 := by
        apply List.sum_eq_zero
        intro x hx
        obtain ⟨c, hc, rfl⟩ := List.mem_map.mp hx
        have : c ≠ b := fun h => hb (h ▸ hc)
        simp [this]
      rw [hz]; simp
    · have hal : a ∈ l := by
        rcases List.mem_cons.mp hm with h | h
        · exact absurd h.symm hba
        · exact h
      rw [ih hnd2 hal]; simp [hba]

namespace FBBlock

theorem compute_preconditioner_apply (B : FBBlock) (C : Vec) (i : Int) :
    compute_preconditioner B C i =
      C i + (B.elements.map fun E0 =>
        ((List.range 24).map fun kk =>
          if (B.vertex_type (varinds E0 kk) ≠ 3 ∧ B.free (varinds E0 kk) ≠ 0) ∧
              varinds E0 kk = i then
            B.stiffness_matrix kk kk * bvf_factor B.nonlinear_adjuster E0
          else 0).sum).sum := by
  unfold compute_preconditioner
  rw [foldl_pointwise_add _
    (fun E0 i => ((List.range 24).map fun kk =>
      if (B.vertex_type (varinds E0 kk) ≠ 3 ∧ B.free (varinds E0 kk) ≠ 0) ∧
          varinds E0 kk = i then
        B.stiffness_matrix kk kk * bvf_factor B.nonlinear_adjuster E0
      else 0).sum) i]
  intro Y E0
  exact foldl_scatter_apply
    (fun kk => B.vertex_type (varinds E0 kk) ≠ 3 ∧ B.free (varinds E0 kk) ≠ 0) (varinds E0)
    (fun kk => B.stiffness_matrix kk kk * bvf_factor B.nonlinear_adjuster E0) i
    (List.range 24) Y

theorem setup_preconditioner (P : FBBlockSetupParameters) (hu : P.use_preconditioner = true) :
    (setup P).1.preconditioner = compute_preconditioner (setup P).1 (fun _ => 0) := by
  unfold setup
  dsimp only
  by_cases h0 : (assign_variable_indices P (vertex_occupancy P)).1 = 0
  · rw [if_pos h0]
    rfl
  · rw [if_neg h0, if_pos hu]
    rfl

theorem setup_statics (P : FBBlockSetupParameters) :
    (setup P).1.stiffness_matrix = P.stiffness_matrix ∧
      (setup P).1.nonlinear_adjuster = none := by
  unfold setup
  dsimp only
  split_ifs <;> exact ⟨rfl, rfl⟩

end FBBlock

end FB

namespace FB

namespace FBBlock

theorem slot_node (P : FBBlockSetupParameters) (c : Int × Int × Int)
    (hc : c ∈ scan3 (P.Nx + 1) (P.Ny + 1) (P.Nz + 1)) (hb : P.BVF c.1 c.2.1 c.2.2 ≠ 0)
    (E0 : FBBlockElement)
    (hr : E0.ref_indices = element_refs (setup P).1.variable_indices c.1 c.2.1 c.2.2)
    (k : Nat) (hk : k < 24) :
    vertex_occupancy P (c.1 + (((k / 3) % 2 : Nat) : Int)) (c.2.1 + (((k / 6) % 2 : Nat) : Int))
        (c.2.2 + ((k / 12 : Nat) : Int)) ≠ 0 ∧
      varinds E0 k =
        (setup P).1.variable_indices (c.1 + (((k / 3) % 2 : Nat) : Int))
          (c.2.1 + (((k / 6) % 2 : Nat) : Int)) (c.2.2 + ((k / 12 : Nat) : Int)) +
          ((k % 3 : Nat) : Int) := by
  have hdx : (k / 3) % 2 ≤ 1 := by omega
  have hdy : (k / 6) % 2 ≤ 1 := by omega
  have hdz : k / 12 ≤ 1 := by omega
  have hdir : k % 3 ≤ 2 := by omega
  have hx : ((((k / 3) % 2 : Nat)) : Int) = 0 ∨ ((((k / 3) % 2 : Nat)) : Int) = 1 := by omega
  have hy : ((((k / 6) % 2 : Nat)) : Int) = 0 ∨ ((((k / 6) % 2 : Nat)) : Int) = 1 := by omega
  have hz : (((k / 12 : Nat)) : Int) = 0 ∨ (((k / 12 : Nat)) : Int) = 1 := by omega
  refine ⟨corner_occupied P c.1 c.2.1 c.2.2 hc hb _ _ _ hx hy hz, ?_⟩
  have hkk : k = k % 3 + 3 * ((k / 3) % 2) + 6 * ((k / 6) % 2) + 12 * (k / 12) := by omega
  have := element_slot_index P c.1 c.2.1 c.2.2 hc hb E0 hr (k % 3) ((k / 3) % 2) ((k / 6) % 2)
    (k / 12) hdir hdx hdy hdz
  rw [← hkk] at this
  exact this

theorem slots_injective (P : FBBlockSetupParameters) (E0 : FBBlockElement)
    (hE : E0 ∈ (setup P).1.elements) (k1 k2 : Nat) (h1 : k1 < 24) (h2 : k2 < 24)
    (h : varinds E0 k1 = varinds E0 k2) : k1 = k2 := by
  obtain ⟨c, hc, hb, hEq⟩ := setup_elements_mem P E0 hE
  have hr : E0.ref_indices = element_refs (setup P).1.variable_indices c.1 c.2.1 c.2.2 := by
    rw [hEq]
  obtain ⟨ho1, hv1⟩ := slot_node P c hc hb E0 hr k1 h1
  obtain ⟨ho2, hv2⟩ := slot_node P c hc hb E0 hr k2 h2
  rw [hv1, hv2, (setup_geometry P).1] at h
  by_cases hn : ((c.1 + (((k1 / 3) % 2 : Nat) : Int), c.2.1 + (((k1 / 6) % 2 : Nat) : Int),
      c.2.2 + ((k1 / 12 : Nat) : Int)) : Int × Int × Int) =
      (c.1 + (((k2 / 3) % 2 : Nat) : Int), c.2.1 + (((k2 / 6) % 2 : Nat) : Int),
        c.2.2 + ((k2 / 12 : Nat) : Int))
  · simp only [Prod.mk.injEq, add_right_inj] at hn
    obtain ⟨e1, e2, e3⟩ := hn
    rw [e1, e2, e3] at h
    omega
  · have hsep := (assign_variable_indices_spec P).2.2.1 _ _ _ _ _ _ ho1 ho2 hn
    omega

theorem slots_in_range (P : FBBlockSetupParameters) (E0 : FBBlockElement)
    (hE : E0 ∈ (setup P).1.elements) (k : Nat) (hk : k < 24) :
    0 ≤ varinds E0 k ∧ varinds E0 k < (setup P).1.num_variables := by
  obtain ⟨c, hc, hb, hEq⟩ := setup_elements_mem P E0 hE
  have hr : E0.ref_indices = element_refs (setup P).1.variable_indices c.1 c.2.1 c.2.2 := by
    rw [hEq]
  obtain ⟨ho, hv⟩ := slot_node P c hc hb E0 hr k hk
  rw [hv, (setup_geometry P).1, (setup_geometry P).2.1]
  have hb := (assign_variable_indices_spec P).1 _ _ _ ho
  omega

end FBBlock

end FB

namespace FB

namespace FBBlock

theorem Y0_row_unit (P : FBBlockSetupParameters) (E0 : FBBlockElement)
    (hE : E0 ∈ (setup P).1.elements) (K : Nat → Nat → ℚ) (kk : Nat) (hk : kk < 24) :
    Y0_row K (fun cc => (Pi.single (varinds E0 kk) (1 : ℚ) : Int → ℚ) (varinds E0 cc)) kk =
      K kk kk := by
  rw [Y0_row_eq_sum]
  have hcongr : ((List.range 24).map fun cc =>
      K kk cc * (Pi.single (varinds E0 kk) (1 : ℚ) : Int → ℚ) (varinds E0 cc)) =
      (List.range 24).map fun cc => if cc = kk then K kk cc else 0 := by
    apply List.map_congr_left
    intro cc hcc
    have hcc24 : cc < 24 := List.mem_range.mp hcc
    by_cases he : cc = kk
    · subst he
      simp
    · have hne : varinds E0 cc ≠ varinds E0 kk :=
        fun h => he (slots_injective P E0 hE cc kk hcc24 hk h)
      rw [Pi.single_apply, if_neg hne, if_neg he, mul_zero]
  rw [hcongr]
  exact sum_map_ite_eq_single (fun cc => K kk cc) kk (List.range 24) (List.nodup_range 24)
    (List.mem_range.mpr hk)

theorem multiply_by_A_unit (P : FBBlockSetupParameters) (i : Int)
    (hvt : (setup P).1.vertex_type i ≠ 3) :
    multiply_by_A (setup P).1 (Pi.single i (1 : ℚ)) i =
      ((setup P).1.elements.map fun E0 =>
        ((List.range 24).map fun kk =>
          if varinds E0 kk = i then
            (setup P).1.stiffness_matrix kk kk * bvf_factor (setup P).1.nonlinear_adjuster E0
          else 0).sum).sum := by
  rw [multiply_by_A_apply]
  congr 1
  apply List.map_congr_left
  intro E0 hE
  congr 1
  apply List.map_congr_left
  intro kk hkk
  by_cases hi : varinds E0 kk = i
  · have hc : (setup P).1.vertex_type (varinds E0 kk) ≠ 3 ∧ varinds E0 kk = i := by
      rw [hi]; exact ⟨hvt, rfl⟩
    rw [if_pos hc, if_pos hi]
    subst hi
    rw [Y0_row_unit P E0 hE _ kk (List.mem_range.mp hkk)]
  · have hc : ¬ ((setup P).1.vertex_type (varinds E0 kk) ≠ 3 ∧ varinds E0 kk = i) :=
      fun h => hi h.2
    rw [if_neg hc, if_neg hi]

/-- C28. Jacobi preconditioner.  After `setup` with `use_preconditioner = true`,
`preconditioner[i]` is the sum, over the elements `e` of the block and the slots `k < 24`
with `varinds_e[k] = i` whose variable is owned (vertex type not 3) and free, of
`K[k][k] * (bvf_e/100) * phi(strain_e)` (no adjuster is installed during `setup`, so `phi`
is 1 there).  Hence at an owned free variable `i` it is the sum over all slots with
`varinds_e[k] = i`, which is the diagonal entry `(A e_i)[i]` of `multiply_by_A` at the unit
vector `e_i`; and at a fixed or outer-interface variable it is 0. -/
theorem jacobi_preconditioner (P : FBBlockSetupParameters) (hu : P.use_preconditioner = true)
    (i : Int) :
    (∀ E0 : FBBlockElement, phi (setup P).1 E0 = 1) ∧
    ((setup P).1.preconditioner i =
      ((setup P).1.elements.map fun E0 =>
        ((List.range 24).map fun k =>
          if ((setup P).1.vertex_type (varinds E0 k) ≠ 3 ∧
              (setup P).1.free (varinds E0 k) ≠ 0) ∧ varinds E0 k = i then
            P.stiffness_matrix k k * ((E0.bvf : ℚ) / 100 * phi (setup P).1 E0)
          else 0).sum).sum) ∧
    ((setup P).1.vertex_type i ≠ 3 → (setup P).1.free i ≠ 0 →
      (setup P).1.preconditioner i =
        ((setup P).1.elements.map fun E0 =>
          ((List.range 24).map fun k =>
            if varinds E0 k = i then
              P.stiffness_matrix k k * ((E0.bvf : ℚ) / 100 * phi (setup P).1 E0)
            else 0).sum).sum ∧
      (setup P).1.preconditioner i = multiply_by_A (setup P).1 (Pi.single i (1 : ℚ)) i) ∧
    ((setup P).1.vertex_type i = 3 ∨ (setup P).1.free i = 0 →
      (setup P).1.preconditioner i = 0) := by
  have hK := (setup_statics P).1
  have hgen : (setup P).1.preconditioner i =
      ((setup P).1.elements.map fun E0 =>
        ((List.range 24).map fun k =>
          if ((setup P).1.vertex_type (varinds E0 k) ≠ 3 ∧
              (setup P).1.free (varinds E0 k) ≠ 0) ∧ varinds E0 k = i then
            P.stiffness_matrix k k * ((E0.bvf : ℚ) / 100 * phi (setup P).1 E0)
          else 0).sum).sum := by
    rw [setup_preconditioner P hu, compute_preconditioner_apply, zero_add, hK]
    simp only [bvf_factor_eq]
  refine ⟨?_, hgen, ?_, ?_⟩
  · intro E0
    unfold phi
    rw [(setup_statics P).2]
  · intro hvt hfree
    have hsum : (setup P).1.preconditioner i =
        ((setup P).1.elements.map fun E0 =>
          ((List.range 24).map fun k =>
            if varinds E0 k = i then
              P.stiffness_matrix k k * ((E0.bvf : ℚ) / 100 * phi (setup P).1 E0)
            else 0).sum).sum := by
      rw [hgen]
      congr 1
      apply List.map_congr_left
      intro E0 _
      congr 1
      apply List.map_congr_left
      intro k _
      by_cases hi : varinds E0 k = i
      · have hc : ((setup P).1.vertex_type (varinds E0 k) ≠ 3 ∧
            (setup P).1.free (varinds E0 k) ≠ 0) ∧ varinds E0 k = i := by
          rw [hi]; exact ⟨⟨hvt, hfree⟩, rfl⟩
        rw [if_pos hc, if_pos hi]
      · have hc : ¬ (((setup P).1.vertex_type (varinds E0 k) ≠ 3 ∧
            (setup P).1.free (varinds E0 k) ≠ 0) ∧ varinds E0 k = i) := fun h => hi h.2
        rw [if_neg hc, if_neg hi]
    refine ⟨hsum, ?_⟩
    rw [hsum, multiply_by_A_unit P i hvt, hK]
    simp only [bvf_factor_eq]
  · intro h
    rw [hgen]
    apply List.sum_eq_zero
    intro x hx
    obtain ⟨E0, _, rfl⟩ := List.mem_map.mp hx
    apply List.sum_eq_zero
    intro y hy
    obtain ⟨k, _, rfl⟩ := List.mem_map.mp hy
    by_cases hi : varinds E0 k = i
    · have hc : ¬ (((setup P).1.vertex_type (varinds E0 k) ≠ 3 ∧
          (setup P).1.free (varinds E0 k) ≠ 0) ∧ varinds E0 k = i) := by
        rw [hi]
        rintro ⟨⟨h1, h2⟩, _⟩
        rcases h with h | h
        · exact h1 h
        · exact h2 h
      rw [if_neg hc]
    · have hc : ¬ (((setup P).1.vertex_type (varinds E0 k) ≠ 3 ∧
          (setup P).1.free (varinds E0 k) ≠ 0) ∧ varinds E0 k = i) := fun h => hi h.2
      rw [if_neg hc]

end FBBlock

end FB

namespace FB

namespace FBBlockSolver

theorem jacobi_preconditioner_witness :
    (FBBlock.setup { setup_parameters (one_voxel_solver 1) one_voxel_slab with
        use_preconditioner := true }).1.vertex_type 0 ≠ 3 ∧
    (FBBlock.setup { setup_parameters (one_voxel_solver 1) one_voxel_slab with
        use_preconditioner := true }).1.free 0 ≠ 0 ∧
    (FBBlock.setup { setup_parameters (one_voxel_solver 1) one_voxel_slab with
        use_preconditioner := true }).1.preconditioner 0 =
      FBBlock.multiply_by_A (FBBlock.setup { setup_parameters (one_voxel_solver 1) one_voxel_slab with
        use_preconditioner := true }).1 (Pi.single 0 (1 : ℚ)) 0 :=
  ⟨by decide!, by decide!,
    ((FBBlock.jacobi_preconditioner { setup_parameters (one_voxel_solver 1) one_voxel_slab with
        use_preconditioner := true } rfl 0).2.2.1 (by decide!) (by decide!)).2⟩


end FBBlockSolver

end FB

namespace FB

theorem sum_map_comm {α β : Type} (f : α → β → ℚ) (l2 : List β) :
    ∀ l1 : List α, (l1.map fun a => (l2.map fun b => f a b).sum).sum =
      (l2.map fun b => (l1.map fun a => f a b).sum).sum := by
  intro l1
  induction l1 with
  | nil => simp
  | cons a l1 ih =>
    simp only [List.map_cons, List.sum_cons]
    rw [ih, ← List.sum_map_add]

theorem sum_map_ite_eq_self (g : Int → ℚ) (a : Int) (l : List Int) (hnd : l.Nodup)
    (ha : a ∈ l) : (l.map fun i => if a = i then g i else 0).sum = g a := by
  have h := sum_map_ite_eq_single g a l hnd ha
  rw [← h]
  congr 1
  apply List.map_congr_left
  intro i _
  by_cases hi : a = i
  · rw [if_pos hi, if_pos hi.symm]
  · rw [if_neg hi, if_neg (fun h => hi h.symm)]

namespace FBBlock

theorem multiply_by_A_outer (B : FBBlock) (X : Vec) (i : Int) (h : B.vertex_type i = 3) :
    multiply_by_A B X i = 0 := by
  rw [multiply_by_A_apply]
  apply List.sum_eq_zero
  intro x hx
  obtain ⟨E0, _, rfl⟩ := List.mem_map.mp hx
  apply List.sum_eq_zero
  intro y hy
  obtain ⟨k, _, rfl⟩ := List.mem_map.mp hy
  have hc : ¬ (B.vertex_type (varinds E0 k) ≠ 3 ∧ varinds E0 k = i) := by
    rintro ⟨h1, h2⟩
    rw [h2] at h1
    exact h1 h
  rw [if_neg hc]

/-- For a block whose element slots all lie in `[0, num_variables)` and are owned, and a
vector `p` that vanishes at the fixed variables, the inner product over the owned free
variables of `p` with `A q` is the element-wise sum of `p[v_k] * (K X0)[k] * bvf_factor`. -/
theorem inner_product_multiply_by_A (B : FBBlock)
    (H1 : ∀ E0 ∈ B.elements, ∀ k, k < 24 →
      0 ≤ varinds E0 k ∧ varinds E0 k < B.num_variables)
    (H2 : ∀ E0 ∈ B.elements, ∀ k, k < 24 → B.vertex_type (varinds E0 k) ≠ 3)
    (p q : Vec) (hp : ∀ i, 0 ≤ i → i < B.num_variables → B.free i = 0 → p i = 0) :
    inner_product_on_owned_free_variables B p (multiply_by_A B q) =
      (B.elements.map fun E0 =>
        ((List.range 24).map fun kk =>
          p (varinds E0 kk) *
            (Y0_row B.stiffness_matrix (fun cc => q (varinds E0 cc)) kk *
              bvf_factor B.nonlinear_adjuster E0)).sum).sum := by
  rw [inner_product_on_owned_free_variables_eq]
  have h1 : ((idxRange B.num_variables).map fun i =>
      if B.vertex_type i ≠ 3 ∧ B.free i ≠ 0 then p i * multiply_by_A B q i else 0) =
      (idxRange B.num_variables).map fun i =>
        (B.elements.map fun E0 =>
          ((List.range 24).map fun kk =>
            if varinds E0 kk = i then
              p (varinds E0 kk) *
                (Y0_row B.stiffness_matrix (fun cc => q (varinds E0 cc)) kk *
                  bvf_factor B.nonlinear_adjuster E0)
            else 0).sum).sum := by
    apply List.map_congr_left
    intro i hi
    have hir := mem_idxRange.mp hi
    have hterm : (if B.vertex_type i ≠ 3 ∧ B.free i ≠ 0 then p i * multiply_by_A B q i else 0) =
        p i * multiply_by_A B q i := by
      by_cases hc : B.vertex_type i ≠ 3 ∧ B.free i ≠ 0
      · rw [if_pos hc]
      · rw [if_neg hc]
        by_cases hf : B.free i = 0
        · rw [hp i hir.1 hir.2 hf, zero_mul]
        · have hvt : B.vertex_type i = 3 := by
            by_contra hne
            exact hc ⟨hne, hf⟩
          rw [multiply_by_A_outer B q i hvt, mul_zero]
    rw [hterm, multiply_by_A_apply, ← List.sum_map_mul_left]
    congr 1
    apply List.map_congr_left
    intro E0 hE
    rw [← List.sum_map_mul_left]
    congr 1
    apply List.map_congr_left
    intro kk hkk
    by_cases hv : varinds E0 kk = i
    · have hc : B.vertex_type (varinds E0 kk) ≠ 3 ∧ varinds E0 kk = i :=
        ⟨H2 E0 hE kk (List.mem_range.mp hkk), hv⟩
      rw [if_pos hc, if_pos hv, hv]
    · have hc : ¬ (B.vertex_type (varinds E0 kk) ≠ 3 ∧ varinds E0 kk = i) := fun h => hv h.2
      rw [if_neg hc, if_neg hv, mul_zero]
  rw [h1, sum_map_comm]
  congr 1
  apply List.map_congr_left
  intro E0 hE
  rw [sum_map_comm]
  congr 1
  apply List.map_congr_left
  intro kk hkk
  exact sum_map_ite_eq_self
    (fun _ => p (varinds E0 kk) *
      (Y0_row B.stiffness_matrix (fun cc => q (varinds E0 cc)) kk *
        bvf_factor B.nonlinear_adjuster E0))
    (varinds E0 kk) (idxRange B.num_variables) (nodup_idxRange _)
    (mem_idxRange.mpr (H1 E0 hE kk (List.mem_range.mp hkk)))

theorem element_form_symmetric (K : Nat → Nat → ℚ)
    (hsym : ∀ r c, r < 24 → c < 24 → K r c = K c r) (u v : Nat → ℚ) (f : ℚ) :
    ((List.range 24).map fun kk => u kk * (Y0_row K v kk * f)).sum =
      ((List.range 24).map fun kk => v kk * (Y0_row K u kk * f)).sum := by
  have e1 : ∀ (u v : Nat → ℚ),
      ((List.range 24).map fun kk => u kk * (Y0_row K v kk * f)).sum =
        ((List.range 24).map fun kk =>
          ((List.range 24).map fun cc => f * (u kk * (K kk cc * v cc))).sum).sum := by
    intro u v
    congr 1
    apply List.map_congr_left
    intro kk _
    rw [Y0_row_eq_sum, List.sum_map_mul_left]
    have : u kk * ((List.map (fun cc => K kk cc * v cc) (List.range 24)).sum * f) =
        f * (u kk * (List.map (fun cc => K kk cc * v cc) (List.range 24)).sum) := by ring
    rw [this, ← List.sum_map_mul_left]
  rw [e1 u v, e1 v u, sum_map_comm]
  congr 1
  apply List.map_congr_left
  intro cc hcc
  congr 1
  apply List.map_congr_left
  intro kk hkk
  rw [hsym kk cc (List.mem_range.mp hkk) (List.mem_range.mp hcc)]
  ring

theorem multiply_by_A_symmetric (B : FBBlock)
    (H1 : ∀ E0 ∈ B.elements, ∀ k, k < 24 →
      0 ≤ varinds E0 k ∧ varinds E0 k < B.num_variables)
    (H2 : ∀ E0 ∈ B.elements, ∀ k, k < 24 → B.vertex_type (varinds E0 k) ≠ 3)
    (hsym : ∀ r c, r < 24 → c < 24 → B.stiffness_matrix r c = B.stiffness_matrix c r)
    (p q : Vec) (hp : ∀ i, 0 ≤ i → i < B.num_variables → B.free i = 0 → p i = 0)
    (hq : ∀ i, 0 ≤ i → i < B.num_variables → B.free i = 0 → q i = 0) :
    inner_product_on_owned_free_variables B p (multiply_by_A B q) =
      inner_product_on_owned_free_variables B q (multiply_by_A B p) := by
  rw [inner_product_multiply_by_A B H1 H2 p q hp, inner_product_multiply_by_A B H1 H2 q p hq]
  congr 1
  apply List.map_congr_left
  intro E0 _
  exact element_form_symmetric B.stiffness_matrix hsym (fun kk => p (varinds E0 kk))
    (fun kk => q (varinds E0 kk)) _

end FBBlock

end FB

namespace FB

theorem idxRange_one : idxRange 1 = [0] := by decide

theorem solve_block_infos_single (N1 N2 N3 : Int) (svc : List Int) :
    solve_block_infos N1 N2 N3 svc 1 =
      if 0 ≤ N3 then
        [{ xmin := -1, xmax := N1 + 1, ymin := -1, ymax := N2 + 1, zmin := 0, zmax := N3 }]
      else [] := by
  unfold solve_block_infos
  rw [idxRange_one]
  simp only [List.foldl_cons, List.foldl_nil, block_info_step]
  norm_num

namespace FBBlockSolver

/-- In a slab that contains the whole node grid of the BVF map, every active node is owned:
none of its three variables is an outer-interface variable. -/
theorem whole_grid_slab_owned (S : FBBlockSolver) (Info0 : BlockInfo)
    (hx : Info0.xmin ≤ 0 ∧ S.bvf_map.N1 ≤ Info0.xmax)
    (hy : Info0.ymin ≤ 0 ∧ S.bvf_map.N2 ≤ Info0.ymax)
    (hz : Info0.zmin ≤ 0 ∧ S.bvf_map.N3 ≤ Info0.zmax) (a b c : Int)
    (ho : FBBlock.vertex_occupancy (setup_parameters S Info0) a b c ≠ 0)
    (dd : Int) (h0 : 0 ≤ dd) (h3 : dd < 3) :
    (FBBlock.setup (setup_parameters S Info0)).1.vertex_type
      ((FBBlock.setup (setup_parameters S Info0)).1.variable_indices a b c + dd) ≠ 3 := by
  obtain ⟨v, hv, hb, h1, h2, h3'⟩ := (FBBlock.vertex_occupancy_ne_zero _ a b c).mp ho
  have hPx : (setup_parameters S Info0).Nx = Info0.xmax - Info0.xmin + 1 := rfl
  have hPy : (setup_parameters S Info0).Ny = Info0.ymax - Info0.ymin + 1 := rfl
  have hPz : (setup_parameters S Info0).Nz = Info0.zmax - Info0.zmin + 1 := rfl
  rw [mem_scan3, hPx, hPy, hPz] at hv
  have hb' : (setup_parameters S Info0).BVF v.1 v.2.1 v.2.2 =
      S.bvf_map.value (v.1 + (Info0.xmin - 1)) (v.2.1 + (Info0.ymin - 1))
        (v.2.2 + (Info0.zmin - 1)) := by
    show (if _ then _ else _) = _
    rw [if_pos]
    exact ⟨hv.1.1, by omega, hv.2.1.1, by omega, hv.2.2.1, by omega⟩
  rw [hb'] at hb
  have hpos := Nat.pos_of_ne_zero hb
  have hrange := BVFMap.value_pos_range _ _ _ _ hpos
  have hvert : is_vertex S.bvf_map (a + (Info0.xmin - 1)) (b + (Info0.ymin - 1))
      (c + (Info0.zmin - 1)) = true := by
    rw [is_vertex_iff]
    refine ⟨(a - v.1, b - v.2.1, c - v.2.2), ?_, ?_⟩
    · simp only; omega
    · simp only
      have e1 : a + (Info0.xmin - 1) - (a - v.1) = v.1 + (Info0.xmin - 1) := by ring
      have e2 : b + (Info0.ymin - 1) - (b - v.2.1) = v.2.1 + (Info0.ymin - 1) := by ring
      have e3 : c + (Info0.zmin - 1) - (c - v.2.2) = v.2.2 + (Info0.zmin - 1) := by ring
      rw [e1, e2, e3]
      exact hpos
  have hown := (setup_owns_iff S Info0 (a + (Info0.xmin - 1)) (b + (Info0.ymin - 1))
    (c + (Info0.zmin - 1))).mpr ⟨hvert, by omega, by omega, by omega⟩
  obtain ⟨_, _, _, _, _, hbx, hby, hbz⟩ := FBBlock.setup_geometry (setup_parameters S Info0)
  have hpx : (setup_parameters S Info0).block_x_position = Info0.xmin := rfl
  have hpy : (setup_parameters S Info0).block_y_position = Info0.ymin := rfl
  have hpz : (setup_parameters S Info0).block_z_position = Info0.zmin := rfl
  unfold FBBlock.owns at hown
  rw [hbx, hby, hbz, hpx, hpy, hpz] at hown
  have e1 : a + (Info0.xmin - 1) - (Info0.xmin - 1) = a := by ring
  have e2 : b + (Info0.ymin - 1) - (Info0.ymin - 1) = b := by ring
  have e3 : c + (Info0.zmin - 1) - (Info0.zmin - 1) = c := by ring
  rw [e1, e2, e3] at hown
  exact hown.2 dd h0 h3

theorem whole_grid_slots_owned (S : FBBlockSolver) (Info0 : BlockInfo)
    (hx : Info0.xmin ≤ 0 ∧ S.bvf_map.N1 ≤ Info0.xmax)
    (hy : Info0.ymin ≤ 0 ∧ S.bvf_map.N2 ≤ Info0.ymax)
    (hz : Info0.zmin ≤ 0 ∧ S.bvf_map.N3 ≤ Info0.zmax) :
    ∀ E0 ∈ (FBBlock.setup (setup_parameters S Info0)).1.elements, ∀ k, k < 24 →
      (FBBlock.setup (setup_parameters S Info0)).1.vertex_type (FBBlock.varinds E0 k) ≠ 3 := by
  intro E0 hE k hk
  obtain ⟨c, hc, hb, hEq⟩ := FBBlock.setup_elements_mem _ E0 hE
  have hr : E0.ref_indices = FBBlock.element_refs
      (FBBlock.setup (setup_parameters S Info0)).1.variable_indices c.1 c.2.1 c.2.2 := by
    rw [hEq]
  obtain ⟨ho, hv⟩ := FBBlock.slot_node _ c hc hb E0 hr k hk
  rw [hv]
  exact whole_grid_slab_owned S Info0 hx hy hz _ _ _ ho _ (by omega) (by omega)

end FBBlockSolver

end FB

namespace FB

namespace FBBlockSolver

/-- C26. Symmetry of the operator on the block of the trivial decomposition.  With
`num_threads = 1` the solver sets up a single block, for the slab that holds the whole node
grid (when `N3 >= 0`; no block otherwise).  For every BVF map, every stiffness matrix that is
symmetric on its 24 x 24 entries and all vectors `p`, `q` that vanish at the fixed variables
of the block, the inner product over the owned free variables of `p` with
`multiply_by_A(q)` equals that of `q` with `multiply_by_A(p)`, in exact arithmetic. -/
theorem trivial_decomposition_symmetric (S : FBBlockSolver) (hT : S.num_threads = 1)
    (hsym : ∀ r c, r < 24 → c < 24 → S.stiffness_matrix r c = S.stiffness_matrix c r) :
    (0 ≤ S.bvf_map.N3 →
      (solve_setup S).blocks =
        [(FBBlock.setup (setup_parameters S
          { xmin := -1, xmax := S.bvf_map.N1 + 1, ymin := -1, ymax := S.bvf_map.N2 + 1,
            zmin := 0, zmax := S.bvf_map.N3 })).1]) ∧
    ∀ B ∈ (solve_setup S).blocks, ∀ p q : Vec,
      (∀ i, 0 ≤ i → i < B.num_variables → B.free i = 0 → p i = 0) →
      (∀ i, 0 ≤ i → i < B.num_variables → B.free i = 0 → q i = 0) →
      FBBlock.inner_product_on_owned_free_variables B p (FBBlock.multiply_by_A B q) =
        FBBlock.inner_product_on_owned_free_variables B q (FBBlock.multiply_by_A B p) := by
  have hblocks := solve_setup_blocks S
  rw [hT, solve_block_infos_single] at hblocks
  constructor
  · intro hN
    rw [hblocks, if_pos hN]
    rfl
  · intro B hB p q hp hq
    rw [hblocks] at hB
    by_cases hN : 0 ≤ S.bvf_map.N3
    · rw [if_pos hN, List.map_singleton, List.mem_singleton] at hB
      subst hB
      apply FBBlock.multiply_by_A_symmetric _ _ _ _ p q hp hq
      · intro E0 hE k hk
        exact FBBlock.slots_in_range _ E0 hE k hk
      · exact whole_grid_slots_owned S _ ⟨by norm_num, by simp⟩ ⟨by norm_num, by simp⟩
          ⟨le_refl _, le_refl _⟩
      · rw [(FBBlock.setup_statics _).1]
        exact hsym
    · rw [if_neg hN] at hB
      exact absurd hB (List.not_mem_nil _)

theorem trivial_decomposition_symmetric_witness :
    FBBlock.inner_product_on_owned_free_variables
        (FBBlock.setup (setup_parameters (one_voxel_solver 1) one_voxel_slab)).1
        (fun i => ((FBBlock.setup (setup_parameters (one_voxel_solver 1)
          one_voxel_slab)).1.free i : ℚ))
        (FBBlock.multiply_by_A
          (FBBlock.setup (setup_parameters (one_voxel_solver 1) one_voxel_slab)).1
          (fun i => ((FBBlock.setup (setup_parameters (one_voxel_solver 1)
            one_voxel_slab)).1.free i : ℚ) * (i : ℚ))) =
      FBBlock.inner_product_on_owned_free_variables
        (FBBlock.setup (setup_parameters (one_voxel_solver 1) one_voxel_slab)).1
        (fun i => ((FBBlock.setup (setup_parameters (one_voxel_solver 1)
          one_voxel_slab)).1.free i : ℚ) * (i : ℚ))
        (FBBlock.multiply_by_A
          (FBBlock.setup (setup_parameters (one_voxel_solver 1) one_voxel_slab)).1
          (fun i => ((FBBlock.setup (setup_parameters (one_voxel_solver 1)
            one_voxel_slab)).1.free i : ℚ))) :=
  (trivial_decomposition_symmetric (one_voxel_solver 1) rfl (fun _ _ _ _ => rfl)).2
    (FBBlock.setup (setup_parameters (one_voxel_solver 1) one_voxel_slab)).1
    (by
      rw [(trivial_decomposition_symmetric (one_voxel_solver 1) rfl (fun _ _ _ _ => rfl)).1
        (by decide)]
      exact List.mem_singleton.mpr rfl)
    _ _ (fun i _ _ h => by simp [h]) (fun i _ _ h => by simp [h])

end FBBlockSolver

end FB

namespace FB

namespace FBBlock

theorem setup_element_at (P : FBBlockSetupParameters) (xx yy zz : Int)
    (hv : (xx, yy, zz) ∈ scan3 (P.Nx + 1) (P.Ny + 1) (P.Nz + 1)) (hb : P.BVF xx yy zz ≠ 0) :
    ({ ref_indices := element_refs (setup P).1.variable_indices xx yy zz,
       bvf := P.BVF xx yy zz, strain := 0 } : FBBlockElement) ∈ (setup P).1.elements := by
  rw [setup_elements_field P (setup_num_variables_ne_zero P xx yy zz hv hb)]
  exact (mem_setup_elements P _ _).mpr ⟨(xx, yy, zz), hv, hb, rfl⟩

/-- C34. Matvec indexing is in range: for every block produced by `setup`, every element
has all four `ref_indices >= 0`, and the 24 indices `ref_indices[k] + j` (`k < 4`, `j < 6`),
which are the entries `varinds[6k+j]` gathered and scattered by `multiply_by_A`,
`compute_preconditioner` and `computeEnergyMap`, lie in `[0, num_variables)` and are
pairwise distinct. -/
theorem matvec_indices_in_range (P : FBBlockSetupParameters) (E0 : FBBlockElement)
    (hE : E0 ∈ (setup P).1.elements) :
    (∀ k : Nat, k < 4 → 0 ≤ E0.ref_indices k) ∧
    (∀ k j : Nat, k < 4 → j < 6 →
      varinds E0 (6 * k + j) = E0.ref_indices k + (j : Int) ∧
      0 ≤ E0.ref_indices k + (j : Int) ∧
      E0.ref_indices k + (j : Int) < (setup P).1.num_variables) ∧
    (∀ k1 j1 k2 j2 : Nat, k1 < 4 → j1 < 6 → k2 < 4 → j2 < 6 →
      E0.ref_indices k1 + (j1 : Int) = E0.ref_indices k2 + (j2 : Int) →
      k1 = k2 ∧ j1 = j2) := by
  have hv : ∀ k j : Nat, k < 4 → j < 6 →
      varinds E0 (6 * k + j) = E0.ref_indices k + (j : Int) := by
    intro k j _ hj
    unfold varinds
    have h1 : (6 * k + j) / 6 = k := by omega
    have h2 : (6 * k + j) % 6 = j := by omega
    rw [h1, h2]
  refine ⟨?_, ?_, ?_⟩
  · intro k hk
    have h := slots_in_range P E0 hE (6 * k + 0) (by omega)
    rw [hv k 0 hk (by omega)] at h
    simpa using h.1
  · intro k j hk hj
    have h := slots_in_range P E0 hE (6 * k + j) (by omega)
    rw [hv k j hk hj] at h
    exact ⟨hv k j hk hj, h.1, h.2⟩
  · intro k1 j1 k2 j2 hk1 hj1 hk2 hj2 h
    have h' : varinds E0 (6 * k1 + j1) = varinds E0 (6 * k2 + j2) := by
      rw [hv k1 j1 hk1 hj1, hv k2 j2 hk2 hj2, h]
    have := slots_injective P E0 hE (6 * k1 + j1) (6 * k2 + j2) (by omega) (by omega) h'
    omega

end FBBlock

namespace FBBlockSolver

theorem matvec_indices_in_range_witness :
    ∃ E0 ∈ (FBBlock.setup (setup_parameters (one_voxel_solver 1) one_voxel_slab)).1.elements,
      0 ≤ E0.ref_indices 3 ∧
      E0.ref_indices 3 + 5 <
        (FBBlock.setup (setup_parameters (one_voxel_solver 1) one_voxel_slab)).1.num_variables := by
  have hm := FBBlock.setup_element_at (setup_parameters (one_voxel_solver 1) one_voxel_slab)
    2 2 1 (by decide!) (by decide!)
  have h := FBBlock.matvec_indices_in_range
    (setup_parameters (one_voxel_solver 1) one_voxel_slab) _ hm
  exact ⟨_, hm, h.1 3 (by decide), (h.2.1 3 5 (by decide) (by decide)).2.2⟩

end FBBlockSolver

end FB

namespace FB

theorem sum_map_quadratic {α : Type} (f g h : α → ℚ) (a b : ℚ) :
    ∀ l : List α, (l.map fun i => f i - a * g i + b * h i).sum =
      (l.map f).sum - a * (l.map g).sum + b * (l.map h).sum := by
  intro l
  induction l with
  | nil => simp
  | cons x l ih => simp only [List.map_cons, List.sum_cons, ih]; ring

namespace FBBlock

theorem iterate_step_B_r_r (sqrt : ℚ → ℚ) (B : FBBlock) (P : FBBlockIterateStepBParameters) :
    (iterate_step_B sqrt B P).2.r_r =
      ((idxRange B.num_variables).map fun i =>
        if B.vertex_type i ≠ 3 ∧ B.free i ≠ 0 then
          (B.r i - B.Ap i * P.alpha) * (B.r i - B.Ap i * P.alpha)
        else 0).sum := by
  have h1 : (iterate_step_B sqrt B P).2.r_r =
      inner_product_on_owned_free_variables
        ((idxRange B.num_variables).foldl (step_B_update P.alpha P.beta) B)
        ((idxRange B.num_variables).foldl (step_B_update P.alpha P.beta) B).r
        ((idxRange B.num_variables).foldl (step_B_update P.alpha P.beta) B).r := by
    unfold iterate_step_B
    dsimp only
    split <;> rfl
  rw [h1, inner_product_on_owned_free_variables_eq,
    foldl_step_B_update P.alpha P.beta (idxRange B.num_variables) (nodup_idxRange _) B]
  apply congrArg
  apply List.map_congr_left
  intro i hi
  simp only [hi, if_true]

theorem iterate_step_A_scalars (B : FBBlock) (P : FBBlockIterateStepAParameters)
    (hu : B.use_preconditioner = false) :
    (iterate_step_A B P).2.r_z =
        ((idxRange B.num_variables).map fun i =>
          if B.vertex_type i ≠ 3 ∧ B.free i ≠ 0 then
            (iterate_step_A B P).1.r i * (iterate_step_A B P).1.r i else 0).sum ∧
    (iterate_step_A B P).2.r_Ap =
        ((idxRange B.num_variables).map fun i =>
          if B.vertex_type i ≠ 3 ∧ B.free i ≠ 0 then
            (iterate_step_A B P).1.r i * (iterate_step_A B P).1.Ap i else 0).sum ∧
    (iterate_step_A B P).2.Ap_Ap =
        ((idxRange B.num_variables).map fun i =>
          if B.vertex_type i ≠ 3 ∧ B.free i ≠ 0 then
            (iterate_step_A B P).1.Ap i * (iterate_step_A B P).1.Ap i else 0).sum := by
  obtain ⟨_, hf, hv, hn, _, hup, _, _⟩ := step_A_vectors_frame B P
  have hup' : (step_A_vectors B P).use_preconditioner ≠ true := by
    rw [hup, hu]; decide
  unfold iterate_step_A
  dsimp only
  rw [if_neg hup']
  dsimp only
  simp only [inner_product_on_owned_free_variables_eq, hf, hv, hn, and_self]

theorem step_B_r_r_formula (sqrt : ℚ → ℚ) (B : FBBlock) (PA : FBBlockIterateStepAParameters)
    (PB : FBBlockIterateStepBParameters) (hu : B.use_preconditioner = false) :
    (iterate_step_B sqrt (iterate_step_A B PA).1 PB).2.r_r =
      (iterate_step_A B PA).2.r_z - 2 * PB.alpha * (iterate_step_A B PA).2.r_Ap +
        PB.alpha * PB.alpha * (iterate_step_A B PA).2.Ap_Ap := by
  obtain ⟨hz, hAp, hApAp⟩ := iterate_step_A_scalars B PA hu
  obtain ⟨_, hf, hv, hn, _, _, _, _⟩ := step_A_vectors_frame B PA
  rw [iterate_step_B_r_r, hz, hAp, hApAp, ← sum_map_quadratic]
  rw [iterate_step_A_fst, hn, hf, hv]
  apply congrArg
  apply List.map_congr_left
  intro i _
  by_cases hc : B.vertex_type i ≠ 3 ∧ B.free i ≠ 0
  · simp only [hc, if_true, and_self, ne_eq, not_false_eq_true]
    ring
  · simp only [hc, if_false]
    ring

end FBBlock

end FB

namespace FB

namespace FBBlockSolver

theorem iteration_step_B_alpha (ext : External) (S : FBBlockSolver) (i : Nat)
    (hi : i < S.blocks.length) :
    ((set_step_B_parameters S
      (reduce_scalars S.blocks.length (iteration ext S).PPP_A)).getD i {}).alpha =
      total_r_z (iteration ext S).PPP_A / total_p_Ap (iteration ext S).PPP_A := by
  have hlen : (iteration ext S).PPP_A.length = S.blocks.length := by
    rw [iteration_PPP_A]; simp
  have hred := reduce_scalars_eq (iteration ext S).PPP_A
  rw [hlen] at hred
  rw [hred]
  unfold set_step_B_parameters
  rw [getD_map_range _ _ _ _ hi]

theorem iteration_beta (ext : External) (S : FBBlockSolver) (i : Nat)
    (hi : i < S.blocks.length) :
    ((iteration ext S).PPP_B.getD i {}).beta =
      if total_r_z (iteration ext S).PPP_A ≠ 0 then
        (total_r_z (iteration ext S).PPP_A -
          2 * (total_r_z (iteration ext S).PPP_A / total_p_Ap (iteration ext S).PPP_A) *
            total_r_Ap (iteration ext S).PPP_A +
          (total_r_z (iteration ext S).PPP_A / total_p_Ap (iteration ext S).PPP_A) *
            (total_r_z (iteration ext S).PPP_A / total_p_Ap (iteration ext S).PPP_A) *
            total_Ap_Ap (iteration ext S).PPP_A) / total_r_z (iteration ext S).PPP_A
      else 0 := by
  have hlen : (iteration ext S).PPP_A.length = S.blocks.length := by
    rw [iteration_PPP_A]; simp
  have hred := reduce_scalars_eq (iteration ext S).PPP_A
  rw [hlen] at hred
  rw [iteration_PPP_B, getD_map_range _ _ _ _ hi, (iterate_step_B_inputs _ _ _).2, hred]
  unfold set_step_B_parameters
  rw [getD_map_range _ _ _ _ hi]

theorem iteration_sum_r_r (ext : External) (S : FBBlockSolver)
    (hu : ∀ B ∈ S.blocks, B.use_preconditioner = false) :
    ((iteration ext S).PPP_B.map fun b => b.r_r).sum =
      total_r_z (iteration ext S).PPP_A -
        2 * (total_r_z (iteration ext S).PPP_A / total_p_Ap (iteration ext S).PPP_A) *
          total_r_Ap (iteration ext S).PPP_A +
        (total_r_z (iteration ext S).PPP_A / total_p_Ap (iteration ext S).PPP_A) *
          (total_r_z (iteration ext S).PPP_A / total_p_Ap (iteration ext S).PPP_A) *
          total_Ap_Ap (iteration ext S).PPP_A := by
  generalize hα : total_r_z (iteration ext S).PPP_A / total_p_Ap (iteration ext S).PPP_A = α
  have hB : ((iteration ext S).PPP_B.map fun b => b.r_r) =
      (List.range S.blocks.length).map fun i =>
        (FBBlock.iterate_step_A (S.blocks.getD i FBBlock.init)
            ((stage_interfaces S).getD i {})).2.r_z -
          (2 * α) * (FBBlock.iterate_step_A (S.blocks.getD i FBBlock.init)
            ((stage_interfaces S).getD i {})).2.r_Ap +
          (α * α) * (FBBlock.iterate_step_A (S.blocks.getD i FBBlock.init)
            ((stage_interfaces S).getD i {})).2.Ap_Ap := by
    rw [iteration_PPP_B, List.map_map]
    apply List.map_congr_left
    intro i hi
    have hi' : i < S.blocks.length := List.mem_range.mp hi
    have hmem : S.blocks.getD i FBBlock.init ∈ S.blocks := by
      rw [List.getD_eq_getElem _ _ hi']
      exact List.getElem_mem _
    simp only [Function.comp_apply]
    rw [FBBlock.step_B_r_r_formula _ _ _ _ (hu _ hmem), iteration_step_B_alpha ext S i hi', hα]
  rw [hB, sum_map_quadratic]
  have hA := iteration_PPP_A ext S
  have e1 : total_r_z (iteration ext S).PPP_A =
      ((List.range S.blocks.length).map fun i =>
        (FBBlock.iterate_step_A (S.blocks.getD i FBBlock.init)
          ((stage_interfaces S).getD i {})).2.r_z).sum := by
    unfold total_r_z; rw [hA, List.map_map]; rfl
  have e2 : total_r_Ap (iteration ext S).PPP_A =
      ((List.range S.blocks.length).map fun i =>
        (FBBlock.iterate_step_A (S.blocks.getD i FBBlock.init)
          ((stage_interfaces S).getD i {})).2.r_Ap).sum := by
    unfold total_r_Ap; rw [hA, List.map_map]; rfl
  have e3 : total_Ap_Ap (iteration ext S).PPP_A =
      ((List.range S.blocks.length).map fun i =>
        (FBBlock.iterate_step_A (S.blocks.getD i FBBlock.init)
          ((stage_interfaces S).getD i {})).2.Ap_Ap).sum := by
    unfold total_Ap_Ap; rw [hA, List.map_map]; rfl
  rw [e1, e2, e3]

/-- C36. Beta is the ratio of the new to the old residual norm.  Without preconditioner, for
every block, every neighbour slices and every `alpha`, the `r_r` returned by
`iterate_step_B` equals `r_z - 2*alpha*r_Ap + alpha^2*Ap_Ap` with the outputs of the same
block's preceding `iterate_step_A`.  Hence in an iteration of a solver none of whose blocks
uses the preconditioner, the sum over the blocks of the step-B `r_r` is the numerator of
`beta` (with `alpha = r_z / p_Ap` of the reduced scalars, the quotient being `0` in this
model when `p_Ap = 0`), and `beta * r_z` equals that sum when `r_z != 0`. -/
theorem step_B_r_r_is_beta_numerator (ext : External) (S : FBBlockSolver) :
    (∀ (B : FBBlock) (PA : FBBlockIterateStepAParameters)
        (PB : FBBlockIterateStepBParameters), B.use_preconditioner = false →
      (FBBlock.iterate_step_B ext.sqrt (FBBlock.iterate_step_A B PA).1 PB).2.r_r =
        (FBBlock.iterate_step_A B PA).2.r_z -
          2 * PB.alpha * (FBBlock.iterate_step_A B PA).2.r_Ap +
          PB.alpha ^ 2 * (FBBlock.iterate_step_A B PA).2.Ap_Ap) ∧
    ((∀ B ∈ S.blocks, B.use_preconditioner = false) →
      ((iteration ext S).PPP_B.map fun b => b.r_r).sum =
        total_r_z (iteration ext S).PPP_A -
          2 * (total_r_z (iteration ext S).PPP_A / total_p_Ap (iteration ext S).PPP_A) *
            total_r_Ap (iteration ext S).PPP_A +
          (total_r_z (iteration ext S).PPP_A / total_p_Ap (iteration ext S).PPP_A) ^ 2 *
            total_Ap_Ap (iteration ext S).PPP_A ∧
      ∀ i : Nat, i < S.blocks.length → total_r_z (iteration ext S).PPP_A ≠ 0 →
        ((iteration ext S).PPP_B.getD i {}).beta * total_r_z (iteration ext S).PPP_A =
          ((iteration ext S).PPP_B.map fun b => b.r_r).sum) := by
  refine ⟨?_, ?_⟩
  · intro B PA PB hu
    rw [FBBlock.step_B_r_r_formula _ _ _ _ hu]
    ring
  · intro hu
    have hsum := iteration_sum_r_r ext S hu
    refine ⟨by rw [hsum]; ring, ?_⟩
    intro i hi hz
    rw [iteration_beta ext S i hi, if_pos hz, hsum, div_mul_cancel₀ _ hz]

theorem step_B_r_r_is_beta_numerator_witness :
    ((iteration example_external (solve_setup (one_voxel_solver 1))).PPP_B.getD 0 {}).beta *
        total_r_z (iteration example_external (solve_setup (one_voxel_solver 1))).PPP_A =
      ((iteration example_external (solve_setup (one_voxel_solver 1))).PPP_B.map
        fun b => b.r_r).sum :=
  ((step_B_r_r_is_beta_numerator example_external (solve_setup (one_voxel_solver 1))).2
    (by decide!)).2 0 (by decide!) (by decide!)

end FBBlockSolver

end FB

/-! ## Fields that the iteration steps never change -/

namespace FB

namespace FBBlock

theorem sameStatics_refl (B : FBBlock) : SameStatics B B := rfl

theorem sameStatics_fields {B1 B2 : FBBlock} (h : SameStatics B1 B2) :
    B2.free = B1.free ∧ B2.vertex_type = B1.vertex_type ∧
    B2.num_variables = B1.num_variables ∧ B2.stiffness_matrix = B1.stiffness_matrix ∧
    B2.nonlinear_adjuster = B1.nonlinear_adjuster ∧
    B2.outer_vertex_locations = B1.outer_vertex_locations ∧
    B2.inner_vertex_locations = B1.inner_vertex_locations ∧
    B2.variable_indices = B1.variable_indices ∧ B2.bvf_map = B1.bvf_map ∧
    (B2.Nx = B1.Nx ∧ B2.Ny = B1.Ny ∧ B2.Nz = B1.Nz) ∧
    B2.use_preconditioner = B1.use_preconditioner ∧ B2.preconditioner = B1.preconditioner ∧
    B2.youngs_modulus = B1.youngs_modulus ∧ B2.voxel_volume = B1.voxel_volume := by
  unfold SameStatics at h
  have e0 := congrArg FBBlock.free h
  have e1 := congrArg FBBlock.vertex_type h
  have e2 := congrArg FBBlock.num_variables h
  have e3 := congrArg FBBlock.stiffness_matrix h
  have e4 := congrArg FBBlock.nonlinear_adjuster h
  have e5 := congrArg FBBlock.outer_vertex_locations h
  have e6 := congrArg FBBlock.inner_vertex_locations h
  have e7 := congrArg FBBlock.variable_indices h
  have e8 := congrArg FBBlock.bvf_map h
  have e9 := congrArg FBBlock.Nx h
  have e10 := congrArg FBBlock.Ny h
  have e11 := congrArg FBBlock.Nz h
  have e12 := congrArg FBBlock.use_preconditioner h
  have e13 := congrArg FBBlock.preconditioner h
  have e14 := congrArg FBBlock.youngs_modulus h
  have e15 := congrArg FBBlock.voxel_volume h
  exact ⟨e0, e1, e2, e3, e4, e5, e6, e7, e8, ⟨e9, e10, e11⟩, e12, e13, e14, e15⟩

theorem sameStatics_trans {B1 B2 B3 : FBBlock} (h12 : SameStatics B1 B2)
    (h23 : SameStatics B2 B3) : SameStatics B1 B3 := by
  unfold SameStatics at *
  rw [← h12]
  have h := congrArg
    (fun B : FBBlock =>
      ({ B with x := B1.x, r := B1.r, p := B1.p, Ap := B1.Ap, elements := B1.elements } :
        FBBlock)) h23
  exact h

theorem step_A_vectors_sameStatics (B : FBBlock) (P : FBBlockIterateStepAParameters) :
    SameStatics B (step_A_vectors B P) ∧ (step_A_vectors B P).elements = B.elements := by
  constructor
  · unfold SameStatics
    apply FBBlock.ext
    all_goals first
      | rfl
      | (unfold step_A_vectors; dsimp only; split <;> rfl)
  · unfold step_A_vectors
    dsimp only
    split <;> rfl

theorem iterate_step_B_sameStatics (sqrt : ℚ → ℚ) (B : FBBlock)
    (P : FBBlockIterateStepBParameters) :
    SameStatics B (iterate_step_B sqrt B P).1 ∧
    (B.nonlinear_adjuster = none → (iterate_step_B sqrt B P).1.elements = B.elements) := by
  have hfold := foldl_step_B_update P.alpha P.beta (idxRange B.num_variables)
    (nodup_idxRange _) B
  constructor
  · unfold SameStatics
    apply FBBlock.ext
    all_goals first
      | rfl
      | (unfold iterate_step_B; dsimp only; rw [hfold]; split <;> rfl)
  · intro hn
    unfold iterate_step_B
    dsimp only
    rw [hfold]
    dsimp only
    rw [hn]

theorem run_steps_cons (sqrt : ℚ → ℚ)
    (pr : FBBlockIterateStepAParameters × FBBlockIterateStepBParameters)
    (l : List (FBBlockIterateStepAParameters × FBBlockIterateStepBParameters)) (B : FBBlock) :
    run_steps sqrt (pr :: l) B =
      run_steps sqrt l (iterate_step_B sqrt (iterate_step_A B pr.1).1 pr.2).1 := rfl

theorem run_steps_sameStatics (sqrt : ℚ → ℚ) :
    ∀ (l : List (FBBlockIterateStepAParameters × FBBlockIterateStepBParameters))
      (B : FBBlock),
      SameStatics B (run_steps sqrt l B) ∧
      (B.nonlinear_adjuster = none → (run_steps sqrt l B).elements = B.elements) := by
  intro l
  induction l with
  | nil => intro B; exact ⟨rfl, fun _ => rfl⟩
  | cons pr l ih =>
    intro B
    rw [run_steps_cons]
    obtain ⟨hA, hAe⟩ := step_A_vectors_sameStatics B pr.1
    obtain ⟨hB, hBe⟩ := iterate_step_B_sameStatics sqrt (iterate_step_A B pr.1).1 pr.2
    obtain ⟨h1, h2⟩ := ih (iterate_step_B sqrt (iterate_step_A B pr.1).1 pr.2).1
    have hAB : SameStatics B (iterate_step_B sqrt (iterate_step_A B pr.1).1 pr.2).1 :=
      sameStatics_trans hA hB
    refine ⟨sameStatics_trans hAB h1, ?_⟩
    intro hn
    have hadjA : (iterate_step_A B pr.1).1.nonlinear_adjuster = none := by
      rw [iterate_step_A_fst, (sameStatics_fields hA).2.2.2.2.1, hn]
    have hadjB : (iterate_step_B sqrt (iterate_step_A B pr.1).1 pr.2).1.nonlinear_adjuster
        = none := by
      rw [(sameStatics_fields hB).2.2.2.2.1, hadjA]
    rw [h2 hadjB, hBe hadjA, iterate_step_A_fst, hAe]

end FBBlock

end FB

namespace FB

theorem sum_map_affine {α : Type} (f g : α → ℚ) (a : ℚ) :
    ∀ l : List α, (l.map fun i => f i + a * g i).sum = (l.map f).sum + a * (l.map g).sum := by
  intro l
  induction l with
  | nil => simp
  | cons x l ih => simp only [List.map_cons, List.sum_cons, ih]; ring

namespace FBBlock

theorem multiply_by_A_congr (B1 B2 : FBBlock) (he : B2.elements = B1.elements)
    (hv : B2.vertex_type = B1.vertex_type) (hK : B2.stiffness_matrix = B1.stiffness_matrix)
    (ha : B2.nonlinear_adjuster = B1.nonlinear_adjuster) (X : Vec) :
    multiply_by_A B2 X = multiply_by_A B1 X := by
  unfold multiply_by_A
  rw [he, hv, hK, ha]

theorem multiply_by_A_affine (B : FBBlock) (X Pv X1 : Vec) (a : ℚ)
    (h : ∀ E0 ∈ B.elements, ∀ k, k < 24 →
      X1 (varinds E0 k) = X (varinds E0 k) + Pv (varinds E0 k) * a) (i : Int) :
    multiply_by_A B X1 i = multiply_by_A B X i + a * multiply_by_A B Pv i := by
  simp only [multiply_by_A_apply]
  rw [← sum_map_affine]
  apply congrArg
  apply List.map_congr_left
  intro E0 hE
  rw [← sum_map_affine]
  apply congrArg
  apply List.map_congr_left
  intro kk _
  by_cases hc : B.vertex_type (varinds E0 kk) ≠ 3 ∧ varinds E0 kk = i
  · rw [if_pos hc, if_pos hc, if_pos hc]
    have hY : Y0_row B.stiffness_matrix (fun kk => X1 (varinds E0 kk)) kk =
        Y0_row B.stiffness_matrix (fun kk => X (varinds E0 kk)) kk +
          a * Y0_row B.stiffness_matrix (fun kk => Pv (varinds E0 kk)) kk := by
      simp only [Y0_row_eq_sum]
      rw [← sum_map_affine]
      apply congrArg
      apply List.map_congr_left
      intro cc hcc
      rw [h E0 hE cc (List.mem_range.mp hcc)]
      ring
    rw [hY]
    ring
  · rw [if_neg hc, if_neg hc, if_neg hc]
    ring

theorem write_outer_interface_fixed (B : FBBlock) (P : FBBlockIterateStepAParameters)
    (j : Int) (hj : B.free j = 0) : write_outer_interface B P j = B.p j := by
  unfold write_outer_interface
  apply foldl_preserves _ (fun p : Vec => p j = B.p j) _ _ _ rfl
  intro p VL hp
  apply foldl_preserves _ (fun p : Vec => p j = B.p j) _ _ _ hp
  intro p dd hp
  dsimp only
  by_cases hf : B.free (VL.ref_index + dd) ≠ 0
  · have hne : j ≠ VL.ref_index + dd := by
      intro h
      rw [h] at hj
      exact hf hj
    rw [if_pos hf]
    split_ifs
    · rw [Function.update_noteq hne]; exact hp
    · rw [Function.update_noteq hne]; exact hp
    · exact hp
  · rw [if_neg hf]
    exact hp

/-- One iteration keeps the residual consistent.  For a block without adjuster whose
element slots are variables of the block, if `r = -(A x)` on the variables of the block and
`p` vanishes at its fixed variables, the same holds after `iterate_step_A` followed by
`iterate_step_B`, whatever the slices and the scalars. -/
theorem step_residual_consistent (sqrt : ℚ → ℚ) (B : FBBlock)
    (PA : FBBlockIterateStepAParameters) (PB : FBBlockIterateStepBParameters)
    (hadj : B.nonlinear_adjuster = none)
    (H1 : ∀ E0 ∈ B.elements, ∀ k, k < 24 →
      0 ≤ varinds E0 k ∧ varinds E0 k < B.num_variables)
    (hr : ∀ i, 0 ≤ i → i < B.num_variables → B.r i = -(multiply_by_A B B.x i))
    (hp : ∀ i, 0 ≤ i → i < B.num_variables → B.free i = 0 → B.p i = 0) :
    (∀ i, 0 ≤ i → i < B.num_variables →
      (iterate_step_B sqrt (iterate_step_A B PA).1 PB).1.r i =
        -(multiply_by_A (iterate_step_B sqrt (iterate_step_A B PA).1 PB).1
          (iterate_step_B sqrt (iterate_step_A B PA).1 PB).1.x i)) ∧
    (∀ i, 0 ≤ i → i < B.num_variables → B.free i = 0 →
      (iterate_step_B sqrt (iterate_step_A B PA).1 PB).1.p i = 0) := by
  obtain ⟨hsA, heA⟩ := step_A_vectors_sameStatics B PA
  obtain ⟨hsB, heB⟩ := iterate_step_B_sameStatics sqrt (iterate_step_A B PA).1 PB
  obtain ⟨hfA, hvA, hnA, hKA, haA, _⟩ := sameStatics_fields hsA
  obtain ⟨hfB, hvB, hnB, hKB, haB, _⟩ := sameStatics_fields hsB
  rw [iterate_step_A_fst] at hsB heB hfB hvB hnB hKB haB ⊢
  have hadjA : (step_A_vectors B PA).nonlinear_adjuster = none := by rw [haA, hadj]
  have heB' := heB hadjA
  have hcongr : ∀ X : Vec,
      multiply_by_A (iterate_step_B sqrt (step_A_vectors B PA) PB).1 X = multiply_by_A B X := by
    intro X
    apply multiply_by_A_congr
    · rw [heB', heA]
    · rw [hvB, hvA]
    · rw [hKB, hKA]
    · rw [haB, haA]
  obtain ⟨hrB, hxB, hpB⟩ := iterate_step_B_vectors sqrt (step_A_vectors B PA) PB
  have hfold := foldl_step_B_update PB.alpha PB.beta
    (idxRange (step_A_vectors B PA).num_variables) (nodup_idxRange _) (step_A_vectors B PA)
  rw [hfold] at hrB hxB hpB
  dsimp only at hrB hxB hpB
  have hr3 : (step_A_vectors B PA).r = B.r := by
    rw [step_A_vectors_r, hadj]
  have hx3 : (step_A_vectors B PA).x = B.x := (step_A_vectors_frame B PA).1
  have hp3 := step_A_vectors_p B PA
  have hAp3 := step_A_vectors_Ap B PA
  constructor
  · intro i h0 h1
    have hin : i ∈ idxRange (step_A_vectors B PA).num_variables := by
      rw [hnA]; exact mem_idxRange.mpr ⟨h0, h1⟩
    rw [hcongr, hrB]
    simp only [hin, if_true]
    rw [hr3, hAp3, hr i h0 h1]
    rw [multiply_by_A_affine B B.x (write_outer_interface B PA)
      (iterate_step_B sqrt (step_A_vectors B PA) PB).1.x PB.alpha]
    · ring
    · intro E0 hE k hk
      obtain ⟨hs0, hs1⟩ := H1 E0 hE k hk
      have hsin : varinds E0 k ∈ idxRange (step_A_vectors B PA).num_variables := by
        rw [hnA]; exact mem_idxRange.mpr ⟨hs0, hs1⟩
      rw [hxB]
      dsimp only
      rw [hx3, hp3, hfA]
      by_cases hf : B.free (varinds E0 k) ≠ 0
      · simp only [hsin, hf, true_and, if_true, not_false_eq_true, ne_eq]
      · have hf0 : B.free (varinds E0 k) = 0 := by
          by_contra hne
          exact hf hne
        rw [if_neg (fun h => hf h.2), write_outer_interface_fixed B PA _ hf0,
          hp _ hs0 hs1 hf0]
        ring
  · intro i h0 h1 hf0
    rw [hpB]
    dsimp only
    rw [hfA, if_neg (fun h => h.2 hf0), hp3, write_outer_interface_fixed B PA _ hf0,
      hp i h0 h1 hf0]

end FBBlock

end FB

namespace FB

namespace FBBlock

theorem run_steps_residual (sqrt : ℚ → ℚ) :
    ∀ (l : List (FBBlockIterateStepAParameters × FBBlockIterateStepBParameters))
      (B : FBBlock), B.nonlinear_adjuster = none →
      (∀ E0 ∈ B.elements, ∀ k, k < 24 →
        0 ≤ varinds E0 k ∧ varinds E0 k < B.num_variables) →
      (∀ i, 0 ≤ i → i < B.num_variables → B.r i = -(multiply_by_A B B.x i)) →
      (∀ i, 0 ≤ i → i < B.num_variables → B.free i = 0 → B.p i = 0) →
      (∀ i, 0 ≤ i → i < B.num_variables →
        (run_steps sqrt l B).r i =
          -(multiply_by_A (run_steps sqrt l B) (run_steps sqrt l B).x i)) ∧
      (∀ i, 0 ≤ i → i < B.num_variables → B.free i = 0 → (run_steps sqrt l B).p i = 0) := by
  intro l
  induction l with
  | nil => intro B _ _ hr hp; exact ⟨hr, hp⟩
  | cons pr l ih =>
    intro B hadj H1 hr hp
    rw [run_steps_cons]
    obtain ⟨hsA, heA⟩ := step_A_vectors_sameStatics B pr.1
    obtain ⟨hsB, heB⟩ := iterate_step_B_sameStatics sqrt (iterate_step_A B pr.1).1 pr.2
    have hs := sameStatics_fields (sameStatics_trans hsA hsB)
    obtain ⟨hf, _, hn, _, ha, _⟩ := hs
    have hadjA : (iterate_step_A B pr.1).1.nonlinear_adjuster = none := by
      rw [iterate_step_A_fst, (sameStatics_fields hsA).2.2.2.2.1, hadj]
    have hel : (iterate_step_B sqrt (iterate_step_A B pr.1).1 pr.2).1.elements = B.elements := by
      rw [heB hadjA, iterate_step_A_fst, heA]
    obtain ⟨hr1, hp1⟩ := step_residual_consistent sqrt B pr.1 pr.2 hadj H1 hr hp
    have := ih (iterate_step_B sqrt (iterate_step_A B pr.1).1 pr.2).1
      (by rw [ha, hadj])
      (by rw [hel, hn]; exact H1)
      (by rw [hn]; exact hr1)
      (by rw [hn, hf]; exact hp1)
    rw [hn, hf] at this
    exact this

theorem setup_residual (P : FBBlockSetupParameters) :
    (∀ i, 0 ≤ i → i < (setup P).1.num_variables →
      (setup P).1.r i = -(multiply_by_A (setup P).1 (setup P).1.x i)) ∧
    (∀ i, 0 ≤ i → i < (setup P).1.num_variables → (setup P).1.free i = 0 →
      (setup P).1.p i = 0) := by
  by_cases hn : (assign_variable_indices P (vertex_occupancy P)).1 = 0
  · have h0 : (setup P).1.num_variables = 0 := by rw [(setup_geometry P).2.1, hn]
    rw [h0]
    exact ⟨fun i a b => absurd (lt_of_le_of_lt a b) (lt_irrefl 0),
      fun i a b => absurd (lt_of_le_of_lt a b) (lt_irrefl 0)⟩
  · constructor
    · intro i h0 h1
      have hr := (setup_fields P hn).2.1
      rw [hr, negate_apply, if_pos (mem_idxRange.mpr ⟨h0, h1⟩)]
    · intro i _ _ hf
      rw [setup_p P hn i, if_neg (fun h => h.2 hf)]

/-- C35. Residual consistency of the non-recomputed form.  In a linear run (no adjuster is
installed by `setup`, and none appears), for every block set up from any parameters, every
sequence of neighbour slices and every sequence of `alpha`, `beta`: after `setup` (empty
sequence) and after every `iterate_step_A` followed by `iterate_step_B`, the stored
residual satisfies `r[i] = -(A x)[i]` at every variable `i` of the block, `A` being
`multiply_by_A` of the block applied to its current `x`; in particular `r[i] = 0` at every
outer-interface variable; and `p` is `0` at every fixed variable throughout. -/
theorem residual_consistency (sqrt : ℚ → ℚ) (P : FBBlockSetupParameters)
    (l : List (FBBlockIterateStepAParameters × FBBlockIterateStepBParameters)) (i : Int)
    (h0 : 0 ≤ i) (h1 : i < (setup P).1.num_variables) :
    (run_steps sqrt l (setup P).1).nonlinear_adjuster = none ∧
    (run_steps sqrt l (setup P).1).num_variables = (setup P).1.num_variables ∧
    (run_steps sqrt l (setup P).1).vertex_type = (setup P).1.vertex_type ∧
    (run_steps sqrt l (setup P).1).free = (setup P).1.free ∧
    (run_steps sqrt l (setup P).1).r i =
      -(multiply_by_A (run_steps sqrt l (setup P).1) (run_steps sqrt l (setup P).1).x i) ∧
    ((setup P).1.vertex_type i = 3 → (run_steps sqrt l (setup P).1).r i = 0) ∧
    ((setup P).1.free i = 0 → (run_steps sqrt l (setup P).1).p i = 0) := by
  obtain ⟨hs, _⟩ := run_steps_sameStatics sqrt l (setup P).1
  obtain ⟨hf, hv, hn, _, ha, _⟩ := sameStatics_fields hs
  obtain ⟨hr0, hp0⟩ := setup_residual P
  obtain ⟨hr, hp⟩ := run_steps_residual sqrt l (setup P).1 (setup_statics P).2
    (fun E0 hE k hk => slots_in_range P E0 hE k hk) hr0 hp0
  refine ⟨by rw [ha, (setup_statics P).2], hn, hv, hf, hr i h0 h1, ?_, hp i h0 h1⟩
  intro h3
  rw [hr i h0 h1, multiply_by_A_outer _ _ i (by rw [hv]; exact h3), neg_zero]

end FBBlock

namespace FBBlockSolver

theorem residual_consistency_witness :
    (FBBlock.run_steps (fun q => q) [({}, { alpha := 1 / 24, beta := 0 })]
        (FBBlock.setup (setup_parameters (one_voxel_solver 1) one_voxel_slab)).1).r 0 =
      -(FBBlock.multiply_by_A
        (FBBlock.run_steps (fun q => q) [({}, { alpha := 1 / 24, beta := 0 })]
          (FBBlock.setup (setup_parameters (one_voxel_solver 1) one_voxel_slab)).1)
        (FBBlock.run_steps (fun q => q) [({}, { alpha := 1 / 24, beta := 0 })]
          (FBBlock.setup (setup_parameters (one_voxel_solver 1) one_voxel_slab)).1).x 0) :=
  (FBBlock.residual_consistency (fun q => q)
    (setup_parameters (one_voxel_solver 1) one_voxel_slab)
    [({}, { alpha := 1 / 24, beta := 0 })] 0 (by decide) (by decide!)).2.2.2.2.1

end FBBlockSolver

end FB

namespace FB

namespace FBBlockSolver

theorem iteration_adjuster (ext : External) (S : FBBlockSolver) :
    (iteration ext S).nonlinear_adjuster = S.nonlinear_adjuster := rfl

theorem after_iterations_adjuster (ext : External) (S : FBBlockSolver) (k : Nat) :
    (after_iterations ext S k).nonlinear_adjuster = S.nonlinear_adjuster := by
  induction k with
  | zero => rfl
  | succ k ih => rw [after_iterations_succ_last, iteration_adjuster, ih]

/-- One pass of the loop leaves in every block the adjuster that was installed, and leaves
the element strains as they are when no adjuster is installed. -/
theorem iteration_block_adjusters (ext : External) (S : FBBlockSolver)
    (a : Option (ℚ → ℚ))
    (h : ∀ B ∈ S.blocks, B.nonlinear_adjuster = a ∧
      (a = none → ∀ E ∈ B.elements, E.strain = 0)) :
    ∀ B ∈ (iteration ext S).blocks, B.nonlinear_adjuster = a ∧
      (a = none → ∀ E ∈ B.elements, E.strain = 0) := by
  intro B hB
  rw [iteration_blocks, List.mem_map] at hB
  obtain ⟨i, hi, rfl⟩ := hB
  have hi' : i < S.blocks.length := List.mem_range.mp hi
  have hmem : S.blocks.getD i FBBlock.init ∈ S.blocks := by
    rw [List.getD_eq_getElem _ _ hi']
    exact List.getElem_mem _
  obtain ⟨h1, h2⟩ := h _ hmem
  obtain ⟨hsA, heA⟩ := FBBlock.step_A_vectors_sameStatics (S.blocks.getD i FBBlock.init)
    ((stage_interfaces S).getD i {})
  obtain ⟨hsB, heB⟩ := FBBlock.iterate_step_B_sameStatics ext.sqrt
    (FBBlock.iterate_step_A (S.blocks.getD i FBBlock.init) ((stage_interfaces S).getD i {})).1
    ((set_step_B_parameters S
      (reduce_scalars S.blocks.length (iteration ext S).PPP_A)).getD i {})
  have haA := (FBBlock.sameStatics_fields hsA).2.2.2.2.1
  have haB := (FBBlock.sameStatics_fields hsB).2.2.2.2.1
  rw [FBBlock.iterate_step_A_fst] at haB heB ⊢
  refine ⟨by rw [haB, haA, h1], ?_⟩
  intro hn
  rw [heB (by rw [haA, h1, hn]), heA]
  exact h2 hn

theorem after_iterations_block_adjusters (ext : External) (S : FBBlockSolver)
    (a : Option (ℚ → ℚ))
    (h : ∀ B ∈ S.blocks, B.nonlinear_adjuster = a ∧
      (a = none → ∀ E ∈ B.elements, E.strain = 0)) (k : Nat) :
    ∀ B ∈ (after_iterations ext S k).blocks, B.nonlinear_adjuster = a ∧
      (a = none → ∀ E ∈ B.elements, E.strain = 0) := by
  induction k with
  | zero => exact h
  | succ k ih =>
    rw [after_iterations_succ_last]
    exact iteration_block_adjusters ext _ a ih

theorem solve_start_block_adjusters (S : FBBlockSolver) :
    ∀ B ∈ (install_adjuster (solve_setup S)).blocks,
      B.nonlinear_adjuster = S.nonlinear_adjuster ∧
      (S.nonlinear_adjuster = none → ∀ E ∈ B.elements, E.strain = 0) := by
  intro B hB
  unfold install_adjuster at hB
  dsimp only at hB
  rw [List.mem_map] at hB
  obtain ⟨B0, hB0, rfl⟩ := hB
  refine ⟨rfl, ?_⟩
  intro _ E hE
  rw [solve_setup_blocks, List.mem_map] at hB0
  obtain ⟨Info0, _, rfl⟩ := hB0
  obtain ⟨c, _, _, hEq⟩ := FBBlock.setup_elements_mem _ E hE
  rw [hEq]

theorem do_iterations_adjuster (ext : External) (fuel : Nat) (S S1 : FBBlockSolver)
    (h : do_iterations ext fuel S = some S1) :
    S1.nonlinear_adjuster = S.nonlinear_adjuster := by
  obtain ⟨n, _, _, _, rfl⟩ := (do_iterations_some ext fuel S S1).mp h
  rw [after_iterations_adjuster]
  rfl

theorem solveNonlinear_adjuster (ext : External) (fuel : Nat) (step_size : ℚ)
    (num_steps n : Int) (S S1 : FBBlockSolver) (hs : 1 ≤ num_steps)
    (h : solveNonlinear ext fuel step_size num_steps n S = some S1) :
    S1.nonlinear_adjuster =
      some (MyNonlinearAdjuster.computeAdjustment ((1 / 100) / (step_size * (num_steps : ℚ)))) := by
  unfold solveNonlinear at h
  have hsplit : idxRange num_steps = idxRange (num_steps - 1) ++ [num_steps - 1] := by
    have := idxRange_succ (n := num_steps - 1) (by omega)
    rw [sub_add_cancel] at this
    exact this
  rw [hsplit, List.foldl_append, List.foldl_cons, List.foldl_nil] at h
  obtain ⟨S0, -, h0⟩ := Option.bind_eq_some.mp h
  have := do_iterations_adjuster ext fuel _ S1 h0
  rw [this, sub_add_cancel]
  rfl

/-- C33 (divergence of the code from the claim).  `solve()` installs in every block the
adjuster that the solver holds when it is called and keeps it through all its passes, and
the solver holds the same adjuster when `solve()` returns.  On a solver that holds none this
is the linear solve of the claim: no block has an adjuster and every element strain is
still `0` at the return.  But `solveNonlinear` with `num_steps >= 1` returns with the
adjuster of its last step still held by the solver (`m_nonlinear_adjuster` is never reset),
so the `solve()` at the start of a later `solveNonlinear` runs with that adjuster installed
in every block. -/
theorem solve_runs_with_held_adjuster (ext : External) (S : FBBlockSolver) :
    (∀ k : Nat,
      (after_iterations ext (install_adjuster (solve_setup S)) k).nonlinear_adjuster =
        S.nonlinear_adjuster ∧
      ∀ B ∈ (after_iterations ext (install_adjuster (solve_setup S)) k).blocks,
        B.nonlinear_adjuster = S.nonlinear_adjuster ∧
        (S.nonlinear_adjuster = none → ∀ E ∈ B.elements, E.strain = 0)) ∧
    (∀ (fuel : Nat) (S1 : FBBlockSolver), solve ext fuel S = some S1 →
      S1.nonlinear_adjuster = S.nonlinear_adjuster ∧
      ∀ B ∈ S1.blocks, B.nonlinear_adjuster = S.nonlinear_adjuster ∧
        (S.nonlinear_adjuster = none → ∀ E ∈ B.elements, E.strain = 0)) ∧
    (∀ (fuel : Nat) (step_size : ℚ) (num_steps n : Int) (S1 : FBBlockSolver),
      1 ≤ num_steps → solveNonlinear ext fuel step_size num_steps n S = some S1 →
      S1.nonlinear_adjuster =
        some (MyNonlinearAdjuster.computeAdjustment
          ((1 / 100) / (step_size * (num_steps : ℚ))))) := by
  have hk : ∀ k : Nat,
      (after_iterations ext (install_adjuster (solve_setup S)) k).nonlinear_adjuster =
        S.nonlinear_adjuster ∧
      ∀ B ∈ (after_iterations ext (install_adjuster (solve_setup S)) k).blocks,
        B.nonlinear_adjuster = S.nonlinear_adjuster ∧
        (S.nonlinear_adjuster = none → ∀ E ∈ B.elements, E.strain = 0) := by
    intro k
    refine ⟨by rw [after_iterations_adjuster]; rfl, ?_⟩
    exact after_iterations_block_adjusters ext _ _ (solve_start_block_adjusters S) k
  refine ⟨hk, ?_, ?_⟩
  · intro fuel S1 h
    rw [solve_eq] at h
    obtain ⟨n, _, _, _, rfl⟩ := (do_iterations_some ext fuel _ S1).mp h
    exact hk n
  · intro fuel step_size num_steps n S1 hs h
    exact solveNonlinear_adjuster ext fuel step_size num_steps n S S1 hs h

/-- Failing input for C33: the single clamped voxel with two threads.  After
`solveNonlinear(1, 1, 1)` and `setMaxIterations(3)`, the `solve()` that starts the next
`solveNonlinear` makes two passes with the adjuster installed in both blocks, and the
strain of the element of each block is `1`, not `0`, when it returns. -/
theorem second_solveNonlinear_starts_nonlinear :
    (((solveNonlinear example_external 10 1 1 1 clamped_voxel_solver).bind
      fun S1 => solve example_external 10 { S1 with max_iterations := 3 }).map
        fun S2 => (S2.num_iterations, S2.blocks.map fun B =>
          (B.nonlinear_adjuster.isSome, B.elements.map fun E => E.strain))) =
      some (3, [(true, [1]), (true, [1])]) := by decide!

theorem solve_runs_with_held_adjuster_witness :
    ∃ S1 S2 : FBBlockSolver,
      solveNonlinear example_external 10 1 1 1 (one_voxel_solver 1) = some S1 ∧
      solve example_external 10 S1 = some S2 ∧
      S2.blocks.length = 1 ∧
      ∀ B ∈ S2.blocks, B.nonlinear_adjuster =
        some (MyNonlinearAdjuster.computeAdjustment ((1 / 100) / (1 * ((1 : Int) : ℚ)))) := by
  have hsome : ((solveNonlinear example_external 10 1 1 1 (one_voxel_solver 1)).bind
      fun S1 => (solve example_external 10 S1).bind
        fun S2 => if S2.blocks.length = 1 then some S2 else none).isSome = true := by decide!
  obtain ⟨S2, h2⟩ := Option.isSome_iff_exists.mp hsome
  obtain ⟨S1, h1, h3⟩ := Option.bind_eq_some.mp h2
  obtain ⟨S2', h4, h5⟩ := Option.bind_eq_some.mp h3
  have hlen : S2'.blocks.length = 1 := by
    by_contra hne
    rw [if_neg hne] at h5
    exact absurd h5 (by simp)
  refine ⟨S1, S2', h1, h4, hlen, ?_⟩
  intro B hB
  have hadj := (solve_runs_with_held_adjuster example_external (one_voxel_solver 1)).2.2
    10 1 1 1 S1 (le_refl _) h1
  rw [← hadj]
  exact (((solve_runs_with_held_adjuster example_external S1).2.1 10 S2' h4).2 B hB).1

end FBBlockSolver

end FB

namespace FB

namespace FBBlock

theorem modify_at_append {α : Type} (f : α → α) (a : α) (rest : List α) :
    ∀ pre : List α, modify_at f (pre ++ a :: rest) pre.length = pre ++ f a :: rest := by
  intro pre
  induction pre with
  | nil => rfl
  | cons b pre ih =>
    show b :: modify_at f (pre ++ a :: rest) pre.length = b :: (pre ++ f a :: rest)
    rw [ih]

/-- The strain loop on an element list that is in the order of the scan: element `ct` is
the record of the `ct`-th voxel with nonzero BVF, so every record receives the strain
computed from the energy of its own voxel. -/
theorem update_strains_fold (sqrt : ℚ → ℚ) (B : FBBlock) (E : Int → Int → Int → ℚ)
    (s : Int → Int → Int → ℚ) :
    ∀ (l : List (Int × Int × Int)) (pre : List FBBlockElement),
      l.foldl
        (fun st c =>
          if B.bvf_map c.1 c.2.1 c.2.2 ≠ 0 then
            (st.1 + 1,
              modify_at
                (fun el =>
                  { el with
                    strain :=
                      sqrt (2 * abs (E c.1 c.2.1 c.2.2) /
                        (B.voxel_volume * B.youngs_modulus * ((el.bvf : ℚ) * 1 / 100))) })
                st.2 st.1)
          else st)
        (pre.length,
          pre ++ l.filterMap fun c =>
            if B.bvf_map c.1 c.2.1 c.2.2 ≠ 0 then
              some
                { ref_indices := element_refs B.variable_indices c.1 c.2.1 c.2.2
                  bvf := B.bvf_map c.1 c.2.1 c.2.2
                  strain := s c.1 c.2.1 c.2.2 }
            else none) =
      (pre.length + (l.filter fun c => decide (B.bvf_map c.1 c.2.1 c.2.2 ≠ 0)).length,
        pre ++ l.filterMap fun c =>
          if B.bvf_map c.1 c.2.1 c.2.2 ≠ 0 then
            some
              { ref_indices := element_refs B.variable_indices c.1 c.2.1 c.2.2
                bvf := B.bvf_map c.1 c.2.1 c.2.2
                strain :=
                  sqrt (2 * abs (E c.1 c.2.1 c.2.2) /
                    (B.voxel_volume * B.youngs_modulus *
                      ((B.bvf_map c.1 c.2.1 c.2.2 : ℚ) * 1 / 100))) }
          else none) := by
  intro l
  induction l with
  | nil => intro pre; simp
  | cons c l ih =>
    intro pre
    by_cases hb : B.bvf_map c.1 c.2.1 c.2.2 ≠ 0
    · rw [List.foldl_cons, List.filterMap_cons_some (by rw [if_pos hb]),
        List.filterMap_cons_some (by rw [if_pos hb]), List.filter_cons_of_pos (by simpa using hb)]
      dsimp only
      rw [if_pos hb, modify_at_append]
      have := ih (pre ++ [(⟨element_refs B.variable_indices c.1 c.2.1 c.2.2,
        B.bvf_map c.1 c.2.1 c.2.2,
        sqrt (2 * abs (E c.1 c.2.1 c.2.2) /
          (B.voxel_volume * B.youngs_modulus * ((B.bvf_map c.1 c.2.1 c.2.2 : ℚ) * 1 / 100)))⟩ :
        FBBlockElement)])
      simp only [List.length_append, List.length_singleton, List.append_assoc,
        List.singleton_append] at this
      rw [this]
      simp only [List.length_cons]
      refine Prod.ext ?_ rfl
      simp only
      omega
    · rw [List.foldl_cons, List.filterMap_cons_none (by rw [if_neg hb]),
        List.filterMap_cons_none (by rw [if_neg hb]),
        List.filter_cons_of_neg (by simpa using hb), if_neg hb]
      exact ih pre

theorem update_strains_eq (sqrt : ℚ → ℚ) (B : FBBlock) (E : Int → Int → Int → ℚ)
    (s : Int → Int → Int → ℚ) (hel : B.elements = strained_elements B s) :
    update_strains sqrt B E =
      strained_elements B fun xx yy zz =>
        sqrt (2 * abs (E xx yy zz) /
          (B.voxel_volume * B.youngs_modulus * ((B.bvf_map xx yy zz : ℚ) * 1 / 100))) := by
  unfold update_strains
  rw [hel]
  unfold strained_elements
  have := update_strains_fold sqrt B E s (scan3 (B.Nx + 1) (B.Ny + 1) (B.Nz + 1)) []
  simp only [List.length_nil, List.nil_append, zero_add] at this
  rw [this]

end FBBlock

end FB

namespace FB

namespace FBBlock

theorem strained_elements_congr (B1 B2 : FBBlock) (h : SameStatics B1 B2)
    (s : Int → Int → Int → ℚ) : strained_elements B2 s = strained_elements B1 s := by
  obtain ⟨_, _, _, _, _, _, _, hvi, hb, ⟨hx, hy, hz⟩, _⟩ := sameStatics_fields h
  unfold strained_elements
  rw [hvi, hb, hx, hy, hz]

theorem iterate_step_B_strains (sqrt : ℚ → ℚ) (B : FBBlock) (P : FBBlockIterateStepBParameters)
    (f : ℚ → ℚ) (s : Int → Int → Int → ℚ) (hadj : B.nonlinear_adjuster = some f)
    (hel : B.elements = strained_elements B s) :
    (iterate_step_B sqrt B P).1.elements =
      strained_elements (iterate_step_B sqrt B P).1 fun xx yy zz =>
        sqrt (strain_argument (iterate_step_B sqrt B P).1 xx yy zz) := by
  have hfold := foldl_step_B_update P.alpha P.beta (idxRange B.num_variables)
    (nodup_idxRange _) B
  unfold iterate_step_B
  dsimp only
  rw [hfold]
  dsimp only
  rw [hadj]
  dsimp only
  exact update_strains_eq sqrt _ _ s hel

theorem iterate_step_B_elements_linear (sqrt : ℚ → ℚ) (B : FBBlock)
    (P : FBBlockIterateStepBParameters) (s : Int → Int → Int → ℚ)
    (hel : B.elements = strained_elements B s) :
    ∃ s1 : Int → Int → Int → ℚ,
      (iterate_step_B sqrt B P).1.elements = strained_elements (iterate_step_B sqrt B P).1 s1 := by
  cases hadj : B.nonlinear_adjuster with
  | none =>
    obtain ⟨hs, he⟩ := iterate_step_B_sameStatics sqrt B P
    exact ⟨s, by rw [he hadj, strained_elements_congr B _ hs, hel]⟩
  | some f => exact ⟨_, iterate_step_B_strains sqrt B P f s hadj hel⟩

theorem setup_strained (P : FBBlockSetupParameters) :
    (setup P).1.elements = strained_elements (setup P).1 fun _ _ _ => 0 := by
  have hb : (setup P).1.bvf_map = P.BVF := by
    unfold setup
    dsimp only
    split_ifs <;> rfl
  obtain ⟨hvi, _, hx, hy, hz, _⟩ := setup_geometry P
  unfold strained_elements
  rw [hb, hx, hy, hz]
  by_cases hn : (assign_variable_indices P (vertex_occupancy P)).1 = 0
  · have he : (setup P).1.elements = [] := by
      unfold setup
      dsimp only
      rw [if_pos hn]
      rfl
    rw [he]
    symm
    rw [List.filterMap_eq_nil_iff]
    intro c hc
    by_cases hbv : P.BVF c.1 c.2.1 c.2.2 ≠ 0
    · exact absurd hn (setup_num_variables_ne_zero P c.1 c.2.1 c.2.2 hc hbv)
    · rw [if_neg hbv]
  · rw [setup_elements_field P hn]
    rfl

theorem computeEnergyMap_quadratic (B : FBBlock) (xx yy zz : Int)
    (hc : (xx, yy, zz) ∈ scan3 (B.Nx + 1) (B.Ny + 1) (B.Nz + 1))
    (hb : B.bvf_map xx yy zz ≠ 0) :
    computeEnergyMap B xx yy zz =
      -(1 / 2) * ((B.bvf_map xx yy zz : ℚ) / 100) * quadratic_form B xx yy zz := by
  rw [computeEnergyMap_apply, if_pos ⟨hc, by
    unfold is_element
    exact decide_eq_true (Nat.pos_of_ne_zero hb)⟩, element_energy_eq]
  rfl

theorem strain_identities (V Y b e Q t : ℚ) (hVY : 0 < V * Y) (hb : 0 < b)
    (he : e = -(1 / 2) * (b / 100) * Q) (ht : t * t = 2 * abs e / (V * Y * (b * 1 / 100))) :
    t ^ 2 * V * Y * (b / 100) = 2 * abs e ∧ t ^ 2 = abs Q / (V * Y) := by
  have hVY0 : V * Y ≠ 0 := ne_of_gt hVY
  have hb0 : b ≠ 0 := ne_of_gt hb
  have habs : abs e = 1 / 2 * (b / 100) * abs Q := by
    rw [he, abs_mul, abs_mul, abs_neg, abs_of_pos (by norm_num : (0 : ℚ) < 1 / 2),
      abs_of_pos (by positivity : (0 : ℚ) < b / 100)]
  constructor
  · rw [pow_two, ht]
    field_simp
    ring
  · rw [pow_two, ht, habs]
    field_simp
    ring

end FBBlock

end FB

namespace FB

namespace FBBlock

/-- C32, amended. Strain update.  The element list of a block is always in the order of the
scan: after `setup`, and after every `iterate_step_A`, `iterate_step_B` and
`setNonlinearAdjuster`, the `k`-th element is the record of the `k`-th voxel with nonzero
BVF in the scan order `zz`, `yy`, `xx`.  After `iterate_step_B` with an adjuster installed
the strain stored in the element of the voxel `(xx, yy, zz)` is
`sqrt(2*|e| / (V*E*(bvf/100)))`, with `e` the entry of that voxel in the energy map of the
just-updated `x`.  Hence, when `V*E > 0` and `sqrt` returns the non-negative square root of
that argument, the strain is `>= 0` and satisfies `strain^2 * V * E * (bvf/100) = 2*|e|` and
`strain^2 = |X^T K X| / (V*E)`. -/
theorem strain_update (sqrt : ℚ → ℚ) :
    (∀ P : FBBlockSetupParameters,
      (setup P).1.elements = strained_elements (setup P).1 fun _ _ _ => 0) ∧
    (∀ (B : FBBlock) (s : Int → Int → Int → ℚ) (a : Option (ℚ → ℚ)),
      B.elements = strained_elements B s →
      (setNonlinearAdjuster B a).elements = strained_elements (setNonlinearAdjuster B a) s) ∧
    (∀ (B : FBBlock) (s : Int → Int → Int → ℚ) (PA : FBBlockIterateStepAParameters),
      B.elements = strained_elements B s →
      (iterate_step_A B PA).1.elements = strained_elements (iterate_step_A B PA).1 s ∧
      (iterate_step_A B PA).1.nonlinear_adjuster = B.nonlinear_adjuster) ∧
    (∀ (B : FBBlock) (s : Int → Int → Int → ℚ) (PB : FBBlockIterateStepBParameters),
      B.elements = strained_elements B s →
      ∃ s1 : Int → Int → Int → ℚ,
        (iterate_step_B sqrt B PB).1.elements =
          strained_elements (iterate_step_B sqrt B PB).1 s1) ∧
    (∀ (B : FBBlock) (s : Int → Int → Int → ℚ) (f : ℚ → ℚ)
        (PB : FBBlockIterateStepBParameters),
      B.elements = strained_elements B s → B.nonlinear_adjuster = some f →
      (iterate_step_B sqrt B PB).1.elements =
        strained_elements (iterate_step_B sqrt B PB).1 (fun xx yy zz =>
          sqrt (strain_argument (iterate_step_B sqrt B PB).1 xx yy zz)) ∧
      ∀ xx yy zz : Int,
        (xx, yy, zz) ∈ scan3 ((iterate_step_B sqrt B PB).1.Nx + 1)
          ((iterate_step_B sqrt B PB).1.Ny + 1) ((iterate_step_B sqrt B PB).1.Nz + 1) →
        (iterate_step_B sqrt B PB).1.bvf_map xx yy zz ≠ 0 →
        0 < (iterate_step_B sqrt B PB).1.voxel_volume *
          (iterate_step_B sqrt B PB).1.youngs_modulus →
        (0 ≤ sqrt (strain_argument (iterate_step_B sqrt B PB).1 xx yy zz) ∧
          sqrt (strain_argument (iterate_step_B sqrt B PB).1 xx yy zz) *
              sqrt (strain_argument (iterate_step_B sqrt B PB).1 xx yy zz) =
            strain_argument (iterate_step_B sqrt B PB).1 xx yy zz) →
        0 ≤ sqrt (strain_argument (iterate_step_B sqrt B PB).1 xx yy zz) ∧
        sqrt (strain_argument (iterate_step_B sqrt B PB).1 xx yy zz) ^ 2 *
            (iterate_step_B sqrt B PB).1.voxel_volume *
            (iterate_step_B sqrt B PB).1.youngs_modulus *
            (((iterate_step_B sqrt B PB).1.bvf_map xx yy zz : ℚ) / 100) =
          2 * abs (computeEnergyMap (iterate_step_B sqrt B PB).1 xx yy zz) ∧
        sqrt (strain_argument (iterate_step_B sqrt B PB).1 xx yy zz) ^ 2 =
          abs (quadratic_form (iterate_step_B sqrt B PB).1 xx yy zz) /
            ((iterate_step_B sqrt B PB).1.voxel_volume *
              (iterate_step_B sqrt B PB).1.youngs_modulus)) := by
  refine ⟨setup_strained, ?_, ?_, ?_, ?_⟩
  · intro B s a hel
    exact hel
  · intro B s PA hel
    obtain ⟨hs, he⟩ := step_A_vectors_sameStatics B PA
    rw [iterate_step_A_fst, he, strained_elements_congr B _ hs, hel]
    exact ⟨rfl, (sameStatics_fields hs).2.2.2.2.1⟩
  · intro B s PB hel
    exact iterate_step_B_elements_linear sqrt B PB s hel
  · intro B s f PB hel hadj
    refine ⟨iterate_step_B_strains sqrt B PB f s hadj hel, ?_⟩
    intro xx yy zz hc hb hVY hsq
    have he := computeEnergyMap_quadratic (iterate_step_B sqrt B PB).1 xx yy zz hc hb
    have hbpos : (0 : ℚ) < ((iterate_step_B sqrt B PB).1.bvf_map xx yy zz : ℚ) := by
      exact_mod_cast Nat.pos_of_ne_zero hb
    have := strain_identities (iterate_step_B sqrt B PB).1.voxel_volume
      (iterate_step_B sqrt B PB).1.youngs_modulus
      ((iterate_step_B sqrt B PB).1.bvf_map xx yy zz : ℚ)
      (computeEnergyMap (iterate_step_B sqrt B PB).1 xx yy zz)
      (quadratic_form (iterate_step_B sqrt B PB).1 xx yy zz)
      (sqrt (strain_argument (iterate_step_B sqrt B PB).1 xx yy zz)) hVY hbpos he
      (by rw [hsq.2]; rfl)
    exact ⟨hsq.1, this.1, this.2⟩

end FBBlock

end FB

namespace FB

namespace FBBlockSolver

/-- C32, refuted as stated: the single voxel with every variable fixed and Young's modulus
set to `0` (`setYoungsModulus(0)`; nothing checks the value).  After one `iterate_step_A`
and `iterate_step_B` with an adjuster installed, the energy of the element is `-1/2`, so
`2*|e| = 1`, while `strain^2 * V * E * (bvf/100)` is `0` (as it is for every value of the
strain, since `E = 0`). -/
theorem strain_relation_fails_without_stiffness :
    (strained_block 0).youngs_modulus = 0 ∧
    (strained_block 0).elements.map
      (fun E => E.strain ^ 2 * (strained_block 0).voxel_volume *
        (strained_block 0).youngs_modulus * ((E.bvf : ℚ) / 100)) = [0] ∧
    2 * abs (FBBlock.computeEnergyMap (strained_block 0) 2 2 1) = 1 := by
  refine ⟨?_, ?_, ?_⟩ <;> decide!

theorem strain_update_witness :
    (strained_block 1).elements.map (fun E => E.strain) = [1] ∧
    (fun q : ℚ => q) (FBBlock.strain_argument (strained_block 1) 2 2 1) ^ 2 *
        (strained_block 1).voxel_volume * (strained_block 1).youngs_modulus *
        (((strained_block 1).bvf_map 2 2 1 : ℚ) / 100) =
      2 * abs (FBBlock.computeEnergyMap (strained_block 1) 2 2 1) := by
  have hel := ((FBBlock.strain_update (fun q => q)).2.2.1 _ _ {}
    (((FBBlock.strain_update (fun q => q)).2.1 _ _ (some fun _ => 1)
      ((FBBlock.strain_update (fun q => q)).1 (setup_parameters
        { one_voxel_solver 1 with
          fixed_variables := fun _ _ _ _ => 1
          youngs_modulus := 1 }
        one_voxel_slab))))).1
  have h := ((FBBlock.strain_update (fun q => q)).2.2.2.2 _ _ (fun _ => 1) {} hel rfl).2
    2 2 1 (by decide!) (by decide!) (by decide!) ⟨by decide!, by decide!⟩
  refine ⟨by decide!, ?_⟩
  unfold strained_block
  exact h.2.1

end FBBlockSolver

end FB

namespace FB

namespace FBBlock

theorem setup_vertex_outer (P : FBBlockSetupParameters) (occ : Int → Int → Int → Nat)
    (vi : Int → Int → Int → Int) (s : SetupArrays) (c : Int × Int × Int)
    (hv : occ c.1 c.2.1 c.2.2 ≠ 0 → 0 ≤ vi c.1 c.2.1 c.2.2) :
    (setup_vertex P occ vi s c).outer_vertex_locations =
      if occ c.1 c.2.1 c.2.2 ≠ 0 ∧ vertex_class P.Nx P.Ny P.Nz c.1 c.2.1 c.2.2 = 3 then
        s.outer_vertex_locations ++ [⟨c.1, c.2.1, c.2.2, vi c.1 c.2.1 c.2.2⟩]
      else s.outer_vertex_locations := by
  unfold setup_vertex
  by_cases ho : occ c.1 c.2.1 c.2.2 ≠ 0
  · have hv0 := hv ho
    rw [if_pos ho, idxRange_three]
    simp only [List.foldl_cons, List.foldl_nil]
    rw [setup_variable_eq P vi c.1 c.2.1 c.2.2 s 0 (by omega)]
    rw [setup_variable_eq P vi c.1 c.2.1 c.2.2 _ 1 (by omega)]
    rw [setup_variable_eq P vi c.1 c.2.1 c.2.2 _ 2 (by omega)]
    simp only [add_zero, and_true, one_ne_zero, and_false, if_false, OfNat.ofNat_ne_zero]
    by_cases hc : vertex_class P.Nx P.Ny P.Nz c.1 c.2.1 c.2.2 = 3
    · rw [if_pos hc, if_pos ⟨ho, hc⟩]
    · rw [if_neg hc, if_neg (fun h => hc h.2)]
  · rw [if_neg ho, if_neg (fun h => ho h.1)]

theorem setup_arrays_outer (P : FBBlockSetupParameters) (occ : Int → Int → Int → Nat)
    (vi : Int → Int → Int → Int) :
    ∀ (l : List (Int × Int × Int)) (s0 : SetupArrays),
      (∀ c ∈ l, occ c.1 c.2.1 c.2.2 ≠ 0 → 0 ≤ vi c.1 c.2.1 c.2.2) →
      (l.foldl (setup_vertex P occ vi) s0).outer_vertex_locations =
        s0.outer_vertex_locations ++ l.filterMap fun c =>
          if occ c.1 c.2.1 c.2.2 ≠ 0 ∧ vertex_class P.Nx P.Ny P.Nz c.1 c.2.1 c.2.2 = 3 then
            some (⟨c.1, c.2.1, c.2.2, vi c.1 c.2.1 c.2.2⟩ : FBVertexLocation)
          else none := by
  intro l
  induction l with
  | nil => intro s0 _; simp
  | cons a l ih =>
    intro s0 hnn
    rw [List.foldl_cons, ih _ (fun c hc => hnn c (List.mem_cons_of_mem _ hc)),
      setup_vertex_outer P occ vi s0 a (hnn a (List.mem_cons_self _ _))]
    by_cases hc : occ a.1 a.2.1 a.2.2 ≠ 0 ∧ vertex_class P.Nx P.Ny P.Nz a.1 a.2.1 a.2.2 = 3
    · rw [if_pos hc, List.filterMap_cons_some (by rw [if_pos hc]), List.append_assoc]
      rfl
    · rw [if_neg hc, List.filterMap_cons_none (by rw [if_neg hc])]

theorem setup_outer_field (P : FBBlockSetupParameters) :
    (setup P).1.outer_vertex_locations =
      (setup_arrays P (vertex_occupancy P)
        (assign_variable_indices P (vertex_occupancy P)).2).outer_vertex_locations := by
  by_cases hn : (assign_variable_indices P (vertex_occupancy P)).1 = 0
  · have h0 : (setup P).1.outer_vertex_locations = [] := by
      unfold setup
      dsimp only
      rw [if_pos hn]
      rfl
    rw [h0]
    unfold setup_arrays
    rw [setup_arrays_outer P _ _ _ _
      (fun c _ hoc => ((assign_variable_indices_spec P).1 c.1 c.2.1 c.2.2 hoc).1)]
    symm
    dsimp only
    rw [List.nil_append, List.filterMap_eq_nil_iff]
    intro c _
    have hocc := ((assign_variable_indices_spec P).2.2.2.mp hn) c.1 c.2.1 c.2.2
    rw [if_neg (fun h => h.1 hocc)]
  · unfold setup
    dsimp only
    rw [if_neg hn]
    split_ifs <;> rfl

theorem setup_outer_locations (P : FBBlockSetupParameters) (VL : FBVertexLocation) :
    VL ∈ (setup P).1.outer_vertex_locations ↔
      vertex_occupancy P VL.x VL.y VL.z ≠ 0 ∧
        vertex_class P.Nx P.Ny P.Nz VL.x VL.y VL.z = 3 ∧
        VL.ref_index = (setup P).1.variable_indices VL.x VL.y VL.z := by
  rw [setup_outer_field, (setup_geometry P).1]
  unfold setup_arrays
  rw [setup_arrays_outer P _ _ _ _
    (fun c _ hoc => ((assign_variable_indices_spec P).1 c.1 c.2.1 c.2.2 hoc).1)]
  dsimp only
  rw [List.nil_append, List.mem_filterMap]
  constructor
  · rintro ⟨c, _, h⟩
    by_cases hc : vertex_occupancy P c.1 c.2.1 c.2.2 ≠ 0 ∧
        vertex_class P.Nx P.Ny P.Nz c.1 c.2.1 c.2.2 = 3
    · rw [if_pos hc] at h
      have := Option.some.inj h
      rw [← this]
      exact ⟨hc.1, hc.2, rfl⟩
    · rw [if_neg hc] at h
      exact absurd h (by simp)
  · rintro ⟨ho, hc, hr⟩
    refine ⟨(VL.x, VL.y, VL.z), vertex_occupancy_in_box P _ _ _ ho, ?_⟩
    dsimp only
    rw [if_pos ⟨ho, hc⟩, ← hr]

end FBBlock

end FB

namespace FB

namespace FBBlock

theorem write_outer_vertex (free : Int → Nat) (Nz : Int) (P : FBBlockIterateStepAParameters)
    (a : FBVertexLocation) (p : Vec) (j : Int) :
    ((idxRange 3).foldl
      (fun p dd =>
        if free (a.ref_index + dd) ≠ 0 then
          if a.z = 0 then
            Function.update p (a.ref_index + dd)
              (P.p_on_top_outer_interface dd (a.x - 1) (a.y - 1))
          else if a.z = Nz + 1 then
            Function.update p (a.ref_index + dd)
              (P.p_on_bottom_outer_interface dd (a.x - 1) (a.y - 1))
          else p
        else p) p) j =
      if (0 ≤ j - a.ref_index ∧ j - a.ref_index < 3) ∧ free j ≠ 0 ∧
          (a.z = 0 ∨ a.z = Nz + 1) then
        (if a.z = 0 then P.p_on_top_outer_interface (j - a.ref_index) (a.x - 1) (a.y - 1)
          else P.p_on_bottom_outer_interface (j - a.ref_index) (a.x - 1) (a.y - 1))
      else p j := by
  have hstep : ∀ (p : Vec) (dd : Int),
      (if free (a.ref_index + dd) ≠ 0 then
          if a.z = 0 then
            Function.update p (a.ref_index + dd)
              (P.p_on_top_outer_interface dd (a.x - 1) (a.y - 1))
          else if a.z = Nz + 1 then
            Function.update p (a.ref_index + dd)
              (P.p_on_bottom_outer_interface dd (a.x - 1) (a.y - 1))
          else p
        else p) =
      (fun (p : Vec) (ii : Int) =>
        if free ii ≠ 0 ∧ (a.z = 0 ∨ a.z = Nz + 1) then
          Function.update p ii
            (if a.z = 0 then P.p_on_top_outer_interface (ii - a.ref_index) (a.x - 1) (a.y - 1)
              else P.p_on_bottom_outer_interface (ii - a.ref_index) (a.x - 1) (a.y - 1))
        else p) p (a.ref_index + dd) := by
    intro p dd
    dsimp only
    rw [add_sub_cancel_left]
    by_cases hf : free (a.ref_index + dd) ≠ 0
    · by_cases h0 : a.z = 0
      · rw [if_pos hf, if_pos h0, if_pos ⟨hf, Or.inl h0⟩, if_pos h0]
      · by_cases h1 : a.z = Nz + 1
        · rw [if_pos hf, if_neg h0, if_pos h1, if_pos ⟨hf, Or.inr h1⟩, if_neg h0]
        · rw [if_pos hf, if_neg h0, if_neg h1, if_neg (fun h => h.2.elim h0 h1)]
    · rw [if_neg hf, if_neg (fun h => hf h.1)]
  simp only [hstep]
  rw [← List.foldl_map (fun dd => a.ref_index + dd)
    (fun (p : Vec) (ii : Int) =>
      if free ii ≠ 0 ∧ (a.z = 0 ∨ a.z = Nz + 1) then
        Function.update p ii
          (if a.z = 0 then P.p_on_top_outer_interface (ii - a.ref_index) (a.x - 1) (a.y - 1)
            else P.p_on_bottom_outer_interface (ii - a.ref_index) (a.x - 1) (a.y - 1))
      else p)]
  rw [foldl_cond_update (fun ii => free ii ≠ 0 ∧ (a.z = 0 ∨ a.z = Nz + 1))
    (fun ii => if a.z = 0 then P.p_on_top_outer_interface (ii - a.ref_index) (a.x - 1) (a.y - 1)
      else P.p_on_bottom_outer_interface (ii - a.ref_index) (a.x - 1) (a.y - 1)) j]
  have hmem : j ∈ (idxRange 3).map (fun dd => a.ref_index + dd) ↔
      (0 ≤ j - a.ref_index ∧ j - a.ref_index < 3) := by
    rw [List.mem_map]
    constructor
    · rintro ⟨dd, hdd, rfl⟩
      have := mem_idxRange.mp hdd
      omega
    · intro h
      exact ⟨j - a.ref_index, mem_idxRange.mpr h, by ring⟩
  simp only [hmem]

theorem foldl_write_outer (free : Int → Nat) (Nz : Int) (P : FBBlockIterateStepAParameters)
    (p0 : Vec) :
    ∀ L : List FBVertexLocation,
      (∀ VL1 ∈ L, ∀ VL2 ∈ L, ∀ j : Int, (0 ≤ j - VL1.ref_index ∧ j - VL1.ref_index < 3) →
        (0 ≤ j - VL2.ref_index ∧ j - VL2.ref_index < 3) → VL1 = VL2) →
      ∀ VL ∈ L, ∀ j : Int, (0 ≤ j - VL.ref_index ∧ j - VL.ref_index < 3) → free j ≠ 0 →
        (VL.z = 0 ∨ VL.z = Nz + 1) →
        (L.foldl
          (fun p VL =>
            (idxRange 3).foldl
              (fun p dd =>
                if free (VL.ref_index + dd) ≠ 0 then
                  if VL.z = 0 then
                    Function.update p (VL.ref_index + dd)
                      (P.p_on_top_outer_interface dd (VL.x - 1) (VL.y - 1))
                  else if VL.z = Nz + 1 then
                    Function.update p (VL.ref_index + dd)
                      (P.p_on_bottom_outer_interface dd (VL.x - 1) (VL.y - 1))
                  else p
                else p) p) p0) j =
          if VL.z = 0 then P.p_on_top_outer_interface (j - VL.ref_index) (VL.x - 1) (VL.y - 1)
          else P.p_on_bottom_outer_interface (j - VL.ref_index) (VL.x - 1) (VL.y - 1) := by
  intro L
  induction L using List.reverseRecOn with
  | nil => intro _ VL hVL; exact absurd hVL (List.not_mem_nil _)
  | append_singleton l a ih =>
    intro hU VL hVL j hj hf hz
    rw [List.foldl_append, List.foldl_cons, List.foldl_nil, write_outer_vertex]
    by_cases hc : (0 ≤ j - a.ref_index ∧ j - a.ref_index < 3) ∧ free j ≠ 0 ∧
        (a.z = 0 ∨ a.z = Nz + 1)
    · rw [if_pos hc]
      have ha : a = VL := hU a (List.mem_append_right _ (List.mem_singleton_self a)) VL hVL
        j hc.1 hj
      rw [ha]
    · rw [if_neg hc]
      have hVL' : VL ∈ l := by
        rcases List.mem_append.mp hVL with h | h
        · exact h
        · exfalso
          rw [List.mem_singleton] at h
          rw [h] at hj hz
          exact hc ⟨hj, hf, hz⟩
      exact ih (fun V1 h1 V2 h2 => hU V1 (List.mem_append_left _ h1) V2
        (List.mem_append_left _ h2)) VL hVL' j hj hf hz

end FBBlock

end FB

namespace FB

namespace FBBlock

theorem setup_outer_disjoint (P : FBBlockSetupParameters) :
    ∀ VL1 ∈ (setup P).1.outer_vertex_locations, ∀ VL2 ∈ (setup P).1.outer_vertex_locations,
      ∀ j : Int, (0 ≤ j - VL1.ref_index ∧ j - VL1.ref_index < 3) →
        (0 ≤ j - VL2.ref_index ∧ j - VL2.ref_index < 3) → VL1 = VL2 := by
  intro VL1 h1 VL2 h2 j hj1 hj2
  obtain ⟨ho1, _, hr1⟩ := (setup_outer_locations P VL1).mp h1
  obtain ⟨ho2, _, hr2⟩ := (setup_outer_locations P VL2).mp h2
  rw [(setup_geometry P).1] at hr1 hr2
  by_cases hn : (VL1.x, VL1.y, VL1.z) = (VL2.x, VL2.y, VL2.z)
  · simp only [Prod.mk.injEq] at hn
    obtain ⟨e1, e2, e3⟩ := hn
    have e4 : VL1.ref_index = VL2.ref_index := by rw [hr1, hr2, e1, e2, e3]
    cases VL1
    cases VL2
    simp only at e1 e2 e3 e4
    rw [e1, e2, e3, e4]
  · have hsep := (assign_variable_indices_spec P).2.2.1 _ _ _ _ _ _ ho1 ho2 hn
    omega

/-- The loop of `iterate_step_A` over the outer vertex locations, on any later state of a
block that was set up from `P`: a free variable of an active node of vertex class 3 at local
`z = 0` receives the entry of the top slice, and at local `z = Nz + 1` that of the bottom
slice. -/
theorem write_outer_interface_setup (P : FBBlockSetupParameters) (B : FBBlock)
    (hs : SameStatics (setup P).1 B) (PA : FBBlockIterateStepAParameters) (xx yy zz dd : Int)
    (ho : vertex_occupancy P xx yy zz ≠ 0)
    (hc : vertex_class P.Nx P.Ny P.Nz xx yy zz = 3) (h0 : 0 ≤ dd) (h3 : dd < 3)
    (hf : (setup P).1.free ((setup P).1.variable_indices xx yy zz + dd) ≠ 0)
    (hz : zz = 0 ∨ zz = P.Nz + 1) :
    write_outer_interface B PA ((setup P).1.variable_indices xx yy zz + dd) =
      if zz = 0 then PA.p_on_top_outer_interface dd (xx - 1) (yy - 1)
      else PA.p_on_bottom_outer_interface dd (xx - 1) (yy - 1) := by
  obtain ⟨hfree, _, _, _, _, hout, _, _, _, ⟨_, _, hNz⟩, _⟩ := sameStatics_fields hs
  have hmem : (⟨xx, yy, zz, (setup P).1.variable_indices xx yy zz⟩ : FBVertexLocation) ∈
      (setup P).1.outer_vertex_locations :=
    (setup_outer_locations P _).mpr ⟨ho, hc, rfl⟩
  have h := foldl_write_outer (setup P).1.free P.Nz PA B.p (setup P).1.outer_vertex_locations
    (setup_outer_disjoint P) _ hmem ((setup P).1.variable_indices xx yy zz + dd)
    (by dsimp only; omega) hf hz
  dsimp only at h
  rw [add_sub_cancel_left] at h
  unfold write_outer_interface
  rw [hout, hfree, hNz, (setup_geometry P).2.2.2.2.1]
  exact h

end FBBlock

namespace FBBlockSolver

/-- The local position of an active node of a block built by `solve()`: inside the `x` and
`y` rings, in the node layers `0..Nz+1`; at `z = 0` only when the slab does not start at
slice 0, and at `z = Nz + 1` only when the slab ends before slice `N3`. -/
theorem solver_block_active_range (S : FBBlockSolver) (b : BlockInfo)
    (hext : b.xmin = -1 ∧ b.xmax = S.bvf_map.N1 + 1 ∧ b.ymin = -1 ∧ b.ymax = S.bvf_map.N2 + 1)
    (xx yy zz : Int) (ho : FBBlock.vertex_occupancy (setup_parameters S b) xx yy zz ≠ 0) :
    (2 ≤ xx ∧ xx ≤ (setup_parameters S b).Nx - 1) ∧
    (2 ≤ yy ∧ yy ≤ (setup_parameters S b).Ny - 1) ∧
    (0 ≤ zz ∧ zz ≤ (setup_parameters S b).Nz + 1) ∧
    (zz = 0 → 1 ≤ b.zmin) ∧ (zz = (setup_parameters S b).Nz + 1 → b.zmax < S.bvf_map.N3) := by
  obtain ⟨v, hv, hb, h1, h2, h3⟩ := (FBBlock.vertex_occupancy_ne_zero _ xx yy zz).mp ho
  have hPx : (setup_parameters S b).Nx = b.xmax - b.xmin + 1 := rfl
  have hPy : (setup_parameters S b).Ny = b.ymax - b.ymin + 1 := rfl
  have hPz : (setup_parameters S b).Nz = b.zmax - b.zmin + 1 := rfl
  rw [mem_scan3, hPx, hPy, hPz] at hv
  have hb' : (setup_parameters S b).BVF v.1 v.2.1 v.2.2 =
      S.bvf_map.value (v.1 + (b.xmin - 1)) (v.2.1 + (b.ymin - 1)) (v.2.2 + (b.zmin - 1)) := by
    show (if _ then _ else _) = _
    rw [if_pos]
    exact ⟨hv.1.1, by omega, hv.2.1.1, by omega, hv.2.2.1, by omega⟩
  rw [hb'] at hb
  have hrange := BVFMap.value_pos_range _ _ _ _ (Nat.pos_of_ne_zero hb)
  obtain ⟨e1, e2, e3, e4⟩ := hext
  rw [hPx, hPy, hPz]
  rw [e1] at hrange
  rw [e3] at hrange
  refine ⟨by omega, by omega, by omega, ?_, ?_⟩
  · intro hz
    omega
  · intro hz
    omega

theorem vertex_class_three_iff (Nx Ny Nz xx yy zz : Int) (hx : 2 ≤ xx ∧ xx ≤ Nx - 1)
    (hy : 2 ≤ yy ∧ yy ≤ Ny - 1) (hz : 0 ≤ zz ∧ zz ≤ Nz + 1) :
    FBBlock.vertex_class Nx Ny Nz xx yy zz = 3 ↔ zz = 0 ∨ zz = Nz + 1 := by
  unfold FBBlock.vertex_class
  split_ifs with h1 h2
  · have : (1 : Nat) ≠ 3 := by decide
    simp only [this, false_iff]; omega
  · have : (2 : Nat) ≠ 3 := by decide
    simp only [this, false_iff]; omega
  · simp only [true_iff]; omega

theorem stage_interfaces_slices (S : FBBlockSolver) (i : Nat) (hi : i < S.blocks.length) :
    (1 ≤ i →
      ((stage_interfaces S).getD i {}).p_on_top_outer_interface =
        (S.block_infos.getD (i - 1) default).p_on_bottom_inner_interface) ∧
    (i + 1 < S.blocks.length →
      ((stage_interfaces S).getD i {}).p_on_bottom_outer_interface =
        (S.block_infos.getD (i + 1) default).p_on_top_inner_interface) := by
  unfold stage_interfaces
  rw [getD_map_range _ _ _ _ hi]
  dsimp only
  constructor
  · intro h1
    have hge : (i : Int) - 1 ≥ 0 := by omega
    rw [if_pos hge]
    split_ifs <;> rfl
  · intro h2
    rw [if_pos h2]

end FBBlockSolver

end FB

namespace FB

namespace FBBlockSolver

/-- C31. Only z-layers need exchange.  For every BVF map with `N3 >= 0` and every
`num_threads >= 1`, in every block built by `solve()`: every active node has local
coordinates `2 <= xx <= Nx-1`, `2 <= yy <= Ny-1` and `0 <= zz <= Nz+1`, so a variable of
the node has `vertex_type` 3 iff the node is at local `z = 0` or `z = Nz+1`; in every later
state of the block `iterate_step_A` assigns to every free variable of that kind the entry
`(dd, xx-1, yy-1)` of the top outer slice (at `z = 0`) or of the bottom outer slice (at
`z = Nz+1`), and the loop stages in these slices the bottom inner slice of the previous
block and the top inner slice of the next block.  A block has an active node at local
`z = 0` only if its slab starts after slice 0 and one at `z = Nz+1` only if its slab ends
before slice `N3`; the first slab starts at slice 0 and the last ends at slice `N3`. -/
theorem only_z_layers_exchange (S : FBBlockSolver) (hT : 1 ≤ S.num_threads)
    (hN : 0 ≤ S.bvf_map.N3) :
    (∀ b0 : BlockInfo,
      (solve_block_infos S.bvf_map.N1 S.bvf_map.N2 S.bvf_map.N3 (slice_vertex_count S.bvf_map)
        S.num_threads).head? = some b0 → b0.zmin = 0) ∧
    (∀ b1 : BlockInfo,
      (solve_block_infos S.bvf_map.N1 S.bvf_map.N2 S.bvf_map.N3 (slice_vertex_count S.bvf_map)
        S.num_threads).getLast? = some b1 → b1.zmax = S.bvf_map.N3) ∧
    (∀ b ∈ solve_block_infos S.bvf_map.N1 S.bvf_map.N2 S.bvf_map.N3
        (slice_vertex_count S.bvf_map) S.num_threads,
      ∀ xx yy zz : Int,
        0 ≤ (FBBlock.setup (setup_parameters S b)).1.variable_indices xx yy zz →
        (2 ≤ xx ∧ xx ≤ (setup_parameters S b).Nx - 1) ∧
        (2 ≤ yy ∧ yy ≤ (setup_parameters S b).Ny - 1) ∧
        (0 ≤ zz ∧ zz ≤ (setup_parameters S b).Nz + 1) ∧
        (zz = 0 → 1 ≤ b.zmin) ∧
        (zz = (setup_parameters S b).Nz + 1 → b.zmax < S.bvf_map.N3) ∧
        ∀ dd : Int, 0 ≤ dd → dd < 3 →
          ((FBBlock.setup (setup_parameters S b)).1.vertex_type
              ((FBBlock.setup (setup_parameters S b)).1.variable_indices xx yy zz + dd) = 3 ↔
            zz = 0 ∨ zz = (setup_parameters S b).Nz + 1) ∧
          ∀ (sqrt : ℚ → ℚ)
            (l : List (FBBlockIterateStepAParameters × FBBlockIterateStepBParameters))
            (PA : FBBlockIterateStepAParameters),
            (FBBlock.setup (setup_parameters S b)).1.vertex_type
              ((FBBlock.setup (setup_parameters S b)).1.variable_indices xx yy zz + dd) = 3 →
            (FBBlock.setup (setup_parameters S b)).1.free
              ((FBBlock.setup (setup_parameters S b)).1.variable_indices xx yy zz + dd) ≠ 0 →
            (FBBlock.iterate_step_A
                (FBBlock.run_steps sqrt l (FBBlock.setup (setup_parameters S b)).1) PA).1.p
              ((FBBlock.setup (setup_parameters S b)).1.variable_indices xx yy zz + dd) =
              if zz = 0 then PA.p_on_top_outer_interface dd (xx - 1) (yy - 1)
              else PA.p_on_bottom_outer_interface dd (xx - 1) (yy - 1)) ∧
    (∀ (S1 : FBBlockSolver) (i : Nat), i < S1.blocks.length →
      (1 ≤ i →
        ((stage_interfaces S1).getD i {}).p_on_top_outer_interface =
          (S1.block_infos.getD (i - 1) default).p_on_bottom_inner_interface) ∧
      (i + 1 < S1.blocks.length →
        ((stage_interfaces S1).getD i {}).p_on_bottom_outer_interface =
          (S1.block_infos.getD (i + 1) default).p_on_top_inner_interface)) := by
  obtain ⟨hchain, _, hlast⟩ := solve_block_infos_chain S.bvf_map.N1 S.bvf_map.N2
    S.bvf_map.N3 (slice_vertex_count S.bvf_map) S.num_threads hT hN
  refine ⟨?_, ?_, ?_, stage_interfaces_slices⟩
  · intro b0 h0
    generalize solve_block_infos S.bvf_map.N1 S.bvf_map.N2 S.bvf_map.N3
      (slice_vertex_count S.bvf_map) S.num_threads = infos at hchain h0
    cases infos with
    | nil => exact absurd h0 (by simp)
    | cons a l =>
      simp only [List.head?_cons, Option.some.injEq] at h0
      rw [← h0]
      exact hchain.1
  · intro b1 h1
    rw [← lastZ_getLast _ 0 b1 h1, hlast]
  · intro b hb xx yy zz hact
    have ho := (FBBlock.setup_index_nonneg_iff _ xx yy zz).mp hact
    have hext := solve_block_infos_extent _ _ _ _ _ b hb
    obtain ⟨hx, hy, hz, hz0, hz1⟩ := solver_block_active_range S b hext xx yy zz ho
    refine ⟨hx, hy, hz, hz0, hz1, ?_⟩
    intro dd h0 h3
    obtain ⟨_, hvt, _⟩ := FBBlock.setup_variables _ xx yy zz ho dd h0 h3
    have hiff := vertex_class_three_iff (setup_parameters S b).Nx (setup_parameters S b).Ny
      (setup_parameters S b).Nz xx yy zz hx hy hz
    refine ⟨by rw [hvt]; exact hiff, ?_⟩
    intro sqrt l PA h3t hf
    rw [hvt] at h3t
    rw [FBBlock.iterate_step_A_fst, FBBlock.step_A_vectors_p]
    exact FBBlock.write_outer_interface_setup _ _
      (FBBlock.run_steps_sameStatics sqrt l _).1 PA xx yy zz dd ho h3t h0 h3 hf
      (hiff.mp h3t)

theorem only_z_layers_exchange_witness :
    (FBBlock.iterate_step_A
        (FBBlock.run_steps (fun q => q) []
          (FBBlock.setup (setup_parameters (one_voxel_solver 2)
            ((solve_block_infos 1 1 1 (slice_vertex_count (one_voxel_solver 2).bvf_map)
              2).getD 1 default))).1)
        { p_on_top_outer_interface := fun _ _ _ => 7 }).1.p
      ((FBBlock.setup (setup_parameters (one_voxel_solver 2)
        ((solve_block_infos 1 1 1 (slice_vertex_count (one_voxel_solver 2).bvf_map)
          2).getD 1 default))).1.variable_indices 2 2 0 + 0) =
      if (0 : Int) = 0 then (7 : ℚ) else 0 :=
  ((((only_z_layers_exchange (one_voxel_solver 2) (by decide) (by decide)).2.2.1
    ((solve_block_infos 1 1 1 (slice_vertex_count (one_voxel_solver 2).bvf_map) 2).getD 1
      default)
    (by
      have hlen : 1 < (solve_block_infos 1 1 1
          (slice_vertex_count (one_voxel_solver 2).bvf_map) 2).length := by decide!
      rw [List.getD_eq_getElem _ _ hlen]
      exact List.getElem_mem _)
    2 2 0 (by decide!)).2.2.2.2.2 0 (by decide) (by decide)).2 (fun q => q) []
      { p_on_top_outer_interface := fun _ _ _ => 7 } (by decide!) (by decide!))

end FBBlockSolver

end FB
